import Mathlib

/-!
# Thrift IDL to proto3 translator: embedding and verified properties

A shallow embedding of the `thrift` package (`def.go`, `gen.go`, `listener.go`,
`util.go`): the type IR, the proto3 generator and the parse-event IR builder,
followed by theorems about them.

Go strings are Lean strings, Go `int` is `Int`, Go maps are association lists,
a Go `error` or recovered `panic` is the `Except.error` carrying its message.
Recursion that Go does not bound (`expandType` on a cyclic typedef table) is
bounded here by an explicit fuel argument; `none` means the fuel ran out.
-/

namespace Thrift

/-! ## Data model (`def.go`, `util.go`) -/

/-- The dynamic value stored in a `util.Option`: annotation values are either the
text of a literal or the numeric value of an integer. -/
inductive OptValue where
  | str (s : String)
  | int (n : Int)
deriving DecidableEq, Repr

/-- The `Comments` record embedded in most declarations. -/
structure Comments where
  MultiLine : String := ""
  SingleLine : String := ""
deriving DecidableEq, Repr

/-- The `AnnotationField` record; `Value` is the `util.Option` (`none` is `None()`). -/
structure AnnotationField extends Comments where
  Key : String
  Value : Option OptValue
deriving DecidableEq, Repr

/-- Dynamic values that reach `expandType` through `interface{}`: the seven arms
of the `Type` sum, a plain Go `string` (the `Inner` of a `BaseType`), and any
other dynamic value (`nil` included), for which no arm of the type switch fires. -/
inductive Ty where
  | BaseType (Inner : String) (Annotations : List AnnotationField)
  | RealBaseType (name : String)
  | UDFType (name : String)
  | ContainerType (Inner : Ty) (Annotations : List AnnotationField) (comments : Comments)
  | ListType (Inner : Ty)
  | SetType (Inner : Ty)
  | MapType (Key : Ty) (Value : Ty)
  | str (s : String)
  | other
deriving DecidableEq, Repr

/-- The `TypedefType` record (without its parse-tree context). -/
structure TypedefType where
  Name : String
  SequenceNum : Int
  OriginalType : Ty
  Annotations : List AnnotationField := []
  comments : Comments := {}
deriving DecidableEq, Repr

/-- The type `FieldReq` (a Go string). -/
abbrev FieldReq := String

/-- The value `FieldReq_Required`. -/
def FieldReq_Required : FieldReq := "required"

/-- The value `FieldReq_Optional`. -/
def FieldReq_Optional : FieldReq := "optional"

/-- The `StructField` record (without its parse-tree context). `Typ` is the Go field
`Type`; `DefaultValue` is `nil` or the source text of the default. -/
structure StructField extends Comments where
  FieldReq : FieldReq := ""
  Name : String := ""
  Typ : Ty := Ty.other
  FieldID : Int := 0
  Annotations : List AnnotationField := []
  DefaultValue : Option String := none
  HasDefaultValue : Bool := false
deriving DecidableEq, Repr

/-- The `StructType` record (without its parse-tree context). -/
structure StructType extends Comments where
  Name : String
  SequenceNum : Int
  FieldType : List StructField
  Annotations : List AnnotationField := []
deriving DecidableEq, Repr

/-- The `EnumField` record (without its parse-tree context). -/
structure EnumField extends Comments where
  Key : String
  Value : Int
  Annotations : List AnnotationField := []
deriving DecidableEq, Repr

/-- The `EnumType` record (without its parse-tree context). -/
structure EnumType extends Comments where
  Name : String
  SequenceNum : Int
  Enumerate : List EnumField
  Annotations : List AnnotationField := []
deriving DecidableEq, Repr

/-- The `FunctionType` record (without its parse-tree context). -/
structure FunctionType extends Comments where
  Name : String
  ServiceName : String
  SequenceNum : Int
  Response : Ty
  Requests : List StructField
  Annotations : List AnnotationField := []
deriving DecidableEq, Repr

/-- The `KVPair` record. -/
structure KVPair where
  Key : String
  Val : String
deriving DecidableEq, Repr

/-- The `CodeGenOpt` record. -/
structure CodeGenOpt where
  IsProto3WithOptional : Bool
deriving DecidableEq, Repr

/-- The `Integer` record pushed for an annotation value. -/
structure Integer where
  Val : Int
  Bits : Int
deriving DecidableEq, Repr

/-- The `Literal` record pushed for an annotation value. -/
structure Literal where
  Val : String
deriving DecidableEq, Repr

/-- What the type stack of the builder holds: a `Type` value (a `RealBaseType`
included), or the `Integer` or `Literal` of an annotation value. -/
inductive StackItem where
  | type (t : Ty)
  | integer (v : Integer)
  | literal (v : Literal)
deriving DecidableEq, Repr

/-- Library functions of the Go runtime that the package calls and that are
not part of it: they are parameters of the embedding.
* `Unquote` is `strconv.Unquote` (`none` when it returns an error);
* `Quote` is the `%q` verb of `fmt` on a string;
* `ToLower`, `ToUpper` are `strings.ToLower`, `strings.ToUpper`;
* `fmtType`, `fmtField` are the `%v` verb of `fmt` on a `Type` and on a `StructField`;
* `sortEnum` is `sort.Sort` on a `sortEnumField` (whose `Less` compares `Value` with `<`);
* `notTypePanic` is the message of the run-time panic of the failed type assertion
  `v.(Type)`, for the popped value `v` (`none` is `nil`);
* `notFieldPanic` is the message of the run-time panic of the failed type assertion
  `v.(StructField)` on the `nil` sentinel. -/
structure GoLib where
  Unquote : String → Option String
  Quote : String → String
  ToLower : String → String
  ToUpper : String → String
  fmtType : Ty → String
  fmtField : StructField → String
  sortEnum : List EnumField → List EnumField
  notTypePanic : Option StackItem → String
  notFieldPanic : String

/-- A Go `map[string]V`: an association list, looked up by key. The `nil` map is `[]`. -/
abbrev GoMap (V : Type) := List (String × V)

/-- Go map read `m[k]` in its two-result form. -/
def GoMap.get {V : Type} (m : GoMap V) (k : String) : Option V :=
  match m with
  | [] => none
  | (k', v) :: rest => if k' = k then some v else GoMap.get rest k

/-- Go map write `m[k] = v`: replaces the binding of an existing key, adds a new one otherwise. -/
def GoMap.set {V : Type} (m : GoMap V) (k : String) (v : V) : GoMap V :=
  match m with
  | [] => [(k, v)]
  | (k', v') :: rest => if k' = k then (k, v) :: rest else (k', v') :: GoMap.set rest k v

/-! ## Go string and number primitives -/

/-- The predicate `unicode.IsSpace`, which `strings.TrimSpace` uses. -/
def isSpace (c : Char) : Bool :=
  c = '\t' || c = '\n' || c = Char.ofNat 11 || c = Char.ofNat 12 || c = '\r' || c = ' ' ||
  c = Char.ofNat 0x85 || c = Char.ofNat 0xA0 || c = Char.ofNat 0x1680 ||
  (0x2000 ≤ c.toNat && c.toNat ≤ 0x200A) || c = Char.ofNat 0x2028 || c = Char.ofNat 0x2029 ||
  c = Char.ofNat 0x202F || c = Char.ofNat 0x205F || c = Char.ofNat 0x3000

/-- Drops the longest run of characters satisfying `p` from the end of a list. -/
def dropTrailing (p : Char → Bool) (cs : List Char) : List Char :=
  (cs.reverse.dropWhile p).reverse

/-- The function `strings.TrimSpace`. -/
def TrimSpace (s : String) : String :=
  String.mk (dropTrailing isSpace (s.data.dropWhile isSpace))

/-- The function `strings.HasPrefix`. -/
def HasPrefix (s p : String) : Bool :=
  p.data.isPrefixOf s.data

/-- The function `strings.HasSuffix`. -/
def HasSuffix (s p : String) : Bool :=
  p.data.reverse.isPrefixOf s.data.reverse

/-- The function `strings.TrimPrefix`. -/
def TrimPrefix (s p : String) : String :=
  if HasPrefix s p then String.mk (s.data.drop p.data.length) else s

/-- The function `strings.TrimSuffix`. -/
def TrimSuffix (s p : String) : String :=
  if HasSuffix s p then String.mk (s.data.take (s.data.length - p.data.length)) else s

/-- Whether `sub` occurs in `cs`. -/
def containsChars : List Char → List Char → Bool
  | [], sub => sub.isEmpty
  | c :: cs, sub => sub.isPrefixOf (c :: cs) || containsChars cs sub

/-- The test `strings.Index(s, sub) != -1`. -/
def Contains (s sub : String) : Bool :=
  containsChars s.data sub.data

/-- The function `strings.Trim(s, cutset)` for a one-character cutset. -/
def TrimChar (s : String) (c : Char) : String :=
  String.mk (dropTrailing (fun x => x = c) (s.data.dropWhile (fun x => x = c)))

/-- The function `strings.TrimRight(s, cutset)` for a one-character cutset. -/
def TrimRightChar (s : String) (c : Char) : String :=
  String.mk (dropTrailing (fun x => x = c) s.data)

/-- Splits a list of characters at every occurrence of `sep`. -/
def splitChars (sep : Char) : List Char → List (List Char)
  | [] => [[]]
  | c :: cs =>
    match splitChars sep cs with
    | [] => [[]]
    | piece :: pieces => if c = sep then [] :: piece :: pieces else (c :: piece) :: pieces

/-- The function `strings.Split(s, sep)` for a one-character separator. -/
def SplitChar (s : String) (sep : Char) : List String :=
  (splitChars sep s.data).map String.mk

/-- The function `strings.Join`. -/
def Join (parts : List String) (sep : String) : String :=
  match parts with
  | [] => ""
  | [x] => x
  | x :: y :: rest => x ++ sep ++ Join (y :: rest) sep

/-- The decimal digit `d` as a character. -/
def digitChar (d : Nat) : Char := Char.ofNat (48 + d)

/-- The decimal digits of `n`, most significant first; the first argument bounds the number of digits. -/
def natDigits : Nat → Nat → List Char
  | 0, _ => []
  | fuel + 1, n => if n < 10 then [digitChar n] else natDigits fuel (n / 10) ++ [digitChar (n % 10)]

/-- The function `strconv.Itoa`. -/
def Itoa (i : Int) : String :=
  match i with
  | Int.ofNat n => String.mk (natDigits (n + 1) n)
  | Int.negSucc n => String.mk ('-' :: natDigits (n + 2) (n + 1))

/-- Whether `c` is one of `0` .. `9`. -/
def isDigit (c : Char) : Bool := 48 ≤ c.toNat && c.toNat ≤ 57

/-- The number written by a list of decimal digits. -/
def digitsValue (cs : List Char) : Nat :=
  cs.foldl (fun acc c => acc * 10 + (c.toNat - 48)) 0

/-- The function `strconv.Atoi` on a 64-bit platform: the value and whether the error is `nil`.
A syntax error gives 0; a value out of range gives the nearest bound of `int64`. -/
def Atoi (s : String) : Int × Bool :=
  match s.data with
  | [] => (0, false)
  | c :: rest =>
    let neg := decide (c = '-')
    let digs := if c = '-' ∨ c = '+' then rest else c :: rest
    if digs.isEmpty || !digs.all isDigit then (0, false)
    else
      let n := digitsValue digs
      if neg then
        if n > 2 ^ 63 then (-(2 ^ 63 : Int), false) else (-(n : Int), true)
      else
        if n ≥ 2 ^ 63 then ((2 ^ 63 : Int) - 1, false) else ((n : Int), true)

/-! ## The indented emitter (`gen.go`) -/

/-- The `IdentBuffer` record. `buf` is the content of the `bytes.Buffer` it points to.
The Go buffer is shared by pointer between an emitter and the emitters derived from
it; here the content is passed back explicitly with `IdentBuffer.sync`. -/
structure IdentBuffer where
  ident : Int
  buf : String
  newLine : Bool
  lines : Int := 0
deriving DecidableEq, Repr

/-- The function `NewIdentWriter`. -/
def NewIdentWriter (ident : Int) : IdentBuffer :=
  { ident := ident, buf := "", newLine := true, lines := 0 }

/-- A run of `n` copies of `c` as written by a counting loop (`n ≤ 0` writes nothing). -/
def repeatChar (c : Char) (n : Int) : String :=
  String.mk (List.replicate n.toNat c)

/-- The method `IdentBuffer.NewLine`. -/
def IdentBuffer.NewLine (ibf : IdentBuffer) (n : Int) : IdentBuffer :=
  let n := if n < 1 then 1 else n
  { ibf with buf := ibf.buf ++ repeatChar '\n' n, lines := ibf.lines + n, newLine := true }

/-- The method `IdentBuffer.tab`. -/
def IdentBuffer.tab (ibf : IdentBuffer) : IdentBuffer :=
  if ibf.newLine then { ibf with buf := ibf.buf ++ repeatChar '\t' ibf.ident, newLine := false }
  else ibf

/-- The method `IdentBuffer.WriteString`. -/
def IdentBuffer.WriteString (ibf : IdentBuffer) (s : String) : IdentBuffer :=
  let ibf := ibf.tab
  { ibf with buf := ibf.buf ++ s }

/-- The method `IdentBuffer.WriteByte`. -/
def IdentBuffer.WriteByte (ibf : IdentBuffer) (b : Char) : IdentBuffer :=
  if b = '\n' then ibf.NewLine 1
  else
    let ibf := ibf.tab
    { ibf with buf := ibf.buf ++ String.singleton b }

/-- The method `IdentBuffer.WriteLine`. -/
def IdentBuffer.WriteLine (ibf : IdentBuffer) (s : String) : IdentBuffer :=
  (ibf.WriteString (TrimRightChar s '\n')).NewLine 1

/-- The method `IdentBuffer.Derive`. -/
def IdentBuffer.Derive (ibf : IdentBuffer) (addIdent : Int) : IdentBuffer :=
  { ident := ibf.ident + addIdent, buf := ibf.buf, newLine := true, lines := 0 }

/-- What an emitter sees after an emitter derived from it (or a shadowing one) has
written: the shared buffer content of `child`, its own indent, flag and counter. -/
def IdentBuffer.sync (parent child : IdentBuffer) : IdentBuffer :=
  { parent with buf := child.buf }

/-- The method `IdentBuffer.String`. -/
def IdentBuffer.String (ibf : IdentBuffer) : String := ibf.buf

/-! ## Type expansion (`gen.go`) -/

/-- The table `_baseTypeConvert`. -/
def _baseTypeConvert : GoMap String :=
  [("bool", "bool"), ("byte", "uint32"), ("i8", "int32"), ("i16", "int32"),
   ("i32", "int32"), ("i64", "int64"), ("double", "double"), ("string", "string"),
   ("binary", "bytes")]

/-- The constant `_RepeatedKW`. -/
def _RepeatedKW : String := "repeated"

/-- The function `expandType`. The first argument bounds the recursion depth;
`none` is returned when it is exhausted. -/
def expandType : Nat → Ty → GoMap TypedefType → Option String
  | 0, _, _ => none
  | fuel + 1, fieldType, typedefs =>
    match fieldType with
    | .UDFType t =>
      match typedefs.get t with
      | none => some t
      | some tdf => expandType fuel tdf.OriginalType typedefs
    | .ContainerType inner _ _ => expandType fuel inner typedefs
    | .SetType inner => expandType fuel (.ListType inner) typedefs
    | .ListType inner =>
      match expandType fuel inner typedefs with
      | none => none
      | some v => if v ≠ "" then some (_RepeatedKW ++ " " ++ v) else some ""
    | .MapType key value =>
      match expandType fuel key typedefs with
      | none => none
      | some k =>
        if k ≠ "" then
          match expandType fuel value typedefs with
          | none => none
          | some v => if v ≠ "" then some ("map<" ++ k ++ ", " ++ v ++ ">") else some ""
        else some ""
    | .BaseType inner _ => expandType fuel (.str inner) []
    | .RealBaseType t =>
      match _baseTypeConvert.get t with
      | some v => some v
      | none => some ""
    | .str t =>
      match _baseTypeConvert.get t with
      | some v => some v
      | none => some ""
    | .other => some ""

/-! ## Comment formatting and annotation lookup (`gen.go`, `util.go`) -/

/-- The double quote character. -/
def quoteChar : Char := Char.ofNat 34

/-- The function `singleLineFormat`. -/
def singleLineFormat (s : String) : String :=
  if Contains s "//" then " //" ++ TrimSpace (TrimPrefix s "//") else s

/-- The body of the loop of `multiLineFormat`, on one line of the comment. -/
def multiLineFormatLine (line : String) : String :=
  let line :=
    if Contains line "/**" then TrimPrefix line "/**"
    else if Contains line "/*" then TrimPrefix line "/*"
    else line
  TrimSpace (TrimSuffix line "*/")

/-- The function `multiLineFormat`. -/
def multiLineFormat (s : String) : String :=
  if Contains s "/*" then
    "//" ++ TrimSpace (Join ((SplitChar s '\n').map multiLineFormatLine) " ")
  else s

/-- The method `Option.UnwrapOrString`. -/
def UnwrapOrString (o : Option OptValue) (value : String) : String :=
  match o with
  | some (OptValue.str v) => v
  | _ => value

/-- The method `Option.IsNull`. -/
def IsNull (o : Option OptValue) : Bool := o.isNone

/-- The function `GetAnnotation`. -/
def GetAnnotation (annotations : List AnnotationField) (key : String) : Option OptValue :=
  match annotations with
  | [] => none
  | v :: rest => if v.Key = key then v.Value else GetAnnotation rest key

/-- The function `GetAnnotationString`. -/
def GetAnnotationString (annotations : List AnnotationField) (key : String) : String :=
  UnwrapOrString ( GetAnnotation annotations key) ""

/-- The function `GetAnnotationTrimString`. -/
def GetAnnotationTrimString (annotations : List AnnotationField) (key : String) : String :=
  TrimChar (GetAnnotationString annotations key) quoteChar

/-- The function `checkValidOption`: `none` is the `nil` error. -/
def checkValidOption (lib : GoLib) (annotations : List AnnotationField) : Option String :=
  annotations.foldl
    (fun err a =>
      if a.Key ≠ "desc" ∧ a.Key ≠ "json" then
        match err with
        | none => some ("invalid field annotation " ++ lib.Quote a.Key)
        | some e => some ("invalid field annotation " ++ lib.Quote a.Key ++ ", " ++ e)
      else err)
    none

/-- The trailing comment that the generators of enum and struct fields write after
the `;` of a field line: the single-line comment, else the unquoted `desc`
annotation, else the multi-line comment. -/
def writeTrailingComment (lib : GoLib) (buf : IdentBuffer) (c : Comments)
    (annotations : List AnnotationField) : IdentBuffer :=
  if c.SingleLine ≠ "" then buf.WriteString (singleLineFormat c.SingleLine)
  else if GetAnnotationString annotations "desc" ≠ "" then
    match lib.Unquote (GetAnnotationString annotations "desc") with
    | some comment => (buf.WriteString " //").WriteString (TrimSpace comment)
    | none => buf
  else if c.MultiLine ≠ "" then (buf.WriteString " ").WriteString (multiLineFormat c.MultiLine)
  else buf

/-- The comment line that every `Gen` writes first: the multi-line comment, else the
single-line one, else nothing. -/
def writeLeadingComment (buf : IdentBuffer) (c : Comments) : IdentBuffer :=
  if c.MultiLine ≠ "" then buf.WriteLine (multiLineFormat c.MultiLine)
  else if c.SingleLine ≠ "" then buf.WriteLine (singleLineFormat c.SingleLine)
  else buf

/-! ## Enum emission (`gen.go`) -/

/-- The loop of `EnumType.Gen` over the (sorted) fields, from index `i` on. -/
def EnumType.genFields (lib : GoLib) (buf : IdentBuffer) : List EnumField → Nat → IdentBuffer
  | [], _ => buf
  | e :: rest, i =>
    let b := buf.Derive 1
    let b := b.WriteString e.Key
    let b := b.WriteByte '='
    let v : Int := if e.Value = 0 then (i : Int) else e.Value
    let b := b.WriteString (Itoa v)
    let b := b.WriteByte ';'
    let b := writeTrailingComment lib b e.toComments e.Annotations
    let b := b.NewLine 1
    EnumType.genFields lib (buf.sync b) rest (i + 1)

/-- The method `EnumType.Gen`. It returns the emitter and the content that the
backing array of `enumType.Enumerate` has after the call (`sort.Sort` sorts it in
place); the Go error is always `nil`. -/
def EnumType.Gen (lib : GoLib) (enumType : EnumType) (buf : IdentBuffer) :
    Except String (IdentBuffer × List EnumField) :=
  let enumerate := lib.sortEnum enumType.Enumerate
  let buf := writeLeadingComment buf enumType.toComments
  let buf := buf.WriteLine ("enum" ++ " " ++ enumType.Name ++ " \x7b")
  let buf := EnumType.genFields lib buf enumerate 0
  let buf := buf.WriteLine "\x7d"
  Except.ok (buf, enumerate)

/-! ## Struct emission (`gen.go`) -/

/-- Whether `StructType.Gen` writes `optional` before a field of requirement `req`
whose expanded type is `typeName`. -/
def writesOptional (opt : CodeGenOpt) (req : FieldReq) (typeName : String) : Bool :=
  opt.IsProto3WithOptional && decide (req = FieldReq_Optional) &&
    !HasPrefix (TrimSpace typeName) _RepeatedKW && !HasPrefix (TrimSpace typeName) "map<"

/-- The flag `hasOption` of `StructType.Gen`: false for an empty annotation list,
otherwise whether `desc` is absent or there is more than one annotation. -/
def hasOptionBlock (annotations : List AnnotationField) : Bool :=
  if annotations.length > 0 then
    IsNull ( GetAnnotation annotations "desc") || decide (annotations.length > 1)
  else false

/-- The body of the loop of `StructType.Gen` for one field, on the derived emitter. -/
def StructType.genField (lib : GoLib) (fuel : Nat) (structName : String)
    (typedefs : GoMap TypedefType) (opt : CodeGenOpt) (buf : IdentBuffer) (field : StructField) :
    Option (Except String IdentBuffer) :=
  match expandType fuel field.Typ typedefs with
  | none => none
  | some typeName =>
    if typeName = "" then
      some (Except.error ("fail to expand field " ++ field.Name ++ " of " ++ structName))
    else
      let buf :=
        if writesOptional opt field.FieldReq typeName then (buf.WriteString "optional").WriteByte ' '
        else buf
      let buf := buf.WriteString typeName
      let buf := buf.WriteByte ' '
      let buf := buf.WriteString field.Name
      let buf := buf.WriteString " = "
      let buf := buf.WriteString (Itoa field.FieldID)
      match checkValidOption lib field.Annotations with
      | some err => some (Except.error err)
      | none =>
        let hasOption := hasOptionBlock field.Annotations
        let buf := if hasOption then buf.WriteString " [" else buf
        let buf :=
          if GetAnnotationString field.Annotations "json" ≠ "" then
            (buf.WriteString "json_name = ").WriteString (GetAnnotationString field.Annotations "json")
          else buf
        let buf := if hasOption then buf.WriteString "]" else buf
        let buf := buf.WriteString ";"
        let buf := writeTrailingComment lib buf field.toComments field.Annotations
        some (Except.ok (buf.NewLine 1))

/-- The loop of `StructType.Gen` over the fields. -/
def StructType.genFields (lib : GoLib) (fuel : Nat) (structName : String)
    (typedefs : GoMap TypedefType) (opt : CodeGenOpt) (buf : IdentBuffer) :
    List StructField → Option (Except String IdentBuffer)
  | [] => some (Except.ok buf)
  | field :: rest =>
    match StructType.genField lib fuel structName typedefs opt (buf.Derive 1) field with
    | none => none
    | some (Except.error err) => some (Except.error err)
    | some (Except.ok b) => StructType.genFields lib fuel structName typedefs opt (buf.sync b) rest

/-- The method `StructType.Gen`; `none` when `expandType` exhausts `fuel`. -/
def StructType.Gen (lib : GoLib) (fuel : Nat) (structType : StructType) (buf : IdentBuffer)
    (typedefs : GoMap TypedefType) (opt : CodeGenOpt) : Option (Except String IdentBuffer) :=
  let buf := writeLeadingComment buf structType.toComments
  let buf := buf.WriteLine ("message" ++ " " ++ structType.Name ++ " \x7b")
  match StructType.genFields lib fuel structType.Name typedefs opt buf structType.FieldType with
  | none => none
  | some (Except.error err) => some (Except.error err)
  | some (Except.ok buf) => some (Except.ok (buf.WriteLine "\x7d"))

/-! ## Function emission (`gen.go`) -/

/-- One of the four timeout entries of `getHTTPOption`: present when the trimmed
annotation is non-empty and `strconv.Atoi` accepts it. -/
def timeoutOption (ants : List AnnotationField) (key : String) : List KVPair :=
  let v := TrimChar (UnwrapOrString ( GetAnnotation ants key) "") quoteChar
  if v ≠ "" then
    if (Atoi v).2 then [{ Key := key, Val := v }] else []
  else []

/-- The function `getHTTPOption`. -/
def getHTTPOption (ants : List AnnotationField) : List KVPair :=
  let contentType := UnwrapOrString ( GetAnnotation ants "contentType") ""
  timeoutOption ants "timeoutMsec" ++ timeoutOption ants "connectTimeoutMsec" ++
    timeoutOption ants "sendTimeoutMsec" ++ timeoutOption ants "recvTimeoutMsec" ++
    (if contentType ≠ "" then [{ Key := "contentType", Val := contentType }] else [])

/-- The method `FunctionType.httpOption`. -/
def FunctionType.httpOption (lib : GoLib) (fType : FunctionType) (buf : IdentBuffer) :
    IdentBuffer :=
  let path := TrimChar (GetAnnotationString fType.Annotations "path") quoteChar
  let method := TrimChar (GetAnnotationString fType.Annotations "httpMethod") quoteChar
  let buf :=
    if path ≠ "" ∧ method ≠ "" then
      let buf := buf.WriteLine "option (google.api.http) = \x7b"
      let ibuf := buf.Derive 1
      let lowMethod := lib.ToLower method
      let ibuf := ibuf.WriteLine
        (lowMethod ++ ": " ++ String.singleton quoteChar ++ path ++ String.singleton quoteChar)
      let ibuf :=
        if lowMethod = "post" ∨ lowMethod = "put" then
          ibuf.WriteLine
            ("body: " ++ String.singleton quoteChar ++ "*" ++ String.singleton quoteChar)
        else ibuf
      (buf.sync ibuf).WriteLine "\x7d;"
    else buf
  let httpOptions := getHTTPOption fType.Annotations
  if httpOptions.length > 0 then
    let buf := buf.WriteLine "option (dirpc.method_opt) = \x7b"
    let ibuf := httpOptions.foldl (fun ib o => ib.WriteLine (o.Key ++ ": " ++ o.Val)) (buf.Derive 1)
    (buf.sync ibuf).WriteLine "\x7d;"
  else buf

/-- The method `FunctionType.Gen`; `none` when `expandType` exhausts `fuel`. -/
def FunctionType.Gen (lib : GoLib) (fuel : Nat) (fType : FunctionType) (buf : IdentBuffer)
    (typedefs : GoMap TypedefType) : Option (Except String IdentBuffer) :=
  let buf := writeLeadingComment buf fType.toComments
  match expandType fuel fType.Response typedefs with
  | none => none
  | some respType =>
    if respType = "" then
      some (Except.error ("fail to expand response type " ++ lib.fmtType fType.Response ++
        " of function " ++ fType.Name))
    else
      match fType.Requests with
      | [req] =>
        match expandType fuel req.Typ typedefs with
        | none => none
        | some reqType =>
          if reqType = "" then
            some (Except.error ("fail to expand request param " ++ lib.fmtField req ++
              " of function " ++ fType.Name))
          else
            let buf := buf.WriteLine
              ("rpc " ++ fType.Name ++ " ( " ++ reqType ++ " ) returns ( " ++ respType ++ " ) \x7b")
            let buf := buf.sync (fType.httpOption lib (buf.Derive 1))
            let buf := buf.WriteString "\x7d"
            some (Except.ok (buf.WriteLine (singleLineFormat fType.SingleLine)))
      | reqs =>
        some (Except.error ("grpc requires exact one input, function " ++ fType.Name ++
          " has " ++ Itoa reqs.length))

/-! ## The parse-event IR builder (`listener.go`) -/

/-- The `ConstType` record (without its parse-tree context); `Typ` is the Go field `Type`. -/
structure ConstType extends Comments where
  Name : String := ""
  Value : String := ""
  Flag : String := ""
  Typ : String := ""
deriving DecidableEq, Repr

/-- The `ServiceType` record (without its parse-tree context). -/
structure ServiceType extends Comments where
  Name : String := ""
  Annotations : List AnnotationField := []
  FunctionDefs : GoMap FunctionType := []
deriving DecidableEq, Repr

/-- The `IncludeName` record (without its parse-tree context). -/
structure IncludeName where
  Name : String
deriving DecidableEq, Repr

/-- The `NameSpace` record (without its parse-tree context). -/
structure NameSpace where
  Scope : String
  Name : String
deriving DecidableEq, Repr

/-- The state of a `ThriftListener`: its four working stacks (head of the list is
the top; `none` on the field stack is the `nil` sentinel of a throws list) and the
declaration tables filled so far. The listeners of the included units are kept
apart, in the tree that `parseIDL` returns. -/
structure ThriftListener where
  stack : List StackItem := []
  enumStack : List EnumField := []
  fieldsStack : List (Option StructField) := []
  annotationStack : List AnnotationField := []
  typedefs : GoMap TypedefType := []
  structDefs : GoMap StructType := []
  functionDefs : GoMap FunctionType := []
  enumDefs : GoMap EnumType := []
  constDefs : GoMap ConstType := []
  serviceDef : ServiceType := {}
  serviceDefs : List ServiceType := []
  includes : List IncludeName := []
  namespaces : List NameSpace := []
  functionDefsService : GoMap (List FunctionType) := []
deriving Repr

/-- The assignment `arr[i], arr[j] = arr[j], arr[i]` on a slice. -/
def swapAt {α : Type} (arr : List α) (i j : Nat) : List α :=
  match arr[i]?, arr[j]? with
  | some a, some b => (arr.set i b).set j a
  | _, _ => arr

/-- The loop `for left < right { swap; left += 1; right -= 1 }` that follows every
pop loop of the builder; the first argument bounds the number of iterations. -/
def reverseLoop {α : Type} : Nat → List α → Nat → Nat → List α
  | 0, arr, _, _ => arr
  | fuel + 1, arr, left, right =>
    if left < right then reverseLoop fuel (swapAt arr left right) (left + 1) (right - 1)
    else arr

/-- The in-place reversal `left := 0; right := n - 1; for left < right ...` of a slice
of length `n` (for `n = 0` the loop does not run, as with `right = -1` in Go). -/
def reverseInPlace {α : Type} (arr : List α) : List α :=
  reverseLoop arr.length arr 0 (arr.length - 1)

/-- The method `ThriftListener.getAnnotations`: pops the whole annotation stack
into a slice, reverses the slice in place and returns it. -/
def ThriftListener.getAnnotations (tl : ThriftListener) :
    List AnnotationField × ThriftListener :=
  (reverseInPlace tl.annotationStack, { tl with annotationStack := [] })

/-- The method `ThriftListener.ExitReal_base_type`; `text` is `ctx.GetText()`. -/
def ThriftListener.ExitReal_base_type (tl : ThriftListener) (text : String) : ThriftListener :=
  { tl with stack := StackItem.type (Ty.RealBaseType text) :: tl.stack }

/-- The method `ThriftListener.ExitBase_type`. A popped value that is not a
`RealBaseType` is read as the empty `RealBaseType`, as by the two-result type assertion. -/
def ThriftListener.ExitBase_type (tl : ThriftListener) : ThriftListener :=
  let realType : String :=
    match tl.stack.head? with
    | some (StackItem.type (Ty.RealBaseType t)) => t
    | _ => ""
  let tl := { tl with stack := tl.stack.tail }
  let (annotations, tl) := tl.getAnnotations
  { tl with stack := StackItem.type (Ty.BaseType realType annotations) :: tl.stack }

/-- The method `ThriftListener.ExitField_type`; `ident` is the text of `ctx.IDENTIFIER()`,
`none` when that is `nil`. -/
def ThriftListener.ExitField_type (tl : ThriftListener) (ident : Option String) :
    ThriftListener :=
  match ident with
  | some name => { tl with stack := StackItem.type (Ty.UDFType name) :: tl.stack }
  | none => tl

/-- What `ExitField` reads from its parse-tree context: the text of the field id
(`none` when `Field_id()` is `nil`), the text of the requirement (`none` when
`Field_req()` is `nil`), the identifier, the text of the default value (`none` when
there is no `=`), and the comments that `newComments` extracts for the field. -/
structure FieldCtx where
  Field_id : Option String
  Field_req : Option String
  IDENTIFIER : String
  Const_value : Option String
  comments : Comments
deriving DecidableEq, Repr

/-- The method `ThriftListener.ExitField`. A panic is the error carrying its message. -/
def ThriftListener.ExitField (lib : GoLib) (tl : ThriftListener) (ctx : FieldCtx) :
    Except String ThriftListener :=
  let fieldType := tl.stack.head?
  let tl := { tl with stack := tl.stack.tail }
  match ctx.Field_id with
  | none => Except.error ("field number is required for " ++ ctx.IDENTIFIER)
  | some idText =>
    let fid := (Atoi idText).1
    let fieldReq :=
      match ctx.Field_req with
      | some req => if req = FieldReq_Optional then FieldReq_Optional else FieldReq_Required
      | none => FieldReq_Required
    match fieldType with
    | some (StackItem.type t) =>
      let (annotations, tl) := tl.getAnnotations
      let field : StructField :=
        { FieldReq := fieldReq, Name := ctx.IDENTIFIER, FieldID := fid, Typ := t,
          Annotations := annotations, toComments := ctx.comments,
          DefaultValue := ctx.Const_value, HasDefaultValue := ctx.Const_value.isSome }
      Except.ok { tl with fieldsStack := some field :: tl.fieldsStack }
    | v => Except.error (lib.notTypePanic v)

/-- What `ExitStruct_def` reads from its parse-tree context: the identifier and the
comments that `newComments` extracts for the struct. -/
structure StructDefCtx where
  IDENTIFIER : String
  comments : Comments
deriving DecidableEq, Repr

/-- The pop loop of `ExitStruct_def`: `usedNum` is the set of ids seen, `fieldTypes`
the slice built so far. A popped value that is not a `StructField` (the `nil`
sentinel) is read as the zero `StructField`, as by the two-result type assertion. -/
def popStructFields (name : String) :
    List (Option StructField) → List Int → List StructField → Except String (List StructField)
  | [], _, fieldTypes => Except.ok fieldTypes
  | v :: rest, usedNum, fieldTypes =>
    let field : StructField := v.getD {}
    if field.FieldID ∈ usedNum then
      Except.error ("field id : " ++ Itoa field.FieldID ++ " duplicated in struct " ++ name)
    else popStructFields name rest (field.FieldID :: usedNum) (fieldTypes ++ [field])

/-- The method `ThriftListener.ExitStruct_def`. A panic is the error carrying its message. -/
def ThriftListener.ExitStruct_def (tl : ThriftListener) (ctx : StructDefCtx) :
    Except String ThriftListener :=
  match popStructFields ctx.IDENTIFIER tl.fieldsStack [] [] with
  | Except.error msg => Except.error msg
  | Except.ok fieldTypes =>
    let tl := { tl with fieldsStack := [] }
    let fieldTypes := reverseInPlace fieldTypes
    let seq : Int := tl.structDefs.length
    let (annotations, tl) := tl.getAnnotations
    let st : StructType :=
      { Name := ctx.IDENTIFIER, SequenceNum := seq, FieldType := fieldTypes,
        Annotations := annotations, toComments := ctx.comments }
    Except.ok { tl with structDefs := tl.structDefs.set ctx.IDENTIFIER st }

/-! ## Ordering by sequence number (`gen.go`) -/

/-- The message of the run-time panic of an indexing `s[i]` out of range on a slice
of length `n`. -/
def indexPanic (i : Int) (n : Nat) : String :=
  if i < 0 then "runtime error: index out of range [" ++ Itoa i ++ "]"
  else "runtime error: index out of range [" ++ Itoa i ++ "] with length " ++ Itoa n

/-- The loop `for _, d := range defs { sorted[d.SequenceNum] = d }` that
`sortStructDefs`, `SortFunctionDefs` and `sortEnumDefs` share: `values` are the
values of the map in the order of the iteration, `sorted` the slice filled so far.
An index out of range panics; the panic is the error carrying its message. -/
def placeBySeq {α : Type} (seq : α → Int) : List α → List α → Except String (List α)
  | [], sorted => Except.ok sorted
  | d :: rest, sorted =>
    if 0 ≤ seq d ∧ seq d < sorted.length then
      placeBySeq seq rest (sorted.set (seq d).toNat d)
    else Except.error (indexPanic (seq d) sorted.length)

/-- The zero value of `StructType`. -/
def zeroStructType : StructType := { Name := "", SequenceNum := 0, FieldType := [] }

/-- The zero value of `EnumType`. -/
def zeroEnumType : EnumType := { Name := "", SequenceNum := 0, Enumerate := [] }

/-- The zero value of `FunctionType` (its `Response` is the `nil` interface). -/
def zeroFunctionType : FunctionType :=
  { Name := "", ServiceName := "", SequenceNum := 0, Response := Ty.other, Requests := [] }

/-- The function `sortStructDefs`. The order of the association list stands for the
order in which Go iterates over the map, which the language leaves open. -/
def sortStructDefs (structDefs : GoMap StructType) : Except String (List StructType) :=
  placeBySeq (fun d => d.SequenceNum) (structDefs.map Prod.snd)
    (List.replicate structDefs.length zeroStructType)

/-- The function `SortFunctionDefs`. -/
def SortFunctionDefs (functionDefs : GoMap FunctionType) : Except String (List FunctionType) :=
  placeBySeq (fun d => d.SequenceNum) (functionDefs.map Prod.snd)
    (List.replicate functionDefs.length zeroFunctionType)

/-- The function `sortEnumDefs`. -/
def sortEnumDefs (enumDefs : GoMap EnumType) : Except String (List EnumType) :=
  placeBySeq (fun d => d.SequenceNum) (enumDefs.map Prod.snd)
    (List.replicate enumDefs.length zeroEnumType)

/-! ## Enum, typedef and function exits of the builder (`listener.go`) -/

/-- What `ExitEnum_field` reads from its parse-tree context: the identifier, the text
of the integer (`none` when `Integer()` is `nil`) and the extracted comments. -/
structure EnumFieldCtx where
  IDENTIFIER : String
  Integer : Option String
  comments : Comments
deriving DecidableEq, Repr

/-- The method `ThriftListener.ExitEnum_field`. -/
def ThriftListener.ExitEnum_field (tl : ThriftListener) (ctx : EnumFieldCtx) : ThriftListener :=
  let val : Int :=
    match ctx.Integer with
    | some text => (Atoi text).1
    | none => 0
  let (annotations, tl) := tl.getAnnotations
  let enumField : EnumField :=
    { Key := ctx.IDENTIFIER, Value := val, Annotations := annotations,
      toComments := ctx.comments }
  { tl with enumStack := enumField :: tl.enumStack }

/-- What the exits of an enum, a typedef and a struct-like declaration read from
their parse-tree context: the identifier and the extracted comments. -/
structure DeclCtx where
  IDENTIFIER : String
  comments : Comments
deriving DecidableEq, Repr

/-- The method `ThriftListener.ExitEnum_rule`. -/
def ThriftListener.ExitEnum_rule (tl : ThriftListener) (ctx : DeclCtx) : ThriftListener :=
  let enumFields := reverseInPlace tl.enumStack
  let tl := { tl with enumStack := [] }
  let seq : Int := tl.enumDefs.length
  let (annotations, tl) := tl.getAnnotations
  let enumType : EnumType :=
    { Name := ctx.IDENTIFIER, SequenceNum := seq, Enumerate := enumFields,
      Annotations := annotations, toComments := ctx.comments }
  { tl with enumDefs := tl.enumDefs.set ctx.IDENTIFIER enumType }

/-- The method `ThriftListener.ExitTypedef`. A panic is the error carrying its message. -/
def ThriftListener.ExitTypedef (lib : GoLib) (tl : ThriftListener) (ctx : DeclCtx) :
    Except String ThriftListener :=
  let originalType := tl.stack.head?
  let tl := { tl with stack := tl.stack.tail }
  let seq : Int := tl.typedefs.length
  match originalType with
  | some (StackItem.type t) =>
    let (annotations, tl) := tl.getAnnotations
    let typedefType : TypedefType :=
      { Name := ctx.IDENTIFIER, SequenceNum := seq, OriginalType := t,
        Annotations := annotations, comments := ctx.comments }
    Except.ok { tl with typedefs := tl.typedefs.set ctx.IDENTIFIER typedefType }
  | v => Except.error (lib.notTypePanic v)

/-- What `ExitFunction` reads from its parse-tree context: the identifier, the
identifier of the parent service context and the extracted comments. -/
structure FunctionCtx where
  IDENTIFIER : String
  serviceName : String
  comments : Comments
deriving DecidableEq, Repr

/-- The pop loop of `ExitFunction`: every popped value must be a `StructField`; the
one-result type assertion panics on the `nil` sentinel. -/
def popFunctionFields (lib : GoLib) :
    List (Option StructField) → List StructField → Except String (List StructField)
  | [], fieldType => Except.ok fieldType
  | some f :: rest, fieldType => popFunctionFields lib rest (fieldType ++ [f])
  | none :: _, _ => Except.error lib.notFieldPanic

/-- Go map read `m[k]` in its one-result form on a map of slices: the `nil` slice for
a missing key. -/
def GoMap.getSlice {V : Type} (m : GoMap (List V)) (k : String) : List V :=
  (m.get k).getD []

/-- The method `ThriftListener.ExitFunction`. A panic is the error carrying its message. -/
def ThriftListener.ExitFunction (lib : GoLib) (tl : ThriftListener) (ctx : FunctionCtx) :
    Except String ThriftListener :=
  let responseType := tl.stack.head?
  let tl := { tl with stack := tl.stack.tail }
  match popFunctionFields lib tl.fieldsStack [] with
  | Except.error msg => Except.error msg
  | Except.ok fieldType =>
    let tl := { tl with fieldsStack := [] }
    let fieldType := reverseInPlace fieldType
    let seq : Int := tl.functionDefs.length
    match responseType with
    | some (StackItem.type t) =>
      let (annotations, tl) := tl.getAnnotations
      let functionType : FunctionType :=
        { Name := ctx.IDENTIFIER, ServiceName := ctx.serviceName, SequenceNum := seq,
          Response := t, Requests := fieldType, Annotations := annotations,
          toComments := ctx.comments }
      let tl := { tl with functionDefs := tl.functionDefs.set ctx.IDENTIFIER functionType }
      let seq2 : Int := (tl.functionDefs.length : Int) - 1
      let functionType := { functionType with SequenceNum := seq2 }
      let tl := { tl with functionDefs := tl.functionDefs.set ctx.IDENTIFIER functionType }
      let ofService := tl.functionDefsService.getSlice ctx.serviceName ++ [functionType]
      Except.ok { tl with
        functionDefsService := tl.functionDefsService.set ctx.serviceName ofService }
    | v => Except.error (lib.notTypePanic v)

/-! ## The generator of a unit (`gen.go`, `def.go`) -/

/-- A string literal of the source: `text` between double quotes. -/
def quoted (text : String) : String :=
  String.singleton quoteChar ++ text ++ String.singleton quoteChar

/-- The fields of an `AnalysisResult` other than `Includes`. -/
structure UnitDefs where
  Typedefs : GoMap TypedefType := []
  StructDefs : GoMap StructType := []
  FunctionDefs : GoMap FunctionType := []
  EnumDefs : GoMap EnumType := []
  ConstDefs : GoMap ConstType := []
  ServiceDef : ServiceType := {}
  ServiceDefs : List ServiceType := []
  IncludeNames : List IncludeName := []
  Namespaces : List NameSpace := []
deriving Repr

/-- The `AnalysisResult` record: the declarations of the unit and the map `Includes`
from the reference name of every included unit to its `AnalysisResult`. The order
of the association list stands for the order in which Go iterates over the map. -/
inductive AnalysisResult where
  | mk (defs : UnitDefs) (Includes : List (String × AnalysisResult))

/-- The declarations of the unit itself. -/
def AnalysisResult.defs : AnalysisResult → UnitDefs
  | AnalysisResult.mk defs _ => defs

/-- The field `Includes`. -/
def AnalysisResult.Includes : AnalysisResult → List (String × AnalysisResult)
  | AnalysisResult.mk _ includes => includes

/-- The function `filepath.Base` with `/` as the separator. -/
def Base (path : String) : String :=
  if path = "" then "."
  else
    let stripped := dropTrailing (fun c => c = '/') path.data
    let last := (stripped.reverse.takeWhile fun c => c ≠ '/').reverse
    if last.isEmpty then "/" else String.mk last

/-- The text before the first `.` of `fileName`, all of it when there is none:
`fileName[:strings.IndexByte(fileName, '.')]` under the test `idx != -1`. -/
def cutAtDot (fileName : String) : String :=
  String.mk (fileName.data.takeWhile fun c => c ≠ '.')

/-- Whether `strings.IndexByte(fileName, '.')` is not -1. -/
def hasDot (fileName : String) : Bool :=
  fileName.data.any fun c => c = '.'

/-- The function `strings.ReplaceAll(s, ".", by)`. -/
def ReplaceDots (s repl : String) : String :=
  String.mk (s.data.flatMap fun c => if c = '.' then repl.data else [c])

/-- Two backslashes, the Go string literal `"\\\\"`. -/
def twoBackslashes : String := String.mk [Char.ofNat 92, Char.ofNat 92]

/-- The loop of `CodeGen` that picks the package name: the name of the first
namespace whose scope is `lang`, else the value `pkgName` it starts with. -/
def pkgNameLoop : List NameSpace → String → String → String
  | [], _, pkgName => pkgName
  | ns :: rest, lang, pkgName => if ns.Scope = lang then ns.Name else pkgNameLoop rest lang pkgName

/-- The loop of `CodeGen` over the include names: one `import` line each. -/
def genImports (buf : IdentBuffer) : List IncludeName → IdentBuffer
  | [] => buf
  | includeFile :: rest =>
    let fileName := Base includeFile.Name
    let fileName := if hasDot fileName then cutAtDot fileName else fileName
    genImports (buf.WriteLine ("import " ++ quoted (fileName ++ ".proto") ++ ";")) rest

/-- The part of `CodeGen` before the enums: syntax line, package line, banner,
imports and the `php` options. -/
def genHeader (defs : UnitDefs) (currentName lang : String) (mainPackage : Bool) :
    IdentBuffer :=
  let buf := NewIdentWriter 0
  let buf := buf.WriteLine ("syntax = " ++ quoted "proto3" ++ ";")
  let pkgName := pkgNameLoop defs.Namespaces lang currentName
  let buf := buf.WriteLine ("package " ++ pkgName ++ ";")
  let buf := buf.NewLine 1
  let buf := buf.WriteLine
    "// auto generated by thriftpp, contact chibi@didiglobal.com for reporting bug"
  let buf :=
    if mainPackage then
      (buf.WriteLine ("import " ++ quoted "google/api/annotations.proto" ++ ";")).WriteLine
        ("import " ++ quoted "dirpc/dirpc.proto" ++ ";")
    else buf
  let buf := genImports buf defs.IncludeNames
  let buf := buf.NewLine 1
  let buf :=
    if lang = "php" then
      (buf.WriteLine ("option php_namespace = " ++
          quoted (ReplaceDots pkgName twoBackslashes) ++ ";")).WriteLine
        ("option php_metadata_namespace = " ++
          quoted (ReplaceDots pkgName twoBackslashes ++ twoBackslashes ++ "GPBMetadata") ++ ";")
    else buf
  buf.NewLine 1

/-- The loop of `CodeGen` over the sorted enums. -/
def genEnums (lib : GoLib) (opt : CodeGenOpt) (buf : IdentBuffer) :
    List EnumType → Except String IdentBuffer
  | [] => Except.ok buf
  | edf :: rest =>
    match edf.Gen lib buf with
    | Except.error err => Except.error err
    | Except.ok (buf, _) => genEnums lib opt (buf.NewLine 1) rest

/-- The loop of `CodeGen` over the sorted structs. -/
def genStructs (lib : GoLib) (fuel : Nat) (typedefs : GoMap TypedefType) (opt : CodeGenOpt)
    (buf : IdentBuffer) : List StructType → Option (Except String IdentBuffer)
  | [] => some (Except.ok buf)
  | stdef :: rest =>
    match stdef.Gen lib fuel buf typedefs opt with
    | none => none
    | some (Except.error err) => some (Except.error err)
    | some (Except.ok buf) => genStructs lib fuel typedefs opt (buf.NewLine 1) rest

/-- The loop of `CodeGen` over the sorted functions: the functions of the service
`serviceName` are emitted on a derived emitter, the others skipped. -/
def genFunctions (lib : GoLib) (fuel : Nat) (typedefs : GoMap TypedefType)
    (serviceName : String) (buf : IdentBuffer) :
    List FunctionType → Option (Except String IdentBuffer)
  | [] => some (Except.ok buf)
  | fdef :: rest =>
    if fdef.ServiceName ≠ serviceName then
      genFunctions lib fuel typedefs serviceName buf rest
    else
      match fdef.Gen lib fuel (buf.Derive 1) typedefs with
      | none => none
      | some (Except.error err) => some (Except.error err)
      | some (Except.ok b) =>
        genFunctions lib fuel typedefs serviceName ((buf.sync b).NewLine 1) rest

/-- A line `<key>: <value>` of `GenOpt`, written when `value` is not empty. -/
def writeOptLine (buf : IdentBuffer) (key value : String) : IdentBuffer :=
  if value ≠ "" then buf.WriteLine (key ++ ": " ++ value) else buf

/-- The method `ServiceType.GenOpt`. -/
def ServiceType.GenOpt (srvOpt : ServiceType) (buf : IdentBuffer) : IdentBuffer :=
  let version := UnwrapOrString ( GetAnnotation srvOpt.Annotations "version") "0.0.1"
  let servName := UnwrapOrString ( GetAnnotation srvOpt.Annotations "servName") ""
  let servType := UnwrapOrString ( GetAnnotation srvOpt.Annotations "servType") "http"
  let signType := UnwrapOrString ( GetAnnotation srvOpt.Annotations "signType") ""
  let retry := GetAnnotationTrimString srvOpt.Annotations "retry"
  let retryCount := GetAnnotationTrimString srvOpt.Annotations "retryCount"
  let minHealthyRatio := GetAnnotationTrimString srvOpt.Annotations "minHealthyRatio"
  let healthyThreshold := GetAnnotationTrimString srvOpt.Annotations "healthyThreshold"
  let maxCooldownTime := GetAnnotationTrimString srvOpt.Annotations "maxCooldownTime"
  let buf := buf.WriteLine "option (dirpc.service_opt) = \x7b"
  let ibuf := buf.Derive 1
  let ibuf := ibuf.WriteLine ("version: " ++ version)
  let ibuf := writeOptLine ibuf "servName" servName
  let ibuf := ibuf.WriteLine ("servType: " ++ servType)
  let ibuf := writeOptLine ibuf "signType" signType
  let ibuf := (getHTTPOption srvOpt.Annotations).foldl
    (fun ib o => ib.WriteLine (o.Key ++ ": " ++ o.Val)) ibuf
  let ibuf :=
    if retry ≠ "" then ibuf.WriteLine ("retry: " ++ retry)
    else if retryCount ≠ "" then ibuf.WriteLine ("retry: " ++ retryCount)
    else ibuf
  let ibuf := writeOptLine ibuf "minHealthyRatio" minHealthyRatio
  let ibuf := writeOptLine ibuf "healthyThreshold" healthyThreshold
  let ibuf := writeOptLine ibuf "maxCooldownTime" maxCooldownTime
  (buf.sync ibuf).WriteLine "\x7d;"

/-- The service block of `CodeGen`, written when the unit has a service. -/
def genService (lib : GoLib) (fuel : Nat) (defs : UnitDefs) (buf : IdentBuffer) :
    Option (Except String IdentBuffer) :=
  if defs.ServiceDef.Name ≠ "" then
    let buf := buf.WriteLine (multiLineFormat defs.ServiceDef.MultiLine)
    let buf := buf.WriteLine ("service " ++ defs.ServiceDef.Name ++ " \x7b")
    match SortFunctionDefs defs.FunctionDefs with
    | Except.error err => some (Except.error err)
    | Except.ok sorted =>
      match genFunctions lib fuel defs.Typedefs defs.ServiceDef.Name buf sorted with
      | none => none
      | some (Except.error err) => some (Except.error err)
      | some (Except.ok buf) =>
        let buf := buf.sync (defs.ServiceDef.GenOpt (buf.Derive 1))
        some (Except.ok (buf.WriteLine "\x7d"))
  else some (Except.ok buf)

/-- The part of `CodeGen` that writes the text of the unit itself: the value of
`buf.String()` stored under `currentName`. A panic of one of the sort functions
is an error; `none` is out of fuel. -/
def genUnit (lib : GoLib) (fuel : Nat) (defs : UnitDefs) (currentName lang : String)
    (mainPackage : Bool) (opt : CodeGenOpt) : Option (Except String String) :=
  let buf := genHeader defs currentName lang mainPackage
  match sortEnumDefs defs.EnumDefs with
  | Except.error err => some (Except.error err)
  | Except.ok enums =>
    match genEnums lib opt buf enums with
    | Except.error err => some (Except.error err)
    | Except.ok buf =>
      match sortStructDefs defs.StructDefs with
      | Except.error err => some (Except.error err)
      | Except.ok structs =>
        match genStructs lib fuel defs.Typedefs opt buf structs with
        | none => none
        | some (Except.error err) => some (Except.error err)
        | some (Except.ok buf) =>
          match genService lib fuel defs buf with
          | none => none
          | some (Except.error err) => some (Except.error err)
          | some (Except.ok buf) => some (Except.ok buf.String)

/-- The loop `for k, v := range codes { result[k] = v }` of `CodeGen`. -/
def mergeCodes (result : GoMap String) : List (String × String) → GoMap String
  | [] => result
  | (k, v) :: rest => mergeCodes (result.set k v) rest

mutual
/-- The method `AnalysisResult.CodeGen`: the text of the unit under `currentName`,
then the results of the included units, each generated under its reference name
and merged into the same map. -/
def AnalysisResult.CodeGen (lib : GoLib) (fuel : Nat) :
    AnalysisResult → String → String → Bool → CodeGenOpt →
      Option (Except String (GoMap String))
  | AnalysisResult.mk defs includes, currentName, lang, mainPackage, opt =>
    match genUnit lib fuel defs currentName lang mainPackage opt with
    | none => none
    | some (Except.error err) => some (Except.error err)
    | some (Except.ok text) =>
      CodeGenIncludes lib fuel includes lang opt (GoMap.set [] currentName text)
/-- The loop of `CodeGen` over the map `Includes`. -/
def CodeGenIncludes (lib : GoLib) (fuel : Nat) :
    List (String × AnalysisResult) → String → CodeGenOpt → GoMap String →
      Option (Except String (GoMap String))
  | [], _, _, result => some (Except.ok result)
  | (subPkgName, includeFile) :: rest, lang, opt, result =>
    match includeFile.CodeGen lib fuel subPkgName lang false opt with
    | none => none
    | some (Except.error err) => some (Except.error err)
    | some (Except.ok codes) => CodeGenIncludes lib fuel rest lang opt (mergeCodes result codes)
end

/-! ## The DiRPC field check (`listener.go`) -/

/-- One timeout test of `dirpcFieldsCheck`: the error `msg` when `value` is not
empty and `strconv.Atoi` rejects it. -/
def illegalTimeout (value msg : String) : Option String :=
  if value ≠ "" ∧ (Atoi value).2 = false then some msg else none

/-- The body of the loop of `dirpcFieldsCheck` over the functions: the error of
the function `funcName`, `none` when it passes. -/
def dirpcFunctionCheck (lib : GoLib) (servType serverTimeout serverConnectTimeout
    serverSendTimeout serverRecvTimeout funcName : String) (funcDef : FunctionType) :
    Option String :=
  let timeout := GetAnnotationTrimString funcDef.Annotations "timeoutMsec"
  let connectTimeout := GetAnnotationTrimString funcDef.Annotations "connectTimeoutMsec"
  let sendTimeout := GetAnnotationTrimString funcDef.Annotations "sendTimeoutMsec"
  let recvTimeout := GetAnnotationTrimString funcDef.Annotations "recvTimeoutMsec"
  (illegalTimeout timeout ("illegal timeout for function " ++ funcName)).orElse fun _ =>
  (illegalTimeout connectTimeout
    ("illegal connect timeout for function " ++ funcName)).orElse fun _ =>
  (illegalTimeout sendTimeout ("illegal send timeout for function " ++ funcName)).orElse fun _ =>
  (illegalTimeout recvTimeout ("illegal recv timeout for function " ++ funcName)).orElse fun _ =>
  if servType = "http" ∨ servType = "https" then
    let method := lib.ToUpper (GetAnnotationTrimString funcDef.Annotations "httpMethod")
    let path := GetAnnotationTrimString funcDef.Annotations "path"
    let contentType := GetAnnotationTrimString funcDef.Annotations "contentType"
    if method ≠ "POST" ∧ method ≠ "GET" then
      some ("illegal or missing required field httpMethod for function " ++ funcName)
    else if path = "" then
      some ("missing required field path for function " ++ funcName)
    else if contentType = "" then
      some ("missing required field contentType for function " ++ funcName)
    else if contentType ≠ "form" ∧ contentType ≠ "json" ∧ contentType ≠ "flattenform" then
      some ("invalid contentType: " ++ contentType ++ ", only support " ++ quoted "form" ++
        " or " ++ quoted "json")
    else none
  else if servType = "grpc" then
    if timeout = "" ∧ serverTimeout = "" then
      some ("missing timeout for function " ++ funcName)
    else if connectTimeout = "" ∧ serverConnectTimeout = "" then
      some ("missing connect timeout for function " ++ funcName)
    else none
  else if servType = "thrift" then
    if sendTimeout = "" ∧ serverSendTimeout = "" then
      some ("missing send timeout for function " ++ funcName)
    else if recvTimeout = "" ∧ serverRecvTimeout = "" then
      some ("missing recv timeout for function " ++ funcName)
    else none
  else none

/-- The first error of a check over the entries of a map, in the order of the
list; `none` when every entry passes. -/
def firstError {V : Type} (check : String → V → Option String) : GoMap V → Option String
  | [] => none
  | (k, v) :: rest => (check k v).orElse fun _ => firstError check rest

/-- The function `dirpcFieldsCheck`, with the value of the package variable
`checkDiRPCFlag` as a parameter: `none` is the `nil` error. -/
def dirpcFieldsCheck (lib : GoLib) (checkDiRPCFlag : Bool) (listener : ThriftListener) :
    Option String :=
  if listener.serviceDef.Name = "" then none
  else if !checkDiRPCFlag then none
  else
    let servType := GetAnnotationTrimString listener.serviceDef.Annotations "servType"
    let version := GetAnnotationTrimString listener.serviceDef.Annotations "version"
    let servName := GetAnnotationTrimString listener.serviceDef.Annotations "servName"
    let serverTimeout := GetAnnotationTrimString listener.serviceDef.Annotations "timeoutMsec"
    let serverConnectTimeout :=
      GetAnnotationTrimString listener.serviceDef.Annotations "connectTimeoutMsec"
    let serverSendTimeout :=
      GetAnnotationTrimString listener.serviceDef.Annotations "sendTimeoutMsec"
    let serverRecvTimeout :=
      GetAnnotationTrimString listener.serviceDef.Annotations "recvTimeoutMsec"
    if servType = "" then some "missing required field: servType"
    else if version = "" then some "missing required field: version"
    else if servName = "" then some "missing required field: servName"
    else
      (illegalTimeout serverTimeout "illegal server timeout").orElse fun _ =>
      (illegalTimeout serverConnectTimeout "illegal server connect timeout").orElse fun _ =>
      (illegalTimeout serverSendTimeout "illegal server send timeout").orElse fun _ =>
      (illegalTimeout serverRecvTimeout "illegal server recv timeout").orElse fun _ =>
      firstError (dirpcFunctionCheck lib servType serverTimeout serverConnectTimeout
        serverSendTimeout serverRecvTimeout) listener.functionDefs

/-! ## Include resolution (`listener.go`, `gen.go`) -/

/-- The file system and `path/filepath` as `DirSearcher.Open` uses them: `Join` is
`filepath.Join`; `readFile` is `os.Open` followed by `ioutil.ReadAll`, `none` when
the file cannot be opened and the error when it cannot be read; `openError` is the
message of the error of `os.Open` for a file that cannot be opened. -/
structure FileSystem where
  Join : String → String → String
  readFile : String → Option (Except String String)
  openError : String → String := fun name => "open " ++ name ++ ": no such file or directory"

/-- The `DirSearcher` record. -/
structure DirSearcher where
  Dirs : List String := []
deriving DecidableEq, Repr

/-- The function `NewDirSearcher`. -/
def NewDirSearcher (dirs : List String) : DirSearcher :=
  if dirs.any (fun dir => dir = ".") then { Dirs := dirs } else { Dirs := dirs ++ ["."] }

/-- The loop of `DirSearcher.Open` over the directories `dirs`; `all` is the whole
list `ds.Dirs`, printed with `%v` in the last error. -/
def openIn (fs : FileSystem) (all : List String) (fName : String) :
    List String → Except String String
  | [] => Except.error ("cannot find " ++ fName ++ " in any onf the [" ++ Join all " " ++ "]")
  | d :: rest =>
    match fs.readFile (fs.Join d fName) with
    | none => openIn fs all fName rest
    | some (Except.error err) =>
      Except.error ("fail to open file: " ++ fs.Join d fName ++ ", due to " ++ err)
    | some (Except.ok data) => Except.ok data

/-- The method `DirSearcher.Open`. -/
def DirSearcher.Open (fs : FileSystem) (ds : DirSearcher) (fName : String) :
    Except String String :=
  openIn fs ds.Dirs fName ds.Dirs

/-- What `parseIDL` takes from outside this package. `parseText` is lexing, parsing
and the walk of a fresh listener over the parse tree of a text: the listener after
the walk, or the message of the panic that the deferred function of `parseIDL`
recovers. `order` is the order in which the range statement visits the keys of the
map `includes`, given the search set at that moment and the keys. `checkDiRPCFlag`
is the package variable of that name. -/
structure ParseEnv where
  parseText : String → Except String ThriftListener
  order : List String → List String → List String
  checkDiRPCFlag : Bool

/-- The listener `parseIDL` returns: the listener of the unit with its map
`includeListeners` from reference name to the listener of the included unit. -/
inductive ListenerTree where
  | mk (listener : ThriftListener) (includeListeners : List (String × ListenerTree))

/-- The method `Add` of the search set. -/
def searchedAdd (searched : List String) (item : String) : List String :=
  if item ∈ searched then searched else item :: searched

/-- The method `Remove` of the search set. -/
def searchedRemove (searched : List String) (item : String) : List String :=
  searched.filter fun x => x ≠ item

/-- The keys of the map `includes` that `parseIDL` builds from the include
directives of a listener. -/
def includeKeys (listener : ThriftListener) : List String :=
  (listener.includes.map fun f => f.Name).dedup

/-- The loop of `parseIDL` over the include files, with the recursive call as
`recur`. The result is the map `includeListeners` or the error, with the search
set as the loop leaves it; `none` is out of fuel. -/
def parseIncludes
    (recur : String → List String → Option (Except String ListenerTree × List String))
    (searchDir : String → Except String String) :
    List String → List String → GoMap ListenerTree →
      Option (Except String (GoMap ListenerTree) × List String)
  | [], searched, includeListeners => some (Except.ok includeListeners, searched)
  | includeFile :: rest, searched, includeListeners =>
    let fileName := Base includeFile
    if !hasDot fileName then
      some (Except.error ("illegal include path: " ++ includeFile), searched)
    else
      let refName := cutAtDot fileName
      if includeFile ∈ searched then
        some (Except.error ("cycled include " ++ includeFile), searched)
      else
        match searchDir includeFile with
        | Except.error err =>
          some (Except.error
            ("fail to load include file: " ++ includeFile ++ ", due to " ++ err), searched)
        | Except.ok subIDL =>
          match recur subIDL (searchedAdd searched includeFile) with
          | none => none
          | some (Except.error err, searched) =>
            some (Except.error
              ("fail to parse idl: " ++ includeFile ++ ", due to " ++ err), searched)
          | some (Except.ok subListener, searched) =>
            parseIncludes recur searchDir rest (searchedRemove searched includeFile)
              (includeListeners.set refName subListener)

/-- The function `parseIDL`. The search directory is `none` for a `nil`
`IncludeSearcher`, else its method `Open`. The result is the listener tree or the
error, with the search set as the call leaves it; `none` is out of fuel, which one
call of `parseIDL` uses one unit of. -/
def parseIDL (lib : GoLib) (env : ParseEnv) :
    Nat → String → Option (String → Except String String) → List String → Bool →
      Option (Except String ListenerTree × List String)
  | 0, _, _, _, _ => none
  | fuel + 1, idl, searchDir, searched, singleMode =>
    match env.parseText idl with
    | Except.error r => some (Except.error r, searched)
    | Except.ok listener =>
      let finish := fun (includeListeners : GoMap ListenerTree) (searched : List String) =>
        match dirpcFieldsCheck lib env.checkDiRPCFlag listener with
        | some finalErr => some (Except.error finalErr, searched)
        | none => some (Except.ok (ListenerTree.mk listener includeListeners), searched)
      if !singleMode then
        let includes := includeKeys listener
        match searchDir with
        | none =>
          if includes.length > 0 then some (Except.error "null IncludeSearcher", searched)
          else finish [] searched
        | some opener =>
          match parseIncludes (fun subIDL s => parseIDL lib env fuel subIDL searchDir s singleMode)
              opener (env.order searched includes) searched [] with
          | none => none
          | some (Except.error err, searched) => some (Except.error err, searched)
          | some (Except.ok includeListeners, searched) => finish includeListeners searched
      else finish [] searched

mutual
/-- The method `ThriftListener.copyInclude`. -/
def ListenerTree.copyInclude : ListenerTree → AnalysisResult
  | ListenerTree.mk tl includeListeners =>
    AnalysisResult.mk
      { Typedefs := tl.typedefs
        StructDefs := tl.structDefs
        FunctionDefs := tl.functionDefs
        EnumDefs := tl.enumDefs
        ConstDefs := tl.constDefs
        ServiceDef := tl.serviceDef
        ServiceDefs := tl.serviceDefs
        IncludeNames := tl.includes
        Namespaces := tl.namespaces }
      (copyIncludes includeListeners)
/-- The loop of `copyInclude` over the map `includeListeners`. -/
def copyIncludes : List (String × ListenerTree) → List (String × AnalysisResult)
  | [] => []
  | (refName, v) :: rest => (refName, v.copyInclude) :: copyIncludes rest
end

/-- The function `Analysis`, over the file system `fs`. -/
def Analysis (lib : GoLib) (env : ParseEnv) (fs : FileSystem) (fuel : Nat) (idl : String)
    (dirs : List String) (singleMode : Bool) : Option (Except String AnalysisResult) :=
  match parseIDL lib env fuel idl (some ((NewDirSearcher dirs).Open fs)) [] singleMode with
  | none => none
  | some (Except.error err, _) => some (Except.error err)
  | some (Except.ok listener, _) => some (Except.ok listener.copyInclude)

/-! ## The reserved-word check (`def.go`) -/

/-- What `CheckKeyWord` takes from outside the sources at hand. `keyWords` is the
package variable of that name; `readFile` is `ioutil.ReadFile`; `unmarshalKeys` is
the field `Keys` after `json.Unmarshal` of the content of the keyword file;
`order` is the order in which the range statement visits the keys of the map
`set`; the other fields are `Context.GetStart().GetStart()` of a declaration,
`none` for a service whose `Context` is `nil`. -/
structure KeyWordEnv where
  keyWords : List String
  readFile : String → Except String String
  unmarshalKeys : String → List String
  order : List String → List String
  serviceStart : ServiceType → Option Int
  typedefStart : TypedefType → Int
  structStart : StructType → Int
  functionStart : FunctionType → Int
  enumStart : EnumType → Int

/-- The error `line:<N>, <Kind> include KeyWords: <word>` of `CheckKeyWord`. -/
def keyWordError (line : Int) (kind keyWord : String) : String :=
  "line:" ++ Itoa line ++ ", " ++ kind ++ " include KeyWords: " ++ keyWord

/-- One of the inner loops of `CheckKeyWord`: the first value of the map whose
name is `keyWord`. -/
def firstNamed {V : Type} (nameOf : V → String) (m : GoMap V) (keyWord : String) : Option V :=
  (m.map Prod.snd).find? fun v => nameOf v = keyWord

/-- The body of the loop of `CheckKeyWord` over the reserved words: the error for
`keyWord`, `none` when no declaration has that name. A panic is the `Except`
error carrying its message. -/
def checkWord (env : KeyWordEnv) (defs : UnitDefs) (keyWord : String) :
    Except String (Option String) :=
  if defs.ServiceDef.Name = keyWord then
    match env.serviceStart defs.ServiceDef with
    | none => Except.error "runtime error: invalid memory address or nil pointer dereference"
    | some line => Except.ok (some (keyWordError line "ServiceDef" keyWord))
  else
    match firstNamed (fun v : TypedefType => v.Name) defs.Typedefs keyWord with
    | some v => Except.ok (some (keyWordError (env.typedefStart v) "TypedefType" keyWord))
    | none =>
      match firstNamed (fun v : StructType => v.Name) defs.StructDefs keyWord with
      | some v => Except.ok (some (keyWordError (env.structStart v) "StructDefs" keyWord))
      | none =>
        match firstNamed (fun v : FunctionType => v.Name) defs.FunctionDefs keyWord with
        | some v =>
          Except.ok (some (keyWordError (env.functionStart v) "FunctionDefs" keyWord))
        | none =>
          match firstNamed (fun v : EnumType => v.Name) defs.EnumDefs keyWord with
          | some v => Except.ok (some (keyWordError (env.enumStart v) "EnumDefs" keyWord))
          | none => Except.ok none

/-- The loop of `CheckKeyWord` over the reserved words. -/
def checkWords (env : KeyWordEnv) (defs : UnitDefs) : List String → Except String (Option String)
  | [] => Except.ok none
  | keyWord :: rest =>
    match checkWord env defs keyWord with
    | Except.error r => Except.error r
    | Except.ok (some err) => Except.ok (some err)
    | Except.ok none => checkWords env defs rest

/-- The keys of the map `set` of `CheckKeyWord`: the words of the keyword file
`fileKeys` and the built-in words, each once. -/
def keyWordSet (env : KeyWordEnv) (fileKeys : List String) : List String :=
  (fileKeys ++ env.keyWords).dedup

/-- The method `AnalysisResult.CheckKeyWord`: `Except.ok none` is the `nil` error,
`Except.ok (some err)` the error `err`, and `Except.error` a panic. -/
def AnalysisResult.CheckKeyWord (env : KeyWordEnv) (ans : AnalysisResult) (filePath : String) :
    Except String (Option String) :=
  if filePath ≠ "" then
    match env.readFile filePath with
    | Except.error err => Except.ok (some err)
    | Except.ok key =>
      checkWords env ans.defs (env.order (keyWordSet env (env.unmarshalKeys key)))
  else checkWords env ans.defs (env.order (keyWordSet env []))

/-- What `ExitService` reads from its parse-tree context: the identifier and
the comments that `newComments` extracts for the service. -/
structure ServiceCtx where
  IDENTIFIER : String
  comments : Comments
deriving DecidableEq, Repr

/-- The loop of `ExitService` over the functions recorded for the service. -/
def serviceFunctions : List FunctionType → GoMap FunctionType → GoMap FunctionType
  | [], functionDefs => functionDefs
  | function :: rest, functionDefs =>
    serviceFunctions rest
      (functionDefs.set function.Name { function with SequenceNum := functionDefs.length })

/-- The method `ThriftListener.ExitService`. -/
def ThriftListener.ExitService (tl : ThriftListener) (ctx : ServiceCtx) : ThriftListener :=
  let name := ctx.IDENTIFIER
  let functionDefs := serviceFunctions (tl.functionDefsService.getSlice name) []
  let (annotations, tl) := tl.getAnnotations
  let serviceDef : ServiceType :=
    { toComments := ctx.comments
      Name := name
      Annotations := annotations
      FunctionDefs := functionDefs }
  let tl := if tl.serviceDef.Name = "" then { tl with serviceDef := serviceDef } else tl
  { tl with serviceDefs := tl.serviceDefs ++ [serviceDef] }

/-! ## Annotation exits of the builder (`listener.go`) -/

/-- The value of a digit of `strconv.ParseUint` in base 16: `none` for a character
that is no digit of that base. -/
def hexDigit (c : Char) : Option Nat :=
  if 48 ≤ c.toNat ∧ c.toNat ≤ 57 then some (c.toNat - 48)
  else if 97 ≤ c.toNat ∧ c.toNat ≤ 102 then some (c.toNat - 97 + 10)
  else if 65 ≤ c.toNat ∧ c.toNat ≤ 70 then some (c.toNat - 65 + 10)
  else none

/-- The number written by a list of base-16 digits, read after the value `acc`;
`none` when a character is no digit. -/
def hexValue : List Char → Nat → Option Nat
  | [], acc => some acc
  | c :: rest, acc =>
    match hexDigit c with
    | none => none
    | some d => hexValue rest (acc * 16 + d)

/-- The function `strconv.ParseInt(s, 16, 64)`: the value and whether the error is
`nil`. A syntax error gives 0 (a prefix `0x` is a syntax error for an explicit
base); a value out of range gives the nearest bound of `int64`. -/
def ParseInt16 (s : String) : Int × Bool :=
  match s.data with
  | [] => (0, false)
  | c :: rest =>
    let neg := decide (c = '-')
    let digs := if c = '-' ∨ c = '+' then rest else c :: rest
    if digs.isEmpty then (0, false)
    else
      match hexValue digs 0 with
      | none => (0, false)
      | some n =>
        if neg then
          if n > 2 ^ 63 then (-(2 ^ 63 : Int), false) else (-(n : Int), true)
        else
          if n ≥ 2 ^ 63 then ((2 ^ 63 : Int) - 1, false) else ((n : Int), true)

/-- What `ExitAnnotation_value` reads from the `IntegerContext`: the text of the
token `INTEGER` and of the token `HEX_INTEGER`, `none` for a `nil` token. -/
structure IntegerCtx where
  INTEGER : Option String
  HEX_INTEGER : Option String
deriving DecidableEq, Repr

/-- What `ExitAnnotation_value` reads from its parse-tree context: the text of the
token `LITERAL`, of the token `LITERAL_STRING` (`none` for a `nil` token), and the
integer context (`none` when `ctx.Integer()` is no `*parser.IntegerContext`). -/
structure AnnotationValueCtx where
  LITERAL : Option String
  LITERAL_STRING : Option String
  Integer : Option IntegerCtx
deriving DecidableEq, Repr

/-- The method `ThriftListener.ExitAnnotation_value`. A panic is the error carrying
its message. -/
def ThriftListener.ExitAnnotation_value (tl : ThriftListener) (ctx : AnnotationValueCtx) :
    Except String ThriftListener :=
  match ctx.LITERAL with
  | some lit => Except.ok { tl with stack := StackItem.literal { Val := lit } :: tl.stack }
  | none =>
    match ctx.LITERAL_STRING with
    | some litS => Except.ok { tl with stack := StackItem.literal { Val := litS } :: tl.stack }
    | none =>
      match ctx.Integer with
      | none => Except.error "v isn't the type of *parser.IntegerContext"
      | some intV =>
        match intV.INTEGER with
        | some v =>
          Except.ok { tl with
            stack := StackItem.integer { Val := (Atoi v).1, Bits := 10 } :: tl.stack }
        | none =>
          match intV.HEX_INTEGER with
          | none =>
            Except.error "runtime error: invalid memory address or nil pointer dereference"
          | some hex =>
            Except.ok { tl with
              stack := StackItem.integer { Val := (ParseInt16 hex).1, Bits := 16 } :: tl.stack }

/-- What `ExitType_annotation` reads from its parse-tree context: the identifier,
whether the token `EQUAL` is there, and the comments that `newComments` extracts
for the annotation. -/
structure TypeAnnotationCtx where
  IDENTIFIER : String
  EQUAL : Bool
  comments : Comments
deriving DecidableEq, Repr

/-- The method `ThriftListener.ExitType_annotation`. -/
def ThriftListener.ExitType_annotation (tl : ThriftListener) (ctx : TypeAnnotationCtx) :
    ThriftListener :=
  let key := ctx.IDENTIFIER
  let value : Option OptValue :=
    if ctx.EQUAL then
      match tl.stack.head? with
      | some (StackItem.integer inner) => some (OptValue.int inner.Val)
      | some (StackItem.literal inner) => some (OptValue.str inner.Val)
      | _ => none
    else none
  let tl := if ctx.EQUAL then { tl with stack := tl.stack.tail } else tl
  { tl with
    annotationStack :=
      { toComments := ctx.comments, Key := key, Value := value } :: tl.annotationStack }

/-! ## Comment extraction (`listener.go`) -/

/-- The channels of the token stream: the default channel of the parser, and the
channels `TLexerML_COMMENT_CHAN`, `TLexerSL_COMMENT_CHAN` and `TLexerWS_CHAN` on
which the lexer puts multi-line comments, single-line comments and white space. -/
inductive Channel where
  | default
  | ML_COMMENT_CHAN
  | SL_COMMENT_CHAN
  | WS_CHAN
deriving DecidableEq, Repr

/-- A token of the stream: its text, its channel and its index in the stream. -/
structure Token where
  text : String
  channel : Channel
  tokenIndex : Nat
deriving DecidableEq, Repr

/-- The method `CommonTokenStream.GetHiddenTokensToLeft` of the ANTLR runtime: the
tokens on `channel` between the last token of the default channel before
`tokenIndex` and the token at `tokenIndex`, in the order of the stream. -/
def GetHiddenTokensToLeft (tokens : List Token) (tokenIndex : Nat) (channel : Channel) :
    List Token :=
  (((tokens.take tokenIndex).reverse.takeWhile fun t => t.channel ≠ Channel.default).reverse).filter
    fun t => t.channel = channel

/-- The method `CommonTokenStream.GetHiddenTokensToRight` of the ANTLR runtime: the
tokens on `channel` from the token after `tokenIndex` up to the next token of the
default channel, that token included. -/
def GetHiddenTokensToRight (tokens : List Token) (tokenIndex : Nat) (channel : Channel) :
    List Token :=
  let rest := tokens.drop (tokenIndex + 1)
  let run := rest.takeWhile fun t => t.channel ≠ Channel.default
  (run ++ (rest.drop run.length).head?.toList).filter fun t => t.channel = channel

/-- The function `getMultiLineComment`: `none` is `util.None()`. -/
def getMultiLineComment (point : Token) (tokens : List Token) : Option String :=
  let comments := GetHiddenTokensToLeft tokens point.tokenIndex Channel.ML_COMMENT_CHAN
  if comments.length = 0 then none
  else some (comments.foldl (fun buf line => buf ++ line.text ++ "\n") "")

/-- The loop `for _, ws := range ... { if strings.Contains(ws.GetText(), "\n") ... }`
of `getSingleLineComment`: the value of `isMyComment` after it. -/
def isMyComment (ws : List Token) : Bool :=
  !ws.any fun t => Contains t.text "\n"

/-- The function `getSingleLineComment`: `none` is `util.None()`. -/
def getSingleLineComment (start point : Token) (tokens : List Token) : Option String :=
  let commentsRight := GetHiddenTokensToRight tokens point.tokenIndex Channel.SL_COMMENT_CHAN
  let commentsAbove := GetHiddenTokensToLeft tokens start.tokenIndex Channel.SL_COMMENT_CHAN
  if commentsRight.length = 0 ∧ commentsAbove.length = 0 then none
  else
    let right : Option String :=
      match commentsRight.head? with
      | some firstComment =>
        if isMyComment (GetHiddenTokensToLeft tokens firstComment.tokenIndex Channel.WS_CHAN)
        then some firstComment.text else none
      | none => none
    match right with
    | some text => some text
    | none =>
      match commentsAbove.getLast? with
      | some lastComment =>
        if isMyComment (GetHiddenTokensToRight tokens lastComment.tokenIndex Channel.WS_CHAN)
        then some lastComment.text else none
      | none => none

/-- The method `ThriftListener.newComments` on the token stream `tokens` of the
listener, for a declaration that starts at the token `start` and stops at the
token `stop`. -/
def newComments (tokens : List Token) (start stop : Token) : Comments :=
  { MultiLine := (getMultiLineComment start tokens).getD ""
    SingleLine := (getSingleLineComment start stop tokens).getD "" }

/-! ## The entry point (`cobra.go`) -/

/-- The statement `idx := strings.LastIndexByte(entry, '.'); if idx != -1 { entry =
entry[:idx] }`: the text before the last dot, all of it when there is none. -/
def cutLastDot (entry : String) : String :=
  if entry.data.contains '.' then
    String.mk ((entry.data.reverse.dropWhile fun c => c ≠ '.').drop 1).reverse
  else entry

/-- The statement `idx = strings.LastIndexAny(entry, "/"); if idx != -1 { entry =
entry[idx:] }`: the text from the last slash on, the slash included, all of it
when there is none. -/
def fromLastSlash (entry : String) : String :=
  if entry.data.contains '/' then
    String.mk ('/' :: (entry.data.reverse.takeWhile fun c => c ≠ '/').reverse)
  else entry

/-- The unit name that `convertIDL` derives from the entry path and passes to
`CodeGen`. -/
def unitName (entry : String) : String :=
  fromLastSlash (cutLastDot entry)

/-- The function `convertIDL`. The `nil` map is the empty map; a panic of
`CheckKeyWord` is an error; `none` is out of fuel. -/
def convertIDL (lib : GoLib) (env : ParseEnv) (fs : FileSystem) (keyEnv : KeyWordEnv)
    (fuel : Nat) (dirs : List String) (entry lang keywordsFile : String)
    (singleMode syntaxCheckOnly proto3WithOptional : Bool) :
    Option (Except String (GoMap String)) :=
  match fs.readFile entry with
  | none => some (Except.error (fs.openError entry))
  | some (Except.error err) => some (Except.error err)
  | some (Except.ok data) =>
    match Analysis lib env fs fuel data dirs singleMode with
    | none => none
    | some (Except.error err) => some (Except.error err)
    | some (Except.ok result) =>
      match result.CheckKeyWord keyEnv keywordsFile with
      | Except.error r => some (Except.error r)
      | Except.ok (some err) => some (Except.error err)
      | Except.ok none =>
        if syntaxCheckOnly then some (Except.ok [])
        else
          result.CodeGen lib fuel (unitName entry) lang true
            { IsProto3WithOptional := proto3WithOptional }

/-! ## Throws lists (`listener.go`) -/

/-- The method `ThriftListener.EnterThrows_list`: pushes the `nil` sentinel. -/
def ThriftListener.EnterThrows_list (tl : ThriftListener) : ThriftListener :=
  { tl with fieldsStack := none :: tl.fieldsStack }

/-- The loop of `ExitThrows_list`: pops until the stack is empty or the popped
value is `nil`. -/
def popToSentinel : List (Option StructField) → List (Option StructField)
  | [] => []
  | none :: rest => rest
  | some _ :: rest => popToSentinel rest

/-- The method `ThriftListener.ExitThrows_list`. -/
def ThriftListener.ExitThrows_list (tl : ThriftListener) : ThriftListener :=
  { tl with fieldsStack := popToSentinel tl.fieldsStack, annotationStack := [] }

/-! ## Specification vocabulary -/

/-- The call `expandType(t, typedefs)` returns `s`: some recursion depth suffices. -/
def Expands (typedefs : GoMap TypedefType) (t : Ty) (s : String) : Prop :=
  ∃ fuel, expandType fuel t typedefs = some s

/-- The expansion table of the specification for base-type names; a name outside
the table has the empty expansion. -/
def specBaseTable (name : String) : String :=
  if name = "bool" then "bool"
  else if name = "byte" then "uint32"
  else if name = "i8" then "int32"
  else if name = "i16" then "int32"
  else if name = "i32" then "int32"
  else if name = "i64" then "int64"
  else if name = "double" then "double"
  else if name = "string" then "string"
  else if name = "binary" then "bytes"
  else ""

/-- The indentation that the next write of an emitter puts first: its tabs when it
stands at the start of a line, nothing otherwise. -/
def indentText (b : IdentBuffer) : String :=
  if b.newLine then repeatChar '\t' b.ident else ""

/-- The text of the comment line that opens a block together with the indentation
of the line that follows it, as an emitter `b` writes them for the comments `c`. -/
def leadingText (b : IdentBuffer) (c : Comments) : String :=
  if c.MultiLine ≠ "" then
    indentText b ++ TrimRightChar (multiLineFormat c.MultiLine) '\n' ++ "\n" ++
      repeatChar '\t' b.ident
  else if c.SingleLine ≠ "" then
    indentText b ++ TrimRightChar (singleLineFormat c.SingleLine) '\n' ++ "\n" ++
      repeatChar '\t' b.ident
  else indentText b

/-- The text of the trailing comment of a field line. -/
def trailingCommentText (lib : GoLib) (c : Comments) (annotations : List AnnotationField) :
    String :=
  if c.SingleLine ≠ "" then singleLineFormat c.SingleLine
  else if GetAnnotationString annotations "desc" ≠ "" then
    match lib.Unquote (GetAnnotationString annotations "desc") with
    | some comment => " //" ++ TrimSpace comment
    | none => ""
  else if c.MultiLine ≠ "" then " " ++ multiLineFormat c.MultiLine
  else ""

/-- The text between the field id and the `;` of a field line of a message. -/
def fieldOptionText (annotations : List AnnotationField) : String :=
  (if hasOptionBlock annotations then " [" else "") ++
    (if GetAnnotationString annotations "json" ≠ "" then
      "json_name = " ++ GetAnnotationString annotations "json" else "") ++
    (if hasOptionBlock annotations then "]" else "")

/-- The text of one field line of a message block at indent depth `indent`. -/
def fieldLineText (lib : GoLib) (indent : Int) (optional : Bool) (typeName : String)
    (f : StructField) : String :=
  repeatChar '\t' indent ++ (if optional then "optional " else "") ++ typeName ++ " " ++
    f.Name ++ " = " ++ Itoa f.FieldID ++ fieldOptionText f.Annotations ++ ";" ++
    trailingCommentText lib f.toComments f.Annotations ++ "\n"

/-- The text of one field line of an enum block at indent depth `indent`. -/
def enumLineText (lib : GoLib) (indent : Int) (value : Int) (e : EnumField) : String :=
  repeatChar '\t' indent ++ e.Key ++ "=" ++ Itoa value ++ ";" ++
    trailingCommentText lib e.toComments e.Annotations ++ "\n"

/-- The text that `expandType` returns with recursion depth `fuel` (empty when the
depth does not suffice). -/
def expandedText (fuel : Nat) (td : GoMap TypedefType) (t : Ty) : String :=
  (expandType fuel t td).getD ""

/-- The value that `EnumType.Gen` prints for the field `e` standing at position `i`
of the sorted list: the declared value, or the position when the declared value is 0. -/
def printedValue (i : Nat) (e : EnumField) : Int :=
  if e.Value = 0 then (i : Int) else e.Value

/-- The values that `EnumType.Gen` prints for a sorted list of fields, in order. -/
def printedValues (sorted : List EnumField) : List Int :=
  sorted.enum.map fun p => printedValue p.1 p.2

/-- The order that `sort.Sort` establishes on enum fields: no later field is `Less`
than an earlier one. -/
def valueLE (a b : EnumField) : Prop := a.Value ≤ b.Value

/-- The text `b` is the text `a` with something appended. -/
def Extends (a b : String) : Prop := ∃ t, b = a ++ t

/-- The pending fields of a builder in source (push) order: the values of the field
stack from bottom to top, each read as `ExitStruct_def` reads it. -/
def pendingFields (tl : ThriftListener) : List StructField :=
  (tl.fieldsStack.map fun v => v.getD {}).reverse

/-- The field ids of the pending fields, in source order. -/
def pendingIds (tl : ThriftListener) : List Int :=
  (pendingFields tl).map fun f => f.FieldID

/-- The concatenation of a list of texts. -/
def concatText : List String → String
  | [] => ""
  | x :: rest => x ++ concatText rest

/-- The names `t0, ..., t(N-1)` form a typedef chain ending in the type `tN`: each is a
typedef of the table, the original type of each but the last is the user-defined
reference to the next name, and the original type of the last is `tN`. -/
def isTypedefChain (td : GoMap TypedefType) : List String → Ty → Bool
  | [], _ => false
  | [t], tN =>
    match td.get t with
    | some tdf => decide (tdf.OriginalType = tN)
    | none => false
  | t :: t' :: rest, tN =>
    (match td.get t with
      | some tdf => decide (tdf.OriginalType = Ty.UDFType t')
      | none => false) && isTypedefChain td (t' :: rest) tN

/-- The text of the `google.api.http` block that `httpOption` writes on the emitter
`b`, empty when the `path` or the `httpMethod` annotation is not set. -/
def googleHttpText (lib : GoLib) (f : FunctionType) (b : IdentBuffer) : String :=
  if GetAnnotationTrimString f.Annotations "path" ≠ "" ∧
      GetAnnotationTrimString f.Annotations "httpMethod" ≠ "" then
    indentText b ++ "option (google.api.http) = \x7b\n" ++
      repeatChar '\t' (b.ident + 1) ++
        lib.ToLower (GetAnnotationTrimString f.Annotations "httpMethod") ++ ": \x22" ++
        GetAnnotationTrimString f.Annotations "path" ++ "\x22\n" ++
      (if lib.ToLower (GetAnnotationTrimString f.Annotations "httpMethod") = "post" ∨
          lib.ToLower (GetAnnotationTrimString f.Annotations "httpMethod") = "put" then
        repeatChar '\t' (b.ident + 1) ++ "body: \x22*\x22\n"
       else "") ++
      repeatChar '\t' b.ident ++ "\x7d;\n"
  else ""

/-- The indentation of the first line that `httpOption` writes after the
`google.api.http` block: the tabs of `b` when that block was written, the pending
indentation of `b` otherwise. -/
def afterGoogleIndent (f : FunctionType) (b : IdentBuffer) : String :=
  if GetAnnotationTrimString f.Annotations "path" ≠ "" ∧
      GetAnnotationTrimString f.Annotations "httpMethod" ≠ "" then
    repeatChar '\t' b.ident
  else indentText b

/-- The text of the `dirpc.method_opt` block for the options `opts`, written at
indent depth `ident` after the indentation `first`; empty for no options. -/
def methodOptText (opts : List KVPair) (ident : Int) (first : String) : String :=
  if opts.length > 0 then
    first ++ "option (dirpc.method_opt) = \x7b\n" ++
      concatText (opts.map fun o =>
        repeatChar '\t' (ident + 1) ++ TrimRightChar (o.Key ++ ": " ++ o.Val) '\n' ++ "\n") ++
      repeatChar '\t' ident ++ "\x7d;\n"
  else ""

/-- The value that `getHTTPOption` reads for a timeout key: the string value of the
first annotation of that key, stripped of double quotes at both ends. -/
def timeoutText (ants : List AnnotationField) (key : String) : String :=
  TrimChar (UnwrapOrString ( GetAnnotation ants key) "") quoteChar

/-- The five keys of `getHTTPOption`, in the order in which it appends them. -/
def httpOptionKeys : List String :=
  ["timeoutMsec", "connectTimeoutMsec", "sendTimeoutMsec", "recvTimeoutMsec", "contentType"]

/-- The sequence numbers of the values of a map are a bijection onto `[0, N)`, `N` the
size of the map: listed in any order they are a rearrangement of `0, ..., N - 1`. -/
def seqBijective {α : Type} (seq : α → Int) (m : GoMap α) : Prop :=
  (m.map fun p => seq p.2).Perm ((List.range m.length).map Int.ofNat)

/-- The package name the specification gives a unit: the name of the first
namespace of the list whose scope is `lang`, and `currentName` when there is none. -/
def packageOf (namespaces : List NameSpace) (lang currentName : String) : String :=
  match namespaces.find? (fun ns => ns.Scope = lang) with
  | some ns => ns.Name
  | none => currentName

/-- The first two lines of a generated unit with package name `p`. -/
def headText (p : String) : String :=
  "syntax = " ++ quoted "proto3" ++ ";\n" ++ "package " ++ p ++ ";\n"

/-- One unit of an include tree as the specification names it: its reference
name, its declarations and the value of `mainPackage` it is generated with. -/
structure UnitCall where
  name : String
  defs : UnitDefs
  mainPackage : Bool

mutual
/-- The units of the include tree of `ast`: the root under `currentName` with
`mainPackage` as given, then every transitively included unit under the reference
name of its entry in `Includes`, with `mainPackage = false`. -/
def AnalysisResult.units : AnalysisResult → String → Bool → List UnitCall
  | AnalysisResult.mk defs includes, currentName, mainPackage =>
    { name := currentName, defs := defs, mainPackage := mainPackage } :: includedUnits includes
/-- The units of the include trees of the entries of a map `Includes`. -/
def includedUnits : List (String × AnalysisResult) → List UnitCall
  | [] => []
  | (subPkgName, includeFile) :: rest =>
    includeFile.units subPkgName false ++ includedUnits rest
end

/-- The paths a text includes: the names of the include directives of its listener,
none when the text does not parse. -/
def includeNames (env : ParseEnv) (idl : String) : List String :=
  match env.parseText idl with
  | Except.ok listener => listener.includes.map fun f => f.Name
  | Except.error _ => []

/-- Whether `walk` is a path of include directives from the text `idl`: its first
element is included by `idl`, and every next element by the file before it. -/
def isWalk (env : ParseEnv) (searchDir : String → Except String String) :
    String → List String → Bool
  | _, [] => true
  | idl, q :: rest =>
    decide (q ∈ includeNames env idl) &&
      match searchDir q with
      | Except.ok subIDL => isWalk env searchDir subIDL rest
      | Except.error _ => false

/-- Whether the file of include path `p` can be opened and parsed: the path has a
base name with a dot, the search directory opens it, its text parses, its
listener passes the field check, and every path it includes is in `files`. -/
def fileOk (lib : GoLib) (env : ParseEnv) (searchDir : String → Except String String)
    (files : List String) (p : String) : Bool :=
  hasDot (Base p) &&
    match searchDir p with
    | Except.ok text =>
      match env.parseText text with
      | Except.ok listener =>
        (dirpcFieldsCheck lib env.checkDiRPCFlag listener).isNone &&
          listener.includes.all fun f => decide (f.Name ∈ files)
      | Except.error _ => false
    | Except.error _ => false

/-- The message of a cycle error that passed through the includes `chain`, the
outermost first, and was raised at the include of `p`. -/
def cycleMessage (chain : List String) (p : String) : String :=
  chain.foldr (fun q msg => "fail to parse idl: " ++ q ++ ", due to " ++ msg)
    ("cycled include " ++ p)

/-- The error `msg` of a call of `parseIDL` on `idl` with the search set `searched`
is a cycle error: it passed through a path `chain` of includes from `idl` and was
raised at an include of a path `p` that is in `chain` or in `searched`. -/
def CycleErr (env : ParseEnv) (searchDir : String → Except String String) (idl : String)
    (searched : List String) (msg : String) : Prop :=
  ∃ chain p, p ∈ chain ++ searched ∧ isWalk env searchDir idl (chain ++ [p]) = true ∧
    msg = cycleMessage chain p

/-- No path of includes from `idl` repeats a file or meets the search set. -/
def WalksFresh (env : ParseEnv) (searchDir : String → Except String String) (idl : String)
    (searched : List String) : Prop :=
  ∀ w, isWalk env searchDir idl w = true → w.Nodup ∧ ∀ x ∈ w, x ∉ searched

/-- What a call of `parseIDL` on `idl` with the search set `searched` may end with
when every file can be opened and parsed: success with the search set as it was,
and then no path of includes from `idl` repeats a file, or a cycle error. -/
def Outcome (env : ParseEnv) (searchDir : String → Except String String) (idl : String)
    (searched : List String) : Except String ListenerTree × List String → Prop
  | (Except.ok _, searched1) => searched1 = searched ∧ WalksFresh env searchDir idl searched
  | (Except.error msg, _) => CycleErr env searchDir idl searched msg

/-- The property of the recursive call that the loop over the includes relies on:
with room for `n` more files on the search set, a call on a text that parses and
passes the field check ends as `Outcome` says. -/
def RecurOk (lib : GoLib) (env : ParseEnv) (searchDir : String → Except String String)
    (files : List String) (n : Nat)
    (recur : String → List String → Option (Except String ListenerTree × List String)) :
    Prop :=
  ∀ idl listener searched, env.parseText idl = Except.ok listener →
    (∀ q ∈ includeNames env idl, q ∈ files) →
    dirpcFieldsCheck lib env.checkDiRPCFlag listener = none →
    (∀ x ∈ searched, x ∈ files) → searched.Nodup → files.length < n + searched.length →
    ∃ r, recur idl searched = some r ∧ Outcome env searchDir idl searched r

/-- What the loop of `parseIDL` over the includes `l` of `idl` may end with when
every file can be opened and parsed: success with the search set as it was, and
then no path of includes through a file of `l` repeats a file or meets the search
set, or a cycle error. -/
def LoopOutcome (env : ParseEnv) (searchDir : String → Except String String) (idl : String)
    (searched l : List String) : Except String (GoMap ListenerTree) × List String → Prop
  | (Except.ok _, searched1) => searched1 = searched ∧
      ∀ q ∈ l, ∀ text, searchDir q = Except.ok text →
        ∀ w, isWalk env searchDir text w = true → (q :: w).Nodup ∧ ∀ x ∈ q :: w, x ∉ searched
  | (Except.error msg, _) => CycleErr env searchDir idl searched msg

/-- The text of a timeout annotation is accepted by the field check: it is empty,
or `strconv.Atoi` reads it without an error. -/
def timeoutValid (value : String) : Prop :=
  value = "" ∨ (Atoi value).2 = true

/-- Whether a timeout text is accepted can be computed. -/
instance timeoutValid_decidable (value : String) : Decidable (timeoutValid value) := by
  unfold timeoutValid; infer_instance

/-- The four timeout annotations of a list are accepted by the field check. -/
def timeoutsValid (annotations : List AnnotationField) : Prop :=
  timeoutValid (GetAnnotationTrimString annotations "timeoutMsec") ∧
  timeoutValid (GetAnnotationTrimString annotations "connectTimeoutMsec") ∧
  timeoutValid (GetAnnotationTrimString annotations "sendTimeoutMsec") ∧
  timeoutValid (GetAnnotationTrimString annotations "recvTimeoutMsec")

/-- The service-level annotations are valid: `servType`, `version` and `servName`
are not empty once their quotes are stripped, and the four timeouts are accepted. -/
def serviceLevelValid (annotations : List AnnotationField) : Prop :=
  GetAnnotationTrimString annotations "servType" ≠ "" ∧
  GetAnnotationTrimString annotations "version" ≠ "" ∧
  GetAnnotationTrimString annotations "servName" ≠ "" ∧
  timeoutsValid annotations

/-- The check of one function by `dirpcFieldsCheck` on `listener`: the error of
the function `funcName`, `none` when the function is accepted. -/
def functionCheckOf (lib : GoLib) (listener : ThriftListener) (funcName : String)
    (funcDef : FunctionType) : Option String :=
  dirpcFunctionCheck lib
    (GetAnnotationTrimString listener.serviceDef.Annotations "servType")
    (GetAnnotationTrimString listener.serviceDef.Annotations "timeoutMsec")
    (GetAnnotationTrimString listener.serviceDef.Annotations "connectTimeoutMsec")
    (GetAnnotationTrimString listener.serviceDef.Annotations "sendTimeoutMsec")
    (GetAnnotationTrimString listener.serviceDef.Annotations "recvTimeoutMsec")
    funcName funcDef

/-- The words of the keyword file as `CheckKeyWord` reads them: none for the empty
path, else the keys of the content of the file; the error of `ioutil.ReadFile`
when the file cannot be read. -/
def fileKeysOf (env : KeyWordEnv) (filePath : String) : Except String (List String) :=
  if filePath ≠ "" then
    match env.readFile filePath with
    | Except.error err => Except.error err
    | Except.ok key => Except.ok (env.unmarshalKeys key)
  else Except.ok []

/-- The name of the first service, of a typedef, of a struct, of a function or of
an enum of the unit is `w`. -/
def collides (defs : UnitDefs) (w : String) : Prop :=
  defs.ServiceDef.Name = w ∨ (∃ v ∈ defs.Typedefs.map Prod.snd, v.Name = w) ∨
    (∃ v ∈ defs.StructDefs.map Prod.snd, v.Name = w) ∨
    (∃ v ∈ defs.FunctionDefs.map Prod.snd, v.Name = w) ∨
    (∃ v ∈ defs.EnumDefs.map Prod.snd, v.Name = w)

/-- The error `msg` names the kind of a declaration of the unit whose name is the
word `w`, its start position and the word. -/
def namesCollision (env : KeyWordEnv) (defs : UnitDefs) (w msg : String) : Prop :=
  (defs.ServiceDef.Name = w ∧ ∃ line, env.serviceStart defs.ServiceDef = some line ∧
      msg = keyWordError line "ServiceDef" w) ∨
    (∃ v ∈ defs.Typedefs.map Prod.snd, v.Name = w ∧
      msg = keyWordError (env.typedefStart v) "TypedefType" w) ∨
    (∃ v ∈ defs.StructDefs.map Prod.snd, v.Name = w ∧
      msg = keyWordError (env.structStart v) "StructDefs" w) ∨
    (∃ v ∈ defs.FunctionDefs.map Prod.snd, v.Name = w ∧
      msg = keyWordError (env.functionStart v) "FunctionDefs" w) ∨
    (∃ v ∈ defs.EnumDefs.map Prod.snd, v.Name = w ∧
      msg = keyWordError (env.enumStart v) "EnumDefs" w)

/-- The method `Push` of the annotation stack. -/
def pushAnnotation (tl : ThriftListener) (a : AnnotationField) : ThriftListener :=
  { tl with annotationStack := a :: tl.annotationStack }

/-- The annotations `as` pushed onto the annotation stack one after the other, the
first of the list first. -/
def pushAnnotations (tl : ThriftListener) (as : List AnnotationField) : ThriftListener :=
  as.foldl pushAnnotation tl

/-- The context of an annotation value that is the hexadecimal token `text`. -/
def hexValueCtx (text : String) : AnnotationValueCtx :=
  { LITERAL := none, LITERAL_STRING := none,
    Integer := some { INTEGER := none, HEX_INTEGER := some text } }

/-- The context of an annotation value that is the decimal token `text`. -/
def decimalValueCtx (text : String) : AnnotationValueCtx :=
  { LITERAL := none, LITERAL_STRING := none,
    Integer := some { INTEGER := some text, HEX_INTEGER := none } }

/-- The context of an annotation value that is the literal token `text`. -/
def literalValueCtx (text : String) : AnnotationValueCtx :=
  { LITERAL := some text, LITERAL_STRING := none, Integer := none }

/-- A token stream in which the declaration token `s` is preceded by the
multi-line comment `c` and the white space `w` between the comment and `s`;
`pre` and `post` are the tokens before and after. -/
def commentAbove (pre post : List Token) (c w s : String) : List Token :=
  pre ++ [{ text := c, channel := Channel.ML_COMMENT_CHAN, tokenIndex := pre.length },
    { text := w, channel := Channel.WS_CHAN, tokenIndex := pre.length + 1 },
    { text := s, channel := Channel.default, tokenIndex := pre.length + 2 }] ++ post

/-- The method `Push` of the field stack on a struct field. -/
def pushField (tl : ThriftListener) (f : StructField) : ThriftListener :=
  { tl with fieldsStack := some f :: tl.fieldsStack }

/-- The exits of the fields `c1 .. ck`, in that order; the first panic ends the run. -/
def runFields (lib : GoLib) : List FieldCtx → ThriftListener → Except String ThriftListener
  | [], tl => Except.ok tl
  | ctx :: rest, tl =>
    match tl.ExitField lib ctx with
    | Except.error msg => Except.error msg
    | Except.ok tl1 => runFields lib rest tl1

/-- A call of one of the four writing methods of an `IdentBuffer`. -/
inductive EmitOp where
  | WriteString (s : String)
  | WriteByte (b : Char)
  | WriteLine (s : String)
  | NewLine (n : Int)
deriving DecidableEq, Repr

/-- The emitter after the call `op`. -/
def IdentBuffer.call (ibf : IdentBuffer) : EmitOp → IdentBuffer
  | EmitOp.WriteString s => ibf.WriteString s
  | EmitOp.WriteByte b => ibf.WriteByte b
  | EmitOp.WriteLine s => ibf.WriteLine s
  | EmitOp.NewLine n => ibf.NewLine n

/-- The emitter after the calls `ops`, in that order. -/
def IdentBuffer.run (ibf : IdentBuffer) (ops : List EmitOp) : IdentBuffer :=
  ops.foldl IdentBuffer.call ibf

/-- The text `s` has no line feed. -/
def noLineFeed (s : String) : Prop := '\n' ∉ s.data

/-- The call writes no line feed inside a line: the string of a `WriteString` has
no line feed, and the string of a `WriteLine` has none before its trailing ones. -/
def EmitOp.oneLine : EmitOp → Prop
  | EmitOp.WriteString s => noLineFeed s
  | EmitOp.WriteByte _ => True
  | EmitOp.WriteLine s => noLineFeed (TrimRightChar s '\n')
  | EmitOp.NewLine _ => True

/-- The exit of a function as the tree walk reaches it: the content of the three
working stacks at that moment, and the identifier and comments of its context. -/
structure FunctionEvent where
  stack : List StackItem
  fieldsStack : List (Option StructField)
  annotationStack : List AnnotationField
  IDENTIFIER : String
  comments : Comments

/-- The exit of the function `ev` of the service `service` on the builder `tl`. -/
def exitFunctionOf (lib : GoLib) (service : String) (tl : ThriftListener)
    (ev : FunctionEvent) : Except String ThriftListener :=
  ThriftListener.ExitFunction lib
    { tl with
      stack := ev.stack
      fieldsStack := ev.fieldsStack
      annotationStack := ev.annotationStack }
    { IDENTIFIER := ev.IDENTIFIER, serviceName := service, comments := ev.comments }

/-- The exits of the functions `evs` of the service `service`, in source order;
the first panic ends the run. -/
def runFunctions (lib : GoLib) (service : String) :
    List FunctionEvent → ThriftListener → Except String ThriftListener
  | [], tl => Except.ok tl
  | ev :: rest, tl =>
    match exitFunctionOf lib service tl ev with
    | Except.error msg => Except.error msg
    | Except.ok tl1 => runFunctions lib service rest tl1

/-- A service as the tree walk reaches it: its functions in source order, then
its own exit with the annotations pending at that moment. -/
structure ServiceEvent where
  IDENTIFIER : String
  comments : Comments
  annotationStack : List AnnotationField
  functions : List FunctionEvent

/-- The exits of the functions of the service `sv` followed by the exit of `sv`. -/
def exitServiceOf (lib : GoLib) (tl : ThriftListener) (sv : ServiceEvent) :
    Except String ThriftListener :=
  match runFunctions lib sv.IDENTIFIER sv.functions tl with
  | Except.error msg => Except.error msg
  | Except.ok tl1 =>
    Except.ok (ThriftListener.ExitService { tl1 with annotationStack := sv.annotationStack }
      { IDENTIFIER := sv.IDENTIFIER, comments := sv.comments })

/-- The exits of the services `svs` of a unit, in source order. -/
def runServices (lib : GoLib) : List ServiceEvent → ThriftListener → Except String ThriftListener
  | [], tl => Except.ok tl
  | sv :: rest, tl =>
    match exitServiceOf lib tl sv with
    | Except.error msg => Except.error msg
    | Except.ok tl1 => runServices lib rest tl1

/-- Every recorded function carries as `ServiceName` the name of a service of
`serviceDefs`. -/
def servicesNamed (tl : ThriftListener) : Prop :=
  ∀ kv ∈ tl.functionDefs, kv.2.ServiceName ∈ tl.serviceDefs.map fun s => s.Name

/-- The table that the specification installs for the functions `fs` of a service:
every function under its name, with its position in `fs`, from `start` on, as
sequence number. -/
def resequenced (start : Nat) (fs : List FunctionType) : GoMap FunctionType :=
  (fs.enumFrom start).map fun p => (p.2.Name, { p.2 with SequenceNum := (p.1 : Int) })

/-- The loop of the service block as the specification describes it: every function
of `fs` is emitted, one level deeper than the block, followed by an empty line. -/
def emitFunctions (lib : GoLib) (fuel : Nat) (typedefs : GoMap TypedefType)
    (buf : IdentBuffer) : List FunctionType → Option (Except String IdentBuffer)
  | [] => some (Except.ok buf)
  | fdef :: rest =>
    match fdef.Gen lib fuel (buf.Derive 1) typedefs with
    | none => none
    | some (Except.error err) => some (Except.error err)
    | some (Except.ok b) => emitFunctions lib fuel typedefs ((buf.sync b).NewLine 1) rest

/-- The functions of `fs` whose `ServiceName` is `name`, in the order of `fs`. -/
def ownFunctions (name : String) (fs : List FunctionType) : List FunctionType :=
  fs.filter fun f => decide (f.ServiceName = name)

/-- The `service` block as the specification describes it: the comment of the first
service, the line `service <Name> {`, the functions of the flat table that carry the
name of the first service, in the order of their sequence numbers, the options of
the service and the closing brace. -/
def serviceBlock (lib : GoLib) (fuel : Nat) (defs : UnitDefs) (buf : IdentBuffer) :
    Option (Except String IdentBuffer) :=
  let buf := buf.WriteLine (multiLineFormat defs.ServiceDef.MultiLine)
  let buf := buf.WriteLine ("service " ++ defs.ServiceDef.Name ++ " \x7b")
  match SortFunctionDefs defs.FunctionDefs with
  | Except.error err => some (Except.error err)
  | Except.ok sorted =>
    match emitFunctions lib fuel defs.Typedefs buf (ownFunctions defs.ServiceDef.Name sorted) with
    | none => none
    | some (Except.error err) => some (Except.error err)
    | some (Except.ok buf) =>
      some (Except.ok ((buf.sync (defs.ServiceDef.GenOpt (buf.Derive 1))).WriteLine "\x7d"))

/-- The declarations of the unit that `copyInclude` copies from the builder `tl`. -/
def unitDefsOf (tl : ThriftListener) : UnitDefs :=
  { Typedefs := tl.typedefs
    StructDefs := tl.structDefs
    FunctionDefs := tl.functionDefs
    EnumDefs := tl.enumDefs
    ConstDefs := tl.constDefs
    ServiceDef := tl.serviceDef
    ServiceDefs := tl.serviceDefs
    IncludeNames := tl.includes
    Namespaces := tl.namespaces }

/-- The names of user-defined types that occur in the type `t`. -/
def refs : Ty → List String
  | .UDFType n => [n]
  | .ContainerType i _ _ => refs i
  | .SetType i => refs i
  | .ListType i => refs i
  | .MapType k v => refs k ++ refs v
  | _ => []

/-- The types on which `expandType` can call itself directly when it is called on
`t` with the table `typedefs`. -/
def callees (typedefs : GoMap TypedefType) : Ty → List Ty
  | .UDFType n =>
    match typedefs.get n with
    | some tdf => [tdf.OriginalType]
    | none => []
  | .ContainerType i _ _ => [i]
  | .SetType i => [.ListType i]
  | .ListType i => [i]
  | .MapType k v => [k, v]
  | .BaseType i _ => [.str i]
  | _ => []

/-- The relation of the recursion of `expandType`: a call on `caller` can call
`callee` directly. -/
def recursiveCall (typedefs : GoMap TypedefType) (callee caller : Ty) : Prop :=
  callee ∈ callees typedefs caller

/-- An edge of the alias graph: `a` is a typedef whose original type mentions the
name `b`. -/
def aliasEdge (typedefs : GoMap TypedefType) (a b : String) : Prop :=
  ∃ tdf, typedefs.get a = some tdf ∧ b ∈ refs tdf.OriginalType

/-- The alias graph of the typedef table has no cycle: no typedef is reachable from
its own original type. -/
def aliasAcyclic (typedefs : GoMap TypedefType) : Prop :=
  ∀ n, ¬ Relation.TransGen (aliasEdge typedefs) n n

/-- The lines of a text as the specification describes an emitter: the finished
lines in order and the line in progress. A line is `none` when nothing was written
on it, and `some c` when `c` is the concatenation of what was written on it. -/
structure Layout where
  finished : List (Option String) := []
  current : Option String := none
deriving DecidableEq, Repr

/-- Writing `s` on the line in progress. -/
def Layout.write (lay : Layout) (s : String) : Layout :=
  { lay with current := some (lay.current.getD "" ++ s) }

/-- Beginning a new line `n` times (once for `n < 1`): the line in progress is
finished, and `n - 1` lines on which nothing was written follow it. -/
def Layout.newLines (lay : Layout) (n : Int) : Layout :=
  { finished := lay.finished ++
      lay.current :: List.replicate ((if n < 1 then 1 else n).toNat - 1) none
    current := none }

/-- The lines after the call `op`, as the specification describes the four calls:
a string or a byte is written on the line in progress, a line feed byte and
`NewLine` begin a new line, `WriteLine` writes the string without its trailing line
feeds and begins a new line. -/
def Layout.call (lay : Layout) : EmitOp → Layout
  | EmitOp.WriteString s => lay.write s
  | EmitOp.WriteByte b => if b = '\n' then lay.newLines 1 else lay.write (String.singleton b)
  | EmitOp.WriteLine s => (lay.write (TrimRightChar s '\n')).newLines 1
  | EmitOp.NewLine n => lay.newLines n

/-- The lines after the calls `ops`, in that order. -/
def Layout.run (lay : Layout) (ops : List EmitOp) : Layout :=
  ops.foldl Layout.call lay

/-- All lines: the finished ones, then the line in progress. -/
def Layout.lines (lay : Layout) : List (Option String) :=
  lay.finished ++ [lay.current]

/-- The text of a line at indent `d`: nothing for a line on which nothing was
written, else `d` tabs, once, followed by the content of the line. -/
def renderLine (d : Int) : Option String → String
  | none => ""
  | some c => repeatChar '\t' d ++ c

/-- The text of the lines at indent `d`: every finished line followed by a line
feed, then the line in progress. -/
def Layout.render (d : Int) (lay : Layout) : String :=
  concatText (lay.finished.map fun l => renderLine d l ++ "\n") ++ renderLine d lay.current

/-- The emitter `b` holds the text `pre` followed by the lines `lay` at indent `d`,
and stands at a line start exactly when nothing was written on the line in
progress. -/
def Renders (d : Int) (pre : String) (b : IdentBuffer) (lay : Layout) : Prop :=
  b.buf = pre ++ lay.render d ∧ (b.newLine = true ↔ lay.current = none) ∧ b.ident = d

/-- No content of a line of `lay` has a line feed. -/
def Layout.oneLine (lay : Layout) : Prop :=
  ∀ l ∈ lay.lines, ∀ c, l = some c → noLineFeed c

/-- The function `f` is the one `ExitFunction` builds for the function `ev` of the
service `service`, its sequence number apart: its name is the identifier, its
service name is `service`, its response is the type on top of the stack, its
requests are the fields popped from the field stack, put back in source order, its
annotations are the pending annotations in source order, and its comments are
those of the function. -/
def recordsEvent (lib : GoLib) (service : String) (ev : FunctionEvent) (f : FunctionType) :
    Prop :=
  f.Name = ev.IDENTIFIER ∧ f.ServiceName = service ∧ f.toComments = ev.comments ∧
  ev.stack.head? = some (StackItem.type f.Response) ∧
  (∃ fields, popFunctionFields lib ev.fieldsStack [] = Except.ok fields ∧
    f.Requests = reverseInPlace fields) ∧
  f.Annotations = reverseInPlace ev.annotationStack

/-- The map `r` holds the texts of the units `us` and nothing else: its keys are
distinct, every entry is the reference name of a unit of `us` with the text the
generator writes for that unit, and every unit of `us` is generated and has its
reference name among the keys. -/
def Covers (lib : GoLib) (fuel : Nat) (lang : String) (opt : CodeGenOpt)
    (us : List UnitCall) (r : GoMap String) : Prop :=
  (r.map Prod.fst).Nodup ∧
  (∀ kv ∈ r, ∃ u ∈ us, u.name = kv.1 ∧
    genUnit lib fuel u.defs u.name lang u.mainPackage opt = some (Except.ok kv.2)) ∧
  (∀ u ∈ us, u.name ∈ r.map Prod.fst ∧
    ∃ text, genUnit lib fuel u.defs u.name lang u.mainPackage opt = some (Except.ok text))

/-- Whether the file of include path `p` can be opened and parsed: the path has a
base name with a dot, the search directory opens it, and its text parses. -/
def fileParses (env : ParseEnv) (searchDir : String → Except String String) (p : String) :
    Bool :=
  hasDot (Base p) &&
    match searchDir p with
    | Except.ok text =>
      match env.parseText text with
      | Except.ok _ => true
      | Except.error _ => false
    | Except.error _ => false

/-- Whether the text `s` begins with a white-space character (`unicode.IsSpace`). -/
def startsWithSpace (s : String) : Bool :=
  match s.data with
  | [] => false
  | c :: _ => isSpace c

/-! ## Concrete inputs for the examples -/

/-- A stand-in for `strconv.Unquote` on the examples: the text between a leading and a
trailing double quote, `none` when the text is not so quoted. -/
def exampleUnquote (s : String) : Option String :=
  match s.data with
  | [] => none
  | c :: rest =>
    if c = quoteChar ∧ rest.getLast? = some quoteChar then some (String.mk rest.dropLast)
    else none

/-- A library instance for the examples: insertion sort on `Value` (what `sort.Sort`
runs on a slice of fewer than twelve elements), ASCII case mapping, and stand-ins
for the formatting verbs. -/
def exampleLib : GoLib where
  Unquote := exampleUnquote
  Quote := fun s => String.singleton quoteChar ++ s ++ String.singleton quoteChar
  ToLower := fun s => String.mk (s.data.map Char.toLower)
  ToUpper := fun s => String.mk (s.data.map Char.toUpper)
  fmtType := fun _ => "<type>"
  fmtField := fun f => "<field " ++ f.Name ++ ">"
  sortEnum := fun l => l.insertionSort (fun a b => a.Value ≤ b.Value)
  notTypePanic := fun _ => "interface conversion: interface is not thrift.Type"
  notFieldPanic := "interface conversion: interface is nil, not thrift.StructField"

/-- The type that the builder records for `set<string>`. -/
def exampleSetOfString : Ty :=
  Ty.ContainerType (Ty.SetType (Ty.BaseType "string" [])) [] {}

/-- The struct `struct C { 1: set<string> s }`. -/
def exampleStructC : StructType :=
  { Name := "C", SequenceNum := 0,
    FieldType :=
      [{ FieldReq := FieldReq_Required, Name := "s", Typ := exampleSetOfString, FieldID := 1 }] }

/-- The type that the builder records for `list<i64>`. -/
def exampleListOfI64 : Ty :=
  Ty.ContainerType (Ty.ListType (Ty.BaseType "i64" [])) [] {}

/-- The typedef table of `typedef list<i64> Ids` followed by `typedef Ids Keys`. -/
def exampleTypedefs : GoMap TypedefType :=
  [("Ids", { Name := "Ids", SequenceNum := 0, OriginalType := exampleListOfI64 }),
   ("Keys", { Name := "Keys", SequenceNum := 1, OriginalType := Ty.UDFType "Ids" })]

/-- A struct with one optional field `x` of id 1 whose type is the user-defined
reference `typeName`. -/
def exampleOptionalStruct (typeName : String) : StructType :=
  { Name := "S", SequenceNum := 0,
    FieldType :=
      [{ FieldReq := FieldReq_Optional, Name := "x", Typ := Ty.UDFType typeName, FieldID := 1 }] }

/-- The enum `enum E { A = 7, B = 0 }`. -/
def exampleEnum : EnumType :=
  { Name := "E", SequenceNum := 0,
    Enumerate := [{ Key := "A", Value := 7 }, { Key := "B", Value := 0 }] }

/-- The enum `enum Z { A, B, C, D = 1 }`: a field without a value has `Value` 0. -/
def exampleEnumZeros : EnumType :=
  { Name := "Z", SequenceNum := 0,
    Enumerate := [{ Key := "A", Value := 0 }, { Key := "B", Value := 0 },
                  { Key := "C", Value := 0 }, { Key := "D", Value := 1 }] }

/-- The enum `enum N { M = -1, O = 0 }`. -/
def exampleEnumNegative : EnumType :=
  { Name := "N", SequenceNum := 0,
    Enumerate := [{ Key := "M", Value := -1 }, { Key := "O", Value := 0 }] }

/-- A function `Resp Get(...)` of service `Svc` with the given request parameters. -/
def exampleFunction (requests : List StructField) : FunctionType :=
  { Name := "Get", ServiceName := "Svc", SequenceNum := 0, Response := Ty.UDFType "Resp",
    Requests := requests }

/-- A request parameter `1: Req req`. -/
def exampleRequest : StructField :=
  { FieldReq := FieldReq_Required, Name := "req", Typ := Ty.UDFType "Req", FieldID := 1 }

/-- The context of a field `<id>: <type> <name>` without requirement, default or comments. -/
def exampleFieldCtx (id name : String) : FieldCtx :=
  { Field_id := some id, Field_req := none, IDENTIFIER := name, Const_value := none,
    comments := {} }

/-- The exit events of a field `<id>: i32 <name>`, in the order of the tree walk. -/
def exampleI32Field (tl : ThriftListener) (id name : String) : Except String ThriftListener :=
  ((tl.ExitReal_base_type "i32").ExitBase_type.ExitField_type none).ExitField exampleLib
    (exampleFieldCtx id name)

/-- The exit events of `struct D { 1: i32 a; 1: i32 b }` on a fresh builder. -/
def exampleStructDRun : Except String ThriftListener :=
  match exampleI32Field {} "1" "a" with
  | Except.error e => Except.error e
  | Except.ok tl =>
    match exampleI32Field tl "1" "b" with
    | Except.error e => Except.error e
    | Except.ok tl => tl.ExitStruct_def { IDENTIFIER := "D", comments := {} }

/-- The exit events of `struct A { <id>: i32 x }` on a fresh builder. -/
def exampleStructARun (id : String) : Except String ThriftListener :=
  match exampleI32Field {} id "x" with
  | Except.error e => Except.error e
  | Except.ok tl => tl.ExitStruct_def { IDENTIFIER := "A", comments := {} }

/-- The builder after the field `<id>: i32 x`, before the struct exit. -/
def exampleListenerA (id : Int) : ThriftListener :=
  { fieldsStack :=
      [some { FieldReq := FieldReq_Required, Name := "x", Typ := Ty.BaseType "i32" [],
              FieldID := id }] }

/-- The context of the exit of `struct A`. -/
def exampleCtxA : StructDefCtx := { IDENTIFIER := "A", comments := {} }

/-- The struct that the builder records for `struct A { <id>: i32 x }`. -/
def exampleStructA (id : Int) : StructType :=
  { Name := "A", SequenceNum := 0,
    FieldType :=
      [{ FieldReq := FieldReq_Required, Name := "x", Typ := Ty.BaseType "i32" [], FieldID := id }] }

/-- Three annotations `foo`, `desc = "d"`, `bar`, in this order. -/
def exampleBadAnnotations : List AnnotationField :=
  [{ Key := "foo", Value := none },
   { Key := "desc", Value := some (OptValue.str "d") },
   { Key := "bar", Value := none }]

/-- An annotation `key = "text"`. -/
def exampleAnnotation (key text : String) : AnnotationField :=
  { Key := key, Value := some (OptValue.str (quoted text)) }

/-- A function with the annotations `path = "/p"` and `httpMethod = "POST"`. -/
def exampleHttpFunction : FunctionType :=
  { Name := "Get", ServiceName := "Svc", SequenceNum := 0, Response := Ty.UDFType "Resp",
    Requests := [],
    Annotations := [ exampleAnnotation "path" "/p", exampleAnnotation "httpMethod" "POST"] }

/-- A field `1: i32 a` with the given annotations. -/
def exampleAnnotatedField (annotations : List AnnotationField) : StructField :=
  { FieldReq := FieldReq_Required, Name := "a", Typ := Ty.BaseType "i32" [], FieldID := 1,
    Annotations := annotations }

/-- A struct `struct S { 1: i32 a (<annotations>) }`. -/
def exampleAnnotatedStruct (annotations : List AnnotationField) : StructType :=
  { Name := "S", SequenceNum := 0, FieldType := [exampleAnnotatedField annotations] }

/-- A struct table holding `B` (sequence number 1) before `A` (sequence number 0). -/
def exampleStructDefs : GoMap StructType :=
  [("B", { Name := "B", SequenceNum := 1, FieldType := [] }),
   ("A", { Name := "A", SequenceNum := 0, FieldType := [] })]

/-- An enum table holding `F` (sequence number 1) before `E` (sequence number 0). -/
def exampleEnumDefs : GoMap EnumType :=
  [("F", { Name := "F", SequenceNum := 1, Enumerate := [] }),
   ("E", { Name := "E", SequenceNum := 0, Enumerate := [] })]

/-- A function table holding `g` (sequence number 1) before `f` (sequence number 0). -/
def exampleFunctionDefs : GoMap FunctionType :=
  [("g", { Name := "g", ServiceName := "Svc", SequenceNum := 1, Response := Ty.UDFType "R",
           Requests := [] }),
   ("f", { Name := "f", ServiceName := "Svc", SequenceNum := 0, Response := Ty.UDFType "R",
           Requests := [] })]

/-- The exit events of `struct <name> { <id>: i32 x }` on the builder `tl`. -/
def exampleStructEvents (tl : ThriftListener) (name id : String) :
    Except String ThriftListener :=
  match exampleI32Field tl id "x" with
  | Except.error e => Except.error e
  | Except.ok tl => tl.ExitStruct_def { IDENTIFIER := name, comments := {} }

/-- The exit events of two structs named `first` and `second`, on a fresh builder. -/
def exampleTwoStructsRun (first second : String) : Except String ThriftListener :=
  match exampleStructEvents {} first "1" with
  | Except.error e => Except.error e
  | Except.ok tl => exampleStructEvents tl second "1"

/-- The exit events of a function `R <name>()` of the service `service`. -/
def exampleFunctionEvents (tl : ThriftListener) (service name : String) :
    Except String ThriftListener :=
  (tl.ExitField_type (some "R")).ExitFunction exampleLib
    { IDENTIFIER := name, serviceName := service, comments := {} }

/-- The exit events of three functions, the first two of service `S1`, the third of
service `S2`, on a fresh builder. -/
def exampleThreeFunctionsRun (n1 n2 n3 : String) : Except String ThriftListener :=
  match exampleFunctionEvents {} "S1" n1 with
  | Except.error e => Except.error e
  | Except.ok tl =>
    match exampleFunctionEvents tl "S1" n2 with
    | Except.error e => Except.error e
    | Except.ok tl => exampleFunctionEvents tl "S2" n3

/-- The names and sequence numbers of a table of declarations. -/
def seqTable {α : Type} (seq : α → Int) (m : GoMap α) : List (String × Int) :=
  m.map fun p => (p.1, seq p.2)

/-- A unit with three namespaces, two of them of scope `go`. -/
def exampleNamespaceUnit : UnitDefs :=
  { Namespaces := [{ Scope := "java", Name := "com.first" }, { Scope := "go", Name := "second" },
      { Scope := "go", Name := "third" }] }

/-- A unit whose only declaration is a namespace of scope `go`. -/
def exampleGoUnit (name : String) : UnitDefs :=
  { Namespaces := [{ Scope := "go", Name := name }] }

/-- An include tree in which two units have the reference name `common`: `main`
includes `b` and `c`, `b` includes `x/common.thrift` and `c` includes
`y/common.thrift`. -/
def exampleClashTree : AnalysisResult :=
  AnalysisResult.mk {}
    [("b", AnalysisResult.mk {} [("common", AnalysisResult.mk (exampleGoUnit "x.common") [])]),
     ("c", AnalysisResult.mk {} [("common", AnalysisResult.mk (exampleGoUnit "y.common") [])])]

/-- An include tree in which the included unit has the reference name of the root. -/
def exampleShadowTree : AnalysisResult :=
  AnalysisResult.mk {} [("main", AnalysisResult.mk (exampleGoUnit "lib.main") [])]

/-- The text the generator writes for a unit of package `p` without declarations,
generated with `mainPackage = false` for a language other than `php`. -/
def exampleIncludedText (p : String) : String :=
  "syntax = \"proto3\";\npackage " ++ p ++ ";\n\n" ++
    "// auto generated by thriftpp, contact chibi@didiglobal.com for reporting bug\n\n\n"

/-- The text the generator writes for a unit of package `p` without declarations,
generated with `mainPackage = true` for a language other than `php`. -/
def exampleMainText (p : String) : String :=
  "syntax = \"proto3\";\npackage " ++ p ++ ";\n\n" ++
    "// auto generated by thriftpp, contact chibi@didiglobal.com for reporting bug\n" ++
    "import \"google/api/annotations.proto\";\nimport \"dirpc/dirpc.proto\";\n\n\n"

/-- A stand-in for the parser on texts made of include directives: every line
`include "<path>"` gives one include name. -/
def exampleParseText (text : String) : Except String ThriftListener :=
  Except.ok
    { includes := ((SplitChar text '\n').filter fun line => HasPrefix line "include ").map
        fun line => { Name := TrimChar (TrimPrefix line "include ") quoteChar } }

/-- The text of `a.thrift`, which includes `b.thrift`. -/
def exampleTextA : String := "include " ++ quoted "b.thrift" ++ "\n"

/-- The text of `b.thrift`, which includes `a.thrift`. -/
def exampleTextB : String := "include " ++ quoted "a.thrift" ++ "\n"

/-- A file system with the two files `a.thrift` and `b.thrift`; `Join` is
`filepath.Join` on a directory and a plain file name. -/
def exampleFileSystem : FileSystem where
  Join := fun d f => if d = "." then f else d ++ "/" ++ f
  readFile := fun name =>
    if name = "a.thrift" then some (Except.ok exampleTextA)
    else if name = "b.thrift" then some (Except.ok exampleTextB)
    else none

/-- The parser stand-in, the keys of a map visited in the order of the list, and
the field check switched on. -/
def exampleEnv : ParseEnv where
  parseText := exampleParseText
  order := fun _ keys => keys
  checkDiRPCFlag := true

/-- The parser stand-in with the keys of a map visited in reverse order. -/
def exampleReverseEnv : ParseEnv where
  parseText := exampleParseText
  order := fun _ keys => keys.reverse
  checkDiRPCFlag := true

/-- The search directory of the examples: the current directory. -/
def exampleSearchDir : String → Except String String :=
  (NewDirSearcher []).Open exampleFileSystem

/-- The message `Analysis` returns for the two files that include each other. -/
def exampleCycleError : String :=
  "fail to parse idl: b.thrift, due to fail to parse idl: a.thrift, due to " ++
    "cycled include b.thrift"

/-- A listener whose first service is `S` with the annotations `annotations`, and
whose functions are `functions`. -/
def exampleServiceListener (annotations : List AnnotationField)
    (functions : GoMap FunctionType) : ThriftListener :=
  { serviceDef := { Name := "S", Annotations := annotations }
    functionDefs := functions }

/-- The required service-level annotations, with `servType = "<servType>"`. -/
def exampleServiceAnnotations (servType : String) : List AnnotationField :=
  [ exampleAnnotation "servType" servType, exampleAnnotation "version" "1.0",
    exampleAnnotation "servName" "s"]

/-- A function `f` of the service `S` with the annotations `annotations`. -/
def exampleCheckedFunction (annotations : List AnnotationField) : FunctionType :=
  { Name := "f", ServiceName := "S", SequenceNum := 0, Response := Ty.UDFType "Resp",
    Requests := [], Annotations := annotations }

/-- An environment for `CheckKeyWord`: the words `Reserved` and `message` stand for
the built-in list, the keyword file `keys.json` holds the word `Extra`, the words
are visited in the order of the list, a service with a name has a context, and
every declaration starts at position 0. -/
def exampleKeyWordEnv : KeyWordEnv where
  keyWords := ["Reserved", "message"]
  readFile := fun path =>
    if path = "keys.json" then Except.ok "keys" else Except.error "open: no such file"
  unmarshalKeys := fun content => if content = "keys" then ["Extra"] else []
  order := fun l => l
  serviceStart := fun s => if s.Name = "" then none else some 0
  typedefStart := fun _ => 0
  structStart := fun _ => 0
  functionStart := fun _ => 0
  enumStart := fun _ => 0

/-- The unit the builder records for two services, `first` and then `second`,
without functions. -/
def exampleTwoServices (first second : String) : AnalysisResult :=
  (ListenerTree.mk
    ((({} : ThriftListener).ExitService { IDENTIFIER := first, comments := {} }).ExitService
      { IDENTIFIER := second, comments := {} }) []).copyInclude

/-- A function `name` of the service `Api`, without annotations. -/
def exampleNamedFunction (name : String) : FunctionType :=
  { Name := name, ServiceName := "Api", SequenceNum := 0, Response := Ty.UDFType "Resp",
    Requests := [] }

/-- A unit with the service `Api` whose one function is named `name`. -/
def exampleFunctionUnit (name : String) : AnalysisResult :=
  AnalysisResult.mk
    { ServiceDef := { Name := "Api" }
      ServiceDefs := [{ Name := "Api" }]
      FunctionDefs := [(name, exampleNamedFunction name)] } []

/-- The events of `service S {} (servType = "http", version = 0x1F, internal)`: the
value and the exit of each of the three annotations, then the exit of the service. -/
def exampleAnnotatedServiceRun : Except String ThriftListener := do
  let tl : ThriftListener := {}
  let tl ← tl.ExitAnnotation_value (literalValueCtx (quoted "http"))
  let tl := tl.ExitType_annotation { IDENTIFIER := "servType", EQUAL := true, comments := {} }
  let tl ← tl.ExitAnnotation_value (hexValueCtx "0x1F")
  let tl := tl.ExitType_annotation { IDENTIFIER := "version", EQUAL := true, comments := {} }
  let tl := tl.ExitType_annotation { IDENTIFIER := "internal", EQUAL := false, comments := {} }
  pure (tl.ExitService { IDENTIFIER := "S", comments := {} })

/-- The tokens of `/* c */`, a blank line, `struct A {}`, each on its channel. -/
def exampleCommentTokens : List Token :=
  commentAbove [] [{ text := " ", channel := Channel.WS_CHAN, tokenIndex := 3 },
      { text := "A", channel := Channel.default, tokenIndex := 4 },
      { text := "\x7b", channel := Channel.default, tokenIndex := 5 },
      { text := "\x7d", channel := Channel.default, tokenIndex := 6 }]
    "/* c */" "\n\n" "struct"

/-- The tokens of `// c`, a blank line, `struct A {}`, each on its channel. -/
def exampleLineCommentTokens : List Token :=
  [{ text := "// c", channel := Channel.SL_COMMENT_CHAN, tokenIndex := 0 },
    { text := "\n\n", channel := Channel.WS_CHAN, tokenIndex := 1 },
    { text := "struct", channel := Channel.default, tokenIndex := 2 },
    { text := " ", channel := Channel.WS_CHAN, tokenIndex := 3 },
    { text := "A", channel := Channel.default, tokenIndex := 4 },
    { text := "\x7b", channel := Channel.default, tokenIndex := 5 },
    { text := "\x7d", channel := Channel.default, tokenIndex := 6 }]

/-- A file system with the empty files `dir/foo.thrift` and `foo.thrift`. -/
def exampleEntryFileSystem : FileSystem where
  Join := fun d f => if d = "." then f else d ++ "/" ++ f
  readFile := fun name =>
    if name = "dir/foo.thrift" ∨ name = "foo.thrift" then some (Except.ok "") else none

/-- The exit events of `R f(1: i32 q) throws (1: E e, 2: G g)` up to the exit
of the throws list: the parameter, the sentinel, the two throws entries with an
annotation pending, and the exit of the throws list. -/
def exampleThrowsRun : Except String ThriftListener :=
  match exampleI32Field {} "1" "q" with
  | Except.error e => Except.error e
  | Except.ok tl =>
    match runFields exampleLib
        [{ Field_id := some "1", Field_req := none, IDENTIFIER := "e", Const_value := none,
           comments := {} },
         { Field_id := some "2", Field_req := none, IDENTIFIER := "g", Const_value := none,
           comments := {} }]
        { tl.EnterThrows_list with
          stack := [StackItem.type (Ty.UDFType "G"), StackItem.type (Ty.UDFType "E")] } with
    | Except.error e => Except.error e
    | Except.ok tl1 =>
      Except.ok
        ( pushAnnotation tl1 { Key := "internal", Value := none }).ExitThrows_list

/-- The annotation that the builder records for `timeoutMsec = 500`, a bare
integer: the exit of the value and the exit of the annotation on a fresh builder. -/
def exampleIntegerAnnotations : Except String (List AnnotationField) :=
  match ({} : ThriftListener).ExitAnnotation_value (decimalValueCtx "500") with
  | Except.error e => Except.error e
  | Except.ok tl =>
    Except.ok (tl.ExitType_annotation
      { IDENTIFIER := "timeoutMsec", EQUAL := true, comments := {} }).getAnnotations.1

/-- The text of the root of the diamond: it includes `b.thrift` and `c.thrift`. -/
def exampleDiamondRoot : String :=
  "include " ++ quoted "b.thrift" ++ "\ninclude " ++ quoted "c.thrift" ++ "\n"

/-- A file system with the files of a diamond: `b.thrift` and `c.thrift` both
include `d.thrift`, which includes nothing. -/
def exampleDiamondFileSystem : FileSystem where
  Join := fun d f => if d = "." then f else d ++ "/" ++ f
  readFile := fun name =>
    if name = "b.thrift" ∨ name = "c.thrift" then
      some (Except.ok ("include " ++ quoted "d.thrift" ++ "\n"))
    else if name = "d.thrift" then some (Except.ok "")
    else none

/-- The search directory of the diamond: the current directory. -/
def exampleDiamondSearchDir : String → Except String String :=
  (NewDirSearcher []).Open exampleDiamondFileSystem

/-- The function `R <name>(1: Q q)` as the tree walk reaches its exit. -/
def exampleFunctionEvent (name : String) : FunctionEvent :=
  { stack := [StackItem.type (Ty.UDFType "R")]
    fieldsStack := [some { Name := "q", Typ := Ty.UDFType "Q", FieldID := 1 }]
    annotationStack := []
    IDENTIFIER := name
    comments := {} }

/-- The service `<service>` with one function `R <name>(1: Q q)` for every name of
`names`. -/
def exampleServiceEvent (service : String) (names : List String) : ServiceEvent :=
  { IDENTIFIER := service, comments := {}, annotationStack := [],
    functions := names.map exampleFunctionEvent }

/-- The tables installed for the services of a run, as names and sequence numbers. -/
def serviceTables (r : Except String ThriftListener) : List (String × List (String × Int)) :=
  match r with
  | Except.error _ => []
  | Except.ok tl => tl.serviceDefs.map fun s => (s.Name, seqTable (fun f => f.SequenceNum) s.FunctionDefs)

/-- The unit the builder records for the services `svs` on a fresh builder; the
empty unit if an exit panics. -/
def exampleServicesUnit (svs : List ServiceEvent) : UnitDefs :=
  match runServices exampleLib svs {} with
  | Except.error _ => {}
  | Except.ok tl => unitDefsOf tl

/-- The text of a unit `unit` without namespaces, includes, enums and structs whose
service block for `S` holds the functions `names`, each `R <name>(1: Q q)`. -/
def exampleServiceText (names : List String) : String :=
  "syntax = " ++ quoted "proto3" ++ ";\npackage unit;\n\n" ++
  "// auto generated by thriftpp, contact chibi@didiglobal.com for reporting bug\n\n\n\n" ++
  "service S \x7b\n" ++
  String.join (names.map fun n => "\trpc " ++ n ++ " ( Q ) returns ( R ) \x7b\n\t\x7d\n\n") ++
  "\toption (dirpc.service_opt) = \x7b\n\t\tversion: 0.0.1\n\t\tservType: http\n\t\x7d;\n\x7d\n"

/-- The entry of the function `name` in the table installed for the last service of
a run. -/
def serviceEntry (r : Except String ThriftListener) (name : String) : Option FunctionType :=
  match r with
  | Except.error _ => none
  | Except.ok tl => GoMap.get ((tl.serviceDefs.map fun s => s.FunctionDefs).getLastD []) name

/-- An include diamond: `main` includes `b` and `c`, and both include the same unit
`common`. -/
def exampleDiamondTree : AnalysisResult :=
  AnalysisResult.mk {}
    [("b", AnalysisResult.mk {} [("common", AnalysisResult.mk (exampleGoUnit "x.common") [])]),
     ("c", AnalysisResult.mk {} [("common", AnalysisResult.mk (exampleGoUnit "x.common") [])])]

/-- A stand-in for the parser on texts made of include directives and service
headers: every line `include "<path>"` gives one include name, and a line that
starts with `service ` gives the first service `S`, without annotations. -/
def exampleServiceParseText (text : String) : Except String ThriftListener :=
  Except.ok
    { includes := ((SplitChar text '\n').filter fun line => HasPrefix line "include ").map
        fun line => { Name := TrimChar (TrimPrefix line "include ") quoteChar }
      serviceDef :=
        if (SplitChar text '\n').any fun line => HasPrefix line "service " then { Name := "S" }
        else {} }

/-- The text of a root that includes `x.thrift` and `a.thrift`. -/
def exampleCheckedRoot : String :=
  "include " ++ quoted "x.thrift" ++ "\ninclude " ++ quoted "a.thrift" ++ "\n"

/-- A file system with `a.thrift` and `b.thrift`, which include each other, and
`x.thrift`, which declares a service without annotations. -/
def exampleCheckedFileSystem : FileSystem where
  Join := fun d f => if d = "." then f else d ++ "/" ++ f
  readFile := fun name =>
    if name = "a.thrift" then some (Except.ok exampleTextA)
    else if name = "b.thrift" then some (Except.ok exampleTextB)
    else if name = "x.thrift" then some (Except.ok "service S \x7b\x7d\n")
    else none

/-- The search directory of that file system: the current directory. -/
def exampleCheckedSearchDir : String → Except String String :=
  (NewDirSearcher []).Open exampleCheckedFileSystem

/-- The parser stand-in with services, the keys of a map visited in the order of
the list, and the field check switched on. -/
def exampleCheckedEnv : ParseEnv where
  parseText := exampleServiceParseText
  order := fun _ keys => keys
  checkDiRPCFlag := true

/-- The same environment with the keys of a map visited in reverse order. -/
def exampleCheckedReverseEnv : ParseEnv where
  parseText := exampleServiceParseText
  order := fun _ keys => keys.reverse
  checkDiRPCFlag := true

/-! ## Lemmas on `expandType` -/

theorem expandType_udf (fuel : Nat) (n : String) (td : GoMap TypedefType) :
    expandType (fuel + 1) (Ty.UDFType n) td =
      match td.get n with
      | none => some n
      | some tdf => expandType fuel tdf.OriginalType td := rfl

theorem expandType_container (fuel : Nat) (i : Ty) (a : List AnnotationField) (c : Comments)
    (td : GoMap TypedefType) :
    expandType (fuel + 1) (Ty.ContainerType i a c) td = expandType fuel i td := rfl

theorem expandType_set (fuel : Nat) (i : Ty) (td : GoMap TypedefType) :
    expandType (fuel + 1) (Ty.SetType i) td = expandType fuel (Ty.ListType i) td := rfl

theorem expandType_list (fuel : Nat) (i : Ty) (td : GoMap TypedefType) :
    expandType (fuel + 1) (Ty.ListType i) td =
      match expandType fuel i td with
      | none => none
      | some v => if v ≠ "" then some (_RepeatedKW ++ " " ++ v) else some "" := rfl

theorem expandType_map (fuel : Nat) (k v : Ty) (td : GoMap TypedefType) :
    expandType (fuel + 1) (Ty.MapType k v) td =
      match expandType fuel k td with
      | none => none
      | some ks =>
        if ks ≠ "" then
          match expandType fuel v td with
          | none => none
          | some vs => if vs ≠ "" then some ("map<" ++ ks ++ ", " ++ vs ++ ">") else some ""
        else some "" := rfl

theorem expandType_base (fuel : Nat) (n : String) (a : List AnnotationField)
    (td : GoMap TypedefType) :
    expandType (fuel + 1) (Ty.BaseType n a) td = expandType fuel (Ty.str n) [] := rfl

theorem baseTable_get (n : String) :
    (match _baseTypeConvert.get n with
      | some v => some v
      | none => some "") = some (specBaseTable n) := by
  unfold specBaseTable _baseTypeConvert
  simp only [GoMap.get]
  by_cases h1 : "bool" = n
  · subst h1; rfl
  by_cases h2 : "byte" = n
  · subst h2; rfl
  by_cases h3 : "i8" = n
  · subst h3; rfl
  by_cases h4 : "i16" = n
  · subst h4; rfl
  by_cases h5 : "i32" = n
  · subst h5; rfl
  by_cases h6 : "i64" = n
  · subst h6; rfl
  by_cases h7 : "double" = n
  · subst h7; rfl
  by_cases h8 : "string" = n
  · subst h8; rfl
  by_cases h9 : "binary" = n
  · subst h9; rfl
  have e1 : ¬ n = "bool" := fun h => h1 h.symm
  have e2 : ¬ n = "byte" := fun h => h2 h.symm
  have e3 : ¬ n = "i8" := fun h => h3 h.symm
  have e4 : ¬ n = "i16" := fun h => h4 h.symm
  have e5 : ¬ n = "i32" := fun h => h5 h.symm
  have e6 : ¬ n = "i64" := fun h => h6 h.symm
  have e7 : ¬ n = "double" := fun h => h7 h.symm
  have e8 : ¬ n = "string" := fun h => h8 h.symm
  have e9 : ¬ n = "binary" := fun h => h9 h.symm
  simp [h1, h2, h3, h4, h5, h6, h7, h8, h9, e1, e2, e3, e4, e5, e6, e7, e8, e9]

theorem expandType_str (fuel : Nat) (n : String) (td : GoMap TypedefType) :
    expandType (fuel + 1) (Ty.str n) td = some (specBaseTable n) := by
  show (match _baseTypeConvert.get n with
      | some v => some v
      | none => some "") = _
  exact baseTable_get n

theorem expandType_realBase (fuel : Nat) (n : String) (td : GoMap TypedefType) :
    expandType (fuel + 1) (Ty.RealBaseType n) td = some (specBaseTable n) := by
  show (match _baseTypeConvert.get n with
      | some v => some v
      | none => some "") = _
  exact baseTable_get n

theorem expandType_other (fuel : Nat) (td : GoMap TypedefType) :
    expandType (fuel + 1) Ty.other td = some "" := rfl

/-- More recursion depth does not change a result already obtained. -/
theorem expandType_succ : ∀ (fuel : Nat) (t : Ty) (td : GoMap TypedefType) (s : String),
    expandType fuel t td = some s → expandType (fuel + 1) t td = some s := by
  intro fuel
  induction fuel with
  | zero => intro t td s h; simp [expandType] at h
  | succ n ih =>
    intro t td s h
    cases t with
    | UDFType name =>
      rw [expandType_udf] at h ⊢
      cases hg : td.get name with
      | none => rw [hg] at h; exact h
      | some tdf => rw [hg] at h; exact ih _ _ _ h
    | ContainerType i a c =>
      rw [expandType_container] at h ⊢
      exact ih _ _ _ h
    | SetType i =>
      rw [expandType_set] at h ⊢
      exact ih _ _ _ h
    | ListType i =>
      rw [expandType_list] at h ⊢
      cases hi : expandType n i td with
      | none => rw [hi] at h; simp at h
      | some v => rw [hi] at h; rw [ih _ _ _ hi]; exact h
    | MapType k v =>
      rw [expandType_map] at h ⊢
      cases hk : expandType n k td with
      | none => rw [hk] at h; simp at h
      | some ks =>
        rw [hk] at h; rw [ih _ _ _ hk]
        by_cases hks : ks = ""
        · simp [hks] at h ⊢; exact h
        · simp only [ne_eq, hks, not_false_eq_true, if_true] at h ⊢
          cases hv : expandType n v td with
          | none => rw [hv] at h; simp at h
          | some vs => rw [hv] at h; rw [ih _ _ _ hv]; exact h
    | BaseType name a =>
      rw [expandType_base] at h ⊢
      exact ih _ _ _ h
    | RealBaseType name =>
      rw [expandType_realBase] at h ⊢; exact h
    | str name =>
      rw [expandType_str] at h ⊢; exact h
    | other =>
      rw [expandType_other] at h ⊢; exact h

theorem expandType_mono {fuel fuel' : Nat} {t : Ty} {td : GoMap TypedefType} {s : String}
    (h : expandType fuel t td = some s) (hle : fuel ≤ fuel') :
    expandType fuel' t td = some s := by
  induction hle with
  | refl => exact h
  | step _ ih => exact expandType_succ _ _ _ _ ih

/-- The result of an expansion does not depend on the recursion depth allowed. -/
theorem Expands.unique {td : GoMap TypedefType} {t : Ty} {s s' : String}
    (h : Expands td t s) (h' : Expands td t s') : s = s' := by
  obtain ⟨n, hn⟩ := h
  obtain ⟨m, hm⟩ := h'
  have h1 := expandType_mono hn (Nat.le_max_left n m)
  have h2 := expandType_mono hm (Nat.le_max_right n m)
  rw [h1] at h2
  exact Option.some.inj h2

theorem Expands.of_succ {td : GoMap TypedefType} {t : Ty} {s : String}
    (h : Expands td t s) : ∃ fuel, expandType (fuel + 1) t td = some s := by
  obtain ⟨n, hn⟩ := h
  exact ⟨n, expandType_succ _ _ _ _ hn⟩

theorem expands_udf (td : GoMap TypedefType) (n s : String) :
    Expands td (Ty.UDFType n) s ↔
      match td.get n with
      | some tdf => Expands td tdf.OriginalType s
      | none => s = n := by
  constructor
  · intro h
    obtain ⟨k, hk⟩ := h.of_succ
    rw [expandType_udf] at hk
    cases hg : td.get n with
    | none => rw [hg] at hk; simp at hk ⊢; exact hk.symm
    | some tdf => rw [hg] at hk; exact ⟨k, hk⟩
  · intro h
    cases hg : td.get n with
    | none => rw [hg] at h; refine ⟨1, ?_⟩; rw [expandType_udf, hg]; simp [h]
    | some tdf =>
      rw [hg] at h
      obtain ⟨k, hk⟩ := h
      refine ⟨k + 1, ?_⟩
      rw [expandType_udf, hg]; exact hk

theorem expands_container (td : GoMap TypedefType) (i : Ty) (a : List AnnotationField)
    (c : Comments) (s : String) :
    Expands td (Ty.ContainerType i a c) s ↔ Expands td i s := by
  constructor
  · intro h
    obtain ⟨k, hk⟩ := h.of_succ
    exact ⟨k, hk⟩
  · intro ⟨k, hk⟩
    exact ⟨k + 1, hk⟩

theorem expands_set (td : GoMap TypedefType) (i : Ty) (s : String) :
    Expands td (Ty.SetType i) s ↔ Expands td (Ty.ListType i) s := by
  constructor
  · intro h
    obtain ⟨k, hk⟩ := h.of_succ
    exact ⟨k, hk⟩
  · intro ⟨k, hk⟩
    exact ⟨k + 1, hk⟩

theorem repeated_text (v : String) : _RepeatedKW ++ " " ++ v = "repeated " ++ v := by
  have : _RepeatedKW ++ " " = "repeated " := by decide
  rw [this]

theorem expands_list (td : GoMap TypedefType) (i : Ty) (s : String) :
    Expands td (Ty.ListType i) s ↔
      ∃ v, Expands td i v ∧ s = if v = "" then "" else "repeated " ++ v := by
  constructor
  · intro h
    obtain ⟨k, hk⟩ := h.of_succ
    rw [expandType_list] at hk
    cases hi : expandType k i td with
    | none => rw [hi] at hk; simp at hk
    | some v =>
      rw [hi] at hk
      refine ⟨v, ⟨k, hi⟩, ?_⟩
      by_cases hv : v = ""
      · simp [hv] at hk ⊢; exact hk.symm
      · simp [hv, repeated_text] at hk ⊢; exact hk.symm
  · intro ⟨v, ⟨k, hk⟩, hs⟩
    refine ⟨k + 1, ?_⟩
    rw [expandType_list, hk, hs]
    by_cases hv : v = ""
    · simp [hv]
    · simp [hv, repeated_text]

theorem expands_map (td : GoMap TypedefType) (k v : Ty) (s : String) :
    Expands td (Ty.MapType k v) s ↔
      ∃ ks, Expands td k ks ∧
        if ks = "" then s = ""
        else ∃ vs, Expands td v vs ∧
          s = if vs = "" then "" else "map<" ++ ks ++ ", " ++ vs ++ ">" := by
  constructor
  · intro h
    obtain ⟨n, hn⟩ := h.of_succ
    rw [expandType_map] at hn
    cases hk : expandType n k td with
    | none => rw [hk] at hn; simp at hn
    | some ks =>
      rw [hk] at hn
      refine ⟨ks, ⟨n, hk⟩, ?_⟩
      by_cases hks : ks = ""
      · simp [hks] at hn ⊢; exact hn.symm
      · simp only [ne_eq, hks, not_false_eq_true, if_true, if_false] at hn ⊢
        cases hv : expandType n v td with
        | none => rw [hv] at hn; simp at hn
        | some vs =>
          rw [hv] at hn
          refine ⟨vs, ⟨n, hv⟩, ?_⟩
          by_cases hvs : vs = ""
          · simp [hvs] at hn ⊢; exact hn.symm
          · simp [hvs] at hn ⊢; exact hn.symm
  · intro ⟨ks, ⟨n, hn⟩, h⟩
    by_cases hks : ks = ""
    · simp only [hks, if_true] at h
      refine ⟨n + 1, ?_⟩
      rw [expandType_map, hn]; simp [hks, h]
    · simp only [hks, if_false] at h
      obtain ⟨vs, ⟨m, hm⟩, hs⟩ := h
      refine ⟨max n m + 1, ?_⟩
      rw [expandType_map, expandType_mono hn (Nat.le_max_left n m),
        expandType_mono hm (Nat.le_max_right n m), hs]
      by_cases hvs : vs = ""
      · simp [hks, hvs]
      · simp [hks, hvs]

theorem expands_str (td : GoMap TypedefType) (n s : String) :
    Expands td (Ty.str n) s ↔ s = specBaseTable n := by
  constructor
  · intro h
    obtain ⟨k, hk⟩ := h.of_succ
    rw [expandType_str] at hk
    exact (Option.some.inj hk).symm
  · intro h
    exact ⟨1, by rw [expandType_str, h]⟩

theorem expands_realBase (td : GoMap TypedefType) (n s : String) :
    Expands td (Ty.RealBaseType n) s ↔ s = specBaseTable n := by
  constructor
  · intro h
    obtain ⟨k, hk⟩ := h.of_succ
    rw [expandType_realBase] at hk
    exact (Option.some.inj hk).symm
  · intro h
    exact ⟨1, by rw [expandType_realBase, h]⟩

theorem expands_base (td : GoMap TypedefType) (n : String) (a : List AnnotationField)
    (s : String) :
    Expands td (Ty.BaseType n a) s ↔ s = specBaseTable n := by
  constructor
  · intro h
    obtain ⟨k, hk⟩ := h.of_succ
    rw [expandType_base] at hk
    exact (expands_str [] n s).1 ⟨k, hk⟩
  · intro h
    exact ⟨2, by rw [expandType_base, expandType_str, h]⟩

/-! ## Lemmas on the emitter -/

theorem TrimRightChar_append_singleton (s : String) (c d : Char) (h : d ≠ c) :
    TrimRightChar (s ++ String.singleton d) c = s ++ String.singleton d := by
  apply String.ext
  simp [TrimRightChar, dropTrailing, String.data_append, String.singleton, List.dropWhile, h]

@[simp] theorem NewLine_one_buf (b : IdentBuffer) : (b.NewLine 1).buf = b.buf ++ "\n" := rfl

@[simp] theorem NewLine_newLine (b : IdentBuffer) (n : Int) : (b.NewLine n).newLine = true := rfl

@[simp] theorem NewLine_ident (b : IdentBuffer) (n : Int) : (b.NewLine n).ident = b.ident := rfl

@[simp] theorem WriteString_buf (b : IdentBuffer) (s : String) :
    (b.WriteString s).buf = b.buf ++ indentText b ++ s := by
  unfold IdentBuffer.WriteString IdentBuffer.tab indentText
  cases h : b.newLine <;> simp

@[simp] theorem WriteString_newLine (b : IdentBuffer) (s : String) :
    (b.WriteString s).newLine = false := by
  unfold IdentBuffer.WriteString IdentBuffer.tab
  cases h : b.newLine <;> simp [h]

@[simp] theorem WriteString_ident (b : IdentBuffer) (s : String) :
    (b.WriteString s).ident = b.ident := by
  unfold IdentBuffer.WriteString IdentBuffer.tab
  cases h : b.newLine <;> simp

theorem WriteByte_buf (b : IdentBuffer) (c : Char) (h : c ≠ '\n') :
    (b.WriteByte c).buf = b.buf ++ indentText b ++ String.singleton c := by
  unfold IdentBuffer.WriteByte IdentBuffer.tab indentText
  cases hn : b.newLine <;> simp [h]

theorem WriteByte_newLine (b : IdentBuffer) (c : Char) (h : c ≠ '\n') :
    (b.WriteByte c).newLine = false := by
  unfold IdentBuffer.WriteByte IdentBuffer.tab
  cases hn : b.newLine <;> simp [h, hn]

theorem WriteByte_ident (b : IdentBuffer) (c : Char) :
    (b.WriteByte c).ident = b.ident := by
  unfold IdentBuffer.WriteByte IdentBuffer.tab IdentBuffer.NewLine
  by_cases h : c = '\n' <;> cases hn : b.newLine <;> simp [h]

@[simp] theorem WriteLine_buf (b : IdentBuffer) (s : String) :
    (b.WriteLine s).buf = b.buf ++ indentText b ++ TrimRightChar s '\n' ++ "\n" := by
  simp [IdentBuffer.WriteLine]

@[simp] theorem WriteLine_newLine (b : IdentBuffer) (s : String) :
    (b.WriteLine s).newLine = true := rfl

@[simp] theorem WriteLine_ident (b : IdentBuffer) (s : String) :
    (b.WriteLine s).ident = b.ident := by
  simp [IdentBuffer.WriteLine]

@[simp] theorem Derive_buf (b : IdentBuffer) (k : Int) : (b.Derive k).buf = b.buf := rfl

@[simp] theorem Derive_newLine (b : IdentBuffer) (k : Int) : (b.Derive k).newLine = true := rfl

@[simp] theorem Derive_ident (b : IdentBuffer) (k : Int) : (b.Derive k).ident = b.ident + k := rfl

@[simp] theorem sync_buf (p c : IdentBuffer) : (p.sync c).buf = c.buf := rfl

@[simp] theorem sync_newLine (p c : IdentBuffer) : (p.sync c).newLine = p.newLine := rfl

@[simp] theorem sync_ident (p c : IdentBuffer) : (p.sync c).ident = p.ident := rfl

@[simp] theorem indentText_of_newLine (b : IdentBuffer) (h : b.newLine = true) :
    indentText b = repeatChar '\t' b.ident := by
  simp [indentText, h]

@[simp] theorem indentText_of_not_newLine (b : IdentBuffer) (h : b.newLine = false) :
    indentText b = "" := by
  simp [indentText, h]

/-- What `writeLeadingComment` leaves: the leading text is in the buffer once the
indentation of the next line is added. -/
theorem writeLeadingComment_buf (b : IdentBuffer) (c : Comments) :
    (writeLeadingComment b c).buf ++ indentText (writeLeadingComment b c) =
      b.buf ++ leadingText b c ∧ (writeLeadingComment b c).ident = b.ident := by
  unfold writeLeadingComment leadingText
  by_cases h1 : c.MultiLine = ""
  · by_cases h2 : c.SingleLine = ""
    · simp [h1, h2]
    · simp [h1, h2, String.append_assoc]
  · simp [h1, String.append_assoc]

theorem writeTrailingComment_buf (lib : GoLib) (b : IdentBuffer) (c : Comments)
    (a : List AnnotationField) (h : b.newLine = false) :
    (writeTrailingComment lib b c a).buf = b.buf ++ trailingCommentText lib c a ∧
    (writeTrailingComment lib b c a).ident = b.ident := by
  unfold writeTrailingComment trailingCommentText
  by_cases h1 : c.SingleLine = ""
  · by_cases h2 : GetAnnotationString a "desc" = ""
    · by_cases h3 : c.MultiLine = ""
      · simp [h1, h2, h3]
      · simp [h1, h2, h3, h, String.append_assoc]
    · cases hu : lib.Unquote (GetAnnotationString a "desc") with
      | none => simp [h1, h2, hu]
      | some v => simp [h1, h2, hu, h, String.append_assoc]
  · simp [h1, h]

/-! ## Lemmas on struct emission -/

theorem space_ne_newline : (' ' : Char) ≠ '\n' := by decide

theorem singleton_space : String.singleton ' ' = " " := rfl

theorem optional_space (x : String) : "optional" ++ (" " ++ x) = "optional " ++ x := by
  rw [← String.append_assoc]; rfl

theorem bracket_json (x : String) : " [" ++ ("json_name = " ++ x) = " [json_name = " ++ x := by
  rw [← String.append_assoc]; rfl

/-- The loop body of `StructType.Gen`, when it succeeds, appends one field line. -/
theorem genField_ok (lib : GoLib) (fuel : Nat) (name : String) (td : GoMap TypedefType)
    (opt : CodeGenOpt) (b : IdentBuffer) (f : StructField) (out : IdentBuffer)
    (hb : b.newLine = true)
    (h : StructType.genField lib fuel name td opt b f = some (Except.ok out)) :
    ∃ tn, expandType fuel f.Typ td = some tn ∧ tn ≠ "" ∧
      checkValidOption lib f.Annotations = none ∧
      out.buf = b.buf ++ fieldLineText lib b.ident (writesOptional opt f.FieldReq tn) tn f := by
  unfold StructType.genField at h
  cases he : expandType fuel f.Typ td with
  | none => rw [he] at h; simp at h
  | some tn =>
    rw [he] at h
    simp only at h
    by_cases htn : tn = ""
    · simp [htn] at h
    · simp only [htn, if_false] at h
      cases hc : checkValidOption lib f.Annotations with
      | some e => rw [hc] at h; simp at h
      | none =>
        rw [hc] at h
        simp only [Option.some.injEq, Except.ok.injEq] at h
        refine ⟨tn, rfl, htn, rfl, ?_⟩
        subst h
        unfold fieldLineText fieldOptionText
        by_cases hw : writesOptional opt f.FieldReq tn = true <;>
        by_cases ho : hasOptionBlock f.Annotations = true <;>
        by_cases hj : GetAnnotationString f.Annotations "json" = "" <;>
        simp [hw, ho, hj, hb, WriteByte_buf, WriteByte_newLine, space_ne_newline,
          writeTrailingComment_buf, String.append_assoc, singleton_space, optional_space,
          bracket_json]

theorem TrimRightChar_open_brace (x : String) :
    TrimRightChar (x ++ " \x7b") '\n' = x ++ " \x7b" := by
  have h : (" \x7b" : String) = " " ++ String.singleton (Char.ofNat 123) := by decide
  rw [h, ← String.append_assoc]
  exact TrimRightChar_append_singleton _ _ _ (by decide)

theorem TrimRightChar_close_brace : TrimRightChar "\x7d" '\n' = "\x7d" := by decide

/-- The loop of `StructType.Gen`, when it succeeds, appends the field lines in the
order of the list, and every field expanded to a non-empty type text. -/
theorem genFields_ok (lib : GoLib) (fuel : Nat) (name : String) (td : GoMap TypedefType)
    (opt : CodeGenOpt) (fields : List StructField) :
    ∀ (buf out : IdentBuffer),
      StructType.genFields lib fuel name td opt buf fields = some (Except.ok out) →
      out.buf = buf.buf ++ concatText (fields.map fun f =>
        fieldLineText lib (buf.ident + 1)
          (writesOptional opt f.FieldReq (expandedText fuel td f.Typ))
          (expandedText fuel td f.Typ) f) ∧
      out.ident = buf.ident ∧ out.newLine = buf.newLine ∧
      ∀ f ∈ fields, expandType fuel f.Typ td = some (expandedText fuel td f.Typ) ∧
        expandedText fuel td f.Typ ≠ "" ∧ checkValidOption lib f.Annotations = none := by
  induction fields with
  | nil =>
    intro buf out h
    simp only [StructType.genFields, Option.some.injEq, Except.ok.injEq] at h
    subst h
    simp [concatText]
  | cons f rest ih =>
    intro buf out h
    rw [StructType.genFields] at h
    cases hg : StructType.genField lib fuel name td opt (buf.Derive 1) f with
    | none => rw [hg] at h; simp at h
    | some r =>
      cases r with
      | error e => rw [hg] at h; simp at h
      | ok b =>
        rw [hg] at h
        simp only at h
        obtain ⟨tn, he, htn, hc, hbuf⟩ := genField_ok lib fuel name td opt _ f b rfl hg
        obtain ⟨h1, h2, h3, h4⟩ := ih _ _ h
        have hx : expandedText fuel td f.Typ = tn := by simp [expandedText, he]
        refine ⟨?_, ?_, ?_, ?_⟩
        · rw [h1]
          simp [concatText, hbuf, hx, String.append_assoc]
        · simpa using h2
        · simpa using h3
        · intro g hgm
          rcases List.mem_cons.1 hgm with rfl | hmem
          · rw [hx]; exact ⟨he, htn, hc⟩
          · exact h4 g hmem

/-- The text that a successful `StructType.Gen` appends to the buffer. -/
theorem StructType_Gen_ok (lib : GoLib) (fuel : Nat) (st : StructType) (buf : IdentBuffer)
    (td : GoMap TypedefType) (opt : CodeGenOpt) (out : IdentBuffer)
    (h : StructType.Gen lib fuel st buf td opt = some (Except.ok out)) :
    out.buf = buf.buf ++ leadingText buf st.toComments ++ "message " ++ st.Name ++ " \x7b\n" ++
        concatText (st.FieldType.map fun f =>
          fieldLineText lib (buf.ident + 1)
            (writesOptional opt f.FieldReq (expandedText fuel td f.Typ))
            (expandedText fuel td f.Typ) f) ++
        repeatChar '\t' buf.ident ++ "\x7d\n" ∧
      ∀ f ∈ st.FieldType, expandType fuel f.Typ td = some (expandedText fuel td f.Typ) ∧
        expandedText fuel td f.Typ ≠ "" ∧ checkValidOption lib f.Annotations = none := by
  unfold StructType.Gen at h
  simp only at h
  cases hg : StructType.genFields lib fuel st.Name td opt
      ((writeLeadingComment buf st.toComments).WriteLine ("message" ++ " " ++ st.Name ++ " \x7b"))
      st.FieldType with
  | none => rw [hg] at h; simp at h
  | some r =>
    cases r with
    | error e => rw [hg] at h; simp at h
    | ok b =>
      rw [hg] at h
      simp only [Option.some.injEq, Except.ok.injEq] at h
      obtain ⟨h1, h2, h3, h4⟩ := genFields_ok lib fuel st.Name td opt st.FieldType _ _ hg
      obtain ⟨hl, hli⟩ := writeLeadingComment_buf buf st.toComments
      refine ⟨?_, h4⟩
      subst h
      simp only [WriteLine_buf, h1, WriteLine_ident, hli, TrimRightChar_open_brace,
        TrimRightChar_close_brace, indentText_of_newLine _ h3, h2, WriteLine_newLine] at *
      rw [hl]
      have e1 : ∀ x : String, "message" ++ (" " ++ x) = "message " ++ x :=
        fun x => by rw [← String.append_assoc]; rfl
      have e2 : ∀ x : String, " \x7b" ++ ("\n" ++ x) = " \x7b\n" ++ x :=
        fun x => by rw [← String.append_assoc]; rfl
      have e3 : ("\x7d" : String) ++ "\n" = "\x7d\n" := rfl
      simp only [String.append_assoc, e1, e2, e3]

theorem writesOptional_iff (opt : CodeGenOpt) (req : FieldReq) (tn : String) :
    writesOptional opt req tn = true ↔
      opt.IsProto3WithOptional = true ∧ req = FieldReq_Optional ∧
      ¬ ("repeated".data <+: (TrimSpace tn).data) ∧ ¬ ("map<".data <+: (TrimSpace tn).data) := by
  unfold writesOptional HasPrefix _RepeatedKW
  simp only [Bool.and_eq_true, Bool.not_eq_true', decide_eq_true_eq, and_assoc]
  rw [← Bool.not_eq_true, ← Bool.not_eq_true, List.isPrefixOf_iff_prefix,
    List.isPrefixOf_iff_prefix]

theorem dropTrailing_append_singleton (p : Char → Bool) (l : List Char) (c : Char)
    (h : p c = false) : dropTrailing p (l ++ [c]) = l ++ [c] := by
  simp [dropTrailing, List.dropWhile, h]

theorem map_text_HasPrefix (ks vs : String) :
    HasPrefix (TrimSpace ("map<" ++ ks ++ ", " ++ vs ++ ">")) "map<" = true := by
  have h1 : ("map<" : String).data = ['m', 'a', 'p', '<'] := rfl
  have h2 : (">" : String).data = ['>'] := rfl
  have h3 : isSpace 'm' = false := by decide
  have h4 : isSpace '>' = false := by decide
  have hx : ("map<" ++ ks ++ ", " ++ vs ++ ">").data =
      ('m' :: 'a' :: 'p' :: '<' :: (ks.data ++ ", ".data ++ vs.data)) ++ ['>'] := by
    simp only [String.data_append, h1, h2, List.cons_append, List.nil_append, List.append_assoc]
  have hd : List.dropWhile isSpace
      (('m' :: 'a' :: 'p' :: '<' :: (ks.data ++ ", ".data ++ vs.data)) ++ ['>']) =
      ('m' :: 'a' :: 'p' :: '<' :: (ks.data ++ ", ".data ++ vs.data)) ++ ['>'] := by
    rw [List.cons_append, List.dropWhile_cons_of_neg]
    simp [h3]
  unfold HasPrefix TrimSpace
  rw [hx, hd, dropTrailing_append_singleton _ _ _ h4, h1]
  simp [List.isPrefixOf]

theorem writesOptional_map_text (opt : CodeGenOpt) (req : FieldReq) (ks vs : String) :
    writesOptional opt req ("map<" ++ ks ++ ", " ++ vs ++ ">") = false := by
  unfold writesOptional
  rw [map_text_HasPrefix]
  simp

theorem expandType_map_text (fuel : Nat) (k v : Ty) (td : GoMap TypedefType) (tn : String)
    (h : expandType fuel (Ty.MapType k v) td = some tn) (hne : tn ≠ "") :
    ∃ ks vs, tn = "map<" ++ ks ++ ", " ++ vs ++ ">" := by
  obtain ⟨ks, _, hk⟩ := (expands_map td k v tn).1 ⟨fuel, h⟩
  by_cases hks : ks = ""
  · simp [hks] at hk; exact absurd hk hne
  · simp only [hks, if_false] at hk
    obtain ⟨vs, _, hv⟩ := hk
    by_cases hvs : vs = ""
    · simp [hvs] at hv; exact absurd hv hne
    · simp only [hvs, if_false] at hv
      exact ⟨ks, vs, hv⟩

/-! ## Lemmas on enum emission -/

theorem eq_ne_newline : ('=' : Char) ≠ '\n' := by decide

theorem semi_ne_newline : (';' : Char) ≠ '\n' := by decide

theorem singleton_eq : String.singleton '=' = "=" := rfl

theorem singleton_semi : String.singleton ';' = ";" := rfl

/-- The loop of `EnumType.Gen` appends one line per field, in the order of the
list, with the printed value of each position. -/
theorem enum_genFields_buf (lib : GoLib) (l : List EnumField) :
    ∀ (buf : IdentBuffer) (i : Nat),
      (EnumType.genFields lib buf l i).buf = buf.buf ++ concatText ((l.enumFrom i).map fun p =>
        enumLineText lib (buf.ident + 1) (printedValue p.1 p.2) p.2) ∧
      (EnumType.genFields lib buf l i).ident = buf.ident ∧
      (EnumType.genFields lib buf l i).newLine = buf.newLine := by
  induction l with
  | nil => intro buf i; simp [EnumType.genFields, concatText]
  | cons e rest ih =>
    intro buf i
    rw [EnumType.genFields]
    obtain ⟨h1, h2, h3⟩ := ih (buf.sync
      ((writeTrailingComment lib ((((((buf.Derive 1).WriteString e.Key).WriteByte '=').WriteString
        (Itoa (if e.Value = 0 then (i : Int) else e.Value))).WriteByte ';')) e.toComments
          e.Annotations).NewLine 1)) (i + 1)
    refine ⟨?_, ?_, ?_⟩
    · refine Eq.trans h1 ?_
      have hn : (((((buf.Derive 1).WriteString e.Key).WriteByte '=').WriteString
          (Itoa (if e.Value = 0 then (i : Int) else e.Value))).WriteByte ';').newLine = false :=
        WriteByte_newLine _ _ semi_ne_newline
      obtain ⟨ht, _⟩ := writeTrailingComment_buf lib _ e.toComments e.Annotations hn
      simp [List.enumFrom, concatText, enumLineText, printedValue, ht, WriteByte_buf,
        WriteByte_newLine, eq_ne_newline, semi_ne_newline, singleton_eq, singleton_semi,
        String.append_assoc]
    · exact h2
    · exact h3

/-- The text that `EnumType.Gen` appends to the buffer, and the slice it leaves. -/
theorem EnumType_Gen_ok (lib : GoLib) (e : EnumType) (buf : IdentBuffer) :
    ∃ out, EnumType.Gen lib e buf = Except.ok (out, lib.sortEnum e.Enumerate) ∧
      out.buf = buf.buf ++ leadingText buf e.toComments ++ "enum " ++ e.Name ++ " \x7b\n" ++
        concatText ((lib.sortEnum e.Enumerate).enum.map fun p =>
          enumLineText lib (buf.ident + 1) (printedValue p.1 p.2) p.2) ++
        repeatChar '\t' buf.ident ++ "\x7d\n" := by
  refine ⟨_, rfl, ?_⟩
  obtain ⟨h1, h2, h3⟩ := enum_genFields_buf lib (lib.sortEnum e.Enumerate)
    ((writeLeadingComment buf e.toComments).WriteLine ("enum" ++ " " ++ e.Name ++ " \x7b")) 0
  obtain ⟨hl, hli⟩ := writeLeadingComment_buf buf e.toComments
  have e1 : ∀ x : String, "enum" ++ (" " ++ x) = "enum " ++ x :=
    fun x => by rw [← String.append_assoc]; rfl
  have e2 : ∀ x : String, " \x7b" ++ ("\n" ++ x) = " \x7b\n" ++ x :=
    fun x => by rw [← String.append_assoc]; rfl
  have e3 : ("\x7d" : String) ++ "\n" = "\x7d\n" := rfl
  simp only [WriteLine_newLine] at h3
  simp only [WriteLine_buf, h1, WriteLine_ident, hli, TrimRightChar_open_brace,
    TrimRightChar_close_brace, indentText_of_newLine _ h3, h2, List.enum]
  rw [hl]
  simp only [String.append_assoc, e1, e2, e3]

/-- The example library sorts with a permutation. -/
theorem exampleLib_perm (l : List EnumField) : (exampleLib.sortEnum l).Perm l :=
  List.perm_insertionSort _ l

/-- The example library sorts by ascending value. -/
theorem exampleLib_sorted (l : List EnumField) : (exampleLib.sortEnum l).Sorted valueLE := by
  have ht : IsTotal EnumField (fun a b => a.Value ≤ b.Value) :=
    ⟨fun a b => Int.le_total a.Value b.Value⟩
  have htr : IsTrans EnumField (fun a b => a.Value ≤ b.Value) :=
    ⟨fun a b c hab hbc => Int.le_trans hab hbc⟩
  exact List.sorted_insertionSort (fun a b : EnumField => a.Value ≤ b.Value) l

/-- The invariant under which the values printed from position `i` on are
non-decreasing: no field has value 0, or every positive value is at least `i` plus
the number of fields of value at most 0, less one. -/
theorem printed_sorted_from (s : List EnumField) :
    ∀ (i : Nat), s.Sorted valueLE →
      ((∀ b ∈ s, b.Value ≠ 0) ∨
        (∀ b ∈ s, 0 < b.Value →
          (i : Int) + (s.countP fun g => decide (g.Value ≤ 0) : Nat) ≤ b.Value + 1)) →
      ((s.enumFrom i).map fun p => printedValue p.1 p.2).Sorted (· ≤ ·) := by
  induction s with
  | nil => intro i _ _; simp
  | cons a rest ih =>
    intro i hs hinv
    rw [List.enumFrom_cons, List.map_cons, List.sorted_cons]
    have hrel := List.rel_of_sorted_cons hs
    have hrest := List.Sorted.of_cons hs
    constructor
    · intro v hv
      obtain ⟨⟨j, b⟩, hmem, rfl⟩ := List.mem_map.1 hv
      have hij : i + 1 ≤ j := List.le_fst_of_mem_enumFrom hmem
      have hb : b ∈ rest := List.snd_mem_of_mem_enumFrom hmem
      have hab : a.Value ≤ b.Value := hrel b hb
      simp only [printedValue]
      by_cases ha : a.Value = 0
      · by_cases hb0 : b.Value = 0
        · simp only [ha, hb0, if_true]; omega
        · simp only [ha, hb0, if_true, if_false]
          have hbpos : 0 < b.Value := by omega
          rcases hinv with hno | hcnt
          · exact absurd ha (hno a (List.mem_cons_self _ _))
          · have h1 := hcnt b (List.mem_cons_of_mem _ hb) hbpos
            have h2 : (List.countP (fun g => decide (g.Value ≤ 0)) (a :: rest)) ≥ 1 := by
              rw [List.countP_cons]
              simp [ha]
            omega
      · by_cases hb0 : b.Value = 0
        · simp only [ha, hb0, if_true, if_false]; omega
        · simp only [ha, hb0, if_false]; exact hab
    · apply ih (i + 1) hrest
      by_cases hapos : 0 < a.Value
      · left
        intro b hb
        have := hrel b hb
        unfold valueLE at this
        omega
      · rcases hinv with hno | hcnt
        · left
          intro b hb
          exact hno b (List.mem_cons_of_mem _ hb)
        · right
          intro b hb hbpos
          have h1 := hcnt b (List.mem_cons_of_mem _ hb) hbpos
          rw [List.countP_cons] at h1
          have ha0 : a.Value ≤ 0 := by omega
          simp only [ha0, decide_True, if_true] at h1
          push_cast at h1 ⊢
          omega

/-- The field lines of an enum block, written with the list of printed values. -/
theorem enum_lines_zipWith (F : Int → EnumField → String) (l : List EnumField) :
    ∀ (i : Nat), ((l.enumFrom i).map fun p => F (printedValue p.1 p.2) p.2) =
      List.zipWith F ((l.enumFrom i).map fun p => printedValue p.1 p.2) l := by
  induction l with
  | nil => intro i; rfl
  | cons a rest ih => intro i; simp [List.enumFrom_cons, ih (i + 1)]

/-! ## Lemmas on function emission -/

theorem TrimRightChar_rpc_line (x : String) :
    TrimRightChar (x ++ " ) \x7b") '\n' = x ++ " ) \x7b" := by
  have h : (" ) \x7b" : String) = " )" ++ " \x7b" := by decide
  rw [h, ← String.append_assoc]
  exact TrimRightChar_open_brace _

theorem fail_ne_grpc (a b : String) :
    "fail to expand request param " ++ a ≠ "grpc requires exact one input, function " ++ b := by
  intro h
  have h1 := congrArg (fun s => s.data.head?) h
  simp [String.data_append] at h1

theorem Extends.refl (a : String) : Extends a a := ⟨"", by simp⟩

theorem Extends.trans {a b c : String} (h1 : Extends a b) (h2 : Extends b c) : Extends a c := by
  obtain ⟨t1, rfl⟩ := h1
  obtain ⟨t2, rfl⟩ := h2
  exact ⟨t1 ++ t2, by rw [String.append_assoc]⟩

theorem WriteLine_extends (b : IdentBuffer) (s : String) : Extends b.buf (b.WriteLine s).buf :=
  ⟨indentText b ++ TrimRightChar s '\n' ++ "\n", by
    rw [WriteLine_buf]; simp only [String.append_assoc]⟩

/-- The writes of a `WriteLine` loop only append to the buffer. -/
theorem foldl_WriteLine_extends (g : KVPair → String) (l : List KVPair) :
    ∀ (b : IdentBuffer), Extends b.buf (l.foldl (fun ib o => ib.WriteLine (g o)) b).buf := by
  induction l with
  | nil => intro b; exact Extends.refl _
  | cons o rest ih =>
    intro b
    rw [List.foldl_cons]
    exact (WriteLine_extends b (g o)).trans (ih _)

/-- The method `httpOption` only appends to the buffer. -/
theorem httpOption_extends (lib : GoLib) (f : FunctionType) (b : IdentBuffer) :
    Extends b.buf (f.httpOption lib b).buf := by
  unfold FunctionType.httpOption
  simp only
  have key : ∀ b1 : IdentBuffer, Extends b.buf b1.buf →
      Extends b.buf (if (getHTTPOption f.Annotations).length > 0 then
          ((b1.WriteLine "option (dirpc.method_opt) = \x7b").sync
            ((getHTTPOption f.Annotations).foldl (fun ib o => ib.WriteLine (o.Key ++ ": " ++ o.Val))
              ((b1.WriteLine "option (dirpc.method_opt) = \x7b").Derive 1))).WriteLine "\x7d;"
        else b1).buf := by
    intro b1 h1
    by_cases hl : (getHTTPOption f.Annotations).length > 0
    · rw [if_pos hl]
      refine Extends.trans ?_ (WriteLine_extends _ _)
      rw [sync_buf]
      refine Extends.trans ?_ (foldl_WriteLine_extends _ _ _)
      rw [Derive_buf]
      exact h1.trans (WriteLine_extends _ _)
    · rw [if_neg hl]
      exact h1
  apply key
  by_cases hp : TrimChar (GetAnnotationString f.Annotations "path") quoteChar ≠ "" ∧
      TrimChar (GetAnnotationString f.Annotations "httpMethod") quoteChar ≠ ""
  · rw [if_pos hp]
    refine Extends.trans ?_ (WriteLine_extends _ _)
    rw [sync_buf]
    by_cases hm : lib.ToLower (TrimChar (GetAnnotationString f.Annotations "httpMethod")
        quoteChar) = "post" ∨
        lib.ToLower (TrimChar (GetAnnotationString f.Annotations "httpMethod") quoteChar) = "put"
    · rw [if_pos hm]
      refine Extends.trans ?_ (WriteLine_extends _ _)
      refine Extends.trans ?_ (WriteLine_extends _ _)
      rw [Derive_buf]
      exact WriteLine_extends _ _
    · rw [if_neg hm]
      refine Extends.trans ?_ (WriteLine_extends _ _)
      rw [Derive_buf]
      exact WriteLine_extends _ _
  · rw [if_neg hp]
    exact Extends.refl _

/-! ## Lemmas on `Itoa` -/

theorem digitChar_toNat (d : Nat) (h : d < 10) : (digitChar d).toNat = 48 + d := by
  interval_cases d <;> rfl

theorem digitChar_ne_minus (d : Nat) (h : d < 10) : digitChar d ≠ '-' := by
  interval_cases d <;> decide

theorem digitsValue_append_singleton (l : List Char) (c : Char) :
    digitsValue (l ++ [c]) = digitsValue l * 10 + (c.toNat - 48) := by
  simp [digitsValue, List.foldl_append]

/-- Reading back the digits of `n` gives `n`. -/
theorem digitsValue_natDigits : ∀ (fuel n : Nat), n < fuel →
    digitsValue (natDigits fuel n) = n := by
  intro fuel
  induction fuel with
  | zero => intro n h; omega
  | succ k ih =>
    intro n h
    rw [natDigits]
    by_cases h10 : n < 10
    · simp [h10, digitsValue, digitChar_toNat n h10]
    · simp only [h10, if_false]
      rw [digitsValue_append_singleton, ih (n / 10) (by omega),
        digitChar_toNat (n % 10) (Nat.mod_lt _ (by omega))]
      omega

theorem natDigits_no_minus : ∀ (fuel n : Nat), ∀ c ∈ natDigits fuel n, c ≠ '-' := by
  intro fuel
  induction fuel with
  | zero => intro n c h; simp [natDigits] at h
  | succ k ih =>
    intro n c h
    rw [natDigits] at h
    by_cases h10 : n < 10
    · simp only [h10, if_true, List.mem_singleton] at h
      rw [h]; exact digitChar_ne_minus n h10
    · simp only [h10, if_false, List.mem_append, List.mem_singleton] at h
      rcases h with h | h
      · exact ih _ c h
      · rw [h]; exact digitChar_ne_minus _ (Nat.mod_lt _ (by omega))

/-- Distinct integers are written by `strconv.Itoa` as distinct texts. -/
theorem Itoa_injective : Function.Injective Itoa := by
  intro a b h
  cases a with
  | ofNat n =>
    cases b with
    | ofNat m =>
      have h1 : natDigits (n + 1) n = natDigits (m + 1) m := congrArg String.data h
      have h2 := congrArg digitsValue h1
      rw [digitsValue_natDigits _ _ (Nat.lt_succ_self n),
        digitsValue_natDigits _ _ (Nat.lt_succ_self m)] at h2
      rw [h2]
    | negSucc m =>
      have h1 : natDigits (n + 1) n = '-' :: natDigits (m + 2) (m + 1) := congrArg String.data h
      exact absurd rfl (natDigits_no_minus (n + 1) n '-' (by rw [h1]; exact List.mem_cons_self _ _))
  | negSucc n =>
    cases b with
    | ofNat m =>
      have h1 : '-' :: natDigits (n + 2) (n + 1) = natDigits (m + 1) m := congrArg String.data h
      exact absurd rfl (natDigits_no_minus (m + 1) m '-' (by rw [← h1]; exact List.mem_cons_self _ _))
    | negSucc m =>
      have h1 : '-' :: natDigits (n + 2) (n + 1) = '-' :: natDigits (m + 2) (m + 1) :=
        congrArg String.data h
      have h2 := congrArg digitsValue (List.cons.inj h1).2
      rw [digitsValue_natDigits _ _ (Nat.lt_succ_self _),
        digitsValue_natDigits _ _ (Nat.lt_succ_self _)] at h2
      have : n = m := by omega
      rw [this]

/-! ## Lemmas on the builder -/

theorem swapAt_cons_succ {α : Type} (a : α) (l : List α) (i j : Nat) :
    swapAt (a :: l) (i + 1) (j + 1) = a :: swapAt l i j := by
  unfold swapAt
  simp only [List.getElem?_cons_succ]
  cases l[i]? <;> cases l[j]? <;> simp

theorem getElem?_append_cons_length {α : Type} (m : List α) (y : α) (post : List α) :
    (m ++ y :: post)[m.length]? = some y := by
  induction m with
  | nil => simp
  | cons a m ih => simpa using ih

theorem set_append_cons_length {α : Type} (m : List α) (x y : α) (post : List α) :
    (m ++ y :: post).set m.length x = m ++ x :: post := by
  induction m with
  | nil => rfl
  | cons a m ih => simp [ih]

theorem swapAt_ends {α : Type} (pre m post : List α) (x y : α) :
    swapAt (pre ++ x :: (m ++ y :: post)) pre.length (pre.length + m.length + 1) =
      pre ++ y :: (m ++ x :: post) := by
  induction pre with
  | nil =>
    simp only [List.nil_append, List.length_nil, Nat.zero_add]
    unfold swapAt
    have h0 : (x :: (m ++ y :: post))[0]? = some x := by simp
    have h1 : (x :: (m ++ y :: post))[m.length + 1]? = some y := by
      rw [List.getElem?_cons_succ]; exact getElem?_append_cons_length m y post
    rw [h0, h1]
    simp only [List.set_cons_zero, List.set_cons_succ, set_append_cons_length]
  | cons a pre ih =>
    have h : (a :: pre).length + m.length + 1 = (pre.length + m.length + 1) + 1 := by
      simp; omega
    rw [h, List.length_cons, List.cons_append, swapAt_cons_succ, ih]
    rfl

/-- The two-index loop reverses the part of the slice between the indices. -/
theorem reverseLoop_mid {α : Type} :
    ∀ (fuel : Nat) (pre mid post : List α), mid.length ≤ fuel →
      reverseLoop fuel (pre ++ mid ++ post) pre.length (pre.length + mid.length - 1) =
        pre ++ mid.reverse ++ post := by
  intro fuel
  induction fuel with
  | zero =>
    intro pre mid post h
    have : mid = [] := List.eq_nil_of_length_eq_zero (by omega)
    subst this
    simp [reverseLoop]
  | succ n ih =>
    intro pre mid post h
    cases mid with
    | nil => simp [reverseLoop]
    | cons x tl =>
      rcases List.eq_nil_or_concat tl with rfl | ⟨m, y, rfl⟩
      · simp [reverseLoop]
      · simp only [List.concat_eq_append] at h ⊢
        rw [reverseLoop]
        have hlt : pre.length < pre.length + (x :: (m ++ [y])).length - 1 := by
          simp
        rw [if_pos hlt]
        have harr : pre ++ x :: (m ++ [y]) ++ post = pre ++ x :: (m ++ y :: post) := by simp
        have hidx : pre.length + (x :: (m ++ [y])).length - 1 = pre.length + m.length + 1 := by
          simp only [List.length_append, List.length_cons, List.length_nil]; omega
        rw [harr, hidx, swapAt_ends]
        have h2 := ih (pre ++ [y]) m (x :: post) (by simp at h; omega)
        have e1 : pre ++ [y] ++ m ++ x :: post = pre ++ y :: (m ++ x :: post) := by simp
        have e2 : (pre ++ [y]).length = pre.length + 1 := by simp
        have e3 : (pre ++ [y]).length + m.length - 1 = pre.length + m.length + 1 - 1 := by
          simp only [List.length_append, List.length_cons, List.length_nil]; omega
        rw [e1, e3, e2] at h2
        rw [h2]
        simp

/-- The in-place reversal of the builder returns the reversed list. -/
theorem reverseInPlace_eq {α : Type} (l : List α) : reverseInPlace l = l.reverse := by
  have h := reverseLoop_mid l.length [] l [] (Nat.le_refl _)
  simpa [reverseInPlace] using h

/-- The field ids of the values on the field stack, top first. -/
theorem popStructFields_ok (name : String) (stack : List (Option StructField)) :
    ∀ (used : List Int) (acc r : List StructField),
      popStructFields name stack used acc = Except.ok r →
      r = acc ++ stack.map (fun v => v.getD {}) ∧
      (stack.map fun v => (v.getD {}).FieldID).Nodup ∧
      ∀ v ∈ stack, (v.getD {}).FieldID ∉ used := by
  induction stack with
  | nil =>
    intro used acc r h
    simp only [popStructFields, Except.ok.injEq] at h
    simp [h]
  | cons v rest ih =>
    intro used acc r h
    rw [popStructFields] at h
    by_cases hin : (v.getD {}).FieldID ∈ used
    · simp [hin] at h
    · simp only [hin, if_false] at h
      obtain ⟨h1, h2, h3⟩ := ih _ _ _ h
      refine ⟨by simp [h1], ?_, ?_⟩
      · rw [List.map_cons, List.nodup_cons]
        refine ⟨?_, h2⟩
        intro hmem
        obtain ⟨w, hw, hweq⟩ := List.mem_map.1 hmem
        exact h3 w hw (by rw [hweq]; exact List.mem_cons_self _ _)
      · intro w hw
        rcases List.mem_cons.1 hw with rfl | hw'
        · exact hin
        · intro hu
          exact h3 w hw' (List.mem_cons_of_mem _ hu)

theorem popStructFields_error (name : String) (stack : List (Option StructField)) :
    ∀ (used : List Int) (acc : List StructField) (msg : String),
      popStructFields name stack used acc = Except.error msg →
      ∃ N, msg = "field id : " ++ Itoa N ++ " duplicated in struct " ++ name ∧
        N ∈ (stack.map fun v => (v.getD {}).FieldID) ∧
        (N ∈ used ∨ 2 ≤ (stack.map fun v => (v.getD {}).FieldID).count N) := by
  induction stack with
  | nil => intro used acc msg h; simp [popStructFields] at h
  | cons v rest ih =>
    intro used acc msg h
    rw [popStructFields] at h
    by_cases hin : (v.getD {}).FieldID ∈ used
    · simp only [hin, if_true, Except.error.injEq] at h
      exact ⟨_, h.symm, by simp, Or.inl hin⟩
    · simp only [hin, if_false] at h
      obtain ⟨N, hmsg, hmem, hor⟩ := ih _ _ _ h
      refine ⟨N, hmsg, List.mem_cons_of_mem _ hmem, ?_⟩
      rw [List.map_cons, List.count_cons]
      rcases hor with hu | hc
      · rcases List.mem_cons.1 hu with rfl | hu'
        · right
          have : 1 ≤ List.count (v.getD {}).FieldID
              (rest.map fun v => (v.getD {}).FieldID) := List.count_pos_iff.2 hmem
          simp only [beq_self_eq_true, if_true]
          omega
        · exact Or.inl hu'
      · right; omega

theorem GoMap.get_set_self {V : Type} (m : GoMap V) (k : String) (v : V) :
    (m.set k v).get k = some v := by
  induction m with
  | nil => simp [GoMap.set, GoMap.get]
  | cons p rest ih =>
    obtain ⟨k', v'⟩ := p
    by_cases h : k' = k
    · simp [GoMap.set, GoMap.get, h]
    · simp [GoMap.set, GoMap.get, h, ih]

theorem pendingIds_eq (tl : ThriftListener) :
    pendingIds tl = (tl.fieldsStack.map fun v => (v.getD {}).FieldID).reverse := by
  simp [pendingIds, pendingFields, List.map_reverse]

/-- What `ExitStruct_def` does, by whether the pending field ids are distinct. -/
theorem ExitStruct_def_spec (tl : ThriftListener) (ctx : StructDefCtx) :
    ((∃ msg, tl.ExitStruct_def ctx = Except.error msg) ↔ ¬ (pendingIds tl).Nodup) ∧
    (∀ msg, tl.ExitStruct_def ctx = Except.error msg →
      ∃ N, 2 ≤ (pendingIds tl).count N ∧
        msg = "field id : " ++ Itoa N ++ " duplicated in struct " ++ ctx.IDENTIFIER) ∧
    ((pendingIds tl).Nodup →
      ∃ tl', tl.ExitStruct_def ctx = Except.ok tl' ∧
        tl'.structDefs.get ctx.IDENTIFIER =
          some { Name := ctx.IDENTIFIER, SequenceNum := tl.structDefs.length,
                 FieldType := pendingFields tl, Annotations := tl.annotationStack.reverse,
                 toComments := ctx.comments } ∧
        tl'.fieldsStack = [] ∧ tl'.annotationStack = []) := by
  have hids := pendingIds_eq tl
  cases hpop : popStructFields ctx.IDENTIFIER tl.fieldsStack [] [] with
  | error e =>
    have hexit : tl.ExitStruct_def ctx = Except.error e := by
      simp [ThriftListener.ExitStruct_def, hpop]
    obtain ⟨N, hmsg, _, hor⟩ := popStructFields_error _ _ _ _ _ hpop
    have hcount : 2 ≤ (pendingIds tl).count N := by
      rw [hids, List.count_reverse]
      rcases hor with h | h
      · simp at h
      · exact h
    have hnd : ¬ (pendingIds tl).Nodup := by
      intro h
      have := List.nodup_iff_count_le_one.1 h N
      omega
    refine ⟨⟨fun _ => hnd, fun _ => ⟨e, hexit⟩⟩, ?_, fun h => absurd h hnd⟩
    intro msg hm
    rw [hexit] at hm
    injection hm with hm
    exact ⟨N, hcount, by rw [← hm, hmsg]⟩
  | ok r =>
    obtain ⟨hr, hnodup, _⟩ := popStructFields_ok _ _ _ _ _ hpop
    have hnd : (pendingIds tl).Nodup := by
      rw [hids]; exact List.nodup_reverse.2 hnodup
    have hexit : ∃ tl', tl.ExitStruct_def ctx = Except.ok tl' ∧
        tl'.structDefs.get ctx.IDENTIFIER =
          some { Name := ctx.IDENTIFIER, SequenceNum := tl.structDefs.length,
                 FieldType := pendingFields tl, Annotations := tl.annotationStack.reverse,
                 toComments := ctx.comments } ∧
        tl'.fieldsStack = [] ∧ tl'.annotationStack = [] := by
      refine ⟨{ tl with
          fieldsStack := []
          annotationStack := []
          structDefs := tl.structDefs.set ctx.IDENTIFIER
            { Name := ctx.IDENTIFIER, SequenceNum := tl.structDefs.length,
              FieldType := reverseInPlace r,
              Annotations := reverseInPlace tl.annotationStack,
              toComments := ctx.comments } }, ?_, ?_, rfl, rfl⟩
      · simp only [ThriftListener.ExitStruct_def, hpop]
        rfl
      · simp only [GoMap.get_set_self, reverseInPlace_eq, hr, pendingFields, List.nil_append]
    have hexit2 := hexit
    obtain ⟨tl', hok, _⟩ := hexit2
    refine ⟨⟨fun ⟨msg, hm⟩ => ?_, fun h => absurd hnd h⟩, ?_, fun _ => hexit⟩
    · rw [hok] at hm; cases hm
    · intro msg hm
      rw [hok] at hm; cases hm

/-! ## Lemmas on annotation validation -/

/-- The loop of `checkValidOption` from any error value on: the result is an error
exactly when the start value is one or the rest holds an offending annotation; the
result ends with the start message and holds the quoted key of every offending
annotation of the rest. -/
theorem checkValidOption_loop (lib : GoLib) (l : List AnnotationField) :
    ∀ (err : Option String),
      let r := l.foldl
        (fun err a =>
          if a.Key ≠ "desc" ∧ a.Key ≠ "json" then
            match err with
            | none => some ("invalid field annotation " ++ lib.Quote a.Key)
            | some e => some ("invalid field annotation " ++ lib.Quote a.Key ++ ", " ++ e)
          else err)
        err
      (r.isSome = true ↔ err.isSome = true ∨ ∃ a ∈ l, a.Key ≠ "desc" ∧ a.Key ≠ "json") ∧
      ∀ msg, r = some msg →
        (∀ e, err = some e → ∃ pre, msg = pre ++ e) ∧
        ∀ a ∈ l, a.Key ≠ "desc" → a.Key ≠ "json" →
          ∃ pre post, msg = pre ++ lib.Quote a.Key ++ post := by
  induction l with
  | nil =>
    intro err
    simp only [List.foldl_nil, List.not_mem_nil, false_and, exists_false, or_false, true_and]
    intro msg h
    refine ⟨fun e he => ⟨"", ?_⟩, fun a ha => False.elim ha⟩
    rw [h] at he
    rw [Option.some.inj he]; simp
  | cons a rest ih =>
    intro err
    simp only [List.foldl_cons]
    by_cases hbad : a.Key ≠ "desc" ∧ a.Key ≠ "json"
    · rw [if_pos hbad]
      cases err with
      | none =>
        obtain ⟨h1, h2⟩ := ih (some ("invalid field annotation " ++ lib.Quote a.Key))
        refine ⟨?_, ?_⟩
        · constructor
          · intro _; right; exact ⟨a, List.mem_cons_self _ _, hbad⟩
          · intro _; exact h1.2 (Or.inl rfl)
        · intro msg hmsg
          obtain ⟨h3, h4⟩ := h2 msg hmsg
          refine ⟨fun e he => (by cases he), ?_⟩
          intro b hb hb1 hb2
          rcases List.mem_cons.1 hb with rfl | hb'
          · obtain ⟨pre, hpre⟩ := h3 _ rfl
            exact ⟨pre ++ "invalid field annotation ", "", by
              rw [hpre]; simp only [String.append_assoc, String.append_empty]⟩
          · exact h4 b hb' hb1 hb2
      | some e0 =>
        obtain ⟨h1, h2⟩ := ih (some ("invalid field annotation " ++ lib.Quote a.Key ++ ", " ++ e0))
        refine ⟨?_, ?_⟩
        · constructor
          · intro _; left; rfl
          · intro _; exact h1.2 (Or.inl rfl)
        · intro msg hmsg
          obtain ⟨h3, h4⟩ := h2 msg hmsg
          obtain ⟨pre, hpre⟩ := h3 _ rfl
          refine ⟨fun e he => ?_, ?_⟩
          · rw [← Option.some.inj he]
            exact ⟨pre ++ "invalid field annotation " ++ lib.Quote a.Key ++ ", ", by
              rw [hpre]; simp only [String.append_assoc]⟩
          · intro b hb hb1 hb2
            rcases List.mem_cons.1 hb with rfl | hb'
            · exact ⟨pre ++ "invalid field annotation ", ", " ++ e0, by
                rw [hpre]; simp only [String.append_assoc]⟩
            · exact h4 b hb' hb1 hb2
    · rw [if_neg hbad]
      obtain ⟨h1, h2⟩ := ih err
      refine ⟨?_, ?_⟩
      · rw [h1]
        constructor
        · rintro (h | ⟨b, hb, hbb⟩)
          · exact Or.inl h
          · exact Or.inr ⟨b, List.mem_cons_of_mem _ hb, hbb⟩
        · rintro (h | ⟨b, hb, hbb⟩)
          · exact Or.inl h
          · rcases List.mem_cons.1 hb with rfl | hb'
            · exact absurd hbb hbad
            · exact Or.inr ⟨b, hb', hbb⟩
      · intro msg hmsg
        obtain ⟨h3, h4⟩ := h2 msg hmsg
        refine ⟨h3, ?_⟩
        intro b hb hb1 hb2
        rcases List.mem_cons.1 hb with rfl | hb'
        · exact absurd ⟨hb1, hb2⟩ hbad
        · exact h4 b hb' hb1 hb2

/-! ## Lemmas on `httpOption` -/

theorem TrimRightChar_quote_end (x : String) :
    TrimRightChar (x ++ String.singleton quoteChar) '\n' = x ++ String.singleton quoteChar :=
  TrimRightChar_append_singleton x '\n' quoteChar (by decide)

theorem TrimRightChar_google_open :
    TrimRightChar "option (google.api.http) = \x7b" '\n' = "option (google.api.http) = \x7b" := by
  decide

theorem TrimRightChar_method_open :
    TrimRightChar "option (dirpc.method_opt) = \x7b" '\n' =
      "option (dirpc.method_opt) = \x7b" := by
  decide

theorem TrimRightChar_block_close : TrimRightChar "\x7d;" '\n' = "\x7d;" := by decide

/-- A `WriteLine` loop on an emitter that stands at the start of a line. -/
theorem foldl_WriteLine_buf (g : KVPair → String) (l : List KVPair) :
    ∀ (b : IdentBuffer), b.newLine = true →
      (l.foldl (fun ib o => ib.WriteLine (g o)) b).buf =
        b.buf ++ concatText (l.map fun o =>
          repeatChar '\t' b.ident ++ TrimRightChar (g o) '\n' ++ "\n") := by
  induction l with
  | nil => intro b _; simp [concatText]
  | cons o rest ih =>
    intro b hb
    rw [List.foldl_cons, ih (b.WriteLine (g o)) rfl]
    simp [concatText, hb, String.append_assoc]

/-- The `dirpc.method_opt` part of `httpOption`, on an emitter `b1`. -/
theorem methodOpt_buf (opts : List KVPair) (b1 : IdentBuffer) :
    (if opts.length > 0 then
        ((b1.WriteLine "option (dirpc.method_opt) = \x7b").sync
          (opts.foldl (fun ib o => ib.WriteLine (o.Key ++ ": " ++ o.Val))
            ((b1.WriteLine "option (dirpc.method_opt) = \x7b").Derive 1))).WriteLine "\x7d;"
      else b1).buf = b1.buf ++ methodOptText opts b1.ident (indentText b1) := by
  unfold methodOptText
  by_cases hl : opts.length > 0
  · rw [if_pos hl, if_pos hl]
    have e1 : ∀ x : String, "option (dirpc.method_opt) = \x7b" ++ ("\n" ++ x) =
        "option (dirpc.method_opt) = \x7b\n" ++ x :=
      fun x => by rw [← String.append_assoc]; rfl
    have e2 : ("\x7d;" : String) ++ "\n" = "\x7d;\n" := rfl
    simp only [WriteLine_buf, sync_buf, foldl_WriteLine_buf _ _ _ (Derive_newLine _ _),
      Derive_buf, Derive_ident, WriteLine_ident, sync_newLine, sync_ident, WriteLine_newLine,
      indentText_of_newLine, TrimRightChar_method_open, TrimRightChar_block_close,
      String.append_assoc, e1, e2]
  · rw [if_neg hl, if_neg hl]; simp

/-- The text that `httpOption` appends to the buffer. -/
theorem httpOption_buf (lib : GoLib) (f : FunctionType) (b : IdentBuffer) :
    (f.httpOption lib b).buf = b.buf ++ googleHttpText lib f b ++
      methodOptText (getHTTPOption f.Annotations) b.ident (afterGoogleIndent f b) := by
  unfold FunctionType.httpOption
  simp only
  rw [methodOpt_buf]
  unfold googleHttpText afterGoogleIndent GetAnnotationTrimString
  by_cases hp : TrimChar (GetAnnotationString f.Annotations "path") quoteChar ≠ "" ∧
      TrimChar (GetAnnotationString f.Annotations "httpMethod") quoteChar ≠ ""
  · rw [if_pos hp, if_pos hp, if_pos hp]
    have q1 : (": \x22" : String) = ": " ++ String.singleton quoteChar := by decide
    have q2 : ("\x22\n" : String) = String.singleton quoteChar ++ "\n" := by decide
    have q3 : ("body: \x22*\x22\n" : String) =
        "body: " ++ String.singleton quoteChar ++ "*" ++ String.singleton quoteChar ++ "\n" := by
      decide
    have e1 : ("option (google.api.http) = \x7b\n" : String) =
        "option (google.api.http) = \x7b" ++ "\n" := by decide
    have e2 : ("\x7d;\n" : String) = "\x7d;" ++ "\n" := by decide
    rw [q1, q2, q3, e1, e2]
    by_cases hm : lib.ToLower (TrimChar (GetAnnotationString f.Annotations "httpMethod")
        quoteChar) = "post" ∨
        lib.ToLower (TrimChar (GetAnnotationString f.Annotations "httpMethod") quoteChar) = "put"
    · rw [if_pos hm, if_pos hm]
      have t1 := TrimRightChar_quote_end (lib.ToLower (TrimChar (GetAnnotationString
        f.Annotations "httpMethod") quoteChar) ++ ": " ++ String.singleton quoteChar ++
        TrimChar (GetAnnotationString f.Annotations "path") quoteChar)
      have t2 := TrimRightChar_quote_end ("body: " ++ String.singleton quoteChar ++ "*")
      simp only [WriteLine_buf, sync_buf, Derive_buf, Derive_ident, WriteLine_ident,
        sync_newLine, sync_ident, WriteLine_newLine, Derive_newLine, indentText_of_newLine,
        TrimRightChar_google_open, TrimRightChar_block_close, t1, t2]
      simp only [String.append_assoc]
    · rw [if_neg hm, if_neg hm]
      have t1 := TrimRightChar_quote_end (lib.ToLower (TrimChar (GetAnnotationString
        f.Annotations "httpMethod") quoteChar) ++ ": " ++ String.singleton quoteChar ++
        TrimChar (GetAnnotationString f.Annotations "path") quoteChar)
      simp only [WriteLine_buf, sync_buf, Derive_buf, Derive_ident, WriteLine_ident,
        sync_newLine, sync_ident, WriteLine_newLine, Derive_newLine, indentText_of_newLine,
        TrimRightChar_google_open, TrimRightChar_block_close, t1]
      simp only [String.append_assoc, String.empty_append]
  · rw [if_neg hp, if_neg hp, if_neg hp]
    simp

/-! ## Lemmas on `getHTTPOption` -/

theorem mem_timeoutOption (ants : List AnnotationField) (key : String) (kv : KVPair) :
    kv ∈ timeoutOption ants key ↔
      kv.Key = key ∧ kv.Val = timeoutText ants key ∧ kv.Val ≠ "" ∧ (Atoi kv.Val).2 = true := by
  unfold timeoutOption timeoutText
  simp only
  by_cases h1 : TrimChar (UnwrapOrString ( GetAnnotation ants key) "") quoteChar = ""
  · simp only [h1, ne_eq, not_true_eq_false, if_false, List.not_mem_nil, false_iff]
    intro ⟨_, h2, h3, _⟩
    exact h3 h2
  · by_cases h2 : (Atoi (TrimChar (UnwrapOrString ( GetAnnotation ants key) "") quoteChar)).2 = true
    · simp only [ne_eq, h1, not_false_eq_true, if_true, h2, List.mem_singleton]
      constructor
      · intro h; subst h; exact ⟨rfl, rfl, h1, h2⟩
      · intro ⟨h3, h4, _, _⟩
        cases kv
        simp only at h3 h4
        rw [h3, h4]
    · have h2' : (Atoi (TrimChar (UnwrapOrString ( GetAnnotation ants key) "") quoteChar)).2 =
          false := by simpa using h2
      simp only [ne_eq, h1, not_false_eq_true, if_true, h2', Bool.false_eq_true, if_false,
        List.not_mem_nil, false_iff]
      intro ⟨_, h4, _, h5⟩
      rw [h4] at h5
      exact h2 h5

theorem timeoutOption_keys (ants : List AnnotationField) (key : String) :
    ((timeoutOption ants key).map fun o => o.Key).Sublist [key] := by
  unfold timeoutOption
  simp only
  split_ifs <;> simp

theorem mem_getHTTPOption (ants : List AnnotationField) (kv : KVPair) :
    kv ∈ getHTTPOption ants ↔
      ((kv.Key = "timeoutMsec" ∨ kv.Key = "connectTimeoutMsec" ∨ kv.Key = "sendTimeoutMsec" ∨
          kv.Key = "recvTimeoutMsec") ∧
        kv.Val = timeoutText ants kv.Key ∧ kv.Val ≠ "" ∧ (Atoi kv.Val).2 = true) ∨
      (kv.Key = "contentType" ∧ kv.Val = GetAnnotationString ants "contentType" ∧
        kv.Val ≠ "") := by
  unfold getHTTPOption
  simp only [List.mem_append, mem_timeoutOption]
  have hc : kv ∈ (if UnwrapOrString ( GetAnnotation ants "contentType") "" ≠ "" then
        [({ Key := "contentType", Val := UnwrapOrString ( GetAnnotation ants "contentType") "" }
          : KVPair)]
      else []) ↔
      (kv.Key = "contentType" ∧ kv.Val = GetAnnotationString ants "contentType" ∧
        kv.Val ≠ "") := by
    unfold GetAnnotationString
    by_cases h : UnwrapOrString ( GetAnnotation ants "contentType") "" = ""
    · simp only [h, ne_eq, not_true_eq_false, if_false, List.not_mem_nil, false_iff]
      intro ⟨_, h2, h3⟩
      exact h3 h2
    · simp only [ne_eq, h, not_false_eq_true, if_true, List.mem_singleton]
      constructor
      · intro hk; subst hk; exact ⟨rfl, rfl, h⟩
      · intro ⟨h3, h4, _⟩
        cases kv
        simp only at h3 h4
        rw [h3, h4]
  rw [hc]
  constructor
  · rintro ((((h | h) | h) | h) | h)
    · exact Or.inl ⟨Or.inl h.1, by rw [h.1]; exact h.2⟩
    · exact Or.inl ⟨Or.inr (Or.inl h.1), by rw [h.1]; exact h.2⟩
    · exact Or.inl ⟨Or.inr (Or.inr (Or.inl h.1)), by rw [h.1]; exact h.2⟩
    · exact Or.inl ⟨Or.inr (Or.inr (Or.inr h.1)), by rw [h.1]; exact h.2⟩
    · exact Or.inr h
  · rintro (⟨h | h | h | h, h2⟩ | h)
    · exact Or.inl (Or.inl (Or.inl (Or.inl ⟨h, by rw [h] at h2; exact h2⟩)))
    · exact Or.inl (Or.inl (Or.inl (Or.inr ⟨h, by rw [h] at h2; exact h2⟩)))
    · exact Or.inl (Or.inl (Or.inr ⟨h, by rw [h] at h2; exact h2⟩))
    · exact Or.inl (Or.inr ⟨h, by rw [h] at h2; exact h2⟩)
    · exact Or.inr h

theorem getHTTPOption_keys (ants : List AnnotationField) :
    ((getHTTPOption ants).map fun o => o.Key).Sublist httpOptionKeys := by
  unfold getHTTPOption httpOptionKeys
  simp only [List.map_append]
  have h5 : ((if UnwrapOrString ( GetAnnotation ants "contentType") "" ≠ "" then
        [({ Key := "contentType", Val := UnwrapOrString ( GetAnnotation ants "contentType") "" }
          : KVPair)]
      else []).map fun o => o.Key).Sublist ["contentType"] := by
    split_ifs <;> simp
  exact ((((timeoutOption_keys ants "timeoutMsec").append
    (timeoutOption_keys ants "connectTimeoutMsec")).append
    (timeoutOption_keys ants "sendTimeoutMsec")).append
    (timeoutOption_keys ants "recvTimeoutMsec")).append h5

/-! ## Lemmas on the ordering by sequence number -/

/-- The placing loop, when all indices are in range and distinct, puts every value
at its index and leaves the other places as they were. -/
theorem placeBySeq_places {α : Type} (seq : α → Int) (rest : List α) :
    ∀ (sorted : List α),
      (∀ d ∈ rest, 0 ≤ seq d ∧ seq d < sorted.length) →
      (rest.map fun d => (seq d).toNat).Nodup →
      ∃ l, placeBySeq seq rest sorted = Except.ok l ∧ l.length = sorted.length ∧
        (∀ d ∈ rest, l[(seq d).toNat]? = some d) ∧
        (∀ i, (∀ d ∈ rest, (seq d).toNat ≠ i) → l[i]? = sorted[i]?) := by
  induction rest with
  | nil =>
    intro sorted _ _
    exact ⟨sorted, rfl, rfl, fun d hd => absurd hd (List.not_mem_nil d), fun i _ => rfl⟩
  | cons d rest ih =>
    intro sorted hrange hnodup
    have hd := hrange d (List.mem_cons_self _ _)
    rw [List.map_cons, List.nodup_cons] at hnodup
    obtain ⟨l, hl, hlen, hput, hkeep⟩ := ih (sorted.set (seq d).toNat d)
      (fun e he => by
        have := hrange e (List.mem_cons_of_mem _ he)
        simpa using this)
      hnodup.2
    refine ⟨l, ?_, ?_, ?_, ?_⟩
    · rw [placeBySeq, if_pos hd]; exact hl
    · simpa using hlen
    · intro e he
      rcases List.mem_cons.1 he with rfl | he'
      · have hk := hkeep (seq e).toNat (fun x hx hxe => hnodup.1 (by
          rw [← hxe]; exact List.mem_map.2 ⟨x, hx, rfl⟩))
        rw [hk]
        have hlt : (seq e).toNat < sorted.length := by omega
        simp [hlt]
      · exact hput e he'
    · intro i hi
      rw [hkeep i (fun e he => hi e (List.mem_cons_of_mem _ he))]
      have hne : (seq d).toNat ≠ i := hi d (List.mem_cons_self _ _)
      simp [List.getElem?_set, hne]

/-- The placing loop on a map whose sequence numbers are a bijection onto `[0, N)`. -/
theorem placeBySeq_bijective {α : Type} (seq : α → Int) (zero : α) (vs : List α)
    (h : (vs.map seq).Perm ((List.range vs.length).map Int.ofNat)) :
    ∃ l, placeBySeq seq vs (List.replicate vs.length zero) = Except.ok l ∧
      l.length = vs.length ∧ l.Perm vs ∧
      ∀ (i : Nat) (hi : i < l.length), seq (l.get ⟨i, hi⟩) = (i : Int) := by
  have hnat : (vs.map fun d => (seq d).toNat).Perm (List.range vs.length) := by
    have := h.map Int.toNat
    simpa [List.map_map, Function.comp_def] using this
  have hrange : ∀ d ∈ vs, 0 ≤ seq d ∧ seq d < (List.replicate vs.length zero).length := by
    intro d hd
    have hm : seq d ∈ (List.range vs.length).map Int.ofNat :=
      h.mem_iff.1 (List.mem_map.2 ⟨d, hd, rfl⟩)
    obtain ⟨k, hk, hkd⟩ := List.mem_map.1 hm
    have hk' := List.mem_range.1 hk
    have hkd' : seq d = (k : Int) := hkd.symm
    simp only [List.length_replicate]
    omega
  have hnodup : (vs.map fun d => (seq d).toNat).Nodup :=
    hnat.nodup_iff.2 (List.nodup_range _)
  obtain ⟨l, hl, hlen, hput, _⟩ := placeBySeq_places seq vs _ hrange hnodup
  have hlen' : l.length = vs.length := by simpa using hlen
  have hl_eq : l = (List.range vs.length).map fun i => l.getD i zero := by
    apply List.ext_getElem
    · simp [hlen']
    · intro i h1 h2
      simp [List.getD_eq_getElem?_getD, List.getElem?_eq_getElem h1]
  have hvs : vs = (vs.map fun d => (seq d).toNat).map fun i => l.getD i zero := by
    rw [List.map_map]
    conv_lhs => rw [← List.map_id vs]
    apply List.map_congr_left
    intro d hd
    simp [List.getD_eq_getElem?_getD, hput d hd]
  refine ⟨l, hl, hlen', ?_, ?_⟩
  · rw [hl_eq]
    conv_rhs => rw [hvs]
    exact (hnat.map _).symm
  · intro i hi
    have hi' : i < vs.length := by omega
    have hmem : i ∈ vs.map fun d => (seq d).toNat :=
      hnat.mem_iff.2 (List.mem_range.2 hi')
    obtain ⟨d, hd, hdi⟩ := List.mem_map.1 hmem
    have hget := hput d hd
    rw [hdi] at hget
    have hli : l.get ⟨i, hi⟩ = d := by
      have := List.getElem?_eq_getElem hi
      rw [hget] at this
      exact (Option.some.inj this).symm
    rw [hli]
    have := (hrange d hd).1
    omega

/-! ## Lemmas on the generator of a unit -/

theorem Extends.of_eq {a b : String} (h : a = b) : Extends a b := ⟨"", by simp [h]⟩

theorem Extends.append (a t : String) : Extends a (a ++ t) := ⟨t, rfl⟩

theorem NewLine_extends (b : IdentBuffer) : Extends b.buf (b.NewLine 1).buf :=
  ⟨"\n", by simp⟩

theorem WriteString_extends (b : IdentBuffer) (s : String) :
    Extends b.buf (b.WriteString s).buf :=
  ⟨indentText b ++ s, by simp [String.append_assoc]⟩

theorem writeLeadingComment_extends (b : IdentBuffer) (c : Comments) :
    Extends b.buf (writeLeadingComment b c).buf := by
  unfold writeLeadingComment
  split_ifs
  · exact WriteLine_extends _ _
  · exact WriteLine_extends _ _
  · exact Extends.refl _

theorem EnumType_Gen_extends (lib : GoLib) (e : EnumType) (buf out : IdentBuffer)
    (l : List EnumField) (h : EnumType.Gen lib e buf = Except.ok (out, l)) :
    Extends buf.buf out.buf := by
  obtain ⟨o, ho, hb⟩ := EnumType_Gen_ok lib e buf
  rw [ho] at h
  simp only [Except.ok.injEq, Prod.mk.injEq] at h
  rw [← h.1, hb]
  simp only [String.append_assoc]
  exact Extends.append _ _

theorem StructType_Gen_extends (lib : GoLib) (fuel : Nat) (st : StructType)
    (buf : IdentBuffer) (td : GoMap TypedefType) (opt : CodeGenOpt) (out : IdentBuffer)
    (h : StructType.Gen lib fuel st buf td opt = some (Except.ok out)) :
    Extends buf.buf out.buf := by
  rw [(StructType_Gen_ok lib fuel st buf td opt out h).1]
  simp only [String.append_assoc]
  exact Extends.append _ _

theorem FunctionType_Gen_extends (lib : GoLib) (fuel : Nat) (f : FunctionType)
    (buf : IdentBuffer) (td : GoMap TypedefType) (out : IdentBuffer)
    (h : FunctionType.Gen lib fuel f buf td = some (Except.ok out)) :
    Extends buf.buf out.buf := by
  unfold FunctionType.Gen at h
  simp only at h
  split at h
  · cases h
  · split at h
    · cases h
    · split at h
      · split at h
        · cases h
        · split at h
          · cases h
          · simp only [Option.some.injEq, Except.ok.injEq] at h
            rw [← h]
            refine Extends.trans ?_ (WriteLine_extends _ _)
            refine Extends.trans ?_ (WriteString_extends _ _)
            rw [sync_buf]
            refine Extends.trans ?_ (httpOption_extends lib f _)
            rw [Derive_buf]
            exact Extends.trans (writeLeadingComment_extends buf f.toComments)
              (WriteLine_extends _ _)
      · cases h

theorem pkgNameLoop_eq (namespaces : List NameSpace) (lang currentName : String) :
    pkgNameLoop namespaces lang currentName = packageOf namespaces lang currentName := by
  induction namespaces with
  | nil => rfl
  | cons ns rest ih =>
    unfold packageOf at ih ⊢
    by_cases h : ns.Scope = lang
    · simp [pkgNameLoop, List.find?, h]
    · simp [pkgNameLoop, List.find?, h, ih]

theorem genImports_extends (l : List IncludeName) :
    ∀ b : IdentBuffer, Extends b.buf (genImports b l).buf := by
  induction l with
  | nil => intro b; exact Extends.refl _
  | cons x rest ih =>
    intro b
    exact Extends.trans (WriteLine_extends _ _) (ih _)

theorem genHeader_head (defs : UnitDefs) (currentName lang : String) (mainPackage : Bool) :
    Extends (headText (packageOf defs.Namespaces lang currentName))
      (genHeader defs currentName lang mainPackage).buf := by
  have h0 : headText (packageOf defs.Namespaces lang currentName) =
      (((NewIdentWriter 0).WriteLine ("syntax = " ++ quoted "proto3" ++ ";")).WriteLine
        ("package " ++ pkgNameLoop defs.Namespaces lang currentName ++ ";")).buf := by
    have e : (";" : String) = String.singleton ';' := rfl
    rw [pkgNameLoop_eq, WriteLine_buf, WriteLine_buf, e,
      TrimRightChar_append_singleton _ _ _ (by decide),
      TrimRightChar_append_singleton _ _ _ (by decide)]
    simp [headText, NewIdentWriter, indentText, repeatChar, String.append_assoc]
    rfl
  rw [h0]
  unfold genHeader
  simp only
  refine Extends.trans ?_ (NewLine_extends _)
  have hphp : ∀ b : IdentBuffer, Extends b.buf
      (if lang = "php" then
        (b.WriteLine ("option php_namespace = " ++
          quoted (ReplaceDots (pkgNameLoop defs.Namespaces lang currentName) twoBackslashes) ++
            ";")).WriteLine
          ("option php_metadata_namespace = " ++
            quoted (ReplaceDots (pkgNameLoop defs.Namespaces lang currentName) twoBackslashes ++
              twoBackslashes ++ "GPBMetadata") ++ ";")
      else b).buf := by
    intro b
    split_ifs
    · exact Extends.trans (WriteLine_extends _ _) (WriteLine_extends _ _)
    · exact Extends.refl _
  refine Extends.trans ?_ (hphp _)
  refine Extends.trans ?_ (NewLine_extends _)
  refine Extends.trans ?_ (genImports_extends _ _)
  have hmain : ∀ b : IdentBuffer, Extends b.buf
      (if mainPackage = true then
        (b.WriteLine ("import " ++ quoted "google/api/annotations.proto" ++ ";")).WriteLine
          ("import " ++ quoted "dirpc/dirpc.proto" ++ ";")
      else b).buf := by
    intro b
    split_ifs
    · exact Extends.trans (WriteLine_extends _ _) (WriteLine_extends _ _)
    · exact Extends.refl _
  refine Extends.trans ?_ (hmain _)
  exact Extends.trans (NewLine_extends _) (WriteLine_extends _ _)

theorem genEnums_extends (lib : GoLib) (opt : CodeGenOpt) (l : List EnumType) :
    ∀ (b out : IdentBuffer), genEnums lib opt b l = Except.ok out → Extends b.buf out.buf := by
  induction l with
  | nil =>
    intro b out h
    simp only [genEnums, Except.ok.injEq] at h
    exact Extends.of_eq (by rw [h])
  | cons e rest ih =>
    intro b out h
    unfold genEnums at h
    split at h
    · cases h
    · rename_i b1 fs hg
      exact Extends.trans (EnumType_Gen_extends lib e b b1 fs hg)
        (Extends.trans (NewLine_extends _) (ih _ _ h))

theorem genStructs_extends (lib : GoLib) (fuel : Nat) (td : GoMap TypedefType)
    (opt : CodeGenOpt) (l : List StructType) :
    ∀ (b out : IdentBuffer), genStructs lib fuel td opt b l = some (Except.ok out) →
      Extends b.buf out.buf := by
  induction l with
  | nil =>
    intro b out h
    simp only [genStructs, Option.some.injEq, Except.ok.injEq] at h
    exact Extends.of_eq (by rw [h])
  | cons e rest ih =>
    intro b out h
    unfold genStructs at h
    split at h
    · cases h
    · cases h
    · rename_i b1 hg
      exact Extends.trans (StructType_Gen_extends lib fuel e b td opt b1 hg)
        (Extends.trans (NewLine_extends _) (ih _ _ h))

theorem genFunctions_extends (lib : GoLib) (fuel : Nat) (td : GoMap TypedefType)
    (name : String) (l : List FunctionType) :
    ∀ (b out : IdentBuffer), genFunctions lib fuel td name b l = some (Except.ok out) →
      Extends b.buf out.buf := by
  induction l with
  | nil =>
    intro b out h
    simp only [genFunctions, Option.some.injEq, Except.ok.injEq] at h
    exact Extends.of_eq (by rw [h])
  | cons e rest ih =>
    intro b out h
    unfold genFunctions at h
    split at h
    · exact ih _ _ h
    · split at h
      · cases h
      · cases h
      · rename_i b1 hg
        have h1 := FunctionType_Gen_extends lib fuel e (b.Derive 1) td b1 hg
        rw [Derive_buf] at h1
        refine Extends.trans h1 (Extends.trans ?_ (ih _ _ h))
        exact ⟨"\n", by simp⟩

theorem writeOptLine_extends (b : IdentBuffer) (key value : String) :
    Extends b.buf (writeOptLine b key value).buf := by
  unfold writeOptLine
  split_ifs
  · exact WriteLine_extends _ _
  · exact Extends.refl _

theorem GenOpt_extends (srv : ServiceType) (b : IdentBuffer) :
    Extends b.buf (srv.GenOpt b).buf := by
  unfold ServiceType.GenOpt
  simp only
  refine Extends.trans ?_ (WriteLine_extends _ _)
  rw [sync_buf]
  refine Extends.trans ?_ (writeOptLine_extends _ _ _)
  refine Extends.trans ?_ (writeOptLine_extends _ _ _)
  refine Extends.trans ?_ (writeOptLine_extends _ _ _)
  have hretry : ∀ (ib : IdentBuffer) (r rc : String), Extends ib.buf
      (if r ≠ "" then ib.WriteLine ("retry: " ++ r)
        else if rc ≠ "" then ib.WriteLine ("retry: " ++ rc) else ib).buf := by
    intro ib r rc
    split_ifs
    · exact WriteLine_extends _ _
    · exact WriteLine_extends _ _
    · exact Extends.refl _
  refine Extends.trans ?_ (hretry _ _ _)
  refine Extends.trans ?_ (foldl_WriteLine_extends _ _ _)
  refine Extends.trans ?_ (writeOptLine_extends _ _ _)
  refine Extends.trans ?_ (WriteLine_extends _ _)
  refine Extends.trans ?_ (writeOptLine_extends _ _ _)
  refine Extends.trans ?_ (WriteLine_extends _ _)
  rw [Derive_buf]
  exact WriteLine_extends _ _

theorem genService_extends (lib : GoLib) (fuel : Nat) (defs : UnitDefs)
    (b out : IdentBuffer) (h : genService lib fuel defs b = some (Except.ok out)) :
    Extends b.buf out.buf := by
  unfold genService at h
  split at h
  · simp only at h
    split at h
    · cases h
    · split at h
      · cases h
      · cases h
      · rename_i b1 hg
        simp only [Option.some.injEq, Except.ok.injEq] at h
        rw [← h]
        refine Extends.trans ?_ (WriteLine_extends _ _)
        rw [sync_buf]
        refine Extends.trans ?_ (GenOpt_extends _ _)
        rw [Derive_buf]
        refine Extends.trans ?_ (genFunctions_extends lib fuel _ _ _ _ _ hg)
        exact Extends.trans (WriteLine_extends _ _) (WriteLine_extends _ _)
  · simp only [Option.some.injEq, Except.ok.injEq] at h
    exact Extends.of_eq (by rw [h])

theorem genUnit_head (lib : GoLib) (fuel : Nat) (defs : UnitDefs) (currentName lang : String)
    (mainPackage : Bool) (opt : CodeGenOpt) (text : String)
    (h : genUnit lib fuel defs currentName lang mainPackage opt = some (Except.ok text)) :
    Extends (headText (packageOf defs.Namespaces lang currentName)) text := by
  unfold genUnit at h
  simp only at h
  split at h
  · cases h
  · split at h
    · cases h
    · rename_i b1 h1
      split at h
      · cases h
      · split at h
        · cases h
        · cases h
        · rename_i b2 h2
          split at h
          · cases h
          · cases h
          · rename_i b3 h3
            simp only [Option.some.injEq, Except.ok.injEq] at h
            rw [← h]
            exact Extends.trans (genHeader_head defs currentName lang mainPackage)
              (Extends.trans (genEnums_extends lib opt _ _ _ h1)
                (Extends.trans (genStructs_extends lib fuel _ opt _ _ _ h2)
                  (genService_extends lib fuel defs _ _ h3)))

/-! ## Lemmas on the result map of `CodeGen` -/

theorem GoMap.set_of_not_mem {V : Type} (m : GoMap V) (k : String) (v : V)
    (h : k ∉ m.map Prod.fst) : GoMap.set m k v = m ++ [(k, v)] := by
  induction m with
  | nil => rfl
  | cons p rest ih =>
    obtain ⟨k1, v1⟩ := p
    simp only [List.map_cons, List.mem_cons, not_or] at h
    have hne : ¬ k1 = k := fun e => h.1 e.symm
    simp only [GoMap.set, if_neg hne, ih h.2, List.cons_append]

theorem GoMap.get_of_mem {V : Type} (m : GoMap V) (k : String) (v : V)
    (hd : (m.map Prod.fst).Nodup) (h : (k, v) ∈ m) : GoMap.get m k = some v := by
  induction m with
  | nil => cases h
  | cons p rest ih =>
    obtain ⟨k1, v1⟩ := p
    simp only [List.map_cons, List.nodup_cons] at hd
    rcases List.mem_cons.1 h with he | hr
    · cases he
      simp [GoMap.get]
    · have hne : ¬ k1 = k := by
        intro e
        apply hd.1
        rw [e]
        exact List.mem_map_of_mem Prod.fst hr
      simp only [GoMap.get, if_neg hne]
      exact ih hd.2 hr

theorem packageOf_first (pre : List NameSpace) (ns : NameSpace) (post : List NameSpace)
    (lang currentName : String) (hpre : ∀ m ∈ pre, m.Scope ≠ lang) (hns : ns.Scope = lang) :
    packageOf (pre ++ ns :: post) lang currentName = ns.Name := by
  induction pre with
  | nil => simp [packageOf, List.find?, hns]
  | cons m rest ih =>
    have hm : m.Scope ≠ lang := hpre m (List.mem_cons_self _ _)
    have ih1 := ih fun x hx => hpre x (List.mem_cons_of_mem _ hx)
    unfold packageOf at ih1 ⊢
    simpa [List.find?, hm] using ih1

theorem packageOf_none (namespaces : List NameSpace) (lang currentName : String)
    (h : ∀ m ∈ namespaces, m.Scope ≠ lang) :
    packageOf namespaces lang currentName = currentName := by
  induction namespaces with
  | nil => rfl
  | cons m rest ih =>
    have hm : m.Scope ≠ lang := h m (List.mem_cons_self _ _)
    have ih1 := ih fun x hx => h x (List.mem_cons_of_mem _ hx)
    unfold packageOf at ih1 ⊢
    simpa [List.find?, hm] using ih1

/-! ## Lemmas on include resolution -/

theorem fileOk_spec (lib : GoLib) (env : ParseEnv) (searchDir : String → Except String String)
    (files : List String) (p : String) (h : fileOk lib env searchDir files p = true) :
    hasDot (Base p) = true ∧ ∃ text listener, searchDir p = Except.ok text ∧
      env.parseText text = Except.ok listener ∧
      dirpcFieldsCheck lib env.checkDiRPCFlag listener = none ∧
      ∀ q ∈ includeNames env text, q ∈ files := by
  unfold fileOk at h
  rw [Bool.and_eq_true] at h
  refine ⟨h.1, ?_⟩
  have h2 := h.2
  split at h2
  · rename_i text ht
    split at h2
    · rename_i listener hl
      rw [Bool.and_eq_true] at h2
      refine ⟨text, listener, ht, hl, ?_, ?_⟩
      · exact Option.isNone_iff_eq_none.1 h2.1
      · intro q hq
        unfold includeNames at hq
        rw [hl] at hq
        obtain ⟨f, hf, hfq⟩ := List.mem_map.1 hq
        have := List.all_eq_true.1 h2.2 f hf
        rw [← hfq]
        exact of_decide_eq_true this
    · cases h2
  · cases h2

theorem searchedAdd_of_not_mem (searched : List String) (q : String) (h : q ∉ searched) :
    searchedAdd searched q = q :: searched := by
  simp [searchedAdd, h]

theorem searchedRemove_cons_self (searched : List String) (q : String) (h : q ∉ searched) :
    searchedRemove (q :: searched) q = searched := by
  unfold searchedRemove
  rw [List.filter_cons_of_neg (by simp)]
  apply List.filter_eq_self.2
  intro a ha
  have : a ≠ q := fun e => h (e ▸ ha)
  simpa using this

theorem cycleMessage_suffix (chain : List String) (p : String) :
    ∃ pre, cycleMessage chain p = pre ++ ("cycled include " ++ p) := by
  induction chain with
  | nil => exact ⟨"", by simp [cycleMessage]⟩
  | cons q rest ih =>
    obtain ⟨pre, hpre⟩ := ih
    refine ⟨"fail to parse idl: " ++ q ++ ", due to " ++ pre, ?_⟩
    unfold cycleMessage at hpre ⊢
    rw [List.foldr_cons, hpre]
    simp only [String.append_assoc]

theorem isWalk_cons (env : ParseEnv) (searchDir : String → Except String String)
    (idl q : String) (w : List String) :
    isWalk env searchDir idl (q :: w) = true ↔
      q ∈ includeNames env idl ∧ ∃ text, searchDir q = Except.ok text ∧
        isWalk env searchDir text w = true := by
  cases hs : searchDir q with
  | ok text => simp [isWalk, hs]
  | error e => simp [isWalk, hs]

theorem parseIncludes_spec (lib : GoLib) (env : ParseEnv)
    (searchDir : String → Except String String) (files : List String) (n : Nat)
    (recur : String → List String → Option (Except String ListenerTree × List String))
    (hrec : RecurOk lib env searchDir files n recur)
    (hfiles : ∀ p ∈ files, fileOk lib env searchDir files p = true)
    (idl : String) (searched : List String) (hS : ∀ x ∈ searched, x ∈ files)
    (hnd : searched.Nodup) (hlen : files.length < n + 1 + searched.length) :
    ∀ (l : List String) (acc : GoMap ListenerTree),
      (∀ q ∈ l, q ∈ includeNames env idl) → (∀ q ∈ l, q ∈ files) →
      ∃ r, parseIncludes recur searchDir l searched acc = some r ∧
        LoopOutcome env searchDir idl searched l r := by
  intro l
  induction l with
  | nil =>
    intro acc _ _
    refine ⟨_, rfl, rfl, ?_⟩
    intro q hq
    cases hq
  | cons q rest ih =>
    intro acc hinc hin
    have hq : q ∈ files := hin q (List.mem_cons_self _ _)
    obtain ⟨hdot, text, listener, hopen, hparse, hcheck, hsub⟩ :=
      fileOk_spec lib env searchDir files q (hfiles q hq)
    unfold parseIncludes
    simp only [hdot, Bool.not_true, Bool.false_eq_true, if_false]
    by_cases hmem : q ∈ searched
    · rw [if_pos hmem]
      refine ⟨_, rfl, [], q, by simpa using hmem, ?_, rfl⟩
      rw [List.nil_append, isWalk_cons]
      exact ⟨hinc q (List.mem_cons_self _ _), text, hopen, rfl⟩
    · rw [if_neg hmem]
      simp only [hopen]
      rw [searchedAdd_of_not_mem searched q hmem]
      have hS2 : ∀ x ∈ q :: searched, x ∈ files := by
        intro x hx
        rcases List.mem_cons.1 hx with he | hr
        · rw [he]; exact hq
        · exact hS x hr
      have hlen2 : files.length < n + (q :: searched).length := by
        rw [List.length_cons]; omega
      obtain ⟨r, hr, hout⟩ := hrec text listener (q :: searched) hparse hsub hcheck hS2
        (List.nodup_cons.2 ⟨hmem, hnd⟩) hlen2
      rw [hr]
      obtain ⟨res, s1⟩ := r
      cases res with
      | error msg =>
        obtain ⟨chain, p, hp, hw, hmsg⟩ := hout
        refine ⟨_, rfl, q :: chain, p, ?_, ?_, ?_⟩
        · rcases List.mem_append.1 hp with h1 | h2
          · exact List.mem_append_left _ (List.mem_cons_of_mem _ h1)
          · rcases List.mem_cons.1 h2 with h3 | h4
            · rw [h3]; exact List.mem_append_left _ (List.mem_cons_self _ _)
            · exact List.mem_append_right _ h4
        · rw [List.cons_append, isWalk_cons]
          exact ⟨hinc q (List.mem_cons_self _ _), text, hopen, hw⟩
        · rw [hmsg]; rfl
      | ok sub =>
        obtain ⟨hs1, hfresh⟩ := hout
        simp only
        rw [hs1, searchedRemove_cons_self searched q hmem]
        obtain ⟨r2, hr2, hout2⟩ := ih (GoMap.set acc (cutAtDot (Base q)) sub)
          (fun x hx => hinc x (List.mem_cons_of_mem _ hx))
          (fun x hx => hin x (List.mem_cons_of_mem _ hx))
        refine ⟨r2, hr2, ?_⟩
        obtain ⟨res2, s2⟩ := r2
        cases res2 with
        | error msg => exact hout2
        | ok acc2 =>
          refine ⟨hout2.1, ?_⟩
          intro q1 hq1 text1 hopen1 w hw
          rcases List.mem_cons.1 hq1 with he | hr1
          · subst he
            rw [hopen] at hopen1
            cases hopen1
            obtain ⟨hwn, hwf⟩ := hfresh w hw
            refine ⟨List.nodup_cons.2 ⟨fun hin1 => hwf _ hin1 (List.mem_cons_self _ _), hwn⟩, ?_⟩
            intro x hx
            rcases List.mem_cons.1 hx with hx1 | hx2
            · rw [hx1]; exact hmem
            · exact fun hxs => hwf x hx2 (List.mem_cons_of_mem _ hxs)
          · exact hout2.2 q1 hr1 text1 hopen1 w hw

theorem parseIDL_step (lib : GoLib) (env : ParseEnv)
    (searchDir : String → Except String String) (files : List String) (fuel : Nat)
    (hrec : RecurOk lib env searchDir files fuel
      (fun idl s => parseIDL lib env fuel idl (some searchDir) s false))
    (hfiles : ∀ p ∈ files, fileOk lib env searchDir files p = true)
    (horder : ∀ s l, (env.order s l).Perm l)
    (idl : String) (listener : ThriftListener) (searched : List String)
    (hparse : env.parseText idl = Except.ok listener)
    (hinc : ∀ q ∈ includeNames env idl, q ∈ files)
    (hS : ∀ x ∈ searched, x ∈ files) (hnd : searched.Nodup)
    (hlen : files.length < fuel + 1 + searched.length) :
    ∃ r, parseIDL lib env (fuel + 1) idl (some searchDir) searched false = some r ∧
      ((∃ msg s, r = (Except.error msg, s) ∧ CycleErr env searchDir idl searched msg) ∨
        (WalksFresh env searchDir idl searched ∧ r.2 = searched ∧
          (dirpcFieldsCheck lib env.checkDiRPCFlag listener = none → ∃ tree, r.1 = Except.ok tree))) := by
  have hnames : includeNames env idl = listener.includes.map fun f => f.Name := by
    unfold includeNames; rw [hparse]
  have hl : ∀ q, q ∈ env.order searched (includeKeys listener) ↔ q ∈ includeNames env idl := by
    intro q
    rw [(horder searched (includeKeys listener)).mem_iff, hnames]
    unfold includeKeys
    exact List.mem_dedup
  obtain ⟨r, hr, hout⟩ := parseIncludes_spec lib env searchDir files fuel _ hrec hfiles idl
    searched hS hnd hlen (env.order searched (includeKeys listener)) []
    (fun q hq => (hl q).1 hq) (fun q hq => hinc q ((hl q).1 hq))
  unfold parseIDL
  simp only [hparse, Bool.not_false, if_true]
  rw [hr]
  obtain ⟨res, s1⟩ := r
  cases res with
  | error msg => exact ⟨_, rfl, Or.inl ⟨msg, s1, rfl, hout⟩⟩
  | ok incs =>
    obtain ⟨hs1, hwalk⟩ := hout
    have hfresh : WalksFresh env searchDir idl searched := by
      intro w hw
      cases w with
      | nil => exact ⟨List.nodup_nil, fun x hx => by cases hx⟩
      | cons q w1 =>
        obtain ⟨hq, text, hopen, hw1⟩ := (isWalk_cons env searchDir idl q w1).1 hw
        exact hwalk q ((hl q).2 hq) text hopen w1 hw1
    simp only
    cases hc : dirpcFieldsCheck lib env.checkDiRPCFlag listener with
    | none => exact ⟨_, rfl, Or.inr ⟨hfresh, hs1, fun _ => ⟨_, rfl⟩⟩⟩
    | some e => exact ⟨_, rfl, Or.inr ⟨hfresh, hs1, fun h => by cases h⟩⟩

theorem parseIDL_spec (lib : GoLib) (env : ParseEnv)
    (searchDir : String → Except String String) (files : List String)
    (hfiles : ∀ p ∈ files, fileOk lib env searchDir files p = true)
    (horder : ∀ s l, (env.order s l).Perm l) :
    ∀ fuel, RecurOk lib env searchDir files fuel
      (fun idl s => parseIDL lib env fuel idl (some searchDir) s false) := by
  intro fuel
  induction fuel with
  | zero =>
    intro idl listener searched _ _ _ hS hnd hlen
    have := (List.subperm_of_subset hnd hS).length_le
    omega
  | succ fuel ih =>
    intro idl listener searched hparse hinc hcheck hS hnd hlen
    obtain ⟨r, hr, hcase⟩ := parseIDL_step lib env searchDir files fuel ih hfiles horder idl
      listener searched hparse hinc hS hnd hlen
    refine ⟨r, hr, ?_⟩
    rcases hcase with ⟨msg, s, hrs, hc⟩ | ⟨hfresh, hs, hok⟩
    · rw [hrs]; exact hc
    · obtain ⟨res, s1⟩ := r
      obtain ⟨tree, ht⟩ := hok hcheck
      simp only at ht hs
      rw [ht, hs]
      exact ⟨rfl, hfresh⟩

theorem parseText_of_includeNames (env : ParseEnv) (idl q : String)
    (hn : includeNames env idl = [q]) :
    ∃ listener, env.parseText idl = Except.ok listener ∧ includeKeys listener = [q] := by
  unfold includeNames at hn
  cases hp : env.parseText idl with
  | error e => rw [hp] at hn; cases hn
  | ok listener =>
    rw [hp] at hn
    refine ⟨listener, rfl, ?_⟩
    unfold includeKeys
    simp only at hn
    rw [hn]
    rfl

theorem parseIDL_cycle_hit (lib : GoLib) (env : ParseEnv)
    (searchDir : String → Except String String) (fuel : Nat) (idl q : String)
    (searched : List String) (hn : includeNames env idl = [q])
    (hdot : hasDot (Base q) = true) (horder : ∀ s l, (env.order s l).Perm l)
    (hq : q ∈ searched) :
    parseIDL lib env (fuel + 1) idl (some searchDir) searched false =
      some (Except.error ("cycled include " ++ q), searched) := by
  obtain ⟨listener, hp, hk⟩ := parseText_of_includeNames env idl q hn
  have ho : env.order searched [q] = [q] := List.perm_singleton.1 (horder searched [q])
  unfold parseIDL
  simp only [hp, Bool.not_false, if_true, hk, ho]
  unfold parseIncludes
  simp only [hdot, Bool.not_true, Bool.false_eq_true, if_false, if_pos hq]

theorem parseIDL_wrap (lib : GoLib) (env : ParseEnv)
    (searchDir : String → Except String String) (fuel : Nat) (idl q subIDL err : String)
    (searched s : List String) (hn : includeNames env idl = [q])
    (hdot : hasDot (Base q) = true) (horder : ∀ s l, (env.order s l).Perm l)
    (hq : q ∉ searched) (hopen : searchDir q = Except.ok subIDL)
    (hsub : parseIDL lib env fuel subIDL (some searchDir) (q :: searched) false =
      some (Except.error err, s)) :
    parseIDL lib env (fuel + 1) idl (some searchDir) searched false =
      some (Except.error ("fail to parse idl: " ++ q ++ ", due to " ++ err), s) := by
  obtain ⟨listener, hp, hk⟩ := parseText_of_includeNames env idl q hn
  have ho : env.order searched [q] = [q] := List.perm_singleton.1 (horder searched [q])
  unfold parseIDL
  simp only [hp, Bool.not_false, if_true, hk, ho]
  unfold parseIncludes
  simp only [hdot, Bool.not_true, Bool.false_eq_true, if_false, if_neg hq, hopen,
    searchedAdd_of_not_mem searched q hq, hsub]

/-! ## Lemmas on the DiRPC field check -/

theorem illegalTimeout_eq_none_iff (value msg : String) :
    illegalTimeout value msg = none ↔ timeoutValid value := by
  unfold illegalTimeout timeoutValid
  by_cases h1 : value = ""
  · simp [h1]
  · cases h2 : (Atoi value).2 <;> simp [h1, h2]

theorem illegalTimeout_of_invalid (value msg : String) (h : ¬ timeoutValid value) :
    illegalTimeout value msg = some msg := by
  unfold illegalTimeout
  unfold timeoutValid at h
  rw [not_or] at h
  rw [if_pos ⟨h.1, by simpa using h.2⟩]

theorem orElse_eq_none_iff {α : Type} (a : Option α) (b : Unit → Option α) :
    a.orElse b = none ↔ a = none ∧ b () = none := by
  cases a <;> simp [Option.orElse]

theorem orElse_of_none {α : Type} (a : Option α) (b : Unit → Option α) (h : a = none) :
    a.orElse b = b () := by
  rw [h]; rfl

theorem orElse_of_some {α : Type} (a : Option α) (b : Unit → Option α) (x : α)
    (h : a = some x) : a.orElse b = some x := by
  rw [h]; rfl

theorem firstError_eq_none_iff {V : Type} (check : String → V → Option String)
    (m : GoMap V) : firstError check m = none ↔ ∀ kv ∈ m, check kv.1 kv.2 = none := by
  induction m with
  | nil => simp [firstError]
  | cons p rest ih =>
    obtain ⟨k, v⟩ := p
    simp only [firstError, orElse_eq_none_iff, ih, List.mem_cons, forall_eq_or_imp]

theorem firstError_mem {V : Type} (check : String → V → Option String) (m : GoMap V)
    (msg : String) (h : firstError check m = some msg) :
    ∃ kv ∈ m, check kv.1 kv.2 = some msg := by
  induction m with
  | nil => simp [firstError] at h
  | cons p rest ih =>
    obtain ⟨k, v⟩ := p
    simp only [firstError] at h
    cases hc : check k v with
    | some e =>
      rw [orElse_of_some _ _ e hc] at h
      exact ⟨(k, v), List.mem_cons_self _ _, by rw [hc, h]⟩
    | none =>
      rw [orElse_of_none _ _ hc] at h
      obtain ⟨kv, hkv, hm⟩ := ih h
      exact ⟨kv, List.mem_cons_of_mem _ hkv, hm⟩

theorem GetAnnotation_absent (annotations : List AnnotationField) (key : String)
    (h : ∀ a ∈ annotations, a.Key ≠ key) : GetAnnotation annotations key = none := by
  induction annotations with
  | nil => rfl
  | cons a rest ih =>
    have ha : a.Key ≠ key := h a (List.mem_cons_self _ _)
    simp only [ GetAnnotation, if_neg ha]
    exact ih fun x hx => h x (List.mem_cons_of_mem _ hx)

theorem GetAnnotationTrimString_absent (annotations : List AnnotationField) (key : String)
    (h : ∀ a ∈ annotations, a.Key ≠ key) : GetAnnotationTrimString annotations key = "" := by
  unfold GetAnnotationTrimString GetAnnotationString
  rw [GetAnnotation_absent annotations key h]
  rfl

theorem dirpcFieldsCheck_inactive (lib : GoLib) (flag : Bool) (listener : ThriftListener)
    (h : listener.serviceDef.Name = "" ∨ flag = false) :
    dirpcFieldsCheck lib flag listener = none := by
  unfold dirpcFieldsCheck
  rcases h with h | h
  · rw [if_pos h]
  · by_cases hn : listener.serviceDef.Name = ""
    · rw [if_pos hn]
    · rw [if_neg hn, h]; rfl

theorem dirpcFieldsCheck_active (lib : GoLib) (listener : ThriftListener)
    (hname : listener.serviceDef.Name ≠ "")
    (h1 : GetAnnotationTrimString listener.serviceDef.Annotations "servType" ≠ "")
    (h2 : GetAnnotationTrimString listener.serviceDef.Annotations "version" ≠ "")
    (h3 : GetAnnotationTrimString listener.serviceDef.Annotations "servName" ≠ "") :
    dirpcFieldsCheck lib true listener =
      (illegalTimeout (GetAnnotationTrimString listener.serviceDef.Annotations "timeoutMsec")
        "illegal server timeout").orElse fun _ =>
      (illegalTimeout
        (GetAnnotationTrimString listener.serviceDef.Annotations "connectTimeoutMsec")
        "illegal server connect timeout").orElse fun _ =>
      (illegalTimeout (GetAnnotationTrimString listener.serviceDef.Annotations "sendTimeoutMsec")
        "illegal server send timeout").orElse fun _ =>
      (illegalTimeout (GetAnnotationTrimString listener.serviceDef.Annotations "recvTimeoutMsec")
        "illegal server recv timeout").orElse fun _ =>
      firstError (functionCheckOf lib listener) listener.functionDefs := by
  unfold dirpcFieldsCheck
  simp only [if_neg hname, Bool.not_true, Bool.false_eq_true, if_false, if_neg h1, if_neg h2,
    if_neg h3]
  rfl

theorem dirpcFieldsCheck_valid (lib : GoLib) (listener : ThriftListener)
    (hname : listener.serviceDef.Name ≠ "")
    (hv : serviceLevelValid listener.serviceDef.Annotations) :
    dirpcFieldsCheck lib true listener =
      firstError (functionCheckOf lib listener) listener.functionDefs := by
  obtain ⟨h1, h2, h3, t1, t2, t3, t4⟩ := hv
  rw [dirpcFieldsCheck_active lib listener hname h1 h2 h3,
    orElse_of_none _ _ ((illegalTimeout_eq_none_iff _ _).2 t1),
    orElse_of_none _ _ ((illegalTimeout_eq_none_iff _ _).2 t2),
    orElse_of_none _ _ ((illegalTimeout_eq_none_iff _ _).2 t3),
    orElse_of_none _ _ ((illegalTimeout_eq_none_iff _ _).2 t4)]

theorem functionCheck_http (lib : GoLib) (servType t1 t2 t3 t4 name : String)
    (f : FunctionType) (hs : servType = "http" ∨ servType = "https") :
    dirpcFunctionCheck lib servType t1 t2 t3 t4 name f = none ↔
      timeoutsValid f.Annotations ∧
      (lib.ToUpper (GetAnnotationTrimString f.Annotations "httpMethod") = "POST" ∨
        lib.ToUpper (GetAnnotationTrimString f.Annotations "httpMethod") = "GET") ∧
      GetAnnotationTrimString f.Annotations "path" ≠ "" ∧
      (GetAnnotationTrimString f.Annotations "contentType" = "form" ∨
        GetAnnotationTrimString f.Annotations "contentType" = "json" ∨
        GetAnnotationTrimString f.Annotations "contentType" = "flattenform") := by
  unfold dirpcFunctionCheck timeoutsValid
  simp only [orElse_eq_none_iff, illegalTimeout_eq_none_iff, if_pos hs]
  have key : (if lib.ToUpper (GetAnnotationTrimString f.Annotations "httpMethod") ≠ "POST" ∧
        lib.ToUpper (GetAnnotationTrimString f.Annotations "httpMethod") ≠ "GET" then
      some ("illegal or missing required field httpMethod for function " ++ name)
    else if GetAnnotationTrimString f.Annotations "path" = "" then
      some ("missing required field path for function " ++ name)
    else if GetAnnotationTrimString f.Annotations "contentType" = "" then
      some ("missing required field contentType for function " ++ name)
    else if GetAnnotationTrimString f.Annotations "contentType" ≠ "form" ∧
        GetAnnotationTrimString f.Annotations "contentType" ≠ "json" ∧
        GetAnnotationTrimString f.Annotations "contentType" ≠ "flattenform" then
      some ("invalid contentType: " ++ GetAnnotationTrimString f.Annotations "contentType" ++
        ", only support " ++ quoted "form" ++ " or " ++ quoted "json")
    else none) = none ↔
      (lib.ToUpper (GetAnnotationTrimString f.Annotations "httpMethod") = "POST" ∨
        lib.ToUpper (GetAnnotationTrimString f.Annotations "httpMethod") = "GET") ∧
      GetAnnotationTrimString f.Annotations "path" ≠ "" ∧
      (GetAnnotationTrimString f.Annotations "contentType" = "form" ∨
        GetAnnotationTrimString f.Annotations "contentType" = "json" ∨
        GetAnnotationTrimString f.Annotations "contentType" = "flattenform") := by
    generalize lib.ToUpper (GetAnnotationTrimString f.Annotations "httpMethod") = m
    generalize GetAnnotationTrimString f.Annotations "path" = p
    generalize GetAnnotationTrimString f.Annotations "contentType" = c
    by_cases hm : m ≠ "POST" ∧ m ≠ "GET"
    · rw [if_pos hm]
      simp only [reduceCtorEq, false_iff, not_and]
      intro h
      rcases h with h | h
      · exact absurd h hm.1
      · exact absurd h hm.2
    · rw [if_neg hm]
      have hm2 : m = "POST" ∨ m = "GET" := by
        by_contra hc
        rw [not_or] at hc
        exact hm hc
      by_cases hp : p = ""
      · rw [if_pos hp]
        simp [hp]
      · rw [if_neg hp]
        by_cases hc : c = ""
        · rw [if_pos hc]
          simp only [reduceCtorEq, false_iff, not_and]
          intro _ _ h
          rw [hc] at h
          revert h
          decide
        · rw [if_neg hc]
          by_cases hx : c ≠ "form" ∧ c ≠ "json" ∧ c ≠ "flattenform"
          · rw [if_pos hx]
            simp only [reduceCtorEq, false_iff, not_and]
            intro _ _ h
            rcases h with h | h | h
            · exact hx.1 h
            · exact hx.2.1 h
            · exact hx.2.2 h
          · rw [if_neg hx]
            simp only [true_iff]
            refine ⟨hm2, hp, ?_⟩
            by_contra hc2
            simp only [not_or] at hc2
            exact hx hc2
  constructor
  · rintro ⟨h1, h2, h3, h4, h5⟩
    exact ⟨⟨h1, h2, h3, h4⟩, key.1 h5⟩
  · rintro ⟨⟨h1, h2, h3, h4⟩, h5⟩
    exact ⟨h1, h2, h3, h4, key.2 h5⟩

theorem functionCheck_grpc (lib : GoLib) (t1 t2 t3 t4 name : String) (f : FunctionType) :
    dirpcFunctionCheck lib "grpc" t1 t2 t3 t4 name f = none ↔
      timeoutsValid f.Annotations ∧
      (GetAnnotationTrimString f.Annotations "timeoutMsec" ≠ "" ∨ t1 ≠ "") ∧
      (GetAnnotationTrimString f.Annotations "connectTimeoutMsec" ≠ "" ∨ t2 ≠ "") := by
  unfold dirpcFunctionCheck timeoutsValid
  have e1 : ¬ (("grpc" : String) = "http" ∨ ("grpc" : String) = "https") := by decide
  simp only [orElse_eq_none_iff, illegalTimeout_eq_none_iff, if_neg e1, if_true]
  generalize GetAnnotationTrimString f.Annotations "timeoutMsec" = a
  generalize GetAnnotationTrimString f.Annotations "connectTimeoutMsec" = b
  have key : (if a = "" ∧ t1 = "" then some ("missing timeout for function " ++ name)
      else if b = "" ∧ t2 = "" then some ("missing connect timeout for function " ++ name)
      else none) = none ↔ (a ≠ "" ∨ t1 ≠ "") ∧ (b ≠ "" ∨ t2 ≠ "") := by
    by_cases ha : a = "" ∧ t1 = ""
    · rw [if_pos ha]; simp [ha.1, ha.2]
    · rw [if_neg ha]
      by_cases hb : b = "" ∧ t2 = ""
      · rw [if_pos hb]; simp [hb.1, hb.2]
      · rw [if_neg hb]
        simp only [true_iff]
        constructor
        · by_contra hc; rw [not_or, not_not, not_not] at hc; exact ha hc
        · by_contra hc; rw [not_or, not_not, not_not] at hc; exact hb hc
  constructor
  · rintro ⟨h1, h2, h3, h4, h5⟩
    exact ⟨⟨h1, h2, h3, h4⟩, key.1 h5⟩
  · rintro ⟨⟨h1, h2, h3, h4⟩, h5⟩
    exact ⟨h1, h2, h3, h4, key.2 h5⟩

theorem functionCheck_thrift (lib : GoLib) (t1 t2 t3 t4 name : String) (f : FunctionType) :
    dirpcFunctionCheck lib "thrift" t1 t2 t3 t4 name f = none ↔
      timeoutsValid f.Annotations ∧
      (GetAnnotationTrimString f.Annotations "sendTimeoutMsec" ≠ "" ∨ t3 ≠ "") ∧
      (GetAnnotationTrimString f.Annotations "recvTimeoutMsec" ≠ "" ∨ t4 ≠ "") := by
  unfold dirpcFunctionCheck timeoutsValid
  have e1 : ¬ (("thrift" : String) = "http" ∨ ("thrift" : String) = "https") := by decide
  have e2 : ¬ (("thrift" : String) = "grpc") := by decide
  simp only [orElse_eq_none_iff, illegalTimeout_eq_none_iff, if_neg e1, if_neg e2, if_true]
  generalize GetAnnotationTrimString f.Annotations "sendTimeoutMsec" = a
  generalize GetAnnotationTrimString f.Annotations "recvTimeoutMsec" = b
  have key : (if a = "" ∧ t3 = "" then some ("missing send timeout for function " ++ name)
      else if b = "" ∧ t4 = "" then some ("missing recv timeout for function " ++ name)
      else none) = none ↔ (a ≠ "" ∨ t3 ≠ "") ∧ (b ≠ "" ∨ t4 ≠ "") := by
    by_cases ha : a = "" ∧ t3 = ""
    · rw [if_pos ha]; simp [ha.1, ha.2]
    · rw [if_neg ha]
      by_cases hb : b = "" ∧ t4 = ""
      · rw [if_pos hb]; simp [hb.1, hb.2]
      · rw [if_neg hb]
        simp only [true_iff]
        constructor
        · by_contra hc; rw [not_or, not_not, not_not] at hc; exact ha hc
        · by_contra hc; rw [not_or, not_not, not_not] at hc; exact hb hc
  constructor
  · rintro ⟨h1, h2, h3, h4, h5⟩
    exact ⟨⟨h1, h2, h3, h4⟩, key.1 h5⟩
  · rintro ⟨⟨h1, h2, h3, h4⟩, h5⟩
    exact ⟨h1, h2, h3, h4, key.2 h5⟩

/-! ## Lemmas on the reserved-word check -/

theorem firstNamed_eq_none_iff {V : Type} (nameOf : V → String) (m : GoMap V) (w : String) :
    firstNamed nameOf m w = none ↔ ∀ v ∈ m.map Prod.snd, nameOf v ≠ w := by
  unfold firstNamed
  rw [List.find?_eq_none]
  simp only [decide_eq_true_eq]

theorem firstNamed_some {V : Type} (nameOf : V → String) (m : GoMap V) (w : String) (v : V)
    (h : firstNamed nameOf m w = some v) : v ∈ m.map Prod.snd ∧ nameOf v = w := by
  unfold firstNamed at h
  refine ⟨List.mem_of_find?_eq_some h, ?_⟩
  simpa using List.find?_some h

theorem checkWord_spec (env : KeyWordEnv) (defs : UnitDefs) (w : String) :
    (checkWord env defs w = Except.ok none ↔ ¬ collides defs w) ∧
    (∀ msg, checkWord env defs w = Except.ok (some msg) → namesCollision env defs w msg) ∧
    (∀ r, checkWord env defs w = Except.error r →
      defs.ServiceDef.Name = w ∧ env.serviceStart defs.ServiceDef = none) := by
  unfold checkWord collides namesCollision
  by_cases hs : defs.ServiceDef.Name = w
  · rw [if_pos hs]
    cases hp : env.serviceStart defs.ServiceDef with
    | none =>
      refine ⟨?_, ?_, ?_⟩
      · simp [hs]
      · intro msg h; cases h
      · intro r _; exact ⟨hs, rfl⟩
    | some line =>
      refine ⟨?_, ?_, ?_⟩
      · simp [hs]
      · intro msg h
        simp only [Except.ok.injEq, Option.some.injEq] at h
        exact Or.inl ⟨hs, line, rfl, h.symm⟩
      · intro r h; cases h
  · rw [if_neg hs]
    cases h1 : firstNamed (fun v : TypedefType => v.Name) defs.Typedefs w with
    | some v =>
      obtain ⟨hv, hn⟩ := firstNamed_some _ _ _ _ h1
      refine ⟨?_, ?_, ?_⟩
      · simp only [reduceCtorEq, Except.ok.injEq, false_iff, not_not]
        exact Or.inr (Or.inl ⟨v, hv, hn⟩)
      · intro msg h
        simp only [Except.ok.injEq, Option.some.injEq] at h
        exact Or.inr (Or.inl ⟨v, hv, hn, h.symm⟩)
      · intro r h; cases h
    | none =>
      rw [firstNamed_eq_none_iff] at h1
      simp only
      cases h2 : firstNamed (fun v : StructType => v.Name) defs.StructDefs w with
      | some v =>
        obtain ⟨hv, hn⟩ := firstNamed_some _ _ _ _ h2
        refine ⟨?_, ?_, ?_⟩
        · simp only [reduceCtorEq, Except.ok.injEq, false_iff, not_not]
          exact Or.inr (Or.inr (Or.inl ⟨v, hv, hn⟩))
        · intro msg h
          simp only [Except.ok.injEq, Option.some.injEq] at h
          exact Or.inr (Or.inr (Or.inl ⟨v, hv, hn, h.symm⟩))
        · intro r h; cases h
      | none =>
        rw [firstNamed_eq_none_iff] at h2
        simp only
        cases h3 : firstNamed (fun v : FunctionType => v.Name) defs.FunctionDefs w with
        | some v =>
          obtain ⟨hv, hn⟩ := firstNamed_some _ _ _ _ h3
          refine ⟨?_, ?_, ?_⟩
          · simp only [reduceCtorEq, Except.ok.injEq, false_iff, not_not]
            exact Or.inr (Or.inr (Or.inr (Or.inl ⟨v, hv, hn⟩)))
          · intro msg h
            simp only [Except.ok.injEq, Option.some.injEq] at h
            exact Or.inr (Or.inr (Or.inr (Or.inl ⟨v, hv, hn, h.symm⟩)))
          · intro r h; cases h
        | none =>
          rw [firstNamed_eq_none_iff] at h3
          simp only
          cases h4 : firstNamed (fun v : EnumType => v.Name) defs.EnumDefs w with
          | some v =>
            obtain ⟨hv, hn⟩ := firstNamed_some _ _ _ _ h4
            refine ⟨?_, ?_, ?_⟩
            · simp only [reduceCtorEq, Except.ok.injEq, false_iff, not_not]
              exact Or.inr (Or.inr (Or.inr (Or.inr ⟨v, hv, hn⟩)))
            · intro msg h
              simp only [Except.ok.injEq, Option.some.injEq] at h
              exact Or.inr (Or.inr (Or.inr (Or.inr ⟨v, hv, hn, h.symm⟩)))
            · intro r h; cases h
          | none =>
            rw [firstNamed_eq_none_iff] at h4
            simp only
            refine ⟨?_, ?_, ?_⟩
            · simp only [true_iff]
              rintro (h | ⟨v, hv, hn⟩ | ⟨v, hv, hn⟩ | ⟨v, hv, hn⟩ | ⟨v, hv, hn⟩)
              · exact hs h
              · exact h1 v hv hn
              · exact h2 v hv hn
              · exact h3 v hv hn
              · exact h4 v hv hn
            · intro msg h; cases h
            · intro r h; cases h

theorem checkWords_spec (env : KeyWordEnv) (defs : UnitDefs) (l : List String) :
    (checkWords env defs l = Except.ok none ↔ ∀ w ∈ l, ¬ collides defs w) ∧
    (∀ msg, checkWords env defs l = Except.ok (some msg) →
      ∃ w ∈ l, namesCollision env defs w msg) ∧
    (∀ r, checkWords env defs l = Except.error r →
      defs.ServiceDef.Name ∈ l ∧ env.serviceStart defs.ServiceDef = none) := by
  induction l with
  | nil =>
    refine ⟨?_, ?_, ?_⟩
    · simp [checkWords]
    · intro msg h; simp [checkWords] at h
    · intro r h; simp [checkWords] at h
  | cons w rest ih =>
    obtain ⟨c1, c2, c3⟩ := checkWord_spec env defs w
    obtain ⟨i1, i2, i3⟩ := ih
    unfold checkWords
    cases hc : checkWord env defs w with
    | error r =>
      obtain ⟨hn, hp⟩ := c3 r hc
      refine ⟨?_, ?_, ?_⟩
      · simp only [reduceCtorEq, false_iff]
        intro h
        exact h w (List.mem_cons_self _ _) (Or.inl hn)
      · intro msg h; cases h
      · intro r1 _
        exact ⟨hn ▸ List.mem_cons_self _ _, hp⟩
    | ok res =>
      cases res with
      | some e =>
        have hcol := c2 e hc
        have hne : ¬ ¬ collides defs w := by
          intro hno
          have := c1.2 hno
          rw [hc] at this
          cases this
        refine ⟨?_, ?_, ?_⟩
        · simp only [Except.ok.injEq, reduceCtorEq, false_iff]
          intro h
          exact hne (h w (List.mem_cons_self _ _))
        · intro msg h
          simp only [Except.ok.injEq, Option.some.injEq] at h
          exact ⟨w, List.mem_cons_self _ _, h ▸ hcol⟩
        · intro r h; cases h
      | none =>
        have hno := c1.1 hc
        simp only
        refine ⟨?_, ?_, ?_⟩
        · rw [i1]
          constructor
          · intro h x hx
            rcases List.mem_cons.1 hx with he | hr
            · rw [he]; exact hno
            · exact h x hr
          · intro h x hx
            exact h x (List.mem_cons_of_mem _ hx)
        · intro msg h
          obtain ⟨x, hx, hm⟩ := i2 msg h
          exact ⟨x, List.mem_cons_of_mem _ hx, hm⟩
        · intro r h
          obtain ⟨hn, hp⟩ := i3 r h
          exact ⟨List.mem_cons_of_mem _ hn, hp⟩

theorem CheckKeyWord_spec (env : KeyWordEnv) (ans : AnalysisResult) (filePath : String)
    (fileKeys : List String) (horder : ∀ l, (env.order l).Perm l)
    (hfile : fileKeysOf env filePath = Except.ok fileKeys) :
    (ans.CheckKeyWord env filePath = Except.ok none ↔
      ∀ w, w ∈ fileKeys ∨ w ∈ env.keyWords → ¬ collides ans.defs w) ∧
    (∀ msg, ans.CheckKeyWord env filePath = Except.ok (some msg) →
      ∃ w, (w ∈ fileKeys ∨ w ∈ env.keyWords) ∧ namesCollision env ans.defs w msg) ∧
    (∀ r, ans.CheckKeyWord env filePath = Except.error r →
      (ans.defs.ServiceDef.Name ∈ fileKeys ∨ ans.defs.ServiceDef.Name ∈ env.keyWords) ∧
        env.serviceStart ans.defs.ServiceDef = none) := by
  have hmem : ∀ w, w ∈ env.order (keyWordSet env fileKeys) ↔ w ∈ fileKeys ∨ w ∈ env.keyWords := by
    intro w
    rw [(horder _).mem_iff]
    unfold keyWordSet
    rw [List.mem_dedup, List.mem_append]
  have hrun : ans.CheckKeyWord env filePath =
      checkWords env ans.defs (env.order (keyWordSet env fileKeys)) := by
    unfold AnalysisResult.CheckKeyWord
    unfold fileKeysOf at hfile
    by_cases hp : filePath ≠ ""
    · rw [if_pos hp] at hfile ⊢
      cases hr : env.readFile filePath with
      | error e => rw [hr] at hfile; cases hfile
      | ok key =>
        rw [hr] at hfile
        simp only [Except.ok.injEq] at hfile
        simp only [hfile]
    · rw [if_neg hp] at hfile ⊢
      simp only [Except.ok.injEq] at hfile
      rw [← hfile]
  obtain ⟨s1, s2, s3⟩ := checkWords_spec env ans.defs (env.order (keyWordSet env fileKeys))
  rw [hrun]
  refine ⟨?_, ?_, ?_⟩
  · rw [s1]
    constructor
    · intro h w hw; exact h w ((hmem w).2 hw)
    · intro h w hw; exact h w ((hmem w).1 hw)
  · intro msg h
    obtain ⟨w, hw, hc⟩ := s2 msg h
    exact ⟨w, (hmem w).1 hw, hc⟩
  · intro r h
    obtain ⟨hn, hp⟩ := s3 r h
    exact ⟨(hmem _).1 hn, hp⟩

/-! ## Lemmas on the annotation exits -/

theorem pushAnnotations_stack (as : List AnnotationField) :
    ∀ tl : ThriftListener,
      (pushAnnotations tl as).annotationStack = as.reverse ++ tl.annotationStack := by
  induction as with
  | nil => intro tl; rfl
  | cons a rest ih =>
    intro tl
    unfold pushAnnotations at ih ⊢
    rw [List.foldl_cons, ih]
    simp [ pushAnnotation]

theorem typeAnnotation_keys (ctxs : List TypeAnnotationCtx) :
    ∀ tl : ThriftListener,
      (ctxs.foldl ThriftListener.ExitType_annotation tl).annotationStack.map (fun a => a.Key) =
        (ctxs.map fun c => c.IDENTIFIER).reverse ++ tl.annotationStack.map fun a => a.Key := by
  induction ctxs with
  | nil => intro tl; rfl
  | cons c rest ih =>
    intro tl
    rw [List.foldl_cons, ih]
    cases he : c.EQUAL <;> simp [ThriftListener.ExitType_annotation, he]

theorem ParseInt16_hex_marker (digits : String) :
    ParseInt16 ("0x" ++ digits) = (0, false) := by
  have hd : ("0x" ++ digits).data = '0' :: 'x' :: digits.data := by
    rw [String.data_append]; rfl
  have h0 : hexDigit '0' = some 0 := by decide
  have hx : hexDigit 'x' = none := by decide
  have hs : ¬ (('0' : Char) = '-' ∨ ('0' : Char) = '+') := by decide
  unfold ParseInt16
  rw [hd]
  simp only [if_neg hs, List.isEmpty_cons, Bool.false_eq_true, if_false, hexValue, h0, hx]

/-! ## Lemmas on comment extraction -/

theorem hiddenLeft_commentAbove (pre post : List Token) (c w s : String) :
    GetHiddenTokensToLeft (commentAbove pre post c w s) (pre.length + 2)
        Channel.ML_COMMENT_CHAN =
      GetHiddenTokensToLeft pre pre.length Channel.ML_COMMENT_CHAN ++
        [{ text := c, channel := Channel.ML_COMMENT_CHAN, tokenIndex := pre.length }] := by
  unfold GetHiddenTokensToLeft commentAbove
  have ht : ∀ (a b d : Token),
      List.take (pre.length + 2) (pre ++ [a, b, d] ++ post) = pre ++ [a, b] := by
    intro a b d
    rw [List.append_assoc, List.take_append_eq_append_take]
    simp
  rw [ht, List.take_length]
  simp [List.reverse_append, List.takeWhile, List.filter]

theorem append_newline_ne_empty (x : String) : x ++ "\n" ≠ "" := by
  intro h
  have := congrArg String.length h
  simp only [String.length_append] at this
  have h1 : ("\n" : String).length = 1 := rfl
  have h0 : ("" : String).length = 0 := rfl
  omega

/-! ## Lemmas on the entry point -/

theorem dropWhile_append_stop {α : Type} (p : α → Bool) (l r : List α) (a : α)
    (hl : ∀ x ∈ l, p x = true) (ha : p a = false) :
    (l ++ a :: r).dropWhile p = a :: r := by
  induction l with
  | nil => simp [List.dropWhile, ha]
  | cons x rest ih =>
    have hx : p x = true := hl x (List.mem_cons_self _ _)
    simp only [List.cons_append, List.dropWhile, hx]
    exact ih fun y hy => hl y (List.mem_cons_of_mem _ hy)

theorem takeWhile_append_stop {α : Type} (p : α → Bool) (l r : List α) (a : α)
    (hl : ∀ x ∈ l, p x = true) (ha : p a = false) :
    (l ++ a :: r).takeWhile p = l := by
  induction l with
  | nil => simp [List.takeWhile, ha]
  | cons x rest ih =>
    have hx : p x = true := hl x (List.mem_cons_self _ _)
    have h2 := ih fun y hy => hl y (List.mem_cons_of_mem _ hy)
    rw [List.cons_append, List.takeWhile_cons, if_pos hx, h2]

theorem unitName_in_directory (dir name ext : String)
    (hname : ∀ c ∈ name.data, c ≠ '/' ∧ c ≠ '.') (hext : ∀ c ∈ ext.data, c ≠ '.') :
    unitName (dir ++ "/" ++ name ++ "." ++ ext) = "/" ++ name := by
  have hd : (dir ++ "/" ++ name ++ "." ++ ext).data =
      dir.data ++ '/' :: (name.data ++ '.' :: ext.data) := by
    simp only [String.data_append]
    simp
  have hc1 : (dir ++ "/" ++ name ++ "." ++ ext).data.contains '.' = true := by
    rw [hd]; simp
  have h1 : cutLastDot (dir ++ "/" ++ name ++ "." ++ ext) = dir ++ "/" ++ name := by
    unfold cutLastDot
    rw [if_pos hc1, hd]
    have hr : (dir.data ++ '/' :: (name.data ++ '.' :: ext.data)).reverse =
        ext.data.reverse ++ '.' :: (name.data.reverse ++ '/' :: dir.data.reverse) := by
      simp
    rw [hr, dropWhile_append_stop _ _ _ _ (by
      intro x hx
      have := hext x (List.mem_reverse.1 hx)
      simpa using this) (by simp)]
    apply String.ext
    simp [String.data_append]
  have hd2 : (dir ++ "/" ++ name).data = dir.data ++ '/' :: name.data := by
    simp only [String.data_append]
    simp
  have hc2 : (dir ++ "/" ++ name).data.contains '/' = true := by
    rw [hd2]; simp
  unfold unitName
  rw [h1]
  unfold fromLastSlash
  rw [if_pos hc2, hd2]
  have hr2 : (dir.data ++ '/' :: name.data).reverse =
      name.data.reverse ++ '/' :: dir.data.reverse := by simp
  rw [hr2, takeWhile_append_stop _ _ _ _ (by
    intro x hx
    have := (hname x (List.mem_reverse.1 hx)).1
    simpa using this) (by simp)]
  apply String.ext
  simp only [List.reverse_reverse, String.data_append]
  rfl

/-! ## Lemmas on throws lists -/

theorem popToSentinel_fields (fs : List StructField) (S : List (Option StructField)) :
    popToSentinel (fs.map some ++ none :: S) = S := by
  induction fs with
  | nil => rfl
  | cons f rest ih => simpa [popToSentinel] using ih

theorem pushFields_stack (fs : List StructField) :
    ∀ tl : ThriftListener,
      (fs.foldl pushField tl).fieldsStack = fs.reverse.map some ++ tl.fieldsStack := by
  induction fs with
  | nil => intro tl; rfl
  | cons f rest ih =>
    intro tl
    rw [List.foldl_cons, ih]
    simp [pushField]

theorem ExitField_stack (lib : GoLib) (tl tl1 : ThriftListener) (ctx : FieldCtx)
    (h : tl.ExitField lib ctx = Except.ok tl1) :
    ∃ f, tl1.fieldsStack = some f :: tl.fieldsStack := by
  unfold ThriftListener.ExitField at h
  simp only at h
  split at h
  · cases h
  · split at h
    · simp only [ThriftListener.getAnnotations, Except.ok.injEq] at h
      rw [← h]
      exact ⟨_, rfl⟩
    · cases h

theorem runFields_stack (lib : GoLib) (ctxs : List FieldCtx) :
    ∀ tl tl1 : ThriftListener, runFields lib ctxs tl = Except.ok tl1 →
      ∃ fs : List StructField, tl1.fieldsStack = fs.map some ++ tl.fieldsStack ∧
        fs.length = ctxs.length := by
  induction ctxs with
  | nil =>
    intro tl tl1 h
    simp only [runFields, Except.ok.injEq] at h
    exact ⟨[], by rw [h]; rfl, rfl⟩
  | cons c rest ih =>
    intro tl tl1 h
    unfold runFields at h
    split at h
    · cases h
    · rename_i tl2 h2
      obtain ⟨f, hf⟩ := ExitField_stack lib tl tl2 c h2
      obtain ⟨fs, hfs, hl⟩ := ih tl2 tl1 h
      refine ⟨fs ++ [f], ?_, by simp [hl]⟩
      rw [hfs, hf]
      simp

theorem pushAnnotations_fieldsStack (as : List AnnotationField) :
    ∀ tl : ThriftListener, (pushAnnotations tl as).fieldsStack = tl.fieldsStack := by
  induction as with
  | nil => intro tl; rfl
  | cons a rest ih =>
    intro tl
    unfold pushAnnotations at ih ⊢
    rw [List.foldl_cons, ih]
    rfl

/-! ## Lemmas on integer annotation values -/

theorem GetAnnotationString_int (anns : List AnnotationField) (key : String) (n : Int)
    (h : GetAnnotation anns key = some (OptValue.int n)) :
    GetAnnotationString anns key = "" ∧ GetAnnotationTrimString anns key = "" := by
  unfold GetAnnotationTrimString GetAnnotationString
  rw [h]
  exact ⟨rfl, rfl⟩

theorem functionCheck_missing_timeout (lib : GoLib) (t2 t3 t4 name : String) (f : FunctionType)
    (hv : timeoutsValid f.Annotations)
    (h : GetAnnotationTrimString f.Annotations "timeoutMsec" = "") :
    dirpcFunctionCheck lib "grpc" "" t2 t3 t4 name f =
      some ("missing timeout for function " ++ name) := by
  obtain ⟨v1, v2, v3, v4⟩ := hv
  unfold dirpcFunctionCheck
  have e1 : ¬ (("grpc" : String) = "http" ∨ ("grpc" : String) = "https") := by decide
  simp only
  rw [orElse_of_none _ _ ((illegalTimeout_eq_none_iff _ _).2 v1),
    orElse_of_none _ _ ((illegalTimeout_eq_none_iff _ _).2 v2),
    orElse_of_none _ _ ((illegalTimeout_eq_none_iff _ _).2 v3),
    orElse_of_none _ _ ((illegalTimeout_eq_none_iff _ _).2 v4)]
  simp only [if_neg e1, if_true, h, and_self]

theorem functionCheck_missing_send_timeout (lib : GoLib) (t1 t2 t4 name : String)
    (f : FunctionType) (hv : timeoutsValid f.Annotations)
    (h : GetAnnotationTrimString f.Annotations "sendTimeoutMsec" = "") :
    dirpcFunctionCheck lib "thrift" t1 t2 "" t4 name f =
      some ("missing send timeout for function " ++ name) := by
  obtain ⟨v1, v2, v3, v4⟩ := hv
  unfold dirpcFunctionCheck
  have e1 : ¬ (("thrift" : String) = "http" ∨ ("thrift" : String) = "https") := by decide
  have e2 : ¬ (("thrift" : String) = "grpc") := by decide
  simp only
  rw [orElse_of_none _ _ ((illegalTimeout_eq_none_iff _ _).2 v1),
    orElse_of_none _ _ ((illegalTimeout_eq_none_iff _ _).2 v2),
    orElse_of_none _ _ ((illegalTimeout_eq_none_iff _ _).2 v3),
    orElse_of_none _ _ ((illegalTimeout_eq_none_iff _ _).2 v4)]
  simp only [if_neg e1, if_neg e2, if_true, h, and_self]

/-! ## Lemmas on the search set -/

theorem parseIncludes_searched
    (recur : String → List String → Option (Except String ListenerTree × List String))
    (searchDir : String → Except String String)
    (hrec : ∀ idl s tree s1, recur idl s = some (Except.ok tree, s1) → s1 = s)
    (searched : List String) :
    ∀ (l : List String) (acc incs : GoMap ListenerTree) (searched1 : List String),
      parseIncludes recur searchDir l searched acc = some (Except.ok incs, searched1) →
      searched1 = searched := by
  intro l
  induction l with
  | nil =>
    intro acc incs searched1 h
    simp only [parseIncludes, Option.some.injEq, Prod.mk.injEq] at h
    exact h.2.symm
  | cons q rest ih =>
    intro acc incs searched1 h
    unfold parseIncludes at h
    simp only at h
    split at h
    · cases h
    · split at h
      · cases h
      · rename_i hq
        split at h
        · cases h
        · split at h
          · cases h
          · cases h
          · rename_i sub s1 hsub
            have hs := hrec _ _ _ _ hsub
            rw [searchedAdd_of_not_mem searched q hq] at hs
            rw [hs, searchedRemove_cons_self searched q hq] at h
            exact ih _ _ _ h

theorem parseIDL_searched (lib : GoLib) (env : ParseEnv) :
    ∀ (fuel : Nat) (idl : String) (searchDir : Option (String → Except String String))
      (searched : List String) (singleMode : Bool) (tree : ListenerTree)
      (searched1 : List String),
      parseIDL lib env fuel idl searchDir searched singleMode =
        some (Except.ok tree, searched1) →
      searched1 = searched := by
  intro fuel
  induction fuel with
  | zero =>
    intro idl searchDir searched singleMode tree searched1 h
    simp [parseIDL] at h
  | succ fuel ih =>
    intro idl searchDir searched singleMode tree searched1 h
    have hfin : ∀ (listener : ThriftListener) (incs : GoMap ListenerTree) (s : List String),
        (match dirpcFieldsCheck lib env.checkDiRPCFlag listener with
          | some finalErr => some (Except.error finalErr, s)
          | none => some (Except.ok (ListenerTree.mk listener incs), s)) =
          some (Except.ok tree, searched1) → searched1 = s := by
      intro listener incs s hf
      split at hf
      · cases hf
      · simp only [Option.some.injEq, Prod.mk.injEq] at hf
        exact hf.2.symm
    unfold parseIDL at h
    split at h
    · cases h
    · rename_i listener hp
      simp only at h
      split at h
      · split at h
        · split at h
          · cases h
          · exact hfin _ _ _ h
        · rename_i opener
          split at h
          · cases h
          · cases h
          · rename_i incs s1 hloop
            have hs := parseIncludes_searched _ opener
              (fun idl s tree s1 hr => ih idl (some opener) s singleMode tree s1 hr)
              searched _ _ _ _ hloop
            have := hfin _ _ _ h
            rw [this, hs]
      · exact hfin _ _ _ h

theorem parseIDL_acyclic (lib : GoLib) (env : ParseEnv)
    (searchDir : String → Except String String) (files : List String) (idl : String)
    (listener : ThriftListener) (fuel : Nat)
    (hparse : env.parseText idl = Except.ok listener)
    (hcheck : dirpcFieldsCheck lib env.checkDiRPCFlag listener = none)
    (hinc : ∀ q ∈ includeNames env idl, q ∈ files)
    (hfiles : ∀ p ∈ files, fileOk lib env searchDir files p = true)
    (horder : ∀ s l, (env.order s l).Perm l)
    (hwalks : ∀ w, isWalk env searchDir idl w = true → w.Nodup)
    (hfuel : files.length < fuel) :
    ∃ tree, parseIDL lib env fuel idl (some searchDir) [] false = some (Except.ok tree, []) := by
  obtain ⟨f, rfl⟩ : ∃ f, fuel = f + 1 := ⟨fuel - 1, by omega⟩
  obtain ⟨r, hr, hcase⟩ := parseIDL_step lib env searchDir files f
    (parseIDL_spec lib env searchDir files hfiles horder f) hfiles horder idl listener []
    hparse hinc (fun x hx => by cases hx) List.nodup_nil
    (by rw [List.length_nil]; omega)
  rcases hcase with ⟨msg, s, _, chain, p, hp, hw, _⟩ | ⟨_, hs, hok⟩
  · exfalso
    have hn := hwalks _ hw
    rw [List.append_nil] at hp
    rw [List.nodup_append] at hn
    exact hn.2.2 hp (List.mem_singleton_self p)
  · obtain ⟨tree, ht⟩ := hok hcheck
    refine ⟨tree, ?_⟩
    obtain ⟨r1, r2⟩ := r
    simp only at ht hs
    rw [hr, ht, hs]

/-! ## Lemmas on the indentation of the emitter -/

theorem concatText_append (a b : List String) :
    concatText (a ++ b) = concatText a ++ concatText b := by
  induction a with
  | nil => simp [concatText]
  | cons x rest ih => simp [concatText, ih, String.append_assoc]

theorem newlines_eq_lines (m : Nat) :
    String.mk (List.replicate m '\n') =
      concatText ((List.replicate m "").map fun l => l ++ "\n") := by
  induction m with
  | zero => rfl
  | succ m ih =>
    rw [List.replicate_succ, List.replicate_succ, List.map_cons]
    simp only [concatText]
    rw [← ih]
    rfl

theorem noLineFeed_append (a b : String) (ha : noLineFeed a) (hb : noLineFeed b) :
    noLineFeed (a ++ b) := by
  unfold noLineFeed at *
  rw [String.data_append, List.mem_append]
  exact fun h => h.elim ha hb

/-! ## Lemmas on service exit -/

theorem GoMap.mem_set {V : Type} (m : GoMap V) (k : String) (v : V) (kv : String × V)
    (h : kv ∈ GoMap.set m k v) : kv ∈ m ∨ kv = (k, v) := by
  induction m with
  | nil =>
    simp only [GoMap.set, List.mem_singleton] at h
    exact Or.inr h
  | cons p rest ih =>
    obtain ⟨k1, v1⟩ := p
    unfold GoMap.set at h
    split_ifs at h with hk
    · rcases List.mem_cons.1 h with h1 | h1
      · exact Or.inr h1
      · exact Or.inl (List.mem_cons_of_mem _ h1)
    · rcases List.mem_cons.1 h with h1 | h1
      · exact Or.inl (h1 ▸ List.mem_cons_self _ _)
      · rcases ih h1 with h2 | h2
        · exact Or.inl (List.mem_cons_of_mem _ h2)
        · exact Or.inr h2

theorem GoMap.length_set_of_not_mem {V : Type} (m : GoMap V) (k : String) (v : V)
    (h : k ∉ m.map Prod.fst) : (GoMap.set m k v).length = m.length + 1 := by
  rw [GoMap.set_of_not_mem m k v h, List.length_append]
  rfl

theorem serviceFunctions_distinct (fs : List FunctionType) :
    ∀ acc : GoMap FunctionType, (fs.map fun f => f.Name).Nodup →
      (∀ f ∈ fs, f.Name ∉ acc.map Prod.fst) →
      serviceFunctions fs acc = acc ++ resequenced acc.length fs := by
  induction fs with
  | nil => intro acc _ _; simp [serviceFunctions, resequenced]
  | cons f rest ih =>
    intro acc hd hdis
    simp only [List.map_cons, List.nodup_cons] at hd
    have hf : f.Name ∉ acc.map Prod.fst := hdis f (List.mem_cons_self _ _)
    unfold serviceFunctions
    rw [GoMap.set_of_not_mem acc f.Name _ hf, ih _ hd.2]
    · simp [resequenced, List.enumFrom]
    · intro g hg
      rw [List.map_append, List.mem_append]
      rintro (h1 | h1)
      · exact hdis g (List.mem_cons_of_mem _ hg) h1
      · simp only [List.map_cons, List.map_nil, List.mem_singleton] at h1
        apply hd.1
        rw [← h1]
        exact List.mem_map_of_mem (fun f => f.Name) hg

theorem ExitFunction_effect (lib : GoLib) (tl tl1 : ThriftListener) (ctx : FunctionCtx)
    (h : tl.ExitFunction lib ctx = Except.ok tl1) :
    tl1.serviceDefs = tl.serviceDefs ∧
    (∀ kv ∈ tl1.functionDefs, kv ∈ tl.functionDefs ∨ kv.2.ServiceName = ctx.serviceName) ∧
    ∃ f : FunctionType, f.Name = ctx.IDENTIFIER ∧
      tl1.functionDefsService =
        tl.functionDefsService.set ctx.serviceName
          (tl.functionDefsService.getSlice ctx.serviceName ++ [f]) := by
  unfold ThriftListener.ExitFunction at h
  simp only at h
  split at h
  · cases h
  · split at h
    · simp only [ThriftListener.getAnnotations, Except.ok.injEq] at h
      rw [← h]
      refine ⟨rfl, ?_, ⟨_, rfl, rfl⟩⟩
      intro kv hkv
      rcases GoMap.mem_set _ _ _ _ hkv with h1 | h1
      · rcases GoMap.mem_set _ _ _ _ h1 with h2 | h2
        · exact Or.inl h2
        · exact Or.inr (by rw [h2])
      · exact Or.inr (by rw [h1])
    · cases h

theorem runFunctions_effect (lib : GoLib) (service : String) (evs : List FunctionEvent) :
    ∀ tl tl1 : ThriftListener, runFunctions lib service evs tl = Except.ok tl1 →
      tl1.serviceDefs = tl.serviceDefs ∧
      (∀ kv ∈ tl1.functionDefs, kv ∈ tl.functionDefs ∨ kv.2.ServiceName = service) ∧
      ∃ fs : List FunctionType,
        tl1.functionDefsService.getSlice service =
          tl.functionDefsService.getSlice service ++ fs ∧
        (fs.map fun f => f.Name) = evs.map fun ev => ev.IDENTIFIER := by
  induction evs with
  | nil =>
    intro tl tl1 h
    simp only [runFunctions, Except.ok.injEq] at h
    rw [← h]
    exact ⟨rfl, fun kv hkv => Or.inl hkv, [], by simp, rfl⟩
  | cons ev rest ih =>
    intro tl tl1 h
    unfold runFunctions at h
    split at h
    · cases h
    · rename_i tl2 h2
      unfold exitFunctionOf at h2
      obtain ⟨e1, e2, f, ef, e3⟩ := ExitFunction_effect lib _ tl2 _ h2
      obtain ⟨i1, i2, fs, i3, i4⟩ := ih tl2 tl1 h
      refine ⟨by rw [i1, e1], ?_, f :: fs, ?_, ?_⟩
      · intro kv hkv
        rcases i2 kv hkv with h3 | h3
        · rcases e2 kv h3 with h4 | h4
          · exact Or.inl h4
          · exact Or.inr h4
        · exact Or.inr h3
      · rw [i3, e3]
        simp only [GoMap.getSlice, GoMap.get_set_self, Option.getD_some, List.append_assoc,
          List.singleton_append]
      · simp only [List.map_cons, ef, i4]

theorem ExitService_effect (tl : ThriftListener) (ctx : ServiceCtx) :
    (tl.ExitService ctx).functionDefs = tl.functionDefs ∧
    ∃ svc : ServiceType, (tl.ExitService ctx).serviceDefs = tl.serviceDefs ++ [svc] ∧
      svc.Name = ctx.IDENTIFIER ∧
      svc.FunctionDefs =
        serviceFunctions (tl.functionDefsService.getSlice ctx.IDENTIFIER) [] := by
  let table := serviceFunctions (tl.functionDefsService.getSlice ctx.IDENTIFIER) []
  let anns := reverseInPlace tl.annotationStack
  let svc : ServiceType :=
    { toComments := ctx.comments, Name := ctx.IDENTIFIER, Annotations := anns, FunctionDefs := table }
  refine ⟨?_, svc, ?_, rfl, rfl⟩
  · unfold ThriftListener.ExitService ThriftListener.getAnnotations
    by_cases hn : tl.serviceDef.Name = "" <;> simp only [hn, if_true, if_false]
  · unfold ThriftListener.ExitService ThriftListener.getAnnotations
    by_cases hn : tl.serviceDef.Name = "" <;> simp only [hn, if_true, if_false]

theorem exitServiceOf_effect (lib : GoLib) (tl tl2 : ThriftListener) (sv : ServiceEvent)
    (h : exitServiceOf lib tl sv = Except.ok tl2) :
    (∀ kv ∈ tl2.functionDefs, kv ∈ tl.functionDefs ∨ kv.2.ServiceName = sv.IDENTIFIER) ∧
    ∃ (svc : ServiceType) (fs : List FunctionType),
      tl2.serviceDefs = tl.serviceDefs ++ [svc] ∧ svc.Name = sv.IDENTIFIER ∧
      (fs.map fun f => f.Name) = sv.functions.map (fun ev => ev.IDENTIFIER) ∧
      svc.FunctionDefs =
        serviceFunctions (tl.functionDefsService.getSlice sv.IDENTIFIER ++ fs) [] := by
  unfold exitServiceOf at h
  split at h
  · cases h
  · rename_i tl1 h1
    simp only [Except.ok.injEq] at h
    obtain ⟨e1, e2, fs, e3, e4⟩ := runFunctions_effect lib sv.IDENTIFIER sv.functions tl tl1 h1
    obtain ⟨s1, svc, s2, s3, s4⟩ := ExitService_effect
      { tl1 with annotationStack := sv.annotationStack }
      { IDENTIFIER := sv.IDENTIFIER, comments := sv.comments }
    rw [h] at s1 s2
    refine ⟨?_, svc, fs, ?_, s3, e4, ?_⟩
    · intro kv hkv
      rw [s1] at hkv
      exact e2 kv hkv
    · rw [s2]
      simp only
      rw [e1]
    · rw [s4]
      simp only
      rw [e3]

theorem exitServiceOf_named (lib : GoLib) (tl tl2 : ThriftListener) (sv : ServiceEvent)
    (h : exitServiceOf lib tl sv = Except.ok tl2) (hn : servicesNamed tl) :
    servicesNamed tl2 := by
  obtain ⟨h1, svc, fs, h2, h3, _, _⟩ := exitServiceOf_effect lib tl tl2 sv h
  intro kv hkv
  rw [h2, List.map_append, List.mem_append]
  rcases h1 kv hkv with h4 | h4
  · exact Or.inl (hn kv h4)
  · right
    rw [h4, ← h3]
    simp

theorem runServices_named (lib : GoLib) (svs : List ServiceEvent) :
    ∀ tl tl1 : ThriftListener, runServices lib svs tl = Except.ok tl1 → servicesNamed tl →
      servicesNamed tl1 := by
  induction svs with
  | nil =>
    intro tl tl1 h hn
    simp only [runServices, Except.ok.injEq] at h
    rw [← h]
    exact hn
  | cons sv rest ih =>
    intro tl tl1 h hn
    unfold runServices at h
    split at h
    · cases h
    · rename_i tl2 h2
      exact ih tl2 tl1 h (exitServiceOf_named lib tl tl2 sv h2 hn)

theorem resequenced_table (fs : List FunctionType) :
    ∀ start : Nat,
      (resequenced start fs).map (fun p => (p.1, p.2.SequenceNum)) =
        ((fs.map fun f => f.Name).enumFrom start).map fun p => (p.2, (p.1 : Int)) := by
  induction fs with
  | nil => intro start; rfl
  | cons f rest ih =>
    intro start
    have := ih (start + 1)
    unfold resequenced at this ⊢
    simp only [List.enumFrom, List.map_cons, this]

theorem genFunctions_own (lib : GoLib) (fuel : Nat) (typedefs : GoMap TypedefType)
    (name : String) (fs : List FunctionType) :
    ∀ buf : IdentBuffer,
      genFunctions lib fuel typedefs name buf fs =
        emitFunctions lib fuel typedefs buf (ownFunctions name fs) := by
  induction fs with
  | nil => intro buf; rfl
  | cons f rest ih =>
    intro buf
    unfold genFunctions ownFunctions
    by_cases hf : f.ServiceName = name
    · simp only [hf, ne_eq, not_true_eq_false, if_false, List.filter_cons, decide_True, if_true]
      unfold emitFunctions
      cases f.Gen lib fuel (buf.Derive 1) typedefs with
      | none => rfl
      | some r =>
        cases r with
        | error e => rfl
        | ok b => exact ih _
    · simp only [hf, ne_eq, not_false_eq_true, if_true, List.filter_cons, decide_False]
      exact ih buf

theorem ownFunctions_skip (name : String) (l1 l2 : List FunctionType) (g : FunctionType)
    (hg : g.ServiceName ≠ name) :
    ownFunctions name (l1 ++ g :: l2) = ownFunctions name (l1 ++ l2) := by
  unfold ownFunctions
  simp [List.filter_append, List.filter_cons, hg]

theorem genService_block (lib : GoLib) (fuel : Nat) (defs : UnitDefs) (buf : IdentBuffer)
    (hn : defs.ServiceDef.Name ≠ "") :
    genService lib fuel defs buf = serviceBlock lib fuel defs buf := by
  unfold genService serviceBlock
  simp only [hn, ne_eq, not_false_eq_true, if_true]
  cases SortFunctionDefs defs.FunctionDefs with
  | error e => rfl
  | ok sorted =>
    simp only [genFunctions_own]

theorem genUnit_serviceDefs (lib : GoLib) (fuel : Nat) (defs : UnitDefs)
    (svcs : List ServiceType) (currentName lang : String) (mainPackage : Bool)
    (opt : CodeGenOpt) :
    genUnit lib fuel { defs with ServiceDefs := svcs } currentName lang mainPackage opt =
      genUnit lib fuel defs currentName lang mainPackage opt := rfl

theorem ExitFunction_serviceDef (lib : GoLib) (tl tl1 : ThriftListener) (ctx : FunctionCtx)
    (h : tl.ExitFunction lib ctx = Except.ok tl1) : tl1.serviceDef = tl.serviceDef := by
  unfold ThriftListener.ExitFunction at h
  simp only at h
  split at h
  · cases h
  · split at h
    · simp only [ThriftListener.getAnnotations, Except.ok.injEq] at h
      rw [← h]
    · cases h

theorem runFunctions_serviceDef (lib : GoLib) (service : String) (evs : List FunctionEvent) :
    ∀ tl tl1 : ThriftListener, runFunctions lib service evs tl = Except.ok tl1 →
      tl1.serviceDef = tl.serviceDef := by
  induction evs with
  | nil =>
    intro tl tl1 h
    simp only [runFunctions, Except.ok.injEq] at h
    rw [← h]
  | cons ev rest ih =>
    intro tl tl1 h
    unfold runFunctions at h
    split at h
    · cases h
    · rename_i tl2 h2
      rw [ih tl2 tl1 h]
      unfold exitFunctionOf at h2
      have e := ExitFunction_serviceDef lib _ tl2 _ h2
      exact e

theorem ExitService_serviceDef (tl : ThriftListener) (ctx : ServiceCtx) :
    (tl.serviceDef.Name ≠ "" → (tl.ExitService ctx).serviceDef = tl.serviceDef) ∧
    (tl.serviceDef.Name = "" →
      (tl.ExitService ctx).serviceDefs = tl.serviceDefs ++ [(tl.ExitService ctx).serviceDef] ∧
      (tl.ExitService ctx).serviceDef.Name = ctx.IDENTIFIER) := by
  constructor
  · intro hn
    unfold ThriftListener.ExitService ThriftListener.getAnnotations
    simp only [hn, if_false]
  · intro hn
    unfold ThriftListener.ExitService ThriftListener.getAnnotations
    simp only [hn, if_true, and_self]

theorem exitServiceOf_serviceDef (lib : GoLib) (tl tl2 : ThriftListener) (sv : ServiceEvent)
    (h : exitServiceOf lib tl sv = Except.ok tl2) :
    (tl.serviceDef.Name ≠ "" → tl2.serviceDef = tl.serviceDef) ∧
    (tl.serviceDef.Name = "" →
      tl2.serviceDefs = tl.serviceDefs ++ [tl2.serviceDef] ∧
      tl2.serviceDef.Name = sv.IDENTIFIER) := by
  unfold exitServiceOf at h
  split at h
  · cases h
  · rename_i tl1 h1
    simp only [Except.ok.injEq] at h
    have e1 := runFunctions_serviceDef lib sv.IDENTIFIER sv.functions tl tl1 h1
    have e2 := (runFunctions_effect lib sv.IDENTIFIER sv.functions tl tl1 h1).1
    obtain ⟨s1, s2⟩ := ExitService_serviceDef
      { tl1 with annotationStack := sv.annotationStack }
      { IDENTIFIER := sv.IDENTIFIER, comments := sv.comments }
    rw [h] at s1 s2
    simp only at s1 s2
    rw [e1] at s1 s2
    rw [e2] at s2
    exact ⟨s1, s2⟩

theorem runServices_keeps (lib : GoLib) (svs : List ServiceEvent) :
    ∀ tl tl1 : ThriftListener, runServices lib svs tl = Except.ok tl1 →
      tl.serviceDef.Name ≠ "" →
      tl1.serviceDef = tl.serviceDef ∧ ∃ more, tl1.serviceDefs = tl.serviceDefs ++ more := by
  induction svs with
  | nil =>
    intro tl tl1 h _
    simp only [runServices, Except.ok.injEq] at h
    rw [← h]
    exact ⟨rfl, [], by simp⟩
  | cons sv rest ih =>
    intro tl tl1 h hn
    unfold runServices at h
    split at h
    · cases h
    · rename_i tl2 h2
      have e1 := (exitServiceOf_serviceDef lib tl tl2 sv h2).1 hn
      obtain ⟨_, svc, _, e2, _⟩ := exitServiceOf_effect lib tl tl2 sv h2
      obtain ⟨e3, more, e4⟩ := ih tl2 tl1 h (by rw [e1]; exact hn)
      refine ⟨by rw [e3, e1], [svc] ++ more, ?_⟩
      rw [e4, e2, List.append_assoc]

theorem runServices_first (lib : GoLib) (sv : ServiceEvent) (rest : List ServiceEvent)
    (tl tl1 : ThriftListener) (h : runServices lib (sv :: rest) tl = Except.ok tl1)
    (hn : tl.serviceDef.Name = "") (hs : tl.serviceDefs = []) (hname : sv.IDENTIFIER ≠ "") :
    tl1.serviceDefs.head? = some tl1.serviceDef ∧ tl1.serviceDef.Name = sv.IDENTIFIER := by
  unfold runServices at h
  split at h
  · cases h
  · rename_i tl2 h2
    obtain ⟨e1, e2⟩ := (exitServiceOf_serviceDef lib tl tl2 sv h2).2 hn
    obtain ⟨e3, more, e4⟩ := runServices_keeps lib rest tl2 tl1 h (by rw [e2]; exact hname)
    rw [e4, e1, hs, e3, e2]
    simp

theorem copyInclude_defs (tl : ThriftListener) (incl : List (String × ListenerTree)) :
    (ListenerTree.mk tl incl).copyInclude.defs = unitDefsOf tl := by
  simp [ListenerTree.copyInclude, AnalysisResult.defs, unitDefsOf]

/-! ## Lemmas on the termination of `expandType` -/

theorem GoMap.key_of_get {V : Type} (m : GoMap V) (k : String) (v : V)
    (h : GoMap.get m k = some v) : k ∈ m.map Prod.fst := by
  induction m with
  | nil => simp [GoMap.get] at h
  | cons p rest ih =>
    obtain ⟨k1, v1⟩ := p
    unfold GoMap.get at h
    by_cases hk : k1 = k
    · simp [hk]
    · simp only [hk, if_false] at h
      simp [ih h]

theorem acc_of_refs (td : GoMap TypedefType) :
    ∀ t : Ty, (∀ n ∈ refs t, Acc (recursiveCall td) (Ty.UDFType n)) →
      Acc (recursiveCall td) t := by
  intro t
  induction t with
  | UDFType n =>
    intro h
    exact h n (by simp [refs])
  | ContainerType i a c ih =>
    intro h
    refine Acc.intro _ fun y hy => ?_
    simp only [recursiveCall, callees, List.mem_singleton] at hy
    rw [hy]
    exact ih (fun n hn => h n (by simpa [refs] using hn))
  | SetType i ih =>
    intro h
    refine Acc.intro _ fun y hy => ?_
    simp only [recursiveCall, callees, List.mem_singleton] at hy
    rw [hy]
    refine Acc.intro _ fun z hz => ?_
    simp only [recursiveCall, callees, List.mem_singleton] at hz
    rw [hz]
    exact ih (fun n hn => h n (by simpa [refs] using hn))
  | ListType i ih =>
    intro h
    refine Acc.intro _ fun y hy => ?_
    simp only [recursiveCall, callees, List.mem_singleton] at hy
    rw [hy]
    exact ih (fun n hn => h n (by simpa [refs] using hn))
  | MapType k v ihk ihv =>
    intro h
    refine Acc.intro _ fun y hy => ?_
    simp only [recursiveCall, callees, List.mem_cons, List.mem_singleton, List.mem_nil_iff,
      or_false] at hy
    rcases hy with hy | hy
    · rw [hy]
      exact ihk (fun n hn => h n (by simp [refs, hn]))
    · rw [hy]
      exact ihv (fun n hn => h n (by simp [refs, hn]))
  | BaseType i a =>
    intro _
    refine Acc.intro _ fun y hy => ?_
    simp only [recursiveCall, callees, List.mem_singleton] at hy
    rw [hy]
    refine Acc.intro _ fun z hz => ?_
    simp [recursiveCall, callees] at hz
  | RealBaseType n =>
    intro _
    refine Acc.intro _ fun y hy => ?_
    simp [recursiveCall, callees] at hy
  | str s =>
    intro _
    refine Acc.intro _ fun y hy => ?_
    simp [recursiveCall, callees] at hy
  | other =>
    intro _
    refine Acc.intro _ fun y hy => ?_
    simp [recursiveCall, callees] at hy

theorem acc_udf (td : GoMap TypedefType) (h : aliasAcyclic td) :
    ∀ n : String, Acc (recursiveCall td) (Ty.UDFType n) := by
  have hwf : WellFounded
      (fun a b : { n : String // n ∈ td.map Prod.fst } =>
        Relation.TransGen (aliasEdge td) b.1 a.1) :=
    @Finite.wellFounded_of_trans_of_irrefl _ _ _
      ⟨fun _ _ _ h1 h2 => Relation.TransGen.trans h2 h1⟩ ⟨fun a => h a.1⟩
  have key : ∀ a : { n : String // n ∈ td.map Prod.fst },
      Acc (recursiveCall td) (Ty.UDFType a.1) := by
    intro a
    induction a using hwf.induction with
    | _ a ih =>
      refine Acc.intro _ fun y hy => ?_
      simp only [recursiveCall, callees] at hy
      cases hg : td.get a.1 with
      | none => rw [hg] at hy; simp at hy
      | some tdf =>
        rw [hg] at hy
        simp only [List.mem_singleton] at hy
        rw [hy]
        refine acc_of_refs td _ fun m hm => ?_
        cases hm2 : td.get m with
        | none =>
          refine Acc.intro _ fun z hz => ?_
          simp [recursiveCall, callees, hm2] at hz
        | some tdm =>
          exact ih ⟨m, GoMap.key_of_get td m tdm hm2⟩
            (Relation.TransGen.single ⟨tdf, hg, hm⟩)
  intro n
  cases hg : td.get n with
  | none =>
    refine Acc.intro _ fun z hz => ?_
    simp [recursiveCall, callees, hg] at hz
  | some tdf => exact key ⟨n, GoMap.key_of_get td n tdf hg⟩

theorem recursiveCall_wf (td : GoMap TypedefType) (h : aliasAcyclic td) :
    WellFounded (recursiveCall td) :=
  ⟨fun t => acc_of_refs td t fun n _ => acc_udf td h n⟩

theorem expands_of_acc (td : GoMap TypedefType) :
    ∀ t : Ty, Acc (recursiveCall td) t → ∃ s, Expands td t s := by
  intro t ht
  induction ht with
  | intro t _ ih =>
    cases t with
    | UDFType n =>
      cases hg : td.get n with
      | none => exact ⟨n, (expands_udf td n n).2 (by simp only [hg])⟩
      | some tdf =>
        obtain ⟨s, hs⟩ := ih tdf.OriginalType (by simp [recursiveCall, callees, hg])
        exact ⟨s, (expands_udf td n s).2 (by simp only [hg]; exact hs)⟩
    | ContainerType i a c =>
      obtain ⟨s, hs⟩ := ih i (by simp [recursiveCall, callees])
      exact ⟨s, (expands_container td i a c s).2 hs⟩
    | SetType i =>
      obtain ⟨s, hs⟩ := ih (Ty.ListType i) (by simp [recursiveCall, callees])
      exact ⟨s, (expands_set td i s).2 hs⟩
    | ListType i =>
      obtain ⟨v, hv⟩ := ih i (by simp [recursiveCall, callees])
      exact ⟨_, (expands_list td i _).2 ⟨v, hv, rfl⟩⟩
    | MapType k v =>
      obtain ⟨ks, hks⟩ := ih k (by simp [recursiveCall, callees])
      obtain ⟨vs, hvs⟩ := ih v (by simp [recursiveCall, callees])
      by_cases hk : ks = ""
      · exact ⟨"", (expands_map td k v "").2 ⟨ks, hks, by simp [hk]⟩⟩
      · exact ⟨_, (expands_map td k v _).2 ⟨ks, hks, by
          simp only [hk, if_false]
          exact ⟨vs, hvs, rfl⟩⟩⟩
    | BaseType i a => exact ⟨_, (expands_base td i a _).2 rfl⟩
    | RealBaseType n => exact ⟨_, (expands_realBase td n _).2 rfl⟩
    | str s => exact ⟨_, (expands_str td s _).2 rfl⟩
    | other => exact ⟨"", 1, rfl⟩

theorem aliasAcyclic_of_rank (td : GoMap TypedefType) (rank : String → Nat)
    (h : ∀ a b, aliasEdge td a b → rank b < rank a) : aliasAcyclic td := by
  have key : ∀ a b, Relation.TransGen (aliasEdge td) a b → rank b < rank a := by
    intro a b hab
    induction hab with
    | single e => exact h _ _ e
    | tail _ e ih => exact lt_trans (h _ _ e) ih
  intro n hn
  exact lt_irrefl _ (key n n hn)

/-! ## Lemmas on the lines of the emitter -/

theorem newlines_eq_untouched (d : Int) (m : Nat) :
    String.mk (List.replicate m '\n') =
      concatText ((List.replicate m (none : Option String)).map
        fun l => renderLine d l ++ "\n") := by
  induction m with
  | zero => rfl
  | succ m ih =>
    rw [List.replicate_succ, List.replicate_succ, List.map_cons]
    simp only [concatText]
    rw [← ih]
    rfl

theorem Renders_write (d : Int) (pre : String) (b : IdentBuffer) (lay : Layout) (s : String)
    (h : Renders d pre b lay) :
    Renders d pre { b.tab with buf := b.tab.buf ++ s } (lay.write s) := by
  obtain ⟨h1, h2, h3⟩ := h
  unfold IdentBuffer.tab
  cases hc : lay.current with
  | none =>
    have hn : b.newLine = true := h2.2 hc
    simp only [hn, if_true]
    refine ⟨?_, ?_, h3⟩
    · simp only [h1, h3, Layout.render, Layout.write, hc, renderLine, Option.getD_none,
        String.append_assoc, String.empty_append, String.append_empty]
    · simp [Layout.write]
  | some c =>
    have hn : b.newLine = false := by
      cases hb : b.newLine with
      | false => rfl
      | true => rw [h2.1 hb] at hc; cases hc
    simp only [hn, Bool.false_eq_true, if_false]
    refine ⟨?_, ?_, h3⟩
    · simp only [h1, Layout.render, Layout.write, hc, renderLine, Option.getD_some,
        String.append_assoc]
    · simp [Layout.write, hn]

theorem Renders_newLines (d : Int) (pre : String) (b : IdentBuffer) (lay : Layout) (n : Int)
    (h : Renders d pre b lay) : Renders d pre (b.NewLine n) (lay.newLines n) := by
  obtain ⟨h1, h2, h3⟩ := h
  refine ⟨?_, by simp [IdentBuffer.NewLine, Layout.newLines], h3⟩
  have hpos : 1 ≤ (if n < 1 then 1 else n).toNat := by
    split <;> omega
  obtain ⟨m, hm⟩ : ∃ m, (if n < 1 then 1 else n).toNat = m + 1 :=
    ⟨_, (Nat.sub_add_cancel hpos).symm⟩
  have e1 : (b.NewLine n).buf = b.buf ++ ("\n" ++ String.mk (List.replicate m '\n')) := by
    simp only [IdentBuffer.NewLine, repeatChar, hm, List.replicate_succ]
    rfl
  have e2 : (lay.newLines n).render d =
      lay.render d ++ ("\n" ++ String.mk (List.replicate m '\n')) := by
    simp only [Layout.newLines, Layout.render, hm, Nat.add_sub_cancel, List.map_append,
      List.map_cons, concatText_append, concatText]
    rw [← newlines_eq_untouched d m]
    simp only [renderLine, String.append_assoc, String.append_empty]
  rw [e1, e2, h1, String.append_assoc]

theorem Renders_call (d : Int) (pre : String) (b : IdentBuffer) (lay : Layout) (op : EmitOp)
    (h : Renders d pre b lay) : Renders d pre (b.call op) (lay.call op) := by
  cases op with
  | WriteString s => exact Renders_write d pre b lay s h
  | WriteByte c =>
    unfold IdentBuffer.call IdentBuffer.WriteByte Layout.call
    by_cases hc : c = '\n'
    · simp only [hc, if_true]
      exact Renders_newLines d pre b lay 1 h
    · simp only [hc, if_false]
      exact Renders_write d pre b lay _ h
  | WriteLine s =>
    exact Renders_newLines d pre _ _ 1 (Renders_write d pre b lay _ h)
  | NewLine n => exact Renders_newLines d pre b lay n h

theorem Renders_run (d : Int) (pre : String) (ops : List EmitOp) :
    ∀ (b : IdentBuffer) (lay : Layout), Renders d pre b lay →
      Renders d pre (b.run ops) (lay.run ops) := by
  induction ops with
  | nil => intro b lay h; exact h
  | cons op rest ih =>
    intro b lay h
    exact ih _ _ (Renders_call d pre b lay op h)

theorem Layout.oneLine_write (lay : Layout) (s : String) (h : lay.oneLine)
    (hs : noLineFeed s) : (lay.write s).oneLine := by
  intro l hl c hc
  simp only [Layout.lines, Layout.write, List.mem_append, List.mem_singleton] at hl
  rcases hl with hl | hl
  · exact h l (by simp [Layout.lines, hl]) c hc
  · rw [hl] at hc
    simp only [Option.some.injEq] at hc
    rw [← hc]
    refine noLineFeed_append _ _ ?_ hs
    cases hcur : lay.current with
    | none => simp [noLineFeed]
    | some c0 => exact h (some c0) (by simp [Layout.lines, hcur]) c0 rfl

theorem Layout.oneLine_newLines (lay : Layout) (n : Int) (h : lay.oneLine) :
    (lay.newLines n).oneLine := by
  intro l hl c hc
  simp only [Layout.lines, Layout.newLines, List.mem_append, List.mem_cons,
    List.mem_singleton, List.mem_replicate, List.mem_nil_iff, or_false] at hl
  rcases hl with (hl | hl | hl) | hl
  · exact h l (by simp [Layout.lines, hl]) c hc
  · exact h l (by simp [Layout.lines, hl]) c hc
  · rw [hl.2] at hc; cases hc
  · rw [hl] at hc; cases hc

theorem Layout.oneLine_run (ops : List EmitOp) :
    ∀ lay : Layout, lay.oneLine → (∀ op ∈ ops, op.oneLine) → (lay.run ops).oneLine := by
  induction ops with
  | nil => intro lay h _; exact h
  | cons op rest ih =>
    intro lay h hops
    refine ih _ ?_ (fun o ho => hops o (List.mem_cons_of_mem _ ho))
    have hop := hops op (List.mem_cons_self _ _)
    cases op with
    | WriteString s => exact Layout.oneLine_write lay s h hop
    | WriteByte c =>
      unfold Layout.call
      by_cases hc : c = '\n'
      · simp only [hc, if_true]
        exact Layout.oneLine_newLines lay 1 h
      · simp only [hc, if_false]
        refine Layout.oneLine_write lay _ h ?_
        intro e
        have e2 : '\n' ∈ [c] := e
        simp only [List.mem_singleton] at e2
        exact hc e2.symm
    | WriteLine s =>
      exact Layout.oneLine_newLines _ 1 (Layout.oneLine_write lay _ h hop)
    | NewLine n => exact Layout.oneLine_newLines lay n h

theorem splitChars_ne_nil (sep : Char) (l : List Char) : splitChars sep l ≠ [] := by
  cases l with
  | nil => simp [splitChars]
  | cons c cs =>
    unfold splitChars
    split
    · simp
    · split <;> simp

theorem splitChars_line (sep : Char) (l : List Char) (h : sep ∉ l) :
    splitChars sep l = [l] := by
  induction l with
  | nil => rfl
  | cons c cs ih =>
    simp only [List.mem_cons, not_or] at h
    unfold splitChars
    rw [ih h.2]
    simp only
    rw [if_neg (fun e => h.1 e.symm)]

theorem splitChars_append (sep : Char) (l rest : List Char) (h : sep ∉ l) :
    splitChars sep (l ++ sep :: rest) = l :: splitChars sep rest := by
  induction l with
  | nil =>
    simp only [List.nil_append]
    have hne := splitChars_ne_nil sep rest
    cases hs : splitChars sep rest with
    | nil => exact absurd hs hne
    | cons p ps =>
      rw [splitChars, hs]
      simp
  | cons c cs ih =>
    simp only [List.mem_cons, not_or] at h
    rw [List.cons_append, splitChars, ih h.2]
    simp only
    rw [if_neg (fun e => h.1 e.symm)]

theorem splitChars_lines (sep : Char) (rs : List (List Char)) (last : List Char)
    (h : ∀ r ∈ rs, sep ∉ r) (hl : sep ∉ last) :
    splitChars sep ((rs.map fun r => r ++ [sep]).flatten ++ last) = rs ++ [last] := by
  induction rs with
  | nil => simpa using splitChars_line sep last hl
  | cons r rest ih =>
    simp only [List.map_cons, List.flatten_cons, List.append_assoc, List.singleton_append,
      List.cons_append]
    rw [splitChars_append sep r _ (h r (List.mem_cons_self _ _)), List.nil_append,
      ih (fun x hx => h x (List.mem_cons_of_mem _ hx))]

theorem concatText_data (xs : List String) :
    (concatText xs).data = (xs.map String.data).flatten := by
  induction xs with
  | nil => rfl
  | cons x rest ih => simp [concatText, String.data_append, ih]

theorem renderLine_noLineFeed (d : Int) (l : Option String)
    (h : ∀ c, l = some c → noLineFeed c) : '\n' ∉ (renderLine d l).data := by
  cases l with
  | none => simp [renderLine]
  | some c =>
    have hc := h c rfl
    unfold noLineFeed at hc
    simp only [renderLine, repeatChar, String.data_append, List.mem_append,
      List.mem_replicate, not_or]
    exact ⟨fun e => by have := e.2; revert this; decide, hc⟩

theorem SplitChar_render (d : Int) (lay : Layout) (h : lay.oneLine) :
    SplitChar (lay.render d) '\n' = lay.lines.map (renderLine d) := by
  have e : (lay.render d).data =
      ((lay.finished.map fun l => (renderLine d l).data).map fun r => r ++ ['\n']).flatten ++
        (renderLine d lay.current).data := by
    simp only [Layout.render, String.data_append, concatText_data, List.map_map]
    rfl
  unfold SplitChar
  rw [e, splitChars_lines]
  · simp [Layout.lines, List.map_map, Function.comp_def]
  · intro r hr
    obtain ⟨l, hl, rfl⟩ := List.mem_map.1 hr
    exact renderLine_noLineFeed d l (h l (by simp [Layout.lines, hl]))
  · exact renderLine_noLineFeed d lay.current (h _ (by simp [Layout.lines]))

theorem ExitFunction_records (lib : GoLib) (tl tl1 : ThriftListener) (ctx : FunctionCtx)
    (h : tl.ExitFunction lib ctx = Except.ok tl1) :
    ∃ f : FunctionType,
      (f.Name = ctx.IDENTIFIER ∧ f.ServiceName = ctx.serviceName ∧
        f.toComments = ctx.comments ∧
        tl.stack.head? = some (StackItem.type f.Response) ∧
        (∃ fields, popFunctionFields lib tl.fieldsStack [] = Except.ok fields ∧
          f.Requests = reverseInPlace fields) ∧
        f.Annotations = reverseInPlace tl.annotationStack) ∧
      tl1.functionDefsService =
        tl.functionDefsService.set ctx.serviceName
          (tl.functionDefsService.getSlice ctx.serviceName ++ [f]) ∧
      tl1.functionDefs.get ctx.IDENTIFIER = some f := by
  unfold ThriftListener.ExitFunction at h
  simp only at h
  split at h
  · cases h
  · rename_i fieldType hpop
    split at h
    · rename_i t hresp
      simp only [ThriftListener.getAnnotations, Except.ok.injEq] at h
      rw [← h]
      exact ⟨_, ⟨rfl, rfl, rfl, hresp, ⟨fieldType, hpop, rfl⟩, rfl⟩, rfl,
        GoMap.get_set_self _ _ _⟩
    · cases h

theorem runFunctions_records (lib : GoLib) (service : String) (evs : List FunctionEvent) :
    ∀ tl tl1 : ThriftListener, runFunctions lib service evs tl = Except.ok tl1 →
      ∃ fs : List FunctionType,
        tl1.functionDefsService.getSlice service =
          tl.functionDefsService.getSlice service ++ fs ∧
        List.Forall₂ (recordsEvent lib service) evs fs := by
  induction evs with
  | nil =>
    intro tl tl1 h
    simp only [runFunctions, Except.ok.injEq] at h
    rw [← h]
    exact ⟨[], by simp, List.Forall₂.nil⟩
  | cons ev rest ih =>
    intro tl tl1 h
    unfold runFunctions at h
    split at h
    · cases h
    · rename_i tl2 h2
      unfold exitFunctionOf at h2
      obtain ⟨f, ef, e3, _⟩ := ExitFunction_records lib _ tl2 _ h2
      obtain ⟨fs, i3, i4⟩ := ih tl2 tl1 h
      refine ⟨f :: fs, ?_, List.Forall₂.cons ef i4⟩
      rw [i3, e3]
      simp only [GoMap.getSlice, GoMap.get_set_self, Option.getD_some, List.append_assoc,
        List.singleton_append]

theorem recordsEvent_names (lib : GoLib) (service : String) (evs : List FunctionEvent)
    (fs : List FunctionType) (h : List.Forall₂ (recordsEvent lib service) evs fs) :
    (fs.map fun f => f.Name) = evs.map fun ev => ev.IDENTIFIER := by
  induction h with
  | nil => rfl
  | cons hp _ ih => simp only [List.map_cons, hp.1, ih]

theorem exitServiceOf_records (lib : GoLib) (tl tl2 : ThriftListener) (sv : ServiceEvent)
    (h : exitServiceOf lib tl sv = Except.ok tl2) :
    ∃ (svc : ServiceType) (fs : List FunctionType),
      tl2.serviceDefs = tl.serviceDefs ++ [svc] ∧ svc.Name = sv.IDENTIFIER ∧
      svc.toComments = sv.comments ∧
      List.Forall₂ (recordsEvent lib sv.IDENTIFIER) sv.functions fs ∧
      svc.FunctionDefs =
        serviceFunctions (tl.functionDefsService.getSlice sv.IDENTIFIER ++ fs) [] := by
  unfold exitServiceOf at h
  split at h
  · cases h
  · rename_i tl1 h1
    simp only [Except.ok.injEq] at h
    have e1 := (runFunctions_effect lib sv.IDENTIFIER sv.functions tl tl1 h1).1
    obtain ⟨fs, e3, e4⟩ := runFunctions_records lib sv.IDENTIFIER sv.functions tl tl1 h1
    have hs : (ThriftListener.ExitService { tl1 with annotationStack := sv.annotationStack }
        { IDENTIFIER := sv.IDENTIFIER, comments := sv.comments }).serviceDefs =
        tl1.serviceDefs ++
          [{ toComments := sv.comments, Name := sv.IDENTIFIER,
             Annotations := reverseInPlace sv.annotationStack,
             FunctionDefs :=
               serviceFunctions (tl1.functionDefsService.getSlice sv.IDENTIFIER) [] }] := by
      unfold ThriftListener.ExitService ThriftListener.getAnnotations
      by_cases hn : tl1.serviceDef.Name = "" <;> simp only [hn, if_true, if_false]
    rw [h] at hs
    let svc : ServiceType :=
      { toComments := sv.comments, Name := sv.IDENTIFIER,
        Annotations := reverseInPlace sv.annotationStack,
        FunctionDefs := serviceFunctions (tl1.functionDefsService.getSlice sv.IDENTIFIER) [] }
    refine ⟨svc, fs, ?_, rfl, rfl, e4, ?_⟩
    · rw [hs, e1]
    · show serviceFunctions (tl1.functionDefsService.getSlice sv.IDENTIFIER) [] = _
      rw [e3]

theorem resequenced_cons (start : Nat) (f : FunctionType) (rest : List FunctionType) :
    resequenced start (f :: rest) =
      (f.Name, { f with SequenceNum := (start : Int) }) :: resequenced (start + 1) rest := by
  unfold resequenced
  simp only [List.enumFrom, List.map_cons]

theorem resequenced_keys (fs : List FunctionType) :
    ∀ start : Nat, (resequenced start fs).map Prod.fst = fs.map fun f => f.Name := by
  induction fs with
  | nil => intro start; rfl
  | cons f rest ih =>
    intro start
    rw [resequenced_cons, List.map_cons, List.map_cons, ih]

theorem resequenced_get (fs : List FunctionType) :
    ∀ (start i : Nat) (hi : i < fs.length), (fs.map fun f => f.Name).Nodup →
      (resequenced start fs).get (fs.get ⟨i, hi⟩).Name =
        some { fs.get ⟨i, hi⟩ with SequenceNum := ((start + i : Nat) : Int) } := by
  induction fs with
  | nil => intro start i hi; cases hi
  | cons f rest ih =>
    intro start i hi hd
    rw [resequenced_cons]
    simp only [List.map_cons, List.nodup_cons] at hd
    cases i with
    | zero =>
      simp [GoMap.get]
    | succ j =>
      have hj : j < rest.length := Nat.lt_of_succ_lt_succ hi
      have hne : ¬ f.Name = (rest.get ⟨j, hj⟩).Name := by
        intro e
        apply hd.1
        rw [e]
        exact List.mem_map.2 ⟨rest.get ⟨j, hj⟩, List.get_mem _ _ _, rfl⟩
      have e := ih (start + 1) j hj hd.2
      simp only [List.get_cons_succ, GoMap.get, hne, if_false]
      rw [e]
      simp only [Option.some.injEq]
      congr 2
      omega

/-! ## Lemmas on the result map of `CodeGen` -/

theorem GoMap.keys_set {V : Type} (m : GoMap V) (k : String) (v : V) (k1 : String) :
    k1 ∈ (GoMap.set m k v).map Prod.fst ↔ k1 ∈ m.map Prod.fst ∨ k1 = k := by
  induction m with
  | nil => simp [GoMap.set]
  | cons p rest ih =>
    obtain ⟨k2, v2⟩ := p
    unfold GoMap.set
    by_cases hk : k2 = k
    · simp only [hk, if_true, List.map_cons, List.mem_cons]
      tauto
    · simp only [hk, if_false, List.map_cons, List.mem_cons, ih]
      tauto

theorem GoMap.nodup_set {V : Type} (m : GoMap V) (k : String) (v : V)
    (h : (m.map Prod.fst).Nodup) : ((GoMap.set m k v).map Prod.fst).Nodup := by
  induction m with
  | nil => simp [GoMap.set]
  | cons p rest ih =>
    obtain ⟨k2, v2⟩ := p
    simp only [List.map_cons, List.nodup_cons] at h
    unfold GoMap.set
    by_cases hk : k2 = k
    · simp only [hk, if_true, List.map_cons, List.nodup_cons]
      exact ⟨hk ▸ h.1, h.2⟩
    · simp only [hk, if_false, List.map_cons, List.nodup_cons]
      refine ⟨?_, ih h.2⟩
      intro hin
      rcases (GoMap.keys_set rest k v k2).1 hin with h1 | h1
      · exact h.1 h1
      · exact hk h1

theorem mergeCodes_mem (codes : List (String × String)) :
    ∀ (r : GoMap String) (kv : String × String), kv ∈ mergeCodes r codes →
      kv ∈ r ∨ kv ∈ codes := by
  induction codes with
  | nil => intro r kv h; exact Or.inl h
  | cons p rest ih =>
    intro r kv h
    obtain ⟨k, v⟩ := p
    unfold mergeCodes at h
    rcases ih _ kv h with h1 | h1
    · rcases GoMap.mem_set r k v kv h1 with h2 | h2
      · exact Or.inl h2
      · exact Or.inr (h2 ▸ List.mem_cons_self _ _)
    · exact Or.inr (List.mem_cons_of_mem _ h1)

theorem mergeCodes_keys (codes : List (String × String)) :
    ∀ (r : GoMap String) (k : String),
      k ∈ (mergeCodes r codes).map Prod.fst ↔ k ∈ r.map Prod.fst ∨ k ∈ codes.map Prod.fst := by
  induction codes with
  | nil => intro r k; simp [mergeCodes]
  | cons p rest ih =>
    intro r k
    obtain ⟨k1, v1⟩ := p
    unfold mergeCodes
    rw [ih, GoMap.keys_set]
    simp only [List.map_cons, List.mem_cons]
    tauto

theorem mergeCodes_nodup (codes : List (String × String)) :
    ∀ r : GoMap String, (r.map Prod.fst).Nodup → ((mergeCodes r codes).map Prod.fst).Nodup := by
  induction codes with
  | nil => intro r h; exact h
  | cons p rest ih =>
    intro r h
    obtain ⟨k, v⟩ := p
    unfold mergeCodes
    exact ih _ (GoMap.nodup_set r k v h)

theorem Covers_merge (lib : GoLib) (fuel : Nat) (lang : String) (opt : CodeGenOpt)
    (us vs : List UnitCall) (r codes : GoMap String)
    (hr : Covers lib fuel lang opt us r) (hc : Covers lib fuel lang opt vs codes) :
    Covers lib fuel lang opt (us ++ vs) (mergeCodes r codes) := by
  obtain ⟨r1, r2, r3⟩ := hr
  obtain ⟨_, c2, c3⟩ := hc
  refine ⟨mergeCodes_nodup codes r r1, ?_, ?_⟩
  · intro kv hkv
    rcases mergeCodes_mem codes r kv hkv with h | h
    · obtain ⟨u, hu, e⟩ := r2 kv h
      exact ⟨u, List.mem_append_left _ hu, e⟩
    · obtain ⟨u, hu, e⟩ := c2 kv h
      exact ⟨u, List.mem_append_right _ hu, e⟩
  · intro u hu
    rcases List.mem_append.1 hu with h | h
    · exact ⟨(mergeCodes_keys codes r u.name).2 (Or.inl (r3 u h).1), (r3 u h).2⟩
    · exact ⟨(mergeCodes_keys codes r u.name).2 (Or.inr (c3 u h).1), (c3 u h).2⟩

mutual
theorem CodeGen_covers (lib : GoLib) (fuel : Nat) (lang : String) (opt : CodeGenOpt) :
    ∀ (ast : AnalysisResult) (name : String) (mp : Bool) (result : GoMap String),
      ast.CodeGen lib fuel name lang mp opt = some (Except.ok result) →
      Covers lib fuel lang opt (ast.units name mp) result
  | AnalysisResult.mk defs includes, name, mp, result, h => by
    unfold AnalysisResult.CodeGen at h
    unfold AnalysisResult.units
    split at h
    · cases h
    · cases h
    · rename_i text hg
      have h0 : Covers lib fuel lang opt
          [{ name := name, defs := defs, mainPackage := mp }] (GoMap.set [] name text) := by
        refine ⟨by simp [GoMap.set], ?_, ?_⟩
        · intro kv hkv
          simp only [GoMap.set, List.mem_singleton] at hkv
          exact ⟨_, List.mem_singleton.2 rfl, by rw [hkv], by rw [hkv]; exact hg⟩
        · intro u hu
          rw [List.mem_singleton.1 hu]
          exact ⟨by simp [GoMap.set], text, hg⟩
      exact CodeGenIncludes_covers lib fuel lang opt includes _ result _ h0 h
theorem CodeGenIncludes_covers (lib : GoLib) (fuel : Nat) (lang : String) (opt : CodeGenOpt) :
    ∀ (incs : List (String × AnalysisResult)) (r result : GoMap String) (us : List UnitCall),
      Covers lib fuel lang opt us r →
      CodeGenIncludes lib fuel incs lang opt r = some (Except.ok result) →
      Covers lib fuel lang opt (us ++ includedUnits incs) result
  | [], r, result, us, hr, h => by
    simp only [CodeGenIncludes, Option.some.injEq, Except.ok.injEq] at h
    unfold includedUnits
    rw [List.append_nil, ← h]
    exact hr
  | (n, a) :: rest, r, result, us, hr, h => by
    unfold CodeGenIncludes at h
    unfold includedUnits
    split at h
    · cases h
    · cases h
    · rename_i codes hg
      have hA := CodeGen_covers lib fuel lang opt a n false codes hg
      have hm := Covers_merge lib fuel lang opt us _ r codes hr hA
      have := CodeGenIncludes_covers lib fuel lang opt rest _ result _ hm h
      rw [List.append_assoc] at this
      exact this
end

/-! ## Lemmas on the optional prefix -/

theorem dropTrailing_split (p : Char → Bool) (l : List Char) :
    ∃ ws, l = dropTrailing p l ++ ws ∧ ∀ c ∈ ws, p c = true := by
  refine ⟨(l.reverse.takeWhile p).reverse, ?_, ?_⟩
  · unfold dropTrailing
    rw [← List.reverse_append, List.takeWhile_append_dropWhile, List.reverse_reverse]
  · intro c hc
    exact List.mem_takeWhile_imp (List.mem_reverse.1 hc)

theorem prefix_drop_tail (q l1 ws : List Char) (hq : ∀ c ∈ q, isSpace c = false)
    (hws : ∀ c ∈ ws, isSpace c = true) : q <+: l1 ++ ws ↔ q <+: l1 := by
  constructor
  · intro h
    rcases List.prefix_or_prefix_of_prefix h (List.prefix_append l1 ws) with h1 | h1
    · exact h1
    · obtain ⟨t, ht⟩ := h1
      cases t with
      | nil =>
        rw [List.append_nil] at ht
        rw [← ht]
      | cons c cs =>
        exfalso
        rw [← ht] at h
        have h2 : c :: cs <+: ws := (List.prefix_append_right_inj l1).1 h
        obtain ⟨r, hr⟩ := h2
        have hcw : c ∈ ws := by rw [← hr]; simp
        have hcq : c ∈ q := by rw [← ht]; simp
        have hsp := hws c hcw
        rw [hq c hcq] at hsp
        cases hsp
  · intro h
    exact h.trans (List.prefix_append l1 ws)

theorem TrimSpace_prefix (s p : String) (hs : startsWithSpace s = false)
    (hp : ∀ c ∈ p.data, isSpace c = false) :
    p.data <+: (TrimSpace s).data ↔ p.data <+: s.data := by
  have hdrop : s.data.dropWhile isSpace = s.data := by
    unfold startsWithSpace at hs
    cases hd : s.data with
    | nil => rfl
    | cons c cs =>
      rw [hd] at hs
      simp only at hs
      rw [List.dropWhile_cons_of_neg (by rw [hs]; simp)]
  obtain ⟨ws, h1, h2⟩ := dropTrailing_split isSpace s.data
  unfold TrimSpace
  rw [hdrop]
  show p.data <+: dropTrailing isSpace s.data ↔ _
  have h3 := prefix_drop_tail p.data (dropTrailing isSpace s.data) ws hp h2
  rw [← h1] at h3
  exact h3.symm

theorem GoMap.mem_of_get {V : Type} (m : GoMap V) (k : String) (v : V)
    (h : GoMap.get m k = some v) : (k, v) ∈ m := by
  induction m with
  | nil => simp [GoMap.get] at h
  | cons p rest ih =>
    obtain ⟨k1, v1⟩ := p
    unfold GoMap.get at h
    by_cases hk : k1 = k
    · simp only [hk, if_true, Option.some.injEq] at h
      simp [hk, h]
    · simp only [hk, if_false] at h
      exact List.mem_cons_of_mem _ (ih h)

theorem specBaseTable_no_space (n : String) : startsWithSpace (specBaseTable n) = false := by
  unfold specBaseTable
  split_ifs <;> decide

theorem startsWithSpace_append (a b : String) (ha : startsWithSpace a = false)
    (hne : a.data ≠ []) : startsWithSpace (a ++ b) = false := by
  unfold startsWithSpace at ha ⊢
  rw [String.data_append]
  cases hd : a.data with
  | nil => exact absurd hd hne
  | cons c cs =>
    rw [hd] at ha
    simpa using ha

theorem expandType_no_leading_space (td : GoMap TypedefType)
    (htd : ∀ kv ∈ td, ∀ n ∈ refs kv.2.OriginalType, startsWithSpace n = false) :
    ∀ (fuel : Nat) (t : Ty) (s : String), expandType fuel t td = some s →
      (∀ n ∈ refs t, startsWithSpace n = false) → startsWithSpace s = false := by
  intro fuel
  induction fuel with
  | zero => intro t s h; simp [expandType] at h
  | succ k ih =>
    intro t s h ht
    cases t with
    | UDFType n =>
      rw [expandType_udf] at h
      cases hg : td.get n with
      | none =>
        rw [hg] at h
        simp only [Option.some.injEq] at h
        rw [← h]
        exact ht n (by simp [refs])
      | some tdf =>
        rw [hg] at h
        exact ih _ s h (htd (n, tdf) (GoMap.mem_of_get td n tdf hg))
    | ContainerType i a c =>
      rw [expandType_container] at h
      exact ih i s h (fun n hn => ht n (by simpa [refs] using hn))
    | SetType i =>
      rw [expandType_set] at h
      exact ih _ s h (fun n hn => ht n (by simpa [refs] using hn))
    | ListType i =>
      rw [expandType_list] at h
      cases hi : expandType k i td with
      | none => rw [hi] at h; simp at h
      | some v =>
        rw [hi] at h
        by_cases hv : v = ""
        · simp only [hv, ne_eq, not_true_eq_false, if_false, Option.some.injEq] at h
          rw [← h]; rfl
        · simp only [hv, ne_eq, not_false_eq_true, if_true, Option.some.injEq] at h
          rw [← h, String.append_assoc]
          exact startsWithSpace_append _ _ (by decide) (by decide)
    | MapType key value =>
      rw [expandType_map] at h
      cases hk : expandType k key td with
      | none => rw [hk] at h; simp at h
      | some ks =>
        rw [hk] at h
        by_cases hks : ks = ""
        · simp only [hks, ne_eq, not_true_eq_false, if_false, Option.some.injEq] at h
          rw [← h]; rfl
        · simp only [hks, ne_eq, not_false_eq_true, if_true] at h
          cases hv : expandType k value td with
          | none => rw [hv] at h; simp at h
          | some vs =>
            rw [hv] at h
            by_cases hvs : vs = ""
            · simp only [hvs, ne_eq, not_true_eq_false, if_false, Option.some.injEq] at h
              rw [← h]; rfl
            · simp only [hvs, ne_eq, not_false_eq_true, if_true, Option.some.injEq] at h
              rw [← h, String.append_assoc, String.append_assoc, String.append_assoc]
              exact startsWithSpace_append _ _ (by decide) (by decide)
    | BaseType i a =>
      rw [expandType_base] at h
      cases k with
      | zero => simp [expandType] at h
      | succ j =>
        rw [expandType_str] at h
        simp only [Option.some.injEq] at h
        rw [← h]
        exact specBaseTable_no_space i
    | RealBaseType n =>
      rw [expandType_realBase] at h
      simp only [Option.some.injEq] at h
      rw [← h]
      exact specBaseTable_no_space n
    | str n =>
      rw [expandType_str] at h
      simp only [Option.some.injEq] at h
      rw [← h]
      exact specBaseTable_no_space n
    | other =>
      rw [expandType_other] at h
      simp only [Option.some.injEq] at h
      rw [← h]; rfl

/-! ## Claims on type expansion -/

/-- C1 (as the code has it): `expandType` equals the expansion table, with the empty
expansion propagated. For every typedef table: a `UDFType` naming a typedef expands
to whatever the typedef's original type expands to, any other `UDFType` to its own
name; a `ContainerType` to the expansion of its inner type; a `ListType` to
`repeated ` followed by the inner expansion when that is non-empty and to the empty
string when it is empty; a `MapType` to `map<K, V>` when both expansions are
non-empty and to the empty string otherwise; a `BaseType`, a `RealBaseType` and a raw
base-type name by the nine-entry table (the empty string outside it). -/
theorem C1_expandType_table (td : GoMap TypedefType) :
    (∀ n s, Expands td (Ty.UDFType n) s ↔
      match td.get n with
      | some tdf => Expands td tdf.OriginalType s
      | none => s = n) ∧
    (∀ i a c s, Expands td (Ty.ContainerType i a c) s ↔ Expands td i s) ∧
    (∀ i s, Expands td (Ty.ListType i) s ↔
      ∃ v, Expands td i v ∧ s = if v = "" then "" else "repeated " ++ v) ∧
    (∀ k v s, Expands td (Ty.MapType k v) s ↔
      ∃ ks, Expands td k ks ∧
        if ks = "" then s = ""
        else ∃ vs, Expands td v vs ∧
          s = if vs = "" then "" else "map<" ++ ks ++ ", " ++ vs ++ ">") ∧
    (∀ n a s, Expands td (Ty.BaseType n a) s ↔ s = specBaseTable n) ∧
    (∀ n s, Expands td (Ty.RealBaseType n) s ↔ s = specBaseTable n) ∧
    (∀ n s, Expands td (Ty.str n) s ↔ s = specBaseTable n) ∧
    (specBaseTable "bool" = "bool" ∧ specBaseTable "byte" = "uint32" ∧
      specBaseTable "i8" = "int32" ∧ specBaseTable "i16" = "int32" ∧
      specBaseTable "i32" = "int32" ∧ specBaseTable "i64" = "int64" ∧
      specBaseTable "double" = "double" ∧ specBaseTable "string" = "string" ∧
      specBaseTable "binary" = "bytes") :=
  ⟨expands_udf td, expands_container td, expands_list td, expands_map td,
    expands_base td, expands_realBase td, expands_str td,
    by decide⟩

/-- C1 (counterexample to the claim as stated): the base type named `void` is outside
the table and expands to the empty string; the list of it expands to the empty
string, not to `repeated ` followed by the inner expansion. -/
theorem C1_counterexample :
    Expands [] (Ty.BaseType "void" []) "" ∧
    Expands [] (Ty.ListType (Ty.BaseType "void" [])) "" ∧
    ¬ Expands [] (Ty.ListType (Ty.BaseType "void" [])) ("repeated " ++ "") := by
  refine ⟨⟨2, by decide⟩, ⟨3, by decide⟩, ?_⟩
  intro h
  have h2 : Expands [] (Ty.ListType (Ty.BaseType "void" [])) "" := ⟨3, by decide⟩
  have := h.unique h2
  exact absurd this (by decide)

/-- C2: for every type `T` and typedef table, `expandType(SetType{T})` returns exactly
what `expandType(ListType{T})` returns (and returns at all exactly when that one does);
the struct `struct C { 1: set<string> s }` is emitted with the field line
`repeated string s = 1;`. -/
theorem C2_set_expands_as_list :
    (∀ (td : GoMap TypedefType) (T : Ty) (s : String),
      Expands td (Ty.SetType T) s ↔ Expands td (Ty.ListType T) s) ∧
    (∀ (lib : GoLib) (opt : CodeGenOpt),
      StructType.Gen lib 8 exampleStructC (NewIdentWriter 0) [] opt =
        some (Except.ok
          { ident := 0
            buf := "message C \x7b\n\trepeated string s = 1;\n\x7d\n"
            newLine := true
            lines := 2 })) := by
  refine ⟨expands_set, ?_⟩
  intro lib opt
  obtain ⟨b⟩ := opt
  cases b <;> rfl

/-- C3: for every typedef chain `t0 → t1 → ... → tN` of the typedef table (each `t_i`
before the last a typedef whose original type is the reference to the next, the last
typedef having the original type `tN`), `expandType(UDFType(t0))` returns exactly what
`expandType(tN)` returns; this holds for every `tN`, a base or container type in
particular. -/
theorem C3_typedef_chain_collapses (td : GoMap TypedefType) (rest : List String) (tN : Ty) :
    ∀ (t0 : String), isTypedefChain td (t0 :: rest) tN = true →
      ∀ s, Expands td (Ty.UDFType t0) s ↔ Expands td tN s := by
  induction rest with
  | nil =>
    intro t0 h s
    rw [expands_udf]
    simp only [isTypedefChain] at h
    cases hg : td.get t0 with
    | none => rw [hg] at h; simp at h
    | some tdf =>
      rw [hg] at h
      simp only [decide_eq_true_eq] at h
      simp only [h]
  | cons t1 rest ih =>
    intro t0 h s
    rw [expands_udf]
    simp only [isTypedefChain, Bool.and_eq_true] at h
    obtain ⟨h0, hrest⟩ := h
    cases hg : td.get t0 with
    | none => rw [hg] at h0; simp at h0
    | some tdf =>
      rw [hg] at h0
      simp only [decide_eq_true_eq] at h0
      simp only [h0]
      exact ih t1 hrest s

/-- C3 (witness): with `typedef list<i64> Ids` and `typedef Ids Keys`, the chain
`Keys → Ids → list<i64>` collapses, and a field of type `Ids` or `Keys` expands to
`repeated int64`. -/
theorem C3_typedef_chain_witness :
    isTypedefChain exampleTypedefs ["Keys", "Ids"] exampleListOfI64 = true ∧
    (Expands exampleTypedefs (Ty.UDFType "Keys") "repeated int64" ↔
      Expands exampleTypedefs exampleListOfI64 "repeated int64") ∧
    expandType 8 (Ty.UDFType "Ids") exampleTypedefs = some "repeated int64" ∧
    expandType 8 (Ty.UDFType "Keys") exampleTypedefs = some "repeated int64" :=
  ⟨by decide,
    C3_typedef_chain_collapses exampleTypedefs ["Ids"] exampleListOfI64 "Keys" (by decide)
      "repeated int64",
    by decide, by decide⟩

/-! ## Claims on struct emission -/

/-- C5 (the code at the failing input): with the option set, an optional field whose
type is the user-defined reference `Item` is written with `optional`, and an optional
field whose type is the user-defined reference `repeatedItem` is written without it. -/
theorem C5_repeated_named_type :
    StructType.Gen exampleLib 1 (exampleOptionalStruct "Item") (NewIdentWriter 0) []
        { IsProto3WithOptional := true } =
      some (Except.ok
        { ident := 0
          buf := "message S \x7b\n\toptional Item x = 1;\n\x7d\n"
          newLine := true
          lines := 2 }) ∧
    StructType.Gen exampleLib 1 (exampleOptionalStruct "repeatedItem") (NewIdentWriter 0) []
        { IsProto3WithOptional := true } =
      some (Except.ok
        { ident := 0
          buf := "message S \x7b\n\trepeatedItem x = 1;\n\x7d\n"
          newLine := true
          lines := 2 }) := by
  exact ⟨rfl, rfl⟩

/-! ## Claims on enum emission -/

/-- C6: for every enum, when `sort.Sort` meets its contract (it permutes the slice
into ascending order of `Value`), `EnumType.Gen` emits one line per field in
ascending order of the declared values, and the value printed for the field at
position `i` of that order is the declared value when it is non-zero and `i` when
the declared value is 0. -/
theorem C6_enum_sorted_positional (lib : GoLib)
    (hperm : ∀ l, (lib.sortEnum l).Perm l)
    (hsorted : ∀ l, (lib.sortEnum l).Sorted valueLE)
    (e : EnumType) (buf : IdentBuffer) :
    ∃ out sorted, EnumType.Gen lib e buf = Except.ok (out, sorted) ∧
      sorted.Perm e.Enumerate ∧
      sorted.Sorted (fun a b => a.Value ≤ b.Value) ∧
      out.buf = buf.buf ++ leadingText buf e.toComments ++ "enum " ++ e.Name ++ " \x7b\n" ++
        concatText (sorted.enum.map fun p =>
          enumLineText lib (buf.ident + 1)
            (if p.2.Value = 0 then (p.1 : Int) else p.2.Value) p.2) ++
        repeatChar '\t' buf.ident ++ "\x7d\n" := by
  obtain ⟨out, h1, h2⟩ := EnumType_Gen_ok lib e buf
  exact ⟨out, _, h1, hperm _, hsorted _, h2⟩

/-- C6 (witness): with insertion sort, the enum `enum E { A = 7, B = 0 }` is emitted
with `B=0` first and `A=7` second. -/
theorem C6_enum_sorted_positional_witness :
    (∀ l, (exampleLib.sortEnum l).Perm l) ∧
    (∀ l, (exampleLib.sortEnum l).Sorted valueLE) ∧
    (∃ out sorted, EnumType.Gen exampleLib exampleEnum (NewIdentWriter 0) =
        Except.ok (out, sorted) ∧
      sorted.Perm exampleEnum.Enumerate ∧
      sorted.Sorted (fun a b => a.Value ≤ b.Value) ∧
      out.buf = (NewIdentWriter 0).buf ++ leadingText (NewIdentWriter 0) exampleEnum.toComments ++
        "enum " ++ exampleEnum.Name ++ " \x7b\n" ++
        concatText (sorted.enum.map fun p =>
          enumLineText exampleLib ((NewIdentWriter 0).ident + 1)
            (if p.2.Value = 0 then (p.1 : Int) else p.2.Value) p.2) ++
        repeatChar '\t' (NewIdentWriter 0).ident ++ "\x7d\n") ∧
    EnumType.Gen exampleLib exampleEnum (NewIdentWriter 0) =
      Except.ok
        ({ ident := 0
           buf := "enum E \x7b\n\tB=0;\n\tA=7;\n\x7d\n"
           newLine := true
           lines := 2 },
         [{ Key := "B", Value := 0 }, { Key := "A", Value := 7 }]) :=
  ⟨exampleLib_perm, exampleLib_sorted,
    C6_enum_sorted_positional exampleLib exampleLib_perm exampleLib_sorted exampleEnum
      (NewIdentWriter 0),
    rfl⟩

/-- C7 (as the code has it): for every enum, when `sort.Sort` meets its contract,
`EnumType.Gen` prints the values `printedValues sorted`, one per line. They are
non-decreasing provided that no field has declared value 0 or that the number of
fields with declared value at most 0 is at most `v + 1` for every positive declared
value `v`; the first printed value is 0 whenever some field has declared value 0 and
no field has a negative declared value. -/
theorem C7_enum_printed_values (lib : GoLib)
    (hperm : ∀ l, (lib.sortEnum l).Perm l)
    (hsorted : ∀ l, (lib.sortEnum l).Sorted valueLE)
    (e : EnumType) (buf : IdentBuffer) :
    ∃ out sorted, EnumType.Gen lib e buf = Except.ok (out, sorted) ∧
      out.buf = buf.buf ++ leadingText buf e.toComments ++ "enum " ++ e.Name ++ " \x7b\n" ++
        concatText (List.zipWith (fun v f => enumLineText lib (buf.ident + 1) v f)
          (printedValues sorted) sorted) ++
        repeatChar '\t' buf.ident ++ "\x7d\n" ∧
      (((∀ f ∈ e.Enumerate, f.Value ≠ 0) ∨
          (∀ f ∈ e.Enumerate, 0 < f.Value →
            ((e.Enumerate.countP fun g => decide (g.Value ≤ 0) : Nat) : Int) ≤ f.Value + 1)) →
        (printedValues sorted).Sorted (· ≤ ·)) ∧
      ((∃ f ∈ e.Enumerate, f.Value = 0) → (∀ f ∈ e.Enumerate, 0 ≤ f.Value) →
        (printedValues sorted).head? = some 0) := by
  obtain ⟨out, h1, h2⟩ := EnumType_Gen_ok lib e buf
  have hp := hperm e.Enumerate
  have hs := hsorted e.Enumerate
  refine ⟨out, _, h1, ?_, ?_, ?_⟩
  · rw [h2, List.enum, enum_lines_zipWith]
    rfl
  · intro hcond
    apply printed_sorted_from _ 0 hs
    rcases hcond with hno | hcnt
    · left
      intro b hb
      exact hno b (hp.mem_iff.1 hb)
    · right
      intro b hb hbpos
      have := hcnt b (hp.mem_iff.1 hb) hbpos
      rw [hp.countP_eq]
      simpa using this
  · intro ⟨f, hf, hf0⟩ hnonneg
    have hfs : f ∈ lib.sortEnum e.Enumerate := hp.mem_iff.2 hf
    cases hl : lib.sortEnum e.Enumerate with
    | nil => rw [hl] at hfs; simp at hfs
    | cons a rest =>
      rw [hl] at hfs hs
      have ha : 0 ≤ a.Value := hnonneg a (hp.mem_iff.1 (by rw [hl]; exact List.mem_cons_self _ _))
      have hle : a.Value ≤ 0 := by
        rcases List.mem_cons.1 hfs with rfl | hmem
        · omega
        · have := List.rel_of_sorted_cons hs f hmem
          unfold valueLE at this
          omega
      have ha0 : a.Value = 0 := by omega
      simp [printedValues, List.enum, List.enumFrom_cons, printedValue, ha0]

/-- C7 (witness): with insertion sort, the enum `enum E { A = 7, B = 0 }` has the
printed values 0 and 7. -/
theorem C7_enum_printed_values_witness :
    (∀ l, (exampleLib.sortEnum l).Perm l) ∧
    (∀ l, (exampleLib.sortEnum l).Sorted valueLE) ∧
    printedValues (exampleLib.sortEnum exampleEnum.Enumerate) = [0, 7] ∧
    ∃ out sorted, EnumType.Gen exampleLib exampleEnum (NewIdentWriter 0) =
        Except.ok (out, sorted) ∧
      out.buf = (NewIdentWriter 0).buf ++ leadingText (NewIdentWriter 0) exampleEnum.toComments ++
        "enum " ++ exampleEnum.Name ++ " \x7b\n" ++
        concatText (List.zipWith
          (fun v f => enumLineText exampleLib ((NewIdentWriter 0).ident + 1) v f)
          (printedValues sorted) sorted) ++
        repeatChar '\t' (NewIdentWriter 0).ident ++ "\x7d\n" ∧
      (((∀ f ∈ exampleEnum.Enumerate, f.Value ≠ 0) ∨
          (∀ f ∈ exampleEnum.Enumerate, 0 < f.Value →
            ((exampleEnum.Enumerate.countP fun g => decide (g.Value ≤ 0) : Nat) : Int) ≤
              f.Value + 1)) →
        (printedValues sorted).Sorted (· ≤ ·)) ∧
      ((∃ f ∈ exampleEnum.Enumerate, f.Value = 0) → (∀ f ∈ exampleEnum.Enumerate, 0 ≤ f.Value) →
        (printedValues sorted).head? = some 0) :=
  ⟨exampleLib_perm, exampleLib_sorted, by decide,
    C7_enum_printed_values exampleLib exampleLib_perm exampleLib_sorted exampleEnum
      (NewIdentWriter 0)⟩

/-- C7 (counterexample to the claim as stated): with insertion sort, the enum
`enum Z { A, B, C, D = 1 }` is emitted with the values 0, 1, 2, 1, which are not
non-decreasing; the enum `enum N { M = -1, O = 0 }` has a field of declared value 0
and is emitted with the values -1, 1, the first of which is not 0. -/
theorem C7_counterexample :
    EnumType.Gen exampleLib exampleEnumZeros (NewIdentWriter 0) =
      Except.ok
        ({ ident := 0
           buf := "enum Z \x7b\n\tA=0;\n\tB=1;\n\tC=2;\n\tD=1;\n\x7d\n"
           newLine := true
           lines := 2 },
         exampleEnumZeros.Enumerate) ∧
    printedValues (exampleLib.sortEnum exampleEnumZeros.Enumerate) = [0, 1, 2, 1] ∧
    ¬ (printedValues (exampleLib.sortEnum exampleEnumZeros.Enumerate)).Sorted (· ≤ ·) ∧
    EnumType.Gen exampleLib exampleEnumNegative (NewIdentWriter 0) =
      Except.ok
        ({ ident := 0
           buf := "enum N \x7b\n\tM=-1;\n\tO=1;\n\x7d\n"
           newLine := true
           lines := 2 },
         exampleEnumNegative.Enumerate) ∧
    (∃ f ∈ exampleEnumNegative.Enumerate, f.Value = 0) ∧
    (printedValues (exampleLib.sortEnum exampleEnumNegative.Enumerate)).head? = some (-1) := by
  refine ⟨rfl, by decide, by decide, rfl, by decide, by decide⟩

/-! ## Claims on function emission -/

/-- C8: for every function whose response type expands to a non-empty string,
`FunctionType.Gen` returns the error `grpc requires exact one input, function <name>
has <k>` if and only if the number `k` of request parameters differs from 1; and
whenever `Gen` succeeds there is exactly one request parameter, its type expands to a
non-empty text, and the line `rpc <name> ( <req> ) returns ( <resp> ) {` with that one
text between the first pair of parentheses is what `Gen` appends right after the
leading comment. -/
theorem C8_function_one_request (lib : GoLib) (fuel : Nat) (fType : FunctionType)
    (buf : IdentBuffer) (td : GoMap TypedefType) (respType : String)
    (hresp : expandType fuel fType.Response td = some respType) (hne : respType ≠ "") :
    (FunctionType.Gen lib fuel fType buf td =
        some (Except.error ("grpc requires exact one input, function " ++ fType.Name ++
          " has " ++ Itoa fType.Requests.length)) ↔
      fType.Requests.length ≠ 1) ∧
    (∀ out, FunctionType.Gen lib fuel fType buf td = some (Except.ok out) →
      ∃ req reqType, fType.Requests = [req] ∧
        expandType fuel req.Typ td = some reqType ∧ reqType ≠ "" ∧
        ∃ rest, out.buf = buf.buf ++ leadingText buf fType.toComments ++
          "rpc " ++ fType.Name ++ " ( " ++ reqType ++ " ) returns ( " ++ respType ++
          " ) \x7b\n" ++ rest) := by
  unfold FunctionType.Gen
  simp only [hresp, hne, if_false]
  cases hreq : fType.Requests with
  | nil => simp
  | cons req more =>
    cases more with
    | cons r2 more2 => simp
    | nil =>
      simp only [List.length_singleton, ne_eq, not_true_eq_false, iff_false]
      cases hr : expandType fuel req.Typ td with
      | none => simp
      | some reqType =>
        by_cases hrne : reqType = ""
        · simp only [hrne, if_true]
          refine ⟨?_, by simp⟩
          intro h
          simp only [Option.some.injEq, Except.error.injEq] at h
          exact fail_ne_grpc _ _ (by simpa only [String.append_assoc] using h)
        · simp only [hrne, if_false]
          refine ⟨by simp, ?_⟩
          intro out hout
          simp only [Option.some.injEq, Except.ok.injEq] at hout
          refine ⟨req, reqType, rfl, hr, hrne, ?_⟩
          subst hout
          obtain ⟨hl, hli⟩ := writeLeadingComment_buf buf fType.toComments
          obtain ⟨t, ht⟩ := httpOption_extends lib fType
            (((writeLeadingComment buf fType.toComments).WriteLine
              ("rpc " ++ fType.Name ++ " ( " ++ reqType ++ " ) returns ( " ++ respType ++
                " ) \x7b")).Derive 1)
          refine ⟨t ++ repeatChar '\t' buf.ident ++ "\x7d" ++
            TrimRightChar (singleLineFormat fType.SingleLine) '\n' ++ "\n", ?_⟩
          have e2 : ∀ x : String, " ) \x7b" ++ ("\n" ++ x) = " ) \x7b\n" ++ x :=
            fun x => by rw [← String.append_assoc]; rfl
          simp only [WriteLine_buf, WriteString_buf, sync_buf, ht, Derive_buf, WriteString_newLine,
            sync_newLine, WriteLine_newLine, sync_ident, WriteLine_ident, hli,
            indentText_of_newLine, indentText_of_not_newLine, TrimRightChar_rpc_line]
          rw [hl]
          simp only [String.append_assoc, e2, String.append_empty, String.empty_append]

/-- C8 (witness): the function `Resp Get(1: Req req)` is emitted with the line
`rpc Get ( Req ) returns ( Resp ) {`; with two request parameters `Gen` returns
`grpc requires exact one input, function Get has 2`. -/
theorem C8_function_one_request_witness :
    expandType 1 (exampleFunction [exampleRequest]).Response [] = some "Resp" ∧
    ("Resp" : String) ≠ "" ∧
    FunctionType.Gen exampleLib 1 (exampleFunction [exampleRequest]) (NewIdentWriter 0) [] =
      some (Except.ok
        { ident := 0
          buf := "rpc Get ( Req ) returns ( Resp ) \x7b\n\x7d\n"
          newLine := true
          lines := 2 }) ∧
    FunctionType.Gen exampleLib 1 (exampleFunction [exampleRequest, exampleRequest])
        (NewIdentWriter 0) [] =
      some (Except.error "grpc requires exact one input, function Get has 2") ∧
    (FunctionType.Gen exampleLib 1 (exampleFunction [exampleRequest, exampleRequest])
        (NewIdentWriter 0) [] =
      some (Except.error ("grpc requires exact one input, function " ++
        (exampleFunction [exampleRequest, exampleRequest]).Name ++ " has " ++
        Itoa (exampleFunction [exampleRequest, exampleRequest]).Requests.length)) ↔
      (exampleFunction [exampleRequest, exampleRequest]).Requests.length ≠ 1) :=
  ⟨rfl, by decide, rfl, rfl,
    (C8_function_one_request exampleLib 1 (exampleFunction [exampleRequest, exampleRequest])
      (NewIdentWriter 0) [] "Resp" rfl (by decide)).1⟩

/-! ## Claims on the builder -/

/-- C9: at struct exit the builder fails if and only if two pending fields carry the
same field id, and then the message is `field id : <N> duplicated in struct <S>` for
an id `N` that occurs at least twice; otherwise it records the struct under its name,
with the pending fields in source (push) order, the next sequence number and the
annotations in source order, and leaves the field stack (and the annotation stack)
empty. The events of `struct D { 1: i32 a; 1: i32 b }` end in the failure
`field id : 1 duplicated in struct D`. -/
theorem C9_struct_exit_duplicate_ids (tl : ThriftListener) (ctx : StructDefCtx) :
    ((∃ msg, tl.ExitStruct_def ctx = Except.error msg) ↔ ¬ (pendingIds tl).Nodup) ∧
    (∀ msg, tl.ExitStruct_def ctx = Except.error msg →
      ∃ N, 2 ≤ (pendingIds tl).count N ∧
        msg = "field id : " ++ Itoa N ++ " duplicated in struct " ++ ctx.IDENTIFIER) ∧
    ((pendingIds tl).Nodup →
      ∃ tl', tl.ExitStruct_def ctx = Except.ok tl' ∧
        tl'.structDefs.get ctx.IDENTIFIER =
          some { Name := ctx.IDENTIFIER, SequenceNum := tl.structDefs.length,
                 FieldType := pendingFields tl, Annotations := tl.annotationStack.reverse,
                 toComments := ctx.comments } ∧
        tl'.fieldsStack = [] ∧ tl'.annotationStack = []) ∧
    exampleStructDRun = Except.error "field id : 1 duplicated in struct D" :=
  ⟨(ExitStruct_def_spec tl ctx).1, (ExitStruct_def_spec tl ctx).2.1,
    (ExitStruct_def_spec tl ctx).2.2, rfl⟩

/-- C9 (witness): after the one field `1: i32 x` the ids are distinct and the exit
of `struct A` records the struct with that field and empties the field stack. -/
theorem C9_struct_exit_witness :
    exampleI32Field {} "1" "x" = Except.ok (exampleListenerA 1) ∧
    (pendingIds (exampleListenerA 1)).Nodup ∧
    ∃ tl', (exampleListenerA 1).ExitStruct_def exampleCtxA = Except.ok tl' ∧
      tl'.structDefs.get exampleCtxA.IDENTIFIER =
        some { Name := exampleCtxA.IDENTIFIER,
               SequenceNum := (exampleListenerA 1).structDefs.length,
               FieldType := pendingFields (exampleListenerA 1),
               Annotations := (exampleListenerA 1).annotationStack.reverse,
               toComments := exampleCtxA.comments } ∧
      tl'.fieldsStack = [] ∧ tl'.annotationStack = [] :=
  ⟨rfl, by decide,
    (C9_struct_exit_duplicate_ids (exampleListenerA 1) exampleCtxA).2.2.1 (by decide)⟩

/-- C10 (as the code has it): for every struct that the builder accepts, the recorded
fields have pairwise distinct field ids, `strconv.Itoa` writes them as pairwise
distinct texts, and whenever `StructType.Gen` emits the struct, each field line
carries ` = ` followed by the text of the id of its field, in the order of the
fields. (No sign is promised: an id of 0 or below is passed through.) -/
theorem C10_field_tags_distinct (tl tl' : ThriftListener) (ctx : StructDefCtx)
    (hexit : tl.ExitStruct_def ctx = Except.ok tl') :
    ∃ st, tl'.structDefs.get ctx.IDENTIFIER = some st ∧
      (st.FieldType.map fun f => f.FieldID).Nodup ∧
      (st.FieldType.map fun f => Itoa f.FieldID).Nodup ∧
      ∀ (lib : GoLib) (fuel : Nat) (buf : IdentBuffer) (td : GoMap TypedefType)
        (opt : CodeGenOpt) (out : IdentBuffer),
        StructType.Gen lib fuel st buf td opt = some (Except.ok out) →
        out.buf = buf.buf ++ leadingText buf st.toComments ++ "message " ++ st.Name ++
          " \x7b\n" ++
          concatText (st.FieldType.map fun f =>
            repeatChar '\t' (buf.ident + 1) ++
              (if writesOptional opt f.FieldReq (expandedText fuel td f.Typ) then "optional "
               else "") ++
              expandedText fuel td f.Typ ++ " " ++ f.Name ++ " = " ++ Itoa f.FieldID ++
              fieldOptionText f.Annotations ++ ";" ++
              trailingCommentText lib f.toComments f.Annotations ++ "\n") ++
          repeatChar '\t' buf.ident ++ "\x7d\n" := by
  obtain ⟨h1, h2, h3⟩ := ExitStruct_def_spec tl ctx
  have hnd : (pendingIds tl).Nodup := by
    by_contra hc
    obtain ⟨msg, hm⟩ := h1.2 hc
    rw [hexit] at hm; cases hm
  obtain ⟨tl2, hok, hget, _, _⟩ := h3 hnd
  rw [hexit] at hok
  injection hok with hok
  subst hok
  have htext : ((pendingFields tl).map fun f => Itoa f.FieldID).Nodup := by
    have h := List.Nodup.map Itoa_injective hnd
    simpa only [pendingIds, List.map_map, Function.comp_def] using h
  refine ⟨_, hget, hnd, htext, ?_⟩
  intro lib fuel buf td opt out hgen
  exact (StructType_Gen_ok lib fuel _ buf td opt out hgen).1

/-- C10 (witness): the builder accepts `struct A { 1: i32 x }`, the recorded ids and
their texts are distinct, and the struct is emitted as `message A { int32 x = 1; }`. -/
theorem C10_field_tags_distinct_witness :
    (exampleListenerA 1).ExitStruct_def exampleCtxA =
      Except.ok { structDefs := [("A", exampleStructA 1)] } ∧
    (∃ st, ({ structDefs := [("A", exampleStructA 1)] } : ThriftListener).structDefs.get
        exampleCtxA.IDENTIFIER = some st ∧
      (st.FieldType.map fun f => f.FieldID).Nodup ∧
      (st.FieldType.map fun f => Itoa f.FieldID).Nodup) ∧
    StructType.Gen exampleLib 8 (exampleStructA 1) (NewIdentWriter 0) []
        { IsProto3WithOptional := false } =
      some (Except.ok
        { ident := 0
          buf := "message A \x7b\n\tint32 x = 1;\n\x7d\n"
          newLine := true
          lines := 2 }) :=
  ⟨rfl,
    (C10_field_tags_distinct (exampleListenerA 1) _ exampleCtxA rfl).imp
      (fun _ h => ⟨h.1, h.2.1, h.2.2.1⟩),
    rfl⟩

/-- C10 (counterexample to the claim as stated): the builder accepts
`struct A { 0: i32 x }` and the struct is emitted with the field line `int32 x = 0;`,
whose tag number is not positive. -/
theorem C10_counterexample :
    exampleI32Field {} "0" "x" = Except.ok (exampleListenerA 0) ∧
    (exampleListenerA 0).ExitStruct_def exampleCtxA =
      Except.ok { structDefs := [("A", exampleStructA 0)] } ∧
    StructType.Gen exampleLib 8 (exampleStructA 0) (NewIdentWriter 0) []
        { IsProto3WithOptional := false } =
      some (Except.ok
        { ident := 0
          buf := "message A \x7b\n\tint32 x = 0;\n\x7d\n"
          newLine := true
          lines := 2 }) ∧
    ∀ f ∈ (exampleStructA 0).FieldType, ¬ 0 < f.FieldID := by
  refine ⟨rfl, rfl, rfl, by decide⟩

/-! ## Claims on annotations and options -/

/-- C11: `checkValidOption` returns an error if and only if the annotation list holds
an annotation whose key is neither `desc` nor `json`, and then the message of the
error contains the quoted key of every such annotation of the list. For the keys
`foo`, `desc`, `bar` the chained message names `bar` and then `foo`. -/
theorem C11_checkValidOption_offending_keys (lib : GoLib) (annotations : List AnnotationField) :
    ((checkValidOption lib annotations).isSome = true ↔
      ∃ a ∈ annotations, a.Key ≠ "desc" ∧ a.Key ≠ "json") ∧
    (∀ msg, checkValidOption lib annotations = some msg →
      ∀ a ∈ annotations, a.Key ≠ "desc" → a.Key ≠ "json" →
        ∃ pre post, msg = pre ++ lib.Quote a.Key ++ post) ∧
    checkValidOption exampleLib exampleBadAnnotations =
      some ("invalid field annotation " ++ exampleLib.Quote "bar" ++
        ", invalid field annotation " ++ exampleLib.Quote "foo") := by
  obtain ⟨h1, h2⟩ := checkValidOption_loop lib annotations none
  refine ⟨?_, fun msg hmsg => (h2 msg hmsg).2, by decide⟩
  simpa [checkValidOption] using h1

/-- C12 (the code at the failing inputs): a field whose only annotation is `desc`
without a value, a field with two `desc` annotations and a field whose only
annotation is `json` without a value are each written with the empty block ` []`;
a field with `json = "n"` is written with ` [json_name = "n"]` and a field with
`desc = "d"` alone without brackets. -/
theorem C12_option_block_evaluation :
    StructType.Gen exampleLib 8 (exampleAnnotatedStruct [{ Key := "desc", Value := none }])
        (NewIdentWriter 0) [] { IsProto3WithOptional := false } =
      some (Except.ok
        { ident := 0
          buf := "message S \x7b\n\tint32 a = 1 [];\n\x7d\n"
          newLine := true
          lines := 2 }) ∧
    StructType.Gen exampleLib 8
        (exampleAnnotatedStruct [ exampleAnnotation "desc" "d", exampleAnnotation "desc" "e"])
        (NewIdentWriter 0) [] { IsProto3WithOptional := false } =
      some (Except.ok
        { ident := 0
          buf := "message S \x7b\n\tint32 a = 1 []; //d\n\x7d\n"
          newLine := true
          lines := 2 }) ∧
    StructType.Gen exampleLib 8 (exampleAnnotatedStruct [{ Key := "json", Value := none }])
        (NewIdentWriter 0) [] { IsProto3WithOptional := false } =
      some (Except.ok
        { ident := 0
          buf := "message S \x7b\n\tint32 a = 1 [];\n\x7d\n"
          newLine := true
          lines := 2 }) ∧
    StructType.Gen exampleLib 8 (exampleAnnotatedStruct [ exampleAnnotation "json" "n"])
        (NewIdentWriter 0) [] { IsProto3WithOptional := false } =
      some (Except.ok
        { ident := 0
          buf := "message S \x7b\n\tint32 a = 1 [json_name = \x22n\x22];\n\x7d\n"
          newLine := true
          lines := 2 }) ∧
    StructType.Gen exampleLib 8 (exampleAnnotatedStruct [ exampleAnnotation "desc" "d"])
        (NewIdentWriter 0) [] { IsProto3WithOptional := false } =
      some (Except.ok
        { ident := 0
          buf := "message S \x7b\n\tint32 a = 1; //d\n\x7d\n"
          newLine := true
          lines := 2 }) := by
  refine ⟨rfl, rfl, rfl, rfl, rfl⟩

/-- C13: for every function, `httpOption` appends the block `option (google.api.http)
= {` ... `};` if and only if the `path` and the `httpMethod` annotation are both
non-empty after their quotes are stripped; the block holds the line
`<lower-cased method>: "<path>"`, and the line `body: "*"` exactly when the
lower-cased method is `post` or `put`; the `dirpc.method_opt` block follows. For
`path = "/p"` and `httpMethod = "POST"` the block holds `post: "/p"` and `body: "*"`. -/
theorem C13_google_http_block (lib : GoLib) (f : FunctionType) (b : IdentBuffer) :
    (f.httpOption lib b).buf = b.buf ++
      (if GetAnnotationTrimString f.Annotations "path" ≠ "" ∧
          GetAnnotationTrimString f.Annotations "httpMethod" ≠ "" then
        indentText b ++ "option (google.api.http) = \x7b\n" ++
          repeatChar '\t' (b.ident + 1) ++
            lib.ToLower (GetAnnotationTrimString f.Annotations "httpMethod") ++ ": \x22" ++
            GetAnnotationTrimString f.Annotations "path" ++ "\x22\n" ++
          (if lib.ToLower (GetAnnotationTrimString f.Annotations "httpMethod") = "post" ∨
              lib.ToLower (GetAnnotationTrimString f.Annotations "httpMethod") = "put" then
            repeatChar '\t' (b.ident + 1) ++ "body: \x22*\x22\n"
           else "") ++
          repeatChar '\t' b.ident ++ "\x7d;\n"
       else "") ++
      methodOptText (getHTTPOption f.Annotations) b.ident (afterGoogleIndent f b) ∧
    (exampleHttpFunction.httpOption exampleLib (NewIdentWriter 1)).buf =
      "\toption (google.api.http) = \x7b\n\t\tpost: \x22/p\x22\n\t\tbody: \x22*\x22\n\t\x7d;\n" :=
  ⟨httpOption_buf lib f b, rfl⟩

/-- C14 (as the code has it): for every annotation list, the keys of the pairs that
`getHTTPOption` returns follow the fixed order timeoutMsec, connectTimeoutMsec,
sendTimeoutMsec, recvTimeoutMsec, contentType; a timeout key is included, with the
stripped text as value, exactly when the first annotation of that key has a string
value that is non-empty once its quotes are stripped and that `strconv.Atoi`
accepts; contentType is included with its value as-is exactly when the first
annotation of that key has a non-empty string value; and `httpOption` writes the
`dirpc.method_opt` block, one line per pair, if and only if the list is non-empty. -/
theorem C14_getHTTPOption_pairs (ants : List AnnotationField) :
    ((getHTTPOption ants).map fun o => o.Key).Sublist
      ["timeoutMsec", "connectTimeoutMsec", "sendTimeoutMsec", "recvTimeoutMsec",
       "contentType"] ∧
    (∀ kv : KVPair, kv ∈ getHTTPOption ants ↔
      ((kv.Key = "timeoutMsec" ∨ kv.Key = "connectTimeoutMsec" ∨ kv.Key = "sendTimeoutMsec" ∨
          kv.Key = "recvTimeoutMsec") ∧
        kv.Val = TrimChar (UnwrapOrString ( GetAnnotation ants kv.Key) "") quoteChar ∧
        kv.Val ≠ "" ∧ (Atoi kv.Val).2 = true) ∨
      (kv.Key = "contentType" ∧ kv.Val = UnwrapOrString ( GetAnnotation ants "contentType") "" ∧
        kv.Val ≠ "")) ∧
    (∀ (lib : GoLib) (f : FunctionType) (b : IdentBuffer),
      (f.httpOption lib b).buf = b.buf ++ googleHttpText lib f b ++
        (if (getHTTPOption f.Annotations).length > 0 then
          afterGoogleIndent f b ++ "option (dirpc.method_opt) = \x7b\n" ++
            concatText ((getHTTPOption f.Annotations).map fun o =>
              repeatChar '\t' (b.ident + 1) ++ TrimRightChar (o.Key ++ ": " ++ o.Val) '\n' ++
                "\n") ++
            repeatChar '\t' b.ident ++ "\x7d;\n"
         else "")) :=
  ⟨getHTTPOption_keys ants, mem_getHTTPOption ants, fun lib f b => httpOption_buf lib f b⟩

/-- C14 (counterexample to the claim as stated): the annotation `timeoutMsec = 500`,
whose value is the integer 500, is present and yields no pair, while
`timeoutMsec = "500"` yields the pair; an annotation `contentType` without a value
is present and yields no pair. -/
theorem C14_counterexample :
    getHTTPOption [{ Key := "timeoutMsec", Value := some (OptValue.int 500) }] = [] ∧
    getHTTPOption [ exampleAnnotation "timeoutMsec" "500"] =
      [{ Key := "timeoutMsec", Val := "500" }] ∧
    getHTTPOption [{ Key := "contentType", Value := none }] = [] := by
  refine ⟨by decide, by decide, by decide⟩

/-! ## Claims on the ordering by sequence number -/

/-- C18: for maps of structs, enums and functions whose sequence numbers are a
bijection onto `[0, N)`, `N` the size of the map, and for every order in which the
map is iterated, `sortStructDefs`, `sortEnumDefs` and `SortFunctionDefs` each return,
without an index out of range, a list of length `N` that is a permutation of the
values of the map and whose element at index `i` has sequence number `i`. -/
theorem C18_sort_by_sequence (structDefs : GoMap StructType) (enumDefs : GoMap EnumType)
    (functionDefs : GoMap FunctionType)
    (hs : seqBijective (fun d : StructType => d.SequenceNum) structDefs)
    (he : seqBijective (fun d : EnumType => d.SequenceNum) enumDefs)
    (hf : seqBijective (fun d : FunctionType => d.SequenceNum) functionDefs) :
    (∃ l, sortStructDefs structDefs = Except.ok l ∧ l.length = structDefs.length ∧
      l.Perm (structDefs.map Prod.snd) ∧
      ∀ (i : Nat) (hi : i < l.length), (l.get ⟨i, hi⟩).SequenceNum = (i : Int)) ∧
    (∃ l, sortEnumDefs enumDefs = Except.ok l ∧ l.length = enumDefs.length ∧
      l.Perm (enumDefs.map Prod.snd) ∧
      ∀ (i : Nat) (hi : i < l.length), (l.get ⟨i, hi⟩).SequenceNum = (i : Int)) ∧
    (∃ l, SortFunctionDefs functionDefs = Except.ok l ∧ l.length = functionDefs.length ∧
      l.Perm (functionDefs.map Prod.snd) ∧
      ∀ (i : Nat) (hi : i < l.length), (l.get ⟨i, hi⟩).SequenceNum = (i : Int)) := by
  have key : ∀ {α : Type} (seq : α → Int) (zero : α) (m : GoMap α), seqBijective seq m →
      ∃ l, placeBySeq seq (m.map Prod.snd) (List.replicate m.length zero) = Except.ok l ∧
        l.length = m.length ∧ l.Perm (m.map Prod.snd) ∧
        ∀ (i : Nat) (hi : i < l.length), seq (l.get ⟨i, hi⟩) = (i : Int) := by
    intro α seq zero m hm
    have h := placeBySeq_bijective seq zero (m.map Prod.snd)
      (by simpa [seqBijective, List.map_map, Function.comp_def] using hm)
    simpa using h
  exact ⟨key _ zeroStructType structDefs hs, key _ zeroEnumType enumDefs he,
    key _ zeroFunctionType functionDefs hf⟩

/-- C18 (witness): tables that hold the declaration of sequence number 1 before the
one of sequence number 0 are returned in the order 0, 1. -/
theorem C18_sort_by_sequence_witness :
    seqBijective (fun d : StructType => d.SequenceNum) exampleStructDefs ∧
    seqBijective (fun d : EnumType => d.SequenceNum) exampleEnumDefs ∧
    seqBijective (fun d : FunctionType => d.SequenceNum) exampleFunctionDefs ∧
    (sortStructDefs exampleStructDefs).map (fun l => l.map fun d => d.Name) =
      Except.ok ["A", "B"] ∧
    (sortEnumDefs exampleEnumDefs).map (fun l => l.map fun d => d.Name) =
      Except.ok ["E", "F"] ∧
    (SortFunctionDefs exampleFunctionDefs).map (fun l => l.map fun d => d.Name) =
      Except.ok ["f", "g"] ∧
    ∃ l, sortStructDefs exampleStructDefs = Except.ok l ∧
      l.length = exampleStructDefs.length ∧ l.Perm (exampleStructDefs.map Prod.snd) ∧
      ∀ (i : Nat) (hi : i < l.length), (l.get ⟨i, hi⟩).SequenceNum = (i : Int) :=
  have hs : seqBijective (fun d : StructType => d.SequenceNum) exampleStructDefs := by
    unfold seqBijective; decide
  have he : seqBijective (fun d : EnumType => d.SequenceNum) exampleEnumDefs := by
    unfold seqBijective; decide
  have hf : seqBijective (fun d : FunctionType => d.SequenceNum) exampleFunctionDefs := by
    unfold seqBijective; decide
  ⟨hs, he, hf, rfl, rfl, rfl,
    (C18_sort_by_sequence exampleStructDefs exampleEnumDefs exampleFunctionDefs hs he hf).1⟩

/-! ## Claims on sequence numbers -/

/-- C17 (the code at the failing inputs): after two structs named `A` and `B` the
recorded sequence numbers are 0 and 1; after two structs both named `A` the one
recorded struct has sequence number 1, which is not in `[0, 1)`, and `sortStructDefs`
then indexes out of range; after the functions `f`, `g` of one service and `f` of
another the two recorded functions both have sequence number 1. -/
theorem C17_duplicate_name_evaluation :
    (exampleTwoStructsRun "A" "B").map
        (fun tl => seqTable (fun d : StructType => d.SequenceNum) tl.structDefs) =
      Except.ok [("A", 0), ("B", 1)] ∧
    (exampleTwoStructsRun "A" "A").map
        (fun tl => seqTable (fun d : StructType => d.SequenceNum) tl.structDefs) =
      Except.ok [("A", 1)] ∧
    (exampleTwoStructsRun "A" "A").bind (fun tl => sortStructDefs tl.structDefs) =
      Except.error "runtime error: index out of range [1] with length 1" ∧
    (exampleThreeFunctionsRun "f" "g" "f").map
        (fun tl => seqTable (fun d : FunctionType => d.SequenceNum) tl.functionDefs) =
      Except.ok [("f", 1), ("g", 1)] := by
  refine ⟨rfl, rfl, rfl, rfl⟩

/-! ## Claims on the generator of a unit -/

/-- C15: the text `CodeGen` writes for a unit starts with the line `syntax = "proto3";`
followed by the line `package <p>;`, where `<p>` is the name of the first namespace
of the unit (in the order of the list `Namespaces`) whose scope is the requested
language, and the reference name `currentName` when no namespace has that scope. -/
theorem C15_package_line (lib : GoLib) (fuel : Nat) (defs : UnitDefs)
    (currentName lang : String) (mainPackage : Bool) (opt : CodeGenOpt) (text : String)
    (h : genUnit lib fuel defs currentName lang mainPackage opt = some (Except.ok text)) :
    (∃ rest, text = "syntax = " ++ quoted "proto3" ++ ";\n" ++
        "package " ++ packageOf defs.Namespaces lang currentName ++ ";\n" ++ rest) ∧
    (∀ pre ns post, defs.Namespaces = pre ++ ns :: post → (∀ m ∈ pre, m.Scope ≠ lang) →
      ns.Scope = lang → packageOf defs.Namespaces lang currentName = ns.Name) ∧
    ((∀ m ∈ defs.Namespaces, m.Scope ≠ lang) →
      packageOf defs.Namespaces lang currentName = currentName) := by
  refine ⟨genUnit_head lib fuel defs currentName lang mainPackage opt text h, ?_, ?_⟩
  · intro pre ns post he hpre hns
    rw [he]
    exact packageOf_first pre ns post lang currentName hpre hns
  · exact packageOf_none _ _ _

/-- C15 (witness): a unit with the namespaces `java com.first`, `go second` and
`go third` generated for `go` under the reference name `unit` has the package line
`package second;`; generated for `php` it has `package unit;`. -/
theorem C15_package_line_witness :
    genUnit exampleLib 8 exampleNamespaceUnit "unit" "go" true ⟨false⟩ =
      some (Except.ok (exampleMainText "second")) ∧
    packageOf exampleNamespaceUnit.Namespaces "go" "unit" = "second" ∧
    packageOf exampleNamespaceUnit.Namespaces "php" "unit" = "unit" ∧
    ∃ rest, exampleMainText "second" = "syntax = " ++ quoted "proto3" ++ ";\n" ++
      "package " ++ packageOf exampleNamespaceUnit.Namespaces "go" "unit" ++ ";\n" ++ rest :=
  ⟨rfl, rfl, rfl,
    (C15_package_line exampleLib 8 exampleNamespaceUnit "unit" "go" true ⟨false⟩
      (exampleMainText "second") rfl).1⟩

/-- C16 (counterexample): when `b` includes `x/common.thrift` and `c` includes
`y/common.thrift`, both units have the reference name `common`; `CodeGen` succeeds
and its result has one entry `common`, with the text of the second unit, and the
text of the first unit is under no key. When the included unit has the reference
name `main` of the root, the one entry of the result holds the text of the
included unit and the text of the root is lost. -/
theorem C16_counterexample :
    exampleClashTree.CodeGen exampleLib 8 "main" "go" true ⟨false⟩ =
      some (Except.ok [("main", exampleMainText "main"), ("b", exampleIncludedText "b"),
        ("common", exampleIncludedText "y.common"), ("c", exampleIncludedText "c")]) ∧
    genUnit exampleLib 8 (exampleGoUnit "x.common") "common" "go" false ⟨false⟩ =
      some (Except.ok (exampleIncludedText "x.common")) ∧
    exampleIncludedText "x.common" ∉
      [exampleMainText "main", exampleIncludedText "b", exampleIncludedText "y.common",
        exampleIncludedText "c"] ∧
    exampleShadowTree.CodeGen exampleLib 8 "main" "go" true ⟨false⟩ =
      some (Except.ok [("main", exampleIncludedText "lib.main")]) ∧
    genUnit exampleLib 8 {} "main" "go" true ⟨false⟩ =
      some (Except.ok (exampleMainText "main")) ∧
    exampleMainText "main" ≠ exampleIncludedText "lib.main" := by
  refine ⟨rfl, rfl, by decide, rfl, rfl, by decide⟩

/-! ## Claims on include resolution -/

/-- C19 (amended): take an include graph over the paths `files` in which every file
can be opened and parsed and passes the field check (its include path has a base
name with a dot, the search directory opens it, its text parses and
`dirpcFieldsCheck` returns `nil` for its listener) and
in which some path `w` of include directives from the root text repeats a file.
Then, whatever order `env.order` visits the includes of a unit in, `parseIDL` with
`singleMode` off and an empty search set returns for every fuel above the number
of files an error: the message is `cycled include <p>` inside one wrapper
`fail to parse idl: <q>, due to` for every include `q` of the stack `chain`, the
stack followed by `p` is a path of include directives from the root, and `p` is
on the stack. -/
theorem C19_cycle_reported (lib : GoLib) (env : ParseEnv)
    (searchDir : String → Except String String) (files : List String) (idl : String)
    (w : List String) (fuel : Nat)
    (hinc : ∀ q ∈ includeNames env idl, q ∈ files)
    (hfiles : ∀ p ∈ files, fileOk lib env searchDir files p = true)
    (horder : ∀ s l, (env.order s l).Perm l)
    (hwalk : isWalk env searchDir idl w = true) (hcycle : ¬ w.Nodup)
    (hfuel : files.length < fuel) :
    ∃ chain p s, p ∈ chain ∧ isWalk env searchDir idl (chain ++ [p]) = true ∧
      parseIDL lib env fuel idl (some searchDir) [] false =
        some (Except.error (cycleMessage chain p), s) ∧
      ∃ pre, cycleMessage chain p = pre ++ ("cycled include " ++ p) := by
  obtain ⟨f, rfl⟩ : ∃ f, fuel = f + 1 := ⟨fuel - 1, by omega⟩
  cases hparse : env.parseText idl with
  | error e =>
    exfalso
    apply hcycle
    cases w with
    | nil => exact List.nodup_nil
    | cons q w1 =>
      have hq := ((isWalk_cons env searchDir idl q w1).1 hwalk).1
      unfold includeNames at hq
      rw [hparse] at hq
      cases hq
  | ok listener =>
    obtain ⟨r, hr, hcase⟩ := parseIDL_step lib env searchDir files f
      (parseIDL_spec lib env searchDir files hfiles horder f) hfiles horder idl listener []
      hparse hinc (fun x hx => by cases hx) List.nodup_nil
      (by rw [List.length_nil]; omega)
    rcases hcase with ⟨msg, s, hrs, chain, p, hp, hw, hmsg⟩ | ⟨hfresh, _, _⟩
    · refine ⟨chain, p, s, by simpa using hp, hw, ?_, cycleMessage_suffix chain p⟩
      rw [hr, hrs, hmsg]
    · exact absurd (hfresh w hwalk).1 hcycle

/-- C19 (witness): for the two files `a.thrift` and `b.thrift` that include each
other, with the text of `a.thrift` as the root, the path `b.thrift`, `a.thrift`,
`b.thrift` repeats a file, and `parseIDL` returns the cycle error. -/
theorem C19_cycle_reported_witness :
    isWalk exampleEnv exampleSearchDir exampleTextA ["b.thrift", "a.thrift", "b.thrift"] = true ∧
    (parseIDL exampleLib exampleEnv 3 exampleTextA (some exampleSearchDir) [] false).map
        (fun r => r.1.map fun _ => ()) = some (Except.error exampleCycleError) ∧
    ∃ chain p s, p ∈ chain ∧ isWalk exampleEnv exampleSearchDir exampleTextA (chain ++ [p]) = true ∧
      parseIDL exampleLib exampleEnv 3 exampleTextA (some exampleSearchDir) [] false =
        some (Except.error (cycleMessage chain p), s) ∧
      ∃ pre, cycleMessage chain p = pre ++ ("cycled include " ++ p) :=
  ⟨by decide, rfl,
    C19_cycle_reported exampleLib exampleEnv exampleSearchDir ["a.thrift", "b.thrift"]
      exampleTextA ["b.thrift", "a.thrift", "b.thrift"] 3 (by decide) (by decide)
      (fun _ l => List.Perm.refl l) (by decide) (by decide) (by decide)⟩

/-- C20 (amended): when the root text is that of `a.thrift`, which includes
`b.thrift`, and `b.thrift` includes `a.thrift`, `Analysis` of the root text with
`singleMode` off fails, for every fuel from 3 on and whatever order the includes
are visited in, with the message `fail to parse idl: b.thrift, due to fail to
parse idl: a.thrift, due to cycled include b.thrift`: the root has no path on the
search set, so the include that is found there a second time is `b.thrift`. -/
theorem C20_cycle_names_second_include (lib : GoLib) (env : ParseEnv) (fs : FileSystem)
    (dirs : List String) (idlA idlB : String) (fuel : Nat)
    (hA : includeNames env idlA = ["b.thrift"]) (hB : includeNames env idlB = ["a.thrift"])
    (hopenA : (NewDirSearcher dirs).Open fs "a.thrift" = Except.ok idlA)
    (hopenB : (NewDirSearcher dirs).Open fs "b.thrift" = Except.ok idlB)
    (horder : ∀ s l, (env.order s l).Perm l) (hfuel : 3 ≤ fuel) :
    Analysis lib env fs fuel idlA dirs false =
      some (Except.error ("fail to parse idl: b.thrift, due to fail to parse idl: a.thrift, " ++
        "due to cycled include b.thrift")) := by
  obtain ⟨f, rfl⟩ : ∃ f, fuel = f + 1 + 1 + 1 := ⟨fuel - 3, by omega⟩
  have h3 := parseIDL_cycle_hit lib env ((NewDirSearcher dirs).Open fs) f idlA "b.thrift"
    ["a.thrift", "b.thrift"] hA (by decide) horder (by decide)
  have h2 := parseIDL_wrap lib env ((NewDirSearcher dirs).Open fs) (f + 1) idlB "a.thrift"
    idlA _ ["b.thrift"] _ hB (by decide) horder (by decide) hopenA h3
  have h1 := parseIDL_wrap lib env ((NewDirSearcher dirs).Open fs) (f + 1 + 1) idlA "b.thrift"
    idlB _ [] _ hA (by decide) horder (by decide) hopenB h2
  unfold Analysis
  rw [h1]
  rfl

/-- C20 (witness): the two files of the example include each other, and `Analysis`
of the text of `a.thrift` returns the message that ends in
`cycled include b.thrift`. -/
theorem C20_cycle_names_second_include_witness :
    includeNames exampleEnv exampleTextA = ["b.thrift"] ∧
    includeNames exampleEnv exampleTextB = ["a.thrift"] ∧
    Analysis exampleLib exampleEnv exampleFileSystem 3 exampleTextA [] false =
      some (Except.error ("fail to parse idl: b.thrift, due to fail to parse idl: a.thrift, " ++
        "due to cycled include b.thrift")) :=
  ⟨by decide, by decide,
    C20_cycle_names_second_include exampleLib exampleEnv exampleFileSystem [] exampleTextA
      exampleTextB 3 (by decide) (by decide) rfl rfl (fun _ l => List.Perm.refl l)
      (by decide)⟩

/-- C20 (counterexample): for the two files `a.thrift` and `b.thrift` that include
each other, `Analysis` of the text of `a.thrift` fails with a message that does
not contain `cycled include a.thrift`; it contains `cycled include b.thrift`. The
same holds when the includes are visited in reverse order. -/
theorem C20_counterexample :
    Analysis exampleLib exampleEnv exampleFileSystem 3 exampleTextA [] false =
      some (Except.error exampleCycleError) ∧
    Analysis exampleLib exampleReverseEnv exampleFileSystem 3 exampleTextA [] false =
      some (Except.error exampleCycleError) ∧
    Contains exampleCycleError "cycled include a.thrift" = false ∧
    Contains exampleCycleError "cycled include b.thrift" = true := by
  refine ⟨rfl, rfl, by decide, by decide⟩

/-! ## Claims on the DiRPC field check -/

/-- C21 (amended): `dirpcFieldsCheck` returns `nil` when the listener has no service
(the name of `serviceDef` is empty) or when the check flag is off. Otherwise it
returns `missing required field: servType`, `missing required field: version` or
`missing required field: servName`, tested in that order, when the text of that
service-level annotation is empty once its quotes are stripped, which is the case
when the annotation is absent; and with the three present it returns
`illegal server timeout`, `illegal server connect timeout`,
`illegal server send timeout` or `illegal server recv timeout`, tested in that
order, when the text of that timeout annotation is not empty and `strconv.Atoi`
rejects it. A timeout annotation whose text is empty is not tested. -/
theorem C21_service_level_check (lib : GoLib) (flag : Bool) (listener : ThriftListener) :
    (listener.serviceDef.Name = "" ∨ flag = false →
      dirpcFieldsCheck lib flag listener = none) ∧
    (∀ key, (∀ a ∈ listener.serviceDef.Annotations, a.Key ≠ key) →
      GetAnnotationTrimString listener.serviceDef.Annotations key = "") ∧
    (listener.serviceDef.Name ≠ "" →
      (GetAnnotationTrimString listener.serviceDef.Annotations "servType" = "" →
        dirpcFieldsCheck lib true listener = some "missing required field: servType") ∧
      (GetAnnotationTrimString listener.serviceDef.Annotations "servType" ≠ "" →
        GetAnnotationTrimString listener.serviceDef.Annotations "version" = "" →
        dirpcFieldsCheck lib true listener = some "missing required field: version") ∧
      (GetAnnotationTrimString listener.serviceDef.Annotations "servType" ≠ "" →
        GetAnnotationTrimString listener.serviceDef.Annotations "version" ≠ "" →
        GetAnnotationTrimString listener.serviceDef.Annotations "servName" = "" →
        dirpcFieldsCheck lib true listener = some "missing required field: servName") ∧
      (GetAnnotationTrimString listener.serviceDef.Annotations "servType" ≠ "" →
        GetAnnotationTrimString listener.serviceDef.Annotations "version" ≠ "" →
        GetAnnotationTrimString listener.serviceDef.Annotations "servName" ≠ "" →
        (¬ timeoutValid (GetAnnotationTrimString listener.serviceDef.Annotations "timeoutMsec") →
          dirpcFieldsCheck lib true listener = some "illegal server timeout") ∧
        (timeoutValid (GetAnnotationTrimString listener.serviceDef.Annotations "timeoutMsec") →
          ¬ timeoutValid
            (GetAnnotationTrimString listener.serviceDef.Annotations "connectTimeoutMsec") →
          dirpcFieldsCheck lib true listener = some "illegal server connect timeout") ∧
        (timeoutValid (GetAnnotationTrimString listener.serviceDef.Annotations "timeoutMsec") →
          timeoutValid
            (GetAnnotationTrimString listener.serviceDef.Annotations "connectTimeoutMsec") →
          ¬ timeoutValid
            (GetAnnotationTrimString listener.serviceDef.Annotations "sendTimeoutMsec") →
          dirpcFieldsCheck lib true listener = some "illegal server send timeout") ∧
        (timeoutValid (GetAnnotationTrimString listener.serviceDef.Annotations "timeoutMsec") →
          timeoutValid
            (GetAnnotationTrimString listener.serviceDef.Annotations "connectTimeoutMsec") →
          timeoutValid
            (GetAnnotationTrimString listener.serviceDef.Annotations "sendTimeoutMsec") →
          ¬ timeoutValid
            (GetAnnotationTrimString listener.serviceDef.Annotations "recvTimeoutMsec") →
          dirpcFieldsCheck lib true listener = some "illegal server recv timeout") ∧
        (timeoutsValid listener.serviceDef.Annotations →
          dirpcFieldsCheck lib true listener =
            firstError (functionCheckOf lib listener) listener.functionDefs))) := by
  refine ⟨dirpcFieldsCheck_inactive lib flag listener,
    fun key h => GetAnnotationTrimString_absent _ key h, ?_⟩
  intro hname
  refine ⟨?_, ?_, ?_, ?_⟩
  · intro h1
    unfold dirpcFieldsCheck
    simp only [if_neg hname, Bool.not_true, Bool.false_eq_true, if_false, if_pos h1]
  · intro h1 h2
    unfold dirpcFieldsCheck
    simp only [if_neg hname, Bool.not_true, Bool.false_eq_true, if_false, if_neg h1, if_pos h2]
  · intro h1 h2 h3
    unfold dirpcFieldsCheck
    simp only [if_neg hname, Bool.not_true, Bool.false_eq_true, if_false, if_neg h1, if_neg h2,
      if_pos h3]
  · intro h1 h2 h3
    rw [dirpcFieldsCheck_active lib listener hname h1 h2 h3]
    refine ⟨?_, ?_, ?_, ?_, ?_⟩
    · intro t1
      rw [orElse_of_some _ _ _ (illegalTimeout_of_invalid _ _ t1)]
    · intro t1 t2
      rw [orElse_of_none _ _ ((illegalTimeout_eq_none_iff _ _).2 t1),
        orElse_of_some _ _ _ (illegalTimeout_of_invalid _ _ t2)]
    · intro t1 t2 t3
      rw [orElse_of_none _ _ ((illegalTimeout_eq_none_iff _ _).2 t1),
        orElse_of_none _ _ ((illegalTimeout_eq_none_iff _ _).2 t2),
        orElse_of_some _ _ _ (illegalTimeout_of_invalid _ _ t3)]
    · intro t1 t2 t3 t4
      rw [orElse_of_none _ _ ((illegalTimeout_eq_none_iff _ _).2 t1),
        orElse_of_none _ _ ((illegalTimeout_eq_none_iff _ _).2 t2),
        orElse_of_none _ _ ((illegalTimeout_eq_none_iff _ _).2 t3),
        orElse_of_some _ _ _ (illegalTimeout_of_invalid _ _ t4)]
    · rintro ⟨t1, t2, t3, t4⟩
      rw [orElse_of_none _ _ ((illegalTimeout_eq_none_iff _ _).2 t1),
        orElse_of_none _ _ ((illegalTimeout_eq_none_iff _ _).2 t2),
        orElse_of_none _ _ ((illegalTimeout_eq_none_iff _ _).2 t3),
        orElse_of_none _ _ ((illegalTimeout_eq_none_iff _ _).2 t4)]

/-- C21 (witness): the service `S (servType = "http", version = "1.0", servName =
"s", timeoutMsec = "abc")` is rejected with `illegal server timeout`; without
`version` the error is `missing required field: version`. -/
theorem C21_service_level_check_witness :
    dirpcFieldsCheck exampleLib true
        (exampleServiceListener
          (exampleServiceAnnotations "http" ++ [ exampleAnnotation "timeoutMsec" "abc"]) []) =
      some "illegal server timeout" ∧
    dirpcFieldsCheck exampleLib true
        (exampleServiceListener [ exampleAnnotation "servType" "http"] []) =
      some "missing required field: version" :=
  ⟨((C21_service_level_check exampleLib true
      (exampleServiceListener
        (exampleServiceAnnotations "http" ++ [ exampleAnnotation "timeoutMsec" "abc"])
        [])).2.2 (by decide)).2.2.2 (by decide) (by decide) (by decide) |>.1 (by decide),
    ((C21_service_level_check exampleLib true
      (exampleServiceListener [ exampleAnnotation "servType" "http"] [])).2.2
        (by decide)).2.1 (by decide) (by decide)⟩

/-- C21 (counterexample): a service whose annotation `timeoutMsec` is present with
the empty text `""`, or present without a value, passes the check although the
annotation does not parse as an integer; with the text `abc` it is rejected. -/
theorem C21_counterexample :
    dirpcFieldsCheck exampleLib true
        (exampleServiceListener
          (exampleServiceAnnotations "http" ++ [ exampleAnnotation "timeoutMsec" ""]) []) =
      none ∧
    (Atoi "").2 = false ∧
    dirpcFieldsCheck exampleLib true
        (exampleServiceListener
          (exampleServiceAnnotations "http" ++ [{ Key := "timeoutMsec", Value := none }]) []) =
      none ∧
    dirpcFieldsCheck exampleLib true
        (exampleServiceListener
          (exampleServiceAnnotations "http" ++ [ exampleAnnotation "timeoutMsec" "abc"]) []) =
      some "illegal server timeout" := by
  refine ⟨by decide, by decide, by decide, by decide⟩

/-- C22: for a listener with a service whose service-level annotations are valid and
whose `servType` is `http` or `https`, `dirpcFieldsCheck` (with the check flag on)
returns `nil` if and only if every function of the listener has valid timeouts, an
`httpMethod` annotation whose upper-cased text is `POST` or `GET`, a non-empty
`path` annotation and a `contentType` annotation that is `form`, `json` or
`flattenform`; the text of an annotation is its value with the quotes stripped. -/
theorem C22_http_functions (lib : GoLib) (listener : ThriftListener)
    (hname : listener.serviceDef.Name ≠ "")
    (hvalid : serviceLevelValid listener.serviceDef.Annotations)
    (hs : GetAnnotationTrimString listener.serviceDef.Annotations "servType" = "http" ∨
      GetAnnotationTrimString listener.serviceDef.Annotations "servType" = "https") :
    dirpcFieldsCheck lib true listener = none ↔
      ∀ kv ∈ listener.functionDefs,
        timeoutsValid kv.2.Annotations ∧
        (lib.ToUpper (GetAnnotationTrimString kv.2.Annotations "httpMethod") = "POST" ∨
          lib.ToUpper (GetAnnotationTrimString kv.2.Annotations "httpMethod") = "GET") ∧
        GetAnnotationTrimString kv.2.Annotations "path" ≠ "" ∧
        (GetAnnotationTrimString kv.2.Annotations "contentType" = "form" ∨
          GetAnnotationTrimString kv.2.Annotations "contentType" = "json" ∨
          GetAnnotationTrimString kv.2.Annotations "contentType" = "flattenform") := by
  rw [dirpcFieldsCheck_valid lib listener hname hvalid, firstError_eq_none_iff]
  constructor
  · intro h kv hkv
    exact (functionCheck_http lib _ _ _ _ _ kv.1 kv.2 hs).1 (h kv hkv)
  · intro h kv hkv
    exact (functionCheck_http lib _ _ _ _ _ kv.1 kv.2 hs).2 (h kv hkv)

/-- C22 (witness): the `http` service `S` with the function `f (httpMethod = "post",
path = "/p", contentType = "json")` passes the check; with `httpMethod = "put"`
the check fails. -/
theorem C22_http_functions_witness :
    dirpcFieldsCheck exampleLib true
        (exampleServiceListener (exampleServiceAnnotations "http")
          [("f", exampleCheckedFunction [ exampleAnnotation "httpMethod" "post",
            exampleAnnotation "path" "/p", exampleAnnotation "contentType" "json"])]) = none ∧
    dirpcFieldsCheck exampleLib true
        (exampleServiceListener (exampleServiceAnnotations "http")
          [("f", exampleCheckedFunction [ exampleAnnotation "httpMethod" "put",
            exampleAnnotation "path" "/p", exampleAnnotation "contentType" "json"])]) =
      some "illegal or missing required field httpMethod for function f" :=
  ⟨(C22_http_functions exampleLib
      (exampleServiceListener (exampleServiceAnnotations "http")
        [("f", exampleCheckedFunction [ exampleAnnotation "httpMethod" "post",
          exampleAnnotation "path" "/p", exampleAnnotation "contentType" "json"])])
      (by decide) (by unfold serviceLevelValid timeoutsValid; decide) (by decide)).2
      (by unfold timeoutsValid; decide),
    by decide⟩

/-- C23 (amended): with the check of one function written `functionCheckOf`, a
function of a `grpc` service is accepted if and only if its own timeout
annotations are valid and the text of `timeoutMsec` is not empty at the function
or at the service level and the text of `connectTimeoutMsec` is not empty at one
of those levels; a function of a `thrift` service, if and only if its own timeout
annotations are valid and the texts of `sendTimeoutMsec` and of `recvTimeoutMsec`
are each not empty at one of those levels. The text of an annotation is its string
value with the quotes stripped, and empty for an annotation with an integer value
or without a value. For a listener with a valid service, `dirpcFieldsCheck`
returns `nil` if and only if every function is accepted. -/
theorem C23_grpc_thrift_functions (lib : GoLib) (listener : ThriftListener)
    (name : String) (f : FunctionType) :
    (GetAnnotationTrimString listener.serviceDef.Annotations "servType" = "grpc" →
      (functionCheckOf lib listener name f = none ↔
        timeoutsValid f.Annotations ∧
        (GetAnnotationTrimString f.Annotations "timeoutMsec" ≠ "" ∨
          GetAnnotationTrimString listener.serviceDef.Annotations "timeoutMsec" ≠ "") ∧
        (GetAnnotationTrimString f.Annotations "connectTimeoutMsec" ≠ "" ∨
          GetAnnotationTrimString listener.serviceDef.Annotations "connectTimeoutMsec" ≠ ""))) ∧
    (GetAnnotationTrimString listener.serviceDef.Annotations "servType" = "thrift" →
      (functionCheckOf lib listener name f = none ↔
        timeoutsValid f.Annotations ∧
        (GetAnnotationTrimString f.Annotations "sendTimeoutMsec" ≠ "" ∨
          GetAnnotationTrimString listener.serviceDef.Annotations "sendTimeoutMsec" ≠ "") ∧
        (GetAnnotationTrimString f.Annotations "recvTimeoutMsec" ≠ "" ∨
          GetAnnotationTrimString listener.serviceDef.Annotations "recvTimeoutMsec" ≠ ""))) ∧
    (listener.serviceDef.Name ≠ "" → serviceLevelValid listener.serviceDef.Annotations →
      (dirpcFieldsCheck lib true listener = none ↔
        ∀ kv ∈ listener.functionDefs, functionCheckOf lib listener kv.1 kv.2 = none)) := by
  refine ⟨?_, ?_, ?_⟩
  · intro hs
    unfold functionCheckOf
    rw [hs]
    exact functionCheck_grpc lib _ _ _ _ name f
  · intro hs
    unfold functionCheckOf
    rw [hs]
    exact functionCheck_thrift lib _ _ _ _ name f
  · intro hname hvalid
    rw [dirpcFieldsCheck_valid lib listener hname hvalid, firstError_eq_none_iff]

/-- C23 (witness): a function without annotations of the `grpc` service `S
(timeoutMsec = "50", connectTimeoutMsec = "5")` is accepted; without the
service-level `connectTimeoutMsec` it is rejected with
`missing connect timeout for function f`. -/
theorem C23_grpc_thrift_functions_witness :
    functionCheckOf exampleLib
        (exampleServiceListener (exampleServiceAnnotations "grpc" ++
          [ exampleAnnotation "timeoutMsec" "50", exampleAnnotation "connectTimeoutMsec" "5"]) [])
        "f" (exampleCheckedFunction []) = none ∧
    functionCheckOf exampleLib
        (exampleServiceListener (exampleServiceAnnotations "grpc" ++
          [ exampleAnnotation "timeoutMsec" "50"]) [])
        "f" (exampleCheckedFunction []) = some "missing connect timeout for function f" :=
  ⟨((C23_grpc_thrift_functions exampleLib
      (exampleServiceListener (exampleServiceAnnotations "grpc" ++
        [ exampleAnnotation "timeoutMsec" "50", exampleAnnotation "connectTimeoutMsec" "5"]) [])
      "f" (exampleCheckedFunction [])).1 (by decide)).2
      (by unfold timeoutsValid; decide),
    by decide⟩

/-- C23 (counterexample): in the `grpc` service `S (timeoutMsec = "50",
connectTimeoutMsec = "5")` the function `f (timeoutMsec = "abc")` has both
annotations present at one of the two levels and is rejected with
`illegal timeout for function f`; in the `grpc` service `S` without timeouts the
function `f (timeoutMsec = 50, connectTimeoutMsec = 5)`, whose values are
integers, has both annotations present and is rejected with
`missing timeout for function f`, while `f (timeoutMsec = "50",
connectTimeoutMsec = "5")` is accepted. -/
theorem C23_counterexample :
    functionCheckOf exampleLib
        (exampleServiceListener (exampleServiceAnnotations "grpc" ++
          [ exampleAnnotation "timeoutMsec" "50", exampleAnnotation "connectTimeoutMsec" "5"]) [])
        "f" (exampleCheckedFunction [ exampleAnnotation "timeoutMsec" "abc"]) =
      some "illegal timeout for function f" ∧
    functionCheckOf exampleLib (exampleServiceListener (exampleServiceAnnotations "grpc") [])
        "f" (exampleCheckedFunction [{ Key := "timeoutMsec", Value := some (OptValue.int 50) },
          { Key := "connectTimeoutMsec", Value := some (OptValue.int 5) }]) =
      some "missing timeout for function f" ∧
    functionCheckOf exampleLib (exampleServiceListener (exampleServiceAnnotations "grpc") [])
        "f" (exampleCheckedFunction [ exampleAnnotation "timeoutMsec" "50",
          exampleAnnotation "connectTimeoutMsec" "5"]) = none := by
  refine ⟨by decide, by decide, by decide⟩

/-! ## Claims on the reserved-word check -/

/-- C24 (amended): let the reserved words be the built-in words and the words of
the keyword file, the file being readable or the path empty, and let the words be
visited in any order. `CheckKeyWord` returns `nil` if and only if no reserved word
is the name of the first service of the unit (the field `ServiceDef`), of a
typedef, of a struct, of a function or of an enum of the unit. An error it
returns is `line:<N>, <Kind> include KeyWords: <word>` for such a declaration: it
names the kind, the start position and the colliding word. It panics only when
the name of `ServiceDef` is a reserved word and `ServiceDef` has no context. -/
theorem C24_reserved_word_collision (env : KeyWordEnv) (ans : AnalysisResult)
    (filePath : String) (fileKeys : List String) (horder : ∀ l, (env.order l).Perm l)
    (hfile : fileKeysOf env filePath = Except.ok fileKeys) :
    (ans.CheckKeyWord env filePath = Except.ok none ↔
      ∀ w, w ∈ fileKeys ∨ w ∈ env.keyWords → ¬ collides ans.defs w) ∧
    (∀ msg, ans.CheckKeyWord env filePath = Except.ok (some msg) →
      ∃ w, (w ∈ fileKeys ∨ w ∈ env.keyWords) ∧ namesCollision env ans.defs w msg) ∧
    (∀ r, ans.CheckKeyWord env filePath = Except.error r →
      (ans.defs.ServiceDef.Name ∈ fileKeys ∨ ans.defs.ServiceDef.Name ∈ env.keyWords) ∧
        env.serviceStart ans.defs.ServiceDef = none) :=
  CheckKeyWord_spec env ans filePath fileKeys horder hfile

/-- C24 (witness): with the keyword file `keys.json`, whose one word is `Extra`, a
unit whose first service is `Extra` is rejected with
`line:0, ServiceDef include KeyWords: Extra`, and a unit with the services `Api`
and `Other` passes. -/
theorem C24_reserved_word_collision_witness :
    fileKeysOf exampleKeyWordEnv "keys.json" = Except.ok ["Extra"] ∧
    (exampleTwoServices "Extra" "Api").CheckKeyWord exampleKeyWordEnv "keys.json" =
      Except.ok (some "line:0, ServiceDef include KeyWords: Extra") ∧
    (exampleTwoServices "Api" "Other").CheckKeyWord exampleKeyWordEnv "keys.json" =
      Except.ok none :=
  ⟨rfl, rfl,
    (C24_reserved_word_collision exampleKeyWordEnv (exampleTwoServices "Api" "Other")
      "keys.json" ["Extra"] (fun l => List.Perm.refl l) rfl).1.2 (by
        intro w hw
        have hw2 : w = "Extra" ∨ w = "Reserved" ∨ w = "message" := by
          simpa [exampleKeyWordEnv] using hw
        rcases hw2 with h | h | h <;> subst h <;>
          simp [collides, exampleTwoServices, ListenerTree.copyInclude, copyIncludes,
            AnalysisResult.defs, ThriftListener.ExitService, ThriftListener.getAnnotations,
            serviceFunctions, GoMap.getSlice, GoMap.get, reverseInPlace, reverseLoop])⟩

/-- C24 (counterexample): for the unit with the two services `Api` and `Reserved`,
in that order, the builder records `Api` as `ServiceDef` and both services in
`ServiceDefs`; `Reserved` is a reserved word and `CheckKeyWord` returns `nil`. With
the services in the other order it returns the error for `Reserved`. -/
theorem C24_counterexample :
    ((exampleTwoServices "Api" "Reserved").defs.ServiceDefs.map fun s => s.Name) =
      ["Api", "Reserved"] ∧
    (exampleTwoServices "Api" "Reserved").defs.ServiceDef.Name = "Api" ∧
    "Reserved" ∈ exampleKeyWordEnv.keyWords ∧
    (exampleTwoServices "Api" "Reserved").CheckKeyWord exampleKeyWordEnv "" = Except.ok none ∧
    (exampleTwoServices "Reserved" "Api").CheckKeyWord exampleKeyWordEnv "" =
      Except.ok (some "line:0, ServiceDef include KeyWords: Reserved") := by
  refine ⟨rfl, rfl, by decide, rfl, rfl⟩

/-- C25 (amended): `CheckKeyWord` checks function names. For every unit in which
some function has a reserved word as its name and no reserved word is the name
of the first service, of a typedef, of a struct or of an enum, `CheckKeyWord`
returns the error `line:<N>, FunctionDefs include KeyWords: <word>` for a function
of the unit whose name is the reserved word `<word>`, whatever order the words
are visited in. -/
theorem C25_function_names_checked (env : KeyWordEnv) (ans : AnalysisResult)
    (filePath : String) (fileKeys : List String) (w : String) (f : FunctionType)
    (horder : ∀ l, (env.order l).Perm l)
    (hfile : fileKeysOf env filePath = Except.ok fileKeys)
    (hw : w ∈ fileKeys ∨ w ∈ env.keyWords)
    (hf : f ∈ ans.defs.FunctionDefs.map Prod.snd) (hname : f.Name = w)
    (hothers : ∀ x, x ∈ fileKeys ∨ x ∈ env.keyWords →
      ans.defs.ServiceDef.Name ≠ x ∧ (∀ v ∈ ans.defs.Typedefs.map Prod.snd, v.Name ≠ x) ∧
      (∀ v ∈ ans.defs.StructDefs.map Prod.snd, v.Name ≠ x) ∧
      (∀ v ∈ ans.defs.EnumDefs.map Prod.snd, v.Name ≠ x)) :
    ∃ x g, (x ∈ fileKeys ∨ x ∈ env.keyWords) ∧ g ∈ ans.defs.FunctionDefs.map Prod.snd ∧
      g.Name = x ∧
      ans.CheckKeyWord env filePath =
        Except.ok (some (keyWordError (env.functionStart g) "FunctionDefs" x)) := by
  obtain ⟨s1, s2, s3⟩ := CheckKeyWord_spec env ans filePath fileKeys horder hfile
  cases hr : ans.CheckKeyWord env filePath with
  | error r =>
    obtain ⟨hn, _⟩ := s3 r hr
    exact absurd rfl (hothers _ hn).1
  | ok res =>
    cases res with
    | none =>
      exact absurd (Or.inr (Or.inr (Or.inr (Or.inl ⟨f, hf, hname⟩)))) (s1.1 hr w hw)
    | some msg =>
      obtain ⟨x, hx, hc⟩ := s2 msg hr
      obtain ⟨h1, h2, h3, h4⟩ := hothers x hx
      rcases hc with ⟨hn, _⟩ | ⟨v, hv, hn, _⟩ | ⟨v, hv, hn, _⟩ | ⟨g, hg, hn, hm⟩ |
        ⟨v, hv, hn, _⟩
      · exact absurd hn h1
      · exact absurd hn (h2 v hv)
      · exact absurd hn (h3 v hv)
      · exact ⟨x, g, hx, hg, hn, by rw [hm]⟩
      · exact absurd hn (h4 v hv)

/-- C25 (witness): the unit with the service `Api` and the function `Reserved` is
rejected with `line:0, FunctionDefs include KeyWords: Reserved`. -/
theorem C25_function_names_checked_witness :
    (exampleFunctionUnit "Reserved").CheckKeyWord exampleKeyWordEnv "" =
      Except.ok (some "line:0, FunctionDefs include KeyWords: Reserved") ∧
    ∃ x g, (x ∈ ([] : List String) ∨ x ∈ exampleKeyWordEnv.keyWords) ∧
      g ∈ (exampleFunctionUnit "Reserved").defs.FunctionDefs.map Prod.snd ∧ g.Name = x ∧
      (exampleFunctionUnit "Reserved").CheckKeyWord exampleKeyWordEnv "" =
        Except.ok (some (keyWordError (exampleKeyWordEnv.functionStart g) "FunctionDefs" x)) :=
  ⟨rfl,
    C25_function_names_checked exampleKeyWordEnv (exampleFunctionUnit "Reserved") "" []
      "Reserved" (exampleNamedFunction "Reserved") (fun l => List.Perm.refl l) rfl
      (Or.inr (by decide)) (by decide) rfl (by
        intro x hx
        have hx2 : x = "Reserved" ∨ x = "message" := by simpa [exampleKeyWordEnv] using hx
        rcases hx2 with h | h <;> subst h <;>
          simp [exampleFunctionUnit, AnalysisResult.defs])⟩

/-- C25 (counterexample): in the unit with the service `Api` and the function
`Reserved` the only declaration whose name is a reserved word is a function, and
`CheckKeyWord` returns an error, not `nil`; with the function named `Get` it
returns `nil`. -/
theorem C25_counterexample :
    (exampleFunctionUnit "Reserved").CheckKeyWord exampleKeyWordEnv "" =
      Except.ok (some "line:0, FunctionDefs include KeyWords: Reserved") ∧
    (exampleFunctionUnit "Reserved").defs.ServiceDef.Name = "Api" ∧
    (exampleFunctionUnit "Reserved").defs.Typedefs = [] ∧
    (exampleFunctionUnit "Reserved").defs.StructDefs = [] ∧
    (exampleFunctionUnit "Reserved").defs.EnumDefs = [] ∧
    (exampleFunctionUnit "Get").CheckKeyWord exampleKeyWordEnv "" = Except.ok none := by
  refine ⟨rfl, rfl, rfl, rfl, rfl, rfl⟩

/-! ## Claims on the annotation exits -/

/-- C26: after the annotations `a1 .. an` are pushed onto the annotation stack in
that order, `getAnnotations` returns the annotations that were on the stack
before, oldest first, followed by `a1 .. an`, and leaves the annotation stack
empty; from an empty stack it returns exactly `a1 .. an`. The keys of the
annotations that a sequence of `ExitType_annotation` events pushes come back in
the order of the events, and the service `S (servType = "http", version = 0x1F,
internal)` is recorded with the keys `servType`, `version`, `internal`. -/
theorem C26_getAnnotations_source_order (tl : ThriftListener) (as : List AnnotationField)
    (ctxs : List TypeAnnotationCtx) :
    (pushAnnotations tl as).getAnnotations.1 = tl.annotationStack.reverse ++ as ∧
    (pushAnnotations tl as).getAnnotations.2.annotationStack = [] ∧
    (tl.annotationStack = [] → (pushAnnotations tl as).getAnnotations.1 = as) ∧
    ((ctxs.foldl ThriftListener.ExitType_annotation tl).getAnnotations.1.map (fun a => a.Key) =
      (tl.annotationStack.reverse.map fun a => a.Key) ++ ctxs.map fun c => c.IDENTIFIER) ∧
    exampleAnnotatedServiceRun.map
        (fun l => (l.serviceDef.Annotations.map (fun a => a.Key), l.annotationStack)) =
      Except.ok (["servType", "version", "internal"], []) := by
  have h1 : (pushAnnotations tl as).getAnnotations.1 = tl.annotationStack.reverse ++ as := by
    unfold ThriftListener.getAnnotations
    simp only
    rw [reverseInPlace_eq, pushAnnotations_stack]
    simp
  refine ⟨h1, rfl, ?_, ?_, rfl⟩
  · intro he
    rw [h1, he]
    rfl
  · unfold ThriftListener.getAnnotations
    simp only
    rw [reverseInPlace_eq, List.map_reverse, typeAnnotation_keys ctxs tl, List.reverse_append,
      List.reverse_reverse, List.map_reverse]

/-- C27 (the code at the failing input): the hexadecimal token `0x1F` is pushed as
`Integer{Val: 0, Bits: 16}`, not with the value 31, and so is every token that
starts with `0x`: `strconv.ParseInt` with the explicit base 16 rejects the prefix
and the error is dropped. Without the prefix, `1F` reads as 31. The decimal token
`31` is pushed as `Integer{Val: 31, Bits: 10}` and the literal `"a"` as a `Literal`
whose text keeps the quotes. -/
theorem C27_hex_value_evaluation (tl : ThriftListener) (digits : String) :
    tl.ExitAnnotation_value (hexValueCtx ("0x" ++ digits)) =
      Except.ok { tl with stack := StackItem.integer { Val := 0, Bits := 16 } :: tl.stack } ∧
    (({} : ThriftListener).ExitAnnotation_value (hexValueCtx "0x1F")).map (fun l => l.stack) =
      Except.ok [StackItem.integer { Val := 0, Bits := 16 }] ∧
    ParseInt16 "0x1F" = (0, false) ∧
    ParseInt16 "1F" = (31, true) ∧
    (({} : ThriftListener).ExitAnnotation_value (decimalValueCtx "31")).map (fun l => l.stack) =
      Except.ok [StackItem.integer { Val := 31, Bits := 10 }] ∧
    (({} : ThriftListener).ExitAnnotation_value (literalValueCtx (quoted "a"))).map
        (fun l => l.stack) =
      Except.ok [StackItem.literal { Val := quoted "a" }] := by
  refine ⟨?_, rfl, by decide, by decide, rfl, rfl⟩
  unfold ThriftListener.ExitAnnotation_value hexValueCtx
  simp only [ParseInt16_hex_marker]

/-! ## Claims on generation and the IR -/

/-- C28 (the code at the failing input): the second component of the result of
`EnumType.Gen` is the content that the backing array of `Enumerate`, which the
enum of the IR shares, has after the call: it is the sorted slice. For
`enum E { A = 7, B = 0 }` the IR holds the fields in the order `A`, `B` before the
call and in the order `B`, `A` after it. -/
theorem C28_enum_sorted_in_place (lib : GoLib) (e : EnumType) (buf : IdentBuffer) :
    (∃ out, EnumType.Gen lib e buf = Except.ok (out, lib.sortEnum e.Enumerate)) ∧
    (exampleEnum.Enumerate.map fun f => f.Key) = ["A", "B"] ∧
    (EnumType.Gen exampleLib exampleEnum (NewIdentWriter 0)).map
        (fun r => r.2.map fun f => f.Key) = Except.ok ["B", "A"] ∧
    (EnumType.Gen exampleLib exampleEnum (NewIdentWriter 0)).map (fun r => r.1.buf) =
      Except.ok "enum E \x7b\n\tB=0;\n\tA=7;\n\x7d\n" := by
  refine ⟨⟨_, rfl⟩, rfl, rfl, rfl⟩

/-! ## Claims on comment extraction -/

/-- C29 (the code at the failing inputs): whatever white space stands between a
multi-line comment and the start token of a declaration, a blank line included,
`newComments` attaches the comment: the field `MultiLine` ends with the text of
the comment and a line feed, and is not empty. For `/* c */`, a blank line and
`struct A {}` it is `/* c */` with a line feed, while the single-line comment
`// c` above a blank line is not attached. -/
theorem C29_multiline_comment_attached (pre post : List Token) (c w s : String)
    (stop : Token) :
    (∃ before,
      (newComments (commentAbove pre post c w s)
        { text := s, channel := Channel.default, tokenIndex := pre.length + 2 } stop).MultiLine =
        before ++ c ++ "\n") ∧
    (newComments (commentAbove pre post c w s)
      { text := s, channel := Channel.default, tokenIndex := pre.length + 2 } stop).MultiLine ≠
        "" ∧
    Contains "\n\n" "\n\n" = true ∧
    newComments exampleCommentTokens
        { text := "struct", channel := Channel.default, tokenIndex := 2 }
        { text := "\x7d", channel := Channel.default, tokenIndex := 6 } =
      { MultiLine := "/* c */\n", SingleLine := "" } ∧
    newComments exampleLineCommentTokens
        { text := "struct", channel := Channel.default, tokenIndex := 2 }
        { text := "\x7d", channel := Channel.default, tokenIndex := 6 } =
      { MultiLine := "", SingleLine := "" } := by
  have hm : (newComments (commentAbove pre post c w s)
        { text := s, channel := Channel.default, tokenIndex := pre.length + 2 } stop).MultiLine =
      (GetHiddenTokensToLeft pre pre.length Channel.ML_COMMENT_CHAN).foldl
        (fun buf line => buf ++ line.text ++ "\n") "" ++ c ++ "\n" := by
    unfold newComments getMultiLineComment
    simp only [hiddenLeft_commentAbove, List.length_append, List.length_singleton,
      Nat.add_one_ne_zero, if_false, Option.getD_some, List.foldl_append, List.foldl_cons,
      List.foldl_nil]
  refine ⟨⟨_, hm⟩, ?_, by decide, by decide, by decide⟩
  rw [hm]
  exact append_newline_ne_empty _

/-! ## Claims on the entry point -/

/-- C30 (the code at the failing input): for an entry path in a directory, `<dir>/
<name>.<ext>`, the unit name that `convertIDL` derives is `/<name>`, with the
slash: `dir/foo.thrift` gives `/foo`, and `convertIDL` returns the one entry
`/foo` whose text has the package line `package /foo;`. For an entry path without
a directory, `foo.thrift`, the unit name is `foo`. -/
theorem C30_unit_name_keeps_slash (dir name ext : String) :
    ((∀ c ∈ name.data, c ≠ '/' ∧ c ≠ '.') → (∀ c ∈ ext.data, c ≠ '.') →
      unitName (dir ++ "/" ++ name ++ "." ++ ext) = "/" ++ name) ∧
    unitName "dir/foo.thrift" = "/foo" ∧
    unitName "foo.thrift" = "foo" ∧
    convertIDL exampleLib exampleEnv exampleEntryFileSystem exampleKeyWordEnv 3 []
        "dir/foo.thrift" "go" "" false false false =
      some (Except.ok [("/foo", exampleMainText "/foo")]) ∧
    convertIDL exampleLib exampleEnv exampleEntryFileSystem exampleKeyWordEnv 3 []
        "foo.thrift" "go" "" false false false =
      some (Except.ok [("foo", exampleMainText "foo")]) := by
  refine ⟨unitName_in_directory dir name ext, by decide, by decide, rfl, rfl⟩

/-! ## Claims on throws lists -/

/-- C32: for every field stack `S`, after `EnterThrows_list`, the push of any number
of struct fields, the push of any annotations, and `ExitThrows_list`, the field
stack is `S` again and the annotation stack is empty. The same holds when the
fields are pushed by the exits of the throws entries `c1 .. ck`, if none of them
panics. For `R f(1: i32 q) throws (1: E e, 2: G g)` the field stack after
the throws list holds the parameter `q` alone. -/
theorem C32_throws_list_restores (lib : GoLib) (tl : ThriftListener)
    (fields : List StructField) (as : List AnnotationField) (ctxs : List FieldCtx) :
    (pushAnnotations (fields.foldl pushField tl.EnterThrows_list) as).ExitThrows_list.fieldsStack =
      tl.fieldsStack ∧
    (pushAnnotations (fields.foldl pushField tl.EnterThrows_list)
      as).ExitThrows_list.annotationStack = [] ∧
    (∀ tl1, runFields lib ctxs tl.EnterThrows_list = Except.ok tl1 →
      tl1.ExitThrows_list.fieldsStack = tl.fieldsStack ∧
      tl1.ExitThrows_list.annotationStack = []) ∧
    exampleThrowsRun.map
        (fun l => (l.fieldsStack.map fun f => f.map fun x => x.Name, l.annotationStack)) =
      Except.ok ([some "q"], []) := by
  refine ⟨?_, rfl, ?_, rfl⟩
  · unfold ThriftListener.ExitThrows_list
    simp only
    rw [pushAnnotations_fieldsStack, pushFields_stack]
    exact popToSentinel_fields _ _
  · intro tl1 h
    obtain ⟨fs, hfs, _⟩ := runFields_stack lib ctxs _ tl1 h
    refine ⟨?_, rfl⟩
    unfold ThriftListener.ExitThrows_list
    simp only
    rw [hfs]
    exact popToSentinel_fields _ _

/-! ## Claims on integer annotation values -/

/-- C36: when the annotation of the key `key` has an integer value, which the
builder stores as an `int`, `GetAnnotationString` and `GetAnnotationTrimString`
return the empty string for the key; `getHTTPOption` then returns no pair of that
key, and the check of a function of a `grpc` service without a service-level
`timeoutMsec` whose own `timeoutMsec` is such an integer fails with
`missing timeout for function <name>` (with `sendTimeoutMsec` and a `thrift`
service, `missing send timeout for function <name>`). -/
theorem C36_integer_value_reads_empty (lib : GoLib) (anns : List AnnotationField)
    (key : String) (n : Int) (h : GetAnnotation anns key = some (OptValue.int n)) :
    GetAnnotationString anns key = "" ∧
    GetAnnotationTrimString anns key = "" ∧
    (∀ kv ∈ getHTTPOption anns, kv.Key ≠ key) ∧
    (∀ (f : FunctionType) (t2 t3 t4 name : String), f.Annotations = anns →
      key = "timeoutMsec" → timeoutsValid anns →
      dirpcFunctionCheck lib "grpc" "" t2 t3 t4 name f =
        some ("missing timeout for function " ++ name)) ∧
    (∀ (f : FunctionType) (t1 t2 t4 name : String), f.Annotations = anns →
      key = "sendTimeoutMsec" → timeoutsValid anns →
      dirpcFunctionCheck lib "thrift" t1 t2 "" t4 name f =
        some ("missing send timeout for function " ++ name)) := by
  obtain ⟨h1, h2⟩ := GetAnnotationString_int anns key n h
  refine ⟨h1, h2, ?_, ?_, ?_⟩
  · intro kv hkv hk
    rcases (mem_getHTTPOption anns kv).1 hkv with ⟨_, hv, hne, _⟩ | ⟨hc, hv, hne⟩
    · apply hne
      rw [hv, hk]
      unfold timeoutText
      rw [h]
      rfl
    · apply hne
      rw [hv, ← hc, hk]
      exact h1
  · intro f t2 t3 t4 name hf hk hv
    subst hf
    subst hk
    exact functionCheck_missing_timeout lib t2 t3 t4 name f hv h2
  · intro f t1 t2 t4 name hf hk hv
    subst hf
    subst hk
    exact functionCheck_missing_send_timeout lib t1 t2 t4 name f hv h2

/-- C36 (witness): the builder records `timeoutMsec = 500` with the integer value
500; the key reads as the empty string, `getHTTPOption` returns no pair, and the
function `f (timeoutMsec = 500)` of a `grpc` service fails with
`missing timeout for function f`. -/
theorem C36_integer_value_reads_empty_witness :
    exampleIntegerAnnotations =
      Except.ok [{ Key := "timeoutMsec", Value := some (OptValue.int 500) }] ∧
    GetAnnotationTrimString [{ Key := "timeoutMsec", Value := some (OptValue.int 500) }]
      "timeoutMsec" = "" ∧
    getHTTPOption [{ Key := "timeoutMsec", Value := some (OptValue.int 500) }] = [] ∧
    dirpcFunctionCheck exampleLib "grpc" "" "" "" "" "f"
        (exampleCheckedFunction [{ Key := "timeoutMsec", Value := some (OptValue.int 500) }]) =
      some "missing timeout for function f" :=
  ⟨rfl,
    (C36_integer_value_reads_empty exampleLib
      [{ Key := "timeoutMsec", Value := some (OptValue.int 500) }] "timeoutMsec" 500 rfl).2.1,
    by decide, by decide⟩

/-! ## Claims on the search set -/

/-- C35: every call of `parseIDL` that succeeds returns the search set as it was
on entry. When every file can be opened and parsed and no path of include
directives from the root repeats a file, as in a diamond, where two files include
the same third file, `parseIDL` with an empty search set succeeds for every fuel
above the number of files, whatever order the includes are visited in: there is
no `cycled include` error. -/
theorem C35_search_set_restored (lib : GoLib) (env : ParseEnv) :
    (∀ (fuel : Nat) (idl : String) (searchDir : Option (String → Except String String))
      (searched : List String) (singleMode : Bool) (tree : ListenerTree)
      (searched1 : List String),
      parseIDL lib env fuel idl searchDir searched singleMode =
        some (Except.ok tree, searched1) →
      searched1 = searched) ∧
    (∀ (searchDir : String → Except String String) (files : List String) (idl : String)
      (listener : ThriftListener) (fuel : Nat),
      env.parseText idl = Except.ok listener →
      dirpcFieldsCheck lib env.checkDiRPCFlag listener = none →
      (∀ q ∈ includeNames env idl, q ∈ files) →
      (∀ p ∈ files, fileOk lib env searchDir files p = true) →
      (∀ s l, (env.order s l).Perm l) →
      (∀ w, isWalk env searchDir idl w = true → w.Nodup) →
      files.length < fuel →
      ∃ tree, parseIDL lib env fuel idl (some searchDir) [] false =
        some (Except.ok tree, [])) :=
  ⟨parseIDL_searched lib env,
    fun searchDir files idl listener fuel hparse hcheck hinc hfiles horder hwalks hfuel =>
      parseIDL_acyclic lib env searchDir files idl listener fuel hparse hcheck hinc hfiles
        horder hwalks hfuel⟩

/-- C35 (witness): in the diamond whose root includes `b.thrift` and `c.thrift`,
which both include `d.thrift`, `parseIDL` succeeds with the search set empty again,
and the tree it returns holds `d` under `b` and under `c`. -/
theorem C35_search_set_restored_witness :
    (parseIDL exampleLib exampleEnv 4 exampleDiamondRoot (some exampleDiamondSearchDir) []
        false).map
        (fun r => (r.1.map fun t => (t.copyInclude.units "root" true).map fun u => u.name,
          r.2)) =
      some (Except.ok ["root", "b", "d", "c", "d"], []) ∧
    (∀ tree searched1,
      parseIDL exampleLib exampleEnv 4 exampleDiamondRoot (some exampleDiamondSearchDir) []
        false = some (Except.ok tree, searched1) → searched1 = []) ∧
    ∃ tree, parseIDL exampleLib exampleEnv 4 exampleDiamondRoot
      (some exampleDiamondSearchDir) [] false = some (Except.ok tree, []) :=
  ⟨rfl,
    fun tree searched1 h =>
      (C35_search_set_restored exampleLib exampleEnv).1 4 exampleDiamondRoot
        (some exampleDiamondSearchDir) [] false tree searched1 h,
    ((C35_search_set_restored exampleLib exampleEnv).2 exampleDiamondSearchDir
      ["b.thrift", "c.thrift", "d.thrift"] exampleDiamondRoot
      { includes := [{ Name := "b.thrift" }, { Name := "c.thrift" }] } 4 rfl (by decide)
      (by decide) (by decide) (fun _ l => List.Perm.refl l)
      (by
        intro w hw
        match w, hw with
        | [], _ => exact List.nodup_nil
        | [a], _ => exact List.nodup_singleton a
        | a :: b :: rest, hw =>
          obtain ⟨ha, ta, hoa, hwa⟩ := (isWalk_cons _ _ _ _ _).1 hw
          have ha2 : a = "b.thrift" ∨ a = "c.thrift" := by
            have : a ∈ ["b.thrift", "c.thrift"] := ha
            simpa using this
          have hta : ta = "include " ++ quoted "d.thrift" ++ "\n" := by
            rcases ha2 with h | h <;> subst h <;> cases hoa <;> rfl
          subst hta
          obtain ⟨hb, tb, hob, hwb⟩ := (isWalk_cons _ _ _ _ _).1 hwa
          have hb2 : b = "d.thrift" := by
            have : b ∈ ["d.thrift"] := hb
            simpa using this
          subst hb2
          have htb : tb = "" := by cases hob; rfl
          subst htb
          match rest, hwb with
          | [], _ => rcases ha2 with h | h <;> subst h <;> decide
          | c :: rest2, hwb =>
            have hc := ((isWalk_cons _ _ _ _ _).1 hwb).1
            have : c ∈ ([] : List String) := hc
            cases this)
      (by decide))⟩

/-! ## Claims on the indentation of the emitter -/

/-- C31 (counterexample): on an emitter of indent 1, `WriteString` of a string with
a line feed inside writes the text after the line feed without a tab, and so does
`WriteLine` of a comment of two lines; after a `WriteString` that ends in a line
feed the next `WriteString` is not indented either. -/
theorem C31_counterexample :
    ((NewIdentWriter 1).run [EmitOp.WriteString "a\nb"]).buf = "\ta\nb" ∧
    ((NewIdentWriter 1).run [EmitOp.WriteLine "/* a\n b */", EmitOp.WriteString "x"]).buf =
      "\t/* a\n b */\n\tx" ∧
    ((NewIdentWriter 1).run [EmitOp.WriteString "a\n", EmitOp.WriteString "b"]).buf =
      "\ta\nb" := by
  refine ⟨by decide, by decide, by decide⟩

/-! ## Claims on the functions of a service -/

/-- C33 (counterexample to the claim as stated): a service with the functions `a`,
`a`, `b` in source order gets the table `a` 1, `b` 1: the third function has the
sequence number 1, not 2, and the first is not in the table; the flat table of the
builder holds `a` 0, `b` 1 for the same functions. -/
theorem C33_counterexample :
    serviceTables (exitServiceOf exampleLib {} (exampleServiceEvent "S" ["a", "a", "b"])) =
      [("S", [("a", 1), ("b", 1)])] ∧
    (match exitServiceOf exampleLib {} (exampleServiceEvent "S" ["a", "a", "b"]) with
      | Except.error _ => []
      | Except.ok tl => seqTable (fun f => f.SequenceNum) tl.functionDefs) =
      [("a", 0), ("b", 1)] := by
  refine ⟨by decide, by decide⟩

/-! ## Claims on the service block -/

/-- C37 (amended): `CodeGen` writes no `service` block for a unit whose `ServiceDef`
has the empty name, and otherwise one block, for `ServiceDef`: its comment, the line
`service <Name> {`, the functions of the flat function table whose `ServiceName` is
the name of `ServiceDef`, in the order of their sequence numbers, the options of
`ServiceDef` and `}`. The list `ServiceDefs` is not read, and a function whose
`ServiceName` differs from the name of `ServiceDef` is skipped. After the exits of
the services of a unit on a fresh builder, the first of them having a non-empty
name, `ServiceDef` is the first service of `ServiceDefs`, and `copyInclude` copies
both and the flat function table into the unit. -/
theorem C37_one_service_block (lib : GoLib) (fuel : Nat) (defs : UnitDefs)
    (buf : IdentBuffer) :
    (defs.ServiceDef.Name = "" → genService lib fuel defs buf = some (Except.ok buf)) ∧
    (defs.ServiceDef.Name ≠ "" →
      genService lib fuel defs buf = serviceBlock lib fuel defs buf) ∧
    (∀ (svcs : List ServiceType) (currentName lang : String) (mainPackage : Bool)
        (opt : CodeGenOpt),
      genUnit lib fuel { defs with ServiceDefs := svcs } currentName lang mainPackage opt =
        genUnit lib fuel defs currentName lang mainPackage opt) ∧
    (∀ (l1 l2 : List FunctionType) (g : FunctionType) (b : IdentBuffer),
      g.ServiceName ≠ defs.ServiceDef.Name →
      genFunctions lib fuel defs.Typedefs defs.ServiceDef.Name b (l1 ++ g :: l2) =
        genFunctions lib fuel defs.Typedefs defs.ServiceDef.Name b (l1 ++ l2)) ∧
    (∀ (sv : ServiceEvent) (rest : List ServiceEvent) (tl tl1 : ThriftListener),
      runServices lib (sv :: rest) tl = Except.ok tl1 →
      tl.serviceDef.Name = "" → tl.serviceDefs = [] → sv.IDENTIFIER ≠ "" →
      tl1.serviceDefs.head? = some tl1.serviceDef ∧ tl1.serviceDef.Name = sv.IDENTIFIER) ∧
    (∀ (tl : ThriftListener) (incl : List (String × ListenerTree)),
      (ListenerTree.mk tl incl).copyInclude.defs.ServiceDef = tl.serviceDef ∧
      (ListenerTree.mk tl incl).copyInclude.defs.ServiceDefs = tl.serviceDefs ∧
      (ListenerTree.mk tl incl).copyInclude.defs.FunctionDefs = tl.functionDefs) := by
  refine ⟨?_, genService_block lib fuel defs buf, genUnit_serviceDefs lib fuel defs, ?_,
    fun sv rest tl tl1 h hn hs hname => runServices_first lib sv rest tl tl1 h hn hs hname,
    fun tl incl => by rw [copyInclude_defs]; exact ⟨rfl, rfl, rfl⟩⟩
  · intro hn
    unfold genService
    simp only [hn, ne_eq, not_true_eq_false, if_false]
  · intro l1 l2 g b hg
    rw [genFunctions_own, genFunctions_own, ownFunctions_skip _ l1 l2 g hg]

set_option maxRecDepth 100000 in
/-- C37 (example): the unit of `service S { R a(1: Q q) } service T { R b(1: Q q) }`
has `S` as `ServiceDef`; its text holds the block of `S` with the function `a`, and
neither `T` nor `b`. The unit without services has no block. -/
theorem C37_one_service_block_witness :
    (exampleServicesUnit [exampleServiceEvent "S" ["a"], exampleServiceEvent "T" ["b"]]).ServiceDef.Name
      = "S" ∧
    genService exampleLib 8
      (exampleServicesUnit [exampleServiceEvent "S" ["a"], exampleServiceEvent "T" ["b"]])
      (NewIdentWriter 0) =
    serviceBlock exampleLib 8
      (exampleServicesUnit [exampleServiceEvent "S" ["a"], exampleServiceEvent "T" ["b"]])
      (NewIdentWriter 0) ∧
    genUnit exampleLib 8
      (exampleServicesUnit [exampleServiceEvent "S" ["a"], exampleServiceEvent "T" ["b"]])
      "unit" "go" false ⟨false⟩ = some (Except.ok (exampleServiceText ["a"])) ∧
    genService exampleLib 8 (exampleServicesUnit []) (NewIdentWriter 0) =
      some (Except.ok (NewIdentWriter 0)) :=
  ⟨rfl,
    (C37_one_service_block exampleLib 8
      (exampleServicesUnit [exampleServiceEvent "S" ["a"], exampleServiceEvent "T" ["b"]])
      (NewIdentWriter 0)).2.1
      (ne_of_eq_of_ne (rfl : _ = "S") (by decide)),
    rfl,
    (C37_one_service_block exampleLib 8 (exampleServicesUnit []) (NewIdentWriter 0)).1 rfl⟩

set_option maxRecDepth 100000 in
/-- C37 (counterexample to the claim as stated): the unit of
`service S { R a(1: Q q) } service S { R b(1: Q q) }` has two services in
`ServiceDefs`; the function `b` of the second one is written in the block. -/
theorem C37_counterexample :
    ((exampleServicesUnit [exampleServiceEvent "S" ["a"],
        exampleServiceEvent "S" ["b"]]).ServiceDefs.map fun s => s.Name) = ["S", "S"] ∧
    genUnit exampleLib 8
      (exampleServicesUnit [exampleServiceEvent "S" ["a"], exampleServiceEvent "S" ["b"]])
      "unit" "go" false ⟨false⟩ = some (Except.ok (exampleServiceText ["a", "b"])) ∧
    exampleServiceText ["a", "b"] =
      "syntax = \x22proto3\x22;\npackage unit;\n\n" ++
      "// auto generated by thriftpp, contact chibi@didiglobal.com for reporting bug\n\n\n\n" ++
      "service S \x7b\n" ++
      "\trpc a ( Q ) returns ( R ) \x7b\n\t\x7d\n\n" ++
      "\trpc b ( Q ) returns ( R ) \x7b\n\t\x7d\n\n" ++
      "\toption (dirpc.service_opt) = \x7b\n\t\tversion: 0.0.1\n\t\tservType: http\n\t\x7d;\n\x7d\n" := by
  refine ⟨rfl, rfl, rfl⟩

/-! ## Claims on the termination of type expansion -/

/-- C34: for every typedef table whose alias graph has no cycle (no typedef is
reachable from its own original type through the names that the original types
mention), the recursion of `expandType` is well-founded, and for every type a
recursion depth exists at which `expandType` returns a string. -/
theorem C34_expandType_terminates (td : GoMap TypedefType) (h : aliasAcyclic td) :
    WellFounded (recursiveCall td) ∧
    ∀ t : Ty, ∃ (fuel : Nat) (s : String), expandType fuel t td = some s := by
  refine ⟨recursiveCall_wf td h, fun t => ?_⟩
  obtain ⟨s, fuel, hs⟩ := expands_of_acc td t ((recursiveCall_wf td h).apply t)
  exact ⟨fuel, s, hs⟩

/-- C34 (example): the table of `typedef list<i64> Ids` and `typedef Ids Keys` has
no cycle, and `map<Keys, Ids>` expands at depth 8. -/
theorem C34_expandType_terminates_witness :
    aliasAcyclic exampleTypedefs ∧
    (∃ (fuel : Nat) (s : String),
      expandType fuel (Ty.MapType (Ty.UDFType "Keys") (Ty.UDFType "Ids")) exampleTypedefs =
        some s) ∧
    expandType 8 (Ty.MapType (Ty.UDFType "Keys") (Ty.UDFType "Ids")) exampleTypedefs =
      some "map<repeated int64, repeated int64>" := by
  have hac : aliasAcyclic exampleTypedefs := by
    refine aliasAcyclic_of_rank _ (fun n => if n = "Keys" then 1 else 0) ?_
    intro a b hab
    obtain ⟨tdf, hg, hb⟩ := hab
    unfold exampleTypedefs GoMap.get at hg
    by_cases h1 : "Ids" = a
    · simp only [h1, if_true, Option.some.injEq] at hg
      rw [← hg] at hb
      simp [refs, exampleListOfI64] at hb
    · simp only [h1, if_false] at hg
      unfold GoMap.get at hg
      by_cases h2 : "Keys" = a
      · simp only [h2, if_true, Option.some.injEq] at hg
        rw [← hg] at hb
        simp only [refs, List.mem_singleton] at hb
        rw [hb, ← h2]
        decide
      · simp only [h2, if_false] at hg
        simp [GoMap.get] at hg
  exact ⟨hac, (C34_expandType_terminates exampleTypedefs hac).2 _, by decide⟩

/-! ## Claims on the lines of the emitter -/

/-- C31 (amended): for an emitter of indent `d` and every sequence of `WriteString`,
`WriteByte`, `WriteLine` and `NewLine` calls in which no string has a line feed
inside a line (the string of a `WriteString` has none, the string of a `WriteLine`
none before its trailing line feeds), the buffer is exactly the text of the lines
that the calls describe: split at its line feeds, it gives one piece per line, the
empty piece for a line on which nothing was written and else `d` tabs, once,
followed by the concatenation of what was written on that line, which has no line
feed. The emitter stands at a line start exactly when nothing was written on the
line in progress, and an emitter that already holds a text and stands at a line
start appends the same text to it. -/
theorem C31_indent_once_per_line (d : Int) (ops : List EmitOp)
    (hops : ∀ op ∈ ops, op.oneLine) :
    ((NewIdentWriter d).run ops).buf = (Layout.run {} ops).render d ∧
    SplitChar ((NewIdentWriter d).run ops).buf '\n' =
      (Layout.run {} ops).lines.map (renderLine d) ∧
    (∀ l ∈ (Layout.run {} ops).lines, ∀ c, l = some c → noLineFeed c) ∧
    (((NewIdentWriter d).run ops).newLine = true ↔ (Layout.run {} ops).current = none) ∧
    ∀ b : IdentBuffer, b.ident = d → b.newLine = true →
      (b.run ops).buf = b.buf ++ (Layout.run {} ops).render d := by
  have hone : (Layout.run {} ops).oneLine :=
    Layout.oneLine_run ops {} (fun l hl c hc => by
      simp only [Layout.lines, List.nil_append, List.mem_singleton] at hl
      rw [hl] at hc
      cases hc) hops
  have hnew : Renders d "" (NewIdentWriter d) {} :=
    ⟨rfl, ⟨fun _ => rfl, fun _ => rfl⟩, rfl⟩
  obtain ⟨h1, h2, _⟩ := Renders_run d "" ops _ _ hnew
  rw [String.empty_append] at h1
  refine ⟨h1, ?_, hone, h2, ?_⟩
  · rw [h1]
    exact SplitChar_render d _ hone
  · intro b hd hn
    have hb : Renders d b.buf b {} :=
      ⟨by simp [Layout.render, concatText, renderLine], ⟨fun _ => rfl, fun _ => hn⟩, hd⟩
    exact (Renders_run d b.buf ops _ _ hb).1

/-- C31 (witness): the calls `WriteLine "a"`, `NewLine 1`, `WriteString "b"`,
`WriteByte 'c'`, `WriteByte '\n'`, `WriteString "d"` on an emitter of indent 1
describe the lines `a`, a line without content, `bc` and the line in progress `d`;
the buffer holds `<tab>a`, the empty line, `<tab>bc` and `<tab>d`. -/
theorem C31_indent_once_per_line_witness :
    ((NewIdentWriter 1).run [EmitOp.WriteLine "a", EmitOp.NewLine 1, EmitOp.WriteString "b",
      EmitOp.WriteByte 'c', EmitOp.WriteByte '\n', EmitOp.WriteString "d"]).buf =
      "\ta\n\n\tbc\n\td" ∧
    (Layout.run {} [EmitOp.WriteLine "a", EmitOp.NewLine 1, EmitOp.WriteString "b",
      EmitOp.WriteByte 'c', EmitOp.WriteByte '\n', EmitOp.WriteString "d"]).lines =
      [some "a", none, some "bc", some "d"] ∧
    SplitChar ((NewIdentWriter 1).run [EmitOp.WriteLine "a", EmitOp.NewLine 1,
      EmitOp.WriteString "b", EmitOp.WriteByte 'c', EmitOp.WriteByte '\n',
      EmitOp.WriteString "d"]).buf '\n' =
      (Layout.run {} [EmitOp.WriteLine "a", EmitOp.NewLine 1, EmitOp.WriteString "b",
        EmitOp.WriteByte 'c', EmitOp.WriteByte '\n', EmitOp.WriteString "d"]).lines.map
          (renderLine 1) :=
  ⟨by decide, by decide,
    (C31_indent_once_per_line 1 [EmitOp.WriteLine "a", EmitOp.NewLine 1,
      EmitOp.WriteString "b", EmitOp.WriteByte 'c', EmitOp.WriteByte '\n',
      EmitOp.WriteString "d"] (by
        intro op hop
        simp only [List.mem_cons, List.mem_singleton, List.not_mem_nil, or_false] at hop
        rcases hop with h | h | h | h | h | h <;> subst h <;>
          simp [EmitOp.oneLine, noLineFeed, TrimRightChar, dropTrailing])).2.1⟩

/-! ## Claims on the table of a service -/

/-- C33 (amended): when the functions of a service are exited in source order and
then the service itself, and the names of the functions recorded under the name of
the service (those of an earlier service of the same name, then f1..fn) are pairwise
distinct, `ExitService` appends one service of that name whose `FunctionDefs` table
holds exactly the recorded functions, each under its name and unchanged except for
the sequence number, the i-th of them with sequence number i-1. The functions
f1..fn are the ones `ExitFunction` builds from the exits of the functions: name,
service name, response, requests, annotations and comments as read at the exit.
If every function of the flat table named a service of `serviceDefs` before, it
does so afterwards, also after the exits of any further services. -/
theorem C33_service_table_resequenced (lib : GoLib) (tl tl2 : ThriftListener)
    (sv : ServiceEvent)
    (hrun : exitServiceOf lib tl sv = Except.ok tl2)
    (hnamed : servicesNamed tl)
    (hdistinct : (((tl.functionDefsService.getSlice sv.IDENTIFIER).map fun f => f.Name) ++
      sv.functions.map fun ev => ev.IDENTIFIER).Nodup) :
    (∃ (svc : ServiceType) (fs : List FunctionType),
      tl2.serviceDefs = tl.serviceDefs ++ [svc] ∧ svc.Name = sv.IDENTIFIER ∧
      List.Forall₂ (recordsEvent lib sv.IDENTIFIER) sv.functions fs ∧
      svc.FunctionDefs =
        resequenced 0 (tl.functionDefsService.getSlice sv.IDENTIFIER ++ fs) ∧
      (svc.FunctionDefs.map Prod.fst =
        (tl.functionDefsService.getSlice sv.IDENTIFIER ++ fs).map fun f => f.Name) ∧
      (∀ (i : Nat) (hi : i < (tl.functionDefsService.getSlice sv.IDENTIFIER ++ fs).length),
        svc.FunctionDefs.get
            ((tl.functionDefsService.getSlice sv.IDENTIFIER ++ fs).get ⟨i, hi⟩).Name =
          some { (tl.functionDefsService.getSlice sv.IDENTIFIER ++ fs).get ⟨i, hi⟩ with
            SequenceNum := (i : Int) }) ∧
      seqTable (fun f => f.SequenceNum) svc.FunctionDefs =
        ((((tl.functionDefsService.getSlice sv.IDENTIFIER).map fun f => f.Name) ++
          sv.functions.map fun ev => ev.IDENTIFIER).enumFrom 0).map
            fun p => (p.2, (p.1 : Int))) ∧
    servicesNamed tl2 ∧
    ∀ (svs : List ServiceEvent) (tl3 : ThriftListener),
      runServices lib svs tl2 = Except.ok tl3 → servicesNamed tl3 := by
  obtain ⟨svc, fs, h1, h2, _, h3, h4⟩ := exitServiceOf_records lib tl tl2 sv hrun
  have hn2 : servicesNamed tl2 := exitServiceOf_named lib tl tl2 sv hrun hnamed
  have hnames : ((tl.functionDefsService.getSlice sv.IDENTIFIER ++ fs).map fun f => f.Name) =
      ((tl.functionDefsService.getSlice sv.IDENTIFIER).map fun f => f.Name) ++
        sv.functions.map fun ev => ev.IDENTIFIER := by
    rw [List.map_append, recordsEvent_names lib sv.IDENTIFIER sv.functions fs h3]
  have hnd : ((tl.functionDefsService.getSlice sv.IDENTIFIER ++ fs).map fun f => f.Name).Nodup := by
    rw [hnames]; exact hdistinct
  have h5 : svc.FunctionDefs =
      resequenced 0 (tl.functionDefsService.getSlice sv.IDENTIFIER ++ fs) := by
    rw [h4, serviceFunctions_distinct _ [] hnd (fun f _ hf => by cases hf)]
    rfl
  refine ⟨⟨svc, fs, h1, h2, h3, h5, ?_, ?_, ?_⟩, hn2,
    fun svs tl3 h => runServices_named lib svs tl2 tl3 h hn2⟩
  · rw [h5, resequenced_keys]
  · intro i hi
    rw [h5, resequenced_get _ 0 i hi hnd, Nat.zero_add]
  · unfold seqTable
    rw [h5, resequenced_table, hnames]

/-- C33 (example): the service `S` with the functions `f`, `g`, `h`, each
`R <name>(1: Q q)`, on a fresh builder gets the table `f` 0, `g` 1, `h` 2, and the
entry of `g` is the function `R g(1: Q q)` of the service `S` with sequence
number 1. -/
theorem C33_service_table_resequenced_witness :
    (∃ tl2 : ThriftListener,
      exitServiceOf exampleLib {} (exampleServiceEvent "S" ["f", "g", "h"]) = Except.ok tl2 ∧
      seqTable (fun f => f.SequenceNum)
        ((tl2.serviceDefs.map fun s => s.FunctionDefs).getLastD []) =
        [("f", 0), ("g", 1), ("h", 2)] ∧
      servicesNamed tl2) ∧
    serviceEntry (exitServiceOf exampleLib {} (exampleServiceEvent "S" ["f", "g", "h"])) "g" =
      some { Name := "g", ServiceName := "S", SequenceNum := 1, Response := Ty.UDFType "R",
             Requests := [{ Name := "q", Typ := Ty.UDFType "Q", FieldID := 1 }] } := by
  have hr : ∃ tl2 : ThriftListener,
      exitServiceOf exampleLib {} (exampleServiceEvent "S" ["f", "g", "h"]) = Except.ok tl2 :=
    ⟨_, rfl⟩
  obtain ⟨tl2, hr⟩ := hr
  have h := C33_service_table_resequenced exampleLib {} tl2
    (exampleServiceEvent "S" ["f", "g", "h"]) hr (fun kv hkv => by cases hkv) (by decide)
  obtain ⟨⟨svc, fs, h1, _, _, _, _, _, h5⟩, h6, _⟩ := h
  refine ⟨⟨tl2, hr, ?_, h6⟩, by decide⟩
  rw [h1, List.map_append, List.map_singleton, List.getLastD_concat, h5]
  decide

/-! ## Claims on the result map of the generator -/

/-- C16 (amended): when `CodeGen` succeeds and any two units of the include tree that
have the same reference name are generated to the same text (as is a unit reached
along two include paths, in a diamond), the keys of its result are exactly the
reference names of the units, each once, and the result maps the reference name of
every unit to the text generated for that unit, the root with `mainPackage` as given
and every included unit with `mainPackage = false`. The order of the entries of
`Includes` stands for the order in which the map is iterated. Without the condition
the result still holds distinct keys, each the reference name of a unit with the
text of some unit of that name. -/
theorem C16_distinct_names_result (lib : GoLib) (fuel : Nat) (ast : AnalysisResult)
    (currentName lang : String) (mainPackage : Bool) (opt : CodeGenOpt)
    (result : GoMap String)
    (hsame : ∀ u ∈ ast.units currentName mainPackage,
      ∀ v ∈ ast.units currentName mainPackage, u.name = v.name →
        genUnit lib fuel u.defs u.name lang u.mainPackage opt =
          genUnit lib fuel v.defs v.name lang v.mainPackage opt)
    (h : ast.CodeGen lib fuel currentName lang mainPackage opt = some (Except.ok result)) :
    (∀ k, k ∈ result.map Prod.fst ↔
      k ∈ (ast.units currentName mainPackage).map fun u => u.name) ∧
    (result.map Prod.fst).Nodup ∧
    (∀ u ∈ ast.units currentName mainPackage, ∃ text,
      genUnit lib fuel u.defs u.name lang u.mainPackage opt = some (Except.ok text) ∧
      result.get u.name = some text) ∧
    Covers lib fuel lang opt (ast.units currentName mainPackage) result := by
  have hc := CodeGen_covers lib fuel lang opt ast currentName mainPackage result h
  obtain ⟨h1, h2, h3⟩ := hc
  refine ⟨?_, h1, ?_, ⟨h1, h2, h3⟩⟩
  · intro k
    constructor
    · intro hk
      obtain ⟨kv, hkv, rfl⟩ := List.mem_map.1 hk
      obtain ⟨u, hu, e, _⟩ := h2 kv hkv
      exact List.mem_map.2 ⟨u, hu, e⟩
    · intro hk
      obtain ⟨u, hu, rfl⟩ := List.mem_map.1 hk
      exact (h3 u hu).1
  · intro u hu
    obtain ⟨kv, hkv, hk⟩ := List.mem_map.1 (h3 u hu).1
    obtain ⟨v, hv, e, hg⟩ := h2 kv hkv
    have hname : u.name = v.name := by rw [e, hk]
    refine ⟨kv.2, by rw [hsame u hu v hv hname]; exact hg, ?_⟩
    exact GoMap.get_of_mem result u.name kv.2 h1 (by rw [← hk]; exact hkv)

/-- C16 (witness): in the diamond in which `main` includes `b` and `c` and both
include the same unit `common`, the units are `main`, `b`, `common`, `c`, `common`;
the result has the four keys `main`, `b`, `common`, `c`, each with the text of its
unit. -/
theorem C16_distinct_names_result_witness :
    ((exampleDiamondTree.units "main" true).map fun u => u.name) =
      ["main", "b", "common", "c", "common"] ∧
    exampleDiamondTree.CodeGen exampleLib 8 "main" "go" true ⟨false⟩ =
      some (Except.ok [("main", exampleMainText "main"), ("b", exampleIncludedText "b"),
        ("common", exampleIncludedText "x.common"), ("c", exampleIncludedText "c")]) ∧
    ∀ u ∈ exampleDiamondTree.units "main" true, ∃ text,
      genUnit exampleLib 8 u.defs u.name "go" u.mainPackage ⟨false⟩ = some (Except.ok text) ∧
      GoMap.get [("main", exampleMainText "main"), ("b", exampleIncludedText "b"),
        ("common", exampleIncludedText "x.common"), ("c", exampleIncludedText "c")] u.name =
          some text :=
  ⟨rfl, rfl,
    (C16_distinct_names_result exampleLib 8 exampleDiamondTree "main" "go" true ⟨false⟩ _
      (by
        intro u hu v hv hn
        simp only [exampleDiamondTree, AnalysisResult.units, includedUnits, List.append_nil,
          List.cons_append, List.nil_append, List.mem_cons, List.mem_singleton,
          List.not_mem_nil, or_false] at hu hv
        rcases hu with rfl | rfl | rfl | rfl | rfl <;>
          rcases hv with rfl | rfl | rfl | rfl | rfl <;>
          first
            | rfl
            | exact absurd hn (by decide))
      rfl).2.2.1⟩

/-! ## Claims on include cycles and the field check -/

/-- C19 (counterexample to the claim as stated): the root includes `x.thrift` and
`a.thrift`; `a.thrift` and `b.thrift` include each other, and `x.thrift` declares a
service without the annotation `servType`. Every file opens and parses and a cycle
of include directives is reachable from the root. When the includes of the root are
visited in the order `x.thrift`, `a.thrift`, `parseIDL` returns the error of the
field check of `x.thrift`, which names no cycle; in the other order it returns the
cycle error. -/
theorem C19_counterexample :
    (∀ p ∈ ["x.thrift", "a.thrift", "b.thrift"],
      fileParses exampleCheckedEnv exampleCheckedSearchDir p = true) ∧
    isWalk exampleCheckedEnv exampleCheckedSearchDir exampleCheckedRoot
      ["a.thrift", "b.thrift", "a.thrift"] = true ∧
    ¬ ["a.thrift", "b.thrift", "a.thrift"].Nodup ∧
    (parseIDL exampleLib exampleCheckedEnv 4 exampleCheckedRoot
        (some exampleCheckedSearchDir) [] false).map (fun r => r.1.map fun _ => ()) =
      some (Except.error
        "fail to parse idl: x.thrift, due to missing required field: servType") ∧
    (parseIDL exampleLib exampleCheckedReverseEnv 4 exampleCheckedRoot
        (some exampleCheckedSearchDir) [] false).map (fun r => r.1.map fun _ => ()) =
      some (Except.error
        ("fail to parse idl: a.thrift, due to fail to parse idl: b.thrift, due to " ++
          "cycled include a.thrift")) ∧
    fileOk exampleLib exampleCheckedEnv exampleCheckedSearchDir
      ["x.thrift", "a.thrift", "b.thrift"] "x.thrift" = false := by
  refine ⟨by decide, by decide, by decide, rfl, rfl, by decide⟩

/-! ## Claims on the optional prefix -/

/-- C4: take a struct and a typedef table in which no name of a user-defined type
begins with white space, as is the case for every name the builder records, which
is the text of an identifier. A successful `StructType.Gen` appends the message
block whose field lines are, in order, the tabs, `optional ` when the flag holds,
the expanded type, the name, ` = ` and the field id, the option block, `;` and the
trailing comment. The flag of a field holds if and only if `IsProto3WithOptional` is
set, the requirement is `optional`, and the expanded type text starts neither with
`repeated` nor with `map<`. A field whose type is a map (bare or in its container
wrapper) never has the flag. -/
theorem C4_optional_written (lib : GoLib) (fuel : Nat) (st : StructType) (buf : IdentBuffer)
    (td : GoMap TypedefType) (opt : CodeGenOpt) (out : IdentBuffer)
    (h : StructType.Gen lib fuel st buf td opt = some (Except.ok out))
    (hnames : ∀ f ∈ st.FieldType, ∀ n ∈ refs f.Typ, startsWithSpace n = false)
    (htd : ∀ kv ∈ td, ∀ n ∈ refs kv.2.OriginalType, startsWithSpace n = false) :
    out.buf = buf.buf ++ leadingText buf st.toComments ++ "message " ++ st.Name ++ " \x7b\n" ++
        concatText (st.FieldType.map fun f =>
          fieldLineText lib (buf.ident + 1)
            (writesOptional opt f.FieldReq (expandedText fuel td f.Typ))
            (expandedText fuel td f.Typ) f) ++
        repeatChar '\t' buf.ident ++ "\x7d\n" ∧
    (∀ f ∈ st.FieldType, expandType fuel f.Typ td = some (expandedText fuel td f.Typ)) ∧
    (∀ f ∈ st.FieldType,
      (writesOptional opt f.FieldReq (expandedText fuel td f.Typ) = true ↔
        opt.IsProto3WithOptional = true ∧ f.FieldReq = FieldReq_Optional ∧
        ¬ ("repeated".data <+: (expandedText fuel td f.Typ).data) ∧
        ¬ ("map<".data <+: (expandedText fuel td f.Typ).data))) ∧
    (∀ f ∈ st.FieldType, ∀ k v,
      (f.Typ = Ty.MapType k v ∨ ∃ a c, f.Typ = Ty.ContainerType (Ty.MapType k v) a c) →
        writesOptional opt f.FieldReq (expandedText fuel td f.Typ) = false) := by
  obtain ⟨h1, h2⟩ := StructType_Gen_ok lib fuel st buf td opt out h
  refine ⟨h1, fun f hf => (h2 f hf).1, ?_, ?_⟩
  · intro f hf
    have hs : startsWithSpace (expandedText fuel td f.Typ) = false :=
      expandType_no_leading_space td htd fuel f.Typ _ (h2 f hf).1 (hnames f hf)
    rw [writesOptional_iff,
      TrimSpace_prefix _ "repeated" hs (by decide),
      TrimSpace_prefix _ "map<" hs (by decide)]
  · intro f hf k v hty
    obtain ⟨he, hne, _⟩ := h2 f hf
    rcases hty with hm | ⟨a, c, hm⟩
    · rw [hm] at he hne ⊢
      obtain ⟨ks, vs, hk⟩ := expandType_map_text fuel k v td _ he hne
      rw [hk]; exact writesOptional_map_text _ _ _ _
    · rw [hm] at he hne ⊢
      cases fuel with
      | zero => simp [expandType] at he
      | succ n =>
        rw [expandType_container] at he
        have he' := expandType_succ _ _ _ _ he
        obtain ⟨ks, vs, hk⟩ := expandType_map_text (n + 1) k v td _ he' hne
        rw [hk]; exact writesOptional_map_text _ _ _ _

/-- C4 (witness): with the table of `typedef list<i64> Ids` and `typedef Ids Keys`
and the option set, the struct with the optional field `1: optional Item x` is
emitted with `optional`, and its flag is equivalent to the three conditions; the
struct with the optional field of type `Keys`, which expands to `repeated int64`,
is emitted without `optional`. -/
theorem C4_optional_written_witness :
    StructType.Gen exampleLib 8 (exampleOptionalStruct "Item") (NewIdentWriter 0)
        exampleTypedefs { IsProto3WithOptional := true } =
      some (Except.ok
        { ident := 0
          buf := "message S \x7b\n\toptional Item x = 1;\n\x7d\n"
          newLine := true
          lines := 2 }) ∧
    StructType.Gen exampleLib 8 (exampleOptionalStruct "Keys") (NewIdentWriter 0)
        exampleTypedefs { IsProto3WithOptional := true } =
      some (Except.ok
        { ident := 0
          buf := "message S \x7b\n\trepeated int64 x = 1;\n\x7d\n"
          newLine := true
          lines := 2 }) ∧
    ∀ f ∈ (exampleOptionalStruct "Item").FieldType,
      (writesOptional { IsProto3WithOptional := true } f.FieldReq
          (expandedText 8 exampleTypedefs f.Typ) = true ↔
        true = true ∧ f.FieldReq = FieldReq_Optional ∧
        ¬ ("repeated".data <+: (expandedText 8 exampleTypedefs f.Typ).data) ∧
        ¬ ("map<".data <+: (expandedText 8 exampleTypedefs f.Typ).data)) :=
  ⟨rfl, rfl, (C4_optional_written exampleLib 8 (exampleOptionalStruct "Item")
    (NewIdentWriter 0) exampleTypedefs { IsProto3WithOptional := true } _ rfl
    (by decide) (by decide)).2.2.1⟩

end Thrift
